import Mathlib

/-! ProffieOS sound-font resolver, `sound/effect.h`.

A shallow embedding of `class Effect` (the per-effect resource descriptor) and of
`Effect::FileID` (the file handle), followed by theorems about scanning, naming and
file selection.

Conventions of the embedding

* C strings are `List Char` (the characters before the terminating NUL).
* `int16_t` / `int8_t` members are `Int` fields; every store into such a member goes
  through `wrap16` / `wrap8` (two's-complement narrowing, as on the ARM targets).
* `int`, `long` and `size_t` are 32 bit on the target; `strtol` saturates at `LONG_MAX`.
* `rand()` is a stream `rnd : Nat → Nat` of non-negative values together with the number
  `pos` of values already drawn.
* Pointers to descriptors are `EffectPtr` (an address); a null pointer is `none`.
* `#ifdef NO_REPEAT_RANDOM` is the Boolean parameter `noRepeat`.
* `float` is IEEE 754 binary32, as on the ARM targets: a finite `float` is the rational
  number it stands for, and the result of a conversion or a multiplication is rounded to
  the nearest binary32 number, a tie to the even one (`roundFloat32`).
* Output to `STDOUT` / `default_output` is not part of the descriptor state and is left out.
-/

/-! ## Machine integers -/

/-- Narrowing store into an `int16_t`. -/
def wrap16 (x : Int) : Int := (x + 32768) % 65536 - 32768

/-- Narrowing store into an `int8_t`. -/
def wrap8 (x : Int) : Int := (x + 128) % 256 - 128

/-- The constant `LONG_MAX` of the 32-bit targets. -/
def LONG_MAX : Int := 2147483647

/-- The constant `LONG_MIN` of the 32-bit targets. -/
def LONG_MIN : Int := -2147483648

/-! ## Single-precision arithmetic -/

/-- Rounding to the nearest integer, a tie to the even one. -/
def roundHalfEven (y : ℚ) : Int :=
  if y - ⌊y⌋ < 1 / 2 then ⌊y⌋
  else if 1 / 2 < y - ⌊y⌋ then ⌊y⌋ + 1
  else if ⌊y⌋ % 2 = 0 then ⌊y⌋ else ⌊y⌋ + 1

/-- The position of the leading binary digit of `n`, found by halving; the first argument
bounds the number of steps, and `log2Aux n n` is `⌊log₂ n⌋` for `n ≥ 1`. -/
def log2Aux : Nat → Nat → Nat
  | 0, _ => 0
  | fuel + 1, n => if n < 2 then 0 else log2Aux fuel (n / 2) + 1

/-- The binary exponent `⌊log₂ x⌋` of a positive rational: the difference of the leading
digit positions of numerator and denominator, or one less. -/
def ilog2 (x : ℚ) : Int :=
  if (2 : ℚ) ^ ((log2Aux x.num.natAbs x.num.natAbs : Int) - (log2Aux x.den x.den : Int)) ≤ x
  then (log2Aux x.num.natAbs x.num.natAbs : Int) - (log2Aux x.den x.den : Int)
  else (log2Aux x.num.natAbs x.num.natAbs : Int) - (log2Aux x.den x.den : Int) - 1

/-- The spacing of the binary32 numbers at `x ≠ 0`: 24 significant bits, and the smallest
exponent `-126` for the subnormal numbers. -/
def float32Ulp (x : ℚ) : ℚ := 2 ^ (max (ilog2 |x|) (-126) - 23)

/-- The binary32 number nearest to the real number `x`, a tie going to the even
significand (the rounding of every `float` operation).  A result of magnitude `2 ^ 128` or
more is an infinity, for which `±2 ^ 128` stands: `floorf` keeps an infinity and the
comparisons of `clamp` treat it as they treat `±2 ^ 128`. -/
def roundFloat32 (x : ℚ) : ℚ :=
  if x = 0 then 0
  else if 2 ^ 128 ≤ (roundHalfEven (x / float32Ulp x) : ℚ) * float32Ulp x then 2 ^ 128
  else if (roundHalfEven (x / float32Ulp x) : ℚ) * float32Ulp x ≤ -2 ^ 128 then -2 ^ 128
  else (roundHalfEven (x / float32Ulp x) : ℚ) * float32Ulp x

/-! ## C library and `common/` string helpers -/

/-- Modelled from the spec: `startswith(prefix, x)` lives in `common/`, outside the given
sources.  `Scan` "tests filename against the descriptor's name" and every file "must start
with this prefix": the function walks the prefix, fails (null) at the first mismatch and
otherwise returns the rest of `x` behind the prefix. -/
def startswith : List Char → List Char → Option (List Char)
  | [], x => some x
  | _ :: _, [] => none
  | p :: ps, c :: cs => if c = p then startswith ps cs else none

/-- Modelled from the spec: `endswith(postfix, x)` lives in `common/`, outside the given
sources.  "Extension must match a fixed allow-list": true when the last characters of `x`
are the given ending. -/
def endswith (post x : List Char) : Bool :=
  decide (post.length ≤ x.length) && (startswith post (x.drop (x.length - post.length))).isSome

/-- C `isspace` in the "C" locale: space, `\t`, `\n`, `\v`, `\f`, `\r`. -/
def isspace (c : Char) : Bool := c.toNat = 32 || (9 ≤ c.toNat && c.toNat ≤ 13)

/-- C `isdigit`. -/
def isdigit (c : Char) : Bool := 48 ≤ c.toNat && c.toNat ≤ 57

/-- C `isalpha` in the "C" locale: the letters `A`-`Z` and `a`-`z`. -/
def isalpha (c : Char) : Bool :=
  (65 ≤ c.toNat && c.toNat ≤ 90) || (97 ≤ c.toNat && c.toNat ≤ 122)

/-- Value of a run of decimal digits. -/
def digitsValue (ds : List Char) : Nat :=
  ds.foldl (fun acc c => 10 * acc + (c.toNat - 48)) 0

/-- C `strtol(s, &end, 10)` with a 32-bit `long`: skips white space, reads an optional sign
and the longest run of decimal digits, and saturates on overflow.  Returns the value and
the unread rest `end`; without any digit the value is `0` and `end` is `s` itself. -/
def strtol (s : List Char) : Int × List Char :=
  let s1 := s.dropWhile isspace
  let neg := s1.head? = some '-'
  let s2 := if s1.head? = some '-' ∨ s1.head? = some '+' then s1.tail else s1
  let ds := s2.takeWhile isdigit
  if ds = [] then (0, s)
  else
    let v : Int := if neg then -(digitsValue ds : Int) else (digitsValue ds : Int)
    (max LONG_MIN (min LONG_MAX v), s2.dropWhile isdigit)

/-- The non-standard `itoa(n, buf, 10)`: decimal digits, with a leading `-` for negatives. -/
def itoa (n : Int) : List Char :=
  if n < 0 then '-' :: Nat.toDigits 10 n.natAbs else Nat.toDigits 10 n.toNat

/-- Modelled from the spec: `clamp(x, a, b)` lives in `common/`, outside the given sources;
the spec writes `clamp(floor(files_found()*ratio), 0, files_found()-1)`: `x` limited to
`[a, b]`. -/
def clamp (x a b : Int) : Int := if x < a then a else if x > b then b else x

/-! ## Data model -/

/-- The enumeration `Effect::Extension`. -/
inductive Extension where
  | WAV | RAW | USL | BMP | PBM | Binary | UNKNOWN
  deriving DecidableEq, Repr

/-- The enumeration `Effect::FilePattern`. -/
inductive FilePattern where
  | UNKNOWN | FLAT | SUBDIRS | NONREDUNDANT_SUBDIRS
  deriving DecidableEq, Repr

/-- The enumeration `Effect::FileType`. -/
inductive FileType where
  | SOUND | IMAGE | UNKNOWN
  deriving DecidableEq, Repr

/-- Address of an `Effect` object. -/
abbrev EffectPtr := Nat

/-- The data members of `class Effect` (the list link `next_` is the position in the list
of all effects). -/
structure Effect where
  following_ : Option EffectPtr
  min_file_ : Int
  max_file_ : Int
  num_files_ : Int
  digits_ : Int
  volume_ : Nat
  unnumbered_file_found_ : Bool
  paired_ : Bool
  file_pattern_ : FilePattern
  name_ : List Char
  selected_ : Int
  ext_ : Extension
  file_type_ : FileType
  directory_ : Option (List Char)
  last_ : Int
  deriving DecidableEq, Repr

/-- The class `Effect::FileID`: a descriptor pointer and a file index. -/
structure FileID where
  effect_ : Option EffectPtr
  file_ : Int
  deriving DecidableEq, Repr

namespace FileID

/-- The default constructor `FileID()`: the null handle. -/
def null : FileID := ⟨none, 0⟩

/-- The conversion `operator bool()`. -/
def toBool (f : FileID) : Bool := f.effect_.isSome

/-- The accessor `GetFileNum()`. -/
def GetFileNum (f : FileID) : Int := f.file_

end FileID

namespace Effect

/-- `Effect::GetFileType`. -/
def GetFileType : Extension → FileType
  | .WAV | .RAW | .USL => .SOUND
  | .BMP | .PBM | .Binary => .IMAGE
  | .UNKNOWN => .UNKNOWN

/-- `Effect::IdentifyExtension`. -/
def IdentifyExtension (filename : List Char) : Extension :=
  if endswith ".wav".toList filename then .WAV
  else if endswith ".raw".toList filename then .RAW
  else if endswith ".usl".toList filename then .USL
  else if endswith ".bmp".toList filename then .BMP
  else if endswith ".pbm".toList filename then .PBM
  else if endswith ".bin".toList filename then .Binary
  else .UNKNOWN

/-- `Effect::reset`.  The name, the kind, the `following_` link and `last_` are not
touched. -/
def reset (e : Effect) : Effect :=
  { e with
    min_file_ := 20000
    max_file_ := -1
    digits_ := 0
    unnumbered_file_found_ := false
    file_pattern_ := .UNKNOWN
    ext_ := .UNKNOWN
    selected_ := -1
    num_files_ := 0
    directory_ := none
    volume_ := 100
    paired_ := false }

/-- The constructor `Effect(name, following, file_type)`; a global object starts from
zero-initialised storage, so `last_` is `0`. -/
def mk0 (name : List Char) (following : Option EffectPtr) (file_type : FileType) : Effect :=
  reset
    { following_ := following, min_file_ := 0, max_file_ := 0, num_files_ := 0, digits_ := 0,
      volume_ := 0, unnumbered_file_found_ := false, paired_ := false,
      file_pattern_ := .UNKNOWN, name_ := name, selected_ := 0, ext_ := .WAV,
      file_type_ := file_type, directory_ := none, last_ := 0 }

/-- Lines 159-177 of `Effect::Scan`: the numbering part, entered once the extension has
been accepted, with `rest` behind the name part and `type_if_found` the shape seen. -/
def ScanNumber (e : Effect) (type_if_found : FilePattern) (rest : List Char) : Bool × Effect :=
  if rest.head? = some '.' ∧ rest.length = 4 then
    (true, { e with
      unnumbered_file_found_ := true
      file_pattern_ := type_if_found
      num_files_ := wrap16 (e.num_files_ + 1) })
  else
    let r := strtol rest
    let n := r.1
    if n ≤ 0 then (false, e)
    else
      (true, { e with
        max_file_ := wrap16 (max e.max_file_ n)
        min_file_ := wrap16 (min e.min_file_ n)
        digits_ := if rest.head? = some '0' then wrap8 ((rest.length : Int) - r.2.length)
                   else e.digits_
        file_pattern_ := type_if_found
        num_files_ := wrap16 (e.num_files_ + 1) })

/-- Lines 150-157 of `Effect::Scan` followed by the numbering part: the extension check. -/
def ScanExt (e : Effect) (filename : List Char) (type_if_found : FilePattern)
    (rest : List Char) : Bool × Effect :=
  let ext := IdentifyExtension filename
  if GetFileType ext ≠ e.file_type_ then (false, e)
  else if e.ext_ = .UNKNOWN then ScanNumber { e with ext_ := ext } type_if_found rest
  else if e.ext_ ≠ ext then (false, e)
  else ScanNumber e type_if_found rest

/-- `Effect::Scan`: returns the Boolean result and the descriptor afterwards. -/
def Scan (e : Effect) (filename : List Char) : Bool × Effect :=
  match startswith e.name_ filename with
  | none => (false, e)
  | some rest =>
    if rest.head? = some '/' then
      match startswith e.name_ rest.tail with
      | some tmp => ScanExt e filename .SUBDIRS tmp
      | none => ScanExt e filename .NONREDUNDANT_SUBDIRS rest.tail
    else ScanExt e filename .FLAT rest

/-- `Effect::files_found` (a `size_t`). -/
def files_found (e : Effect) : Nat :=
  (if e.min_file_ ≤ e.max_file_ then (e.max_file_ - e.min_file_ + 1).toNat else 0)
    + (if e.unnumbered_file_found_ then 1 else 0)

/-- `Effect::Select`. -/
def Select (e : Effect) (n : Int) : Effect := { e with selected_ := wrap16 n }

/-- `Effect::SelectNext`. -/
def SelectNext (e : Effect) : Effect :=
  let s := wrap16 (e.selected_ + 1)
  { e with selected_ := if s = (files_found e : Int) then 0 else s }

/-- `Effect::SetPaired`. -/
def SetPaired (e : Effect) (i : Bool) : Effect := { e with paired_ := i }

/-- The text appended by the `switch (ext_)` of `Effect::GetName`. -/
def extString : Extension → List Char
  | .WAV => ".wav".toList
  | .RAW => ".raw".toList
  | .USL => ".usl".toList
  | .BMP => ".bmp".toList
  | .PBM => ".pbm".toList
  | .Binary => ".bin".toList
  | .UNKNOWN => []

/-- `Effect::GetName(filename, n)`: the text left in the buffer, or `none` when
`directory_` is null (the `strcpy` from a null pointer is undefined).  The buffer is taken
to be large enough. -/
def GetName (e : Effect) (n : Int) : Option (List Char) :=
  match e.directory_ with
  | none => none
  | some dir =>
    let f0 := dir ++ (if dir ≠ [] then ['/'] else []) ++ e.name_
    let f1 := match e.file_pattern_ with
      | .UNKNOWN | .FLAT => f0
      | .SUBDIRS => f0 ++ ['/'] ++ e.name_
      | .NONREDUNDANT_SUBDIRS => f0 ++ ['/']
    let n := n + e.min_file_
    let f2 :=
      if n ≤ e.max_file_ then
        let buf := itoa n
        f1 ++ List.replicate (e.digits_ - buf.length).toNat '0' ++ buf
      else f1
    some (f2 ++ extString e.ext_)

/-- The loop `while (n == last_) n = rand() % num_files;` of `Effect::RandomFile`; `fuel`
bounds the number of evaluations of the loop condition, and `none` means that the loop is
still running when the fuel is used up. -/
def rerollLoop (num_files last : Int) (rnd : Nat → Nat) : Nat → Int → Nat → Option (Int × Nat)
  | 0, _, _ => none
  | fuel + 1, n, pos =>
    if n = last then rerollLoop num_files last rnd fuel ((rnd pos : Int).tmod num_files) (pos + 1)
    else some (n, pos)

/-- `Effect::RandomFile` on the object at address `this`: the handle returned, the
descriptor afterwards and the number of `rand()` values drawn so far; `none` when the
re-roll loop has not ended within `fuel` steps. -/
def RandomFile (noRepeat : Bool) (fuel : Nat) (this : EffectPtr) (e : Effect)
    (rnd : Nat → Nat) (pos : Nat) : Option (FileID × Effect × Nat) :=
  let num_files : Int := (files_found e : Int)
  if num_files < 1 then some (FileID.null, e, pos)
  else if e.selected_ ≠ -1 then some (⟨some this, e.selected_⟩, e, pos)
  else
    let n := (rnd pos : Int).tmod num_files
    if noRepeat then
      if num_files = 2 then
        if n = e.last_ then
          let n2 := (rnd (pos + 1) : Int).tmod num_files
          some (⟨some this, n2⟩, { e with last_ := n2 }, pos + 2)
        else some (⟨some this, n⟩, { e with last_ := n }, pos + 1)
      else if num_files = 1 then some (⟨some this, n⟩, { e with last_ := n }, pos + 1)
      else
        (rerollLoop num_files e.last_ rnd fuel n (pos + 1)).map
          fun r => (⟨some this, r.1⟩, { e with last_ := r.1 }, r.2)
    else some (⟨some this, n⟩, e, pos + 1)

/-- The `for` loop of `Effect::SelectFloat` under `NO_REPEAT_RANDOM`; the first argument
is the number of iterations still allowed (`3 - i`).  The condition draws a random number
only when `sel != selected_` and `sel == last_`; the body draws one more. -/
def selectFloatLoop (e : Effect) (f : Int) (rnd : Nat → Nat) : Nat → Int → Nat → Int × Nat
  | 0, sel, pos => (sel, pos)
  | k + 1, sel, pos =>
    if sel = e.selected_ then
      selectFloatLoop e f rnd k (clamp (sel + 1 - ((rnd pos &&& 2 : Nat) : Int)) 0 (f - 1)) (pos + 1)
    else if sel = e.last_ then
      if rnd pos &&& 1 ≠ 0 then
        selectFloatLoop e f rnd k
          (clamp (sel + 1 - ((rnd (pos + 1) &&& 2 : Nat) : Int)) 0 (f - 1)) (pos + 2)
      else (sel, pos + 1)
    else (sel, pos)

/-- `Effect::SelectFloat(value)`: the descriptor afterwards and the number of `rand()`
values drawn so far.  `value` is the number the `float` argument stands for (a NaN or an
infinity is no ratio and is left out).  The product `f * value` converts `f` to `float`
and multiplies in single precision, so the conversion and the product are rounded before
`floorf` takes the floor. -/
def SelectFloat (noRepeat : Bool) (e : Effect) (value : ℚ) (rnd : Nat → Nat) (pos : Nat) :
    Effect × Nat :=
  let f : Int := (files_found e : Int)
  let sel := clamp (Rat.floor (roundFloat32 (roundFloat32 (f : ℚ) * value))) 0 (f - 1)
  if noRepeat then
    let r := selectFloatLoop e f rnd 3 sel pos
    ({ e with last_ := e.selected_, selected_ := wrap16 r.1 }, r.2)
  else ({ e with selected_ := wrap16 sel }, pos)

/-- The loop body of `Effect::ScanAll` for one descriptor of the list.  A directory pointer
is given by the text it points to, so the pointer test `e->directory_ != dir` compares the
directory texts: this is the test of the code whenever different search paths have
different texts.  For a search path listed twice the code skips, at the second listing,
the descriptors bound at the first one, where this function scans the file again. -/
def ScanAllStep (dir filename : List Char) (e : Effect) : Effect :=
  if e.directory_ ≠ none ∧ e.directory_ ≠ some dir then e
  else
    let r := Scan e filename
    if r.1 then { r.2 with directory_ := some dir } else r.2

/-- `Effect::ScanAll(dir, filename)` over the list of all effects. -/
def ScanAll (dir filename : List Char) (all_effects : List Effect) : List Effect :=
  if IdentifyExtension filename = .UNKNOWN then all_effects
  else all_effects.map (ScanAllStep dir filename)

/-- `Effect::ScanAll` as seen by a single descriptor of the list. -/
def ScanAll1 (dir filename : List Char) (e : Effect) : Effect :=
  if IdentifyExtension filename = .UNKNOWN then e else ScanAllStep dir filename e

/-- The text that `GetName` writes between the name and the number: nothing for
`UNKNOWN` and `FLAT`, `/name` for `SUBDIRS`, `/` for `NONREDUNDANT_SUBDIRS`. -/
def patternPart (p : FilePattern) (name : List Char) : List Char :=
  match p with
  | .UNKNOWN | .FLAT => []
  | .SUBDIRS => '/' :: name
  | .NONREDUNDANT_SUBDIRS => ['/']

/-- The digits that `GetName` writes for the file number `n` with digit width `digits`:
`itoa` left-padded with `0`. -/
def numberPart (digits n : Int) : List Char :=
  List.replicate (digits - (itoa n).length).toNat '0' ++ itoa n

/-- What holds once a file has been accepted through `ScanAll`: the extension is known
and of the descriptor's kind, a directory is bound, a naming shape is recorded, and the
shape `NONREDUNDANT_SUBDIRS` only occurs for a non-empty name. -/
def Accepted (e : Effect) : Prop :=
  e.ext_ ≠ .UNKNOWN ∧ GetFileType e.ext_ = e.file_type_ ∧ e.directory_ ≠ none
    ∧ e.file_pattern_ ≠ .UNKNOWN ∧ (e.file_pattern_ = .NONREDUNDANT_SUBDIRS → e.name_ ≠ [])

/-- The result of the last of `k + 1` consecutive `RandomFile()` calls on the object at
`this`, each call starting from the state the previous one left. -/
def RandomFileRepeat (noRepeat : Bool) (fuel : Nat) (this : EffectPtr) (rnd : Nat → Nat) :
    Nat → Effect → Nat → Option (FileID × Effect × Nat)
  | 0, e, pos => RandomFile noRepeat fuel this e rnd pos
  | k + 1, e, pos =>
    (RandomFile noRepeat fuel this e rnd pos).bind
      fun r => RandomFileRepeat noRepeat fuel this rnd k r.2.1 r.2.2

/-- The descriptor after offering the file names `fs`, in order, to `Scan`. -/
def scanSeq (e : Effect) (fs : List (List Char)) : Effect :=
  fs.foldl (fun e f => (Scan e f).2) e

/-- The descriptor after the calls `ScanAll(dir, filename)` for the pairs of `calls`, in
order, as seen by one descriptor of the list. -/
def scanAllSeq (e : Effect) (calls : List (List Char × List Char)) : Effect :=
  calls.foldl (fun e c => ScanAll1 c.1 c.2 e) e

/-- The value ranges that `reset` establishes and `Scan` maintains for the file numbers:
`min_file_` only ever holds `20000` or an accepted positive number below it, and
`max_file_` is an `int16_t`. -/
def Valid (e : Effect) : Prop :=
  1 ≤ e.min_file_ ∧ e.min_file_ ≤ 20000 ∧ -32768 ≤ e.max_file_ ∧ e.max_file_ ≤ 32767

instance (e : Effect) : Decidable (Valid e) := by
  unfold Valid
  infer_instance

/-- The invariant of the states reached from `reset()` by `ScanAll`: the number ranges,
and `Accepted` as soon as the descriptor counts a file. -/
def ScanAllInv (e : Effect) : Prop :=
  Valid e ∧ ((e.min_file_ ≤ e.max_file_ ∨ e.unnumbered_file_found_ = true) → Accepted e)


end Effect


/-- `FileID::GetFollowing(effect)` over the memory `heap` holding the descriptors: the
handle returned, the memory afterwards and the number of `rand()` values drawn so far. -/
def FileID.GetFollowing (noRepeat : Bool) (fuel : Nat) (heap : EffectPtr → Effect)
    (fid : FileID) (effect : EffectPtr) (rnd : Nat → Nat) (pos : Nat) :
    Option (FileID × (EffectPtr → Effect) × Nat) :=
  let same : Bool :=
    match fid.effect_ with
    | none => false
    | some a =>
      (heap a).paired_ && decide ((heap a).files_found = (heap effect).files_found)
        && decide ((heap effect).selected_ = -1)
  if same then some (⟨some effect, fid.file_⟩, heap, pos)
  else
    (Effect.RandomFile noRepeat fuel effect (heap effect) rnd pos).map
      fun r => (r.1, Function.update heap effect r.2.1, r.2.2)

/-! ## Reading a file name -/

namespace Effect

/-- Lines 136-148 of `Effect::Scan`: the naming shape `type_if_found` and the text `rest`
behind the name part, or `none` when the file name does not start with the name. -/
def nameRest (name filename : List Char) : Option (FilePattern × List Char) :=
  match startswith name filename with
  | none => none
  | some rest =>
    if rest.head? = some '/' then
      match startswith name rest.tail with
      | some tmp => some (.SUBDIRS, tmp)
      | none => some (.NONREDUNDANT_SUBDIRS, rest.tail)
    else some (.FLAT, rest)

/-- The value of the local `n` of `Effect::Scan` for the text `rest` behind the name part:
`-1` for the unnumbered form, the `strtol` value otherwise. -/
def scannedNumber (rest : List Char) : Int :=
  if rest.head? = some '.' ∧ rest.length = 4 then -1 else (strtol rest).1

/-- The file number of one `Scan` call, when the call accepts a numbered file. -/
def acceptedNumber (e : Effect) (filename : List Char) : Option Int :=
  match nameRest e.name_ filename with
  | none => none
  | some r =>
    if (Scan e filename).1 = true ∧ 0 < scannedNumber r.2 then some (scannedNumber r.2) else none

/-- The file numbers of the calls of a `Scan` sequence that accepted a numbered file. -/
def acceptedNumbers : Effect → List (List Char) → List Int
  | _, [] => []
  | e, f :: fs => (acceptedNumber e f).toList ++ acceptedNumbers (Scan e f).2 fs

/-- The number of calls of a `Scan` sequence that returned `true`. -/
def acceptedCount : Effect → List (List Char) → Nat
  | _, [] => 0
  | e, f :: fs => (if (Scan e f).1 = true then 1 else 0) + acceptedCount (Scan e f).2 fs

/-- The test `e->files_found() != (size_t)(e->num_files_)` with which
`ScanCurrentDirectory` (and `Show`) report a font that is missing files. -/
def missingFiles (e : Effect) : Bool :=
  decide ((e.files_found : Int) ≠ e.num_files_ % 4294967296)

end Effect

/-! ## Playing a file -/

/-- `FileID::GetName(filename)`: the text `effect_->GetName` leaves in the buffer; `none`
when `effect_` is null (a null pointer is dereferenced) or `GetName` itself is undefined. -/
def FileID.GetName (heap : EffectPtr → Effect) (f : FileID) : Option (List Char) :=
  match f.effect_ with
  | none => none
  | some p => (heap p).GetName f.file_

/-- `Effect::Play(filename)` on the object at `this`: the Boolean returned, the buffer, the
memory and the number of `rand()` values drawn afterwards; `none` when `RandomFile` has not
returned within `fuel` steps or `GetName` is undefined. -/
def Effect.Play (noRepeat : Bool) (fuel : Nat) (heap : EffectPtr → Effect) (this : EffectPtr)
    (rnd : Nat → Nat) (pos : Nat) (filename : List Char) :
    Option (Bool × List Char × (EffectPtr → Effect) × Nat) :=
  match Effect.RandomFile noRepeat fuel this (heap this) rnd pos with
  | none => none
  | some r =>
    if r.1 = FileID.null then some (false, filename, Function.update heap this r.2.1, r.2.2)
    else
      match FileID.GetName (Function.update heap this r.2.1) r.1 with
      | none => none
      | some name => some (true, name, Function.update heap this r.2.1, r.2.2)

/-- The data members of `class EffectFileReader` (the `FileReader` base is the storage
layer and is left out). -/
structure EffectFileReader where
  do_open_ : Bool
  filename_ : List Char
  deriving DecidableEq, Repr

/-- `EffectFileReader::Play(Effect* f)`: the Boolean returned, the reader, the memory and
the number of `rand()` values drawn afterwards. -/
def EffectFileReader.Play (noRepeat : Bool) (fuel : Nat) (heap : EffectPtr → Effect)
    (reader : EffectFileReader) (f : EffectPtr) (rnd : Nat → Nat) (pos : Nat) :
    Option (Bool × EffectFileReader × (EffectPtr → Effect) × Nat) :=
  match Effect.RandomFile noRepeat fuel f (heap f) rnd pos with
  | none => none
  | some r =>
    if r.1.toBool = false then
      some (false, { reader with do_open_ := false }, Function.update heap f r.2.1, r.2.2)
    else
      match FileID.GetName (Function.update heap f r.2.1) r.1 with
      | none => none
      | some name =>
        some (true, { do_open_ := true, filename_ := name }, Function.update heap f r.2.1, r.2.2)

/-! ## Scanning the font directories -/

/-- One entry that `LSFS::Iterator` yields for a font directory: its name, whether it is a
directory, and, for a directory, the names of the entries inside it. -/
structure DirEntry where
  name : List Char
  isdir : Bool
  entries : List (List Char)
  deriving DecidableEq, Repr

/-- What the SD card holds for one font search path: the path `dir`, whether
`LSFS::Exists(dir)`, and the entries listed for it. -/
structure FontDir where
  dir : List Char
  found : Bool
  listing : List DirEntry
  deriving DecidableEq, Repr

namespace Effect

/-- The `ENABLE_SERIALFLASH` block of `ScanCurrentDirectory` for the search path `dir`,
over the file names `flash` that `SerialFlashChip::readdir` yields: an entry that continues
`dir` with a `/` is passed on as `ScanAll(f + 1, dir)`. -/
def scanSerialFlash (dir : List Char) (flash : List (List Char)) (all_effects : List Effect) :
    List Effect :=
  flash.foldl
    (fun all filename =>
      match startswith dir filename with
      | none => all
      | some f => if f.head? ≠ some '/' then all else ScanAll f.tail dir all)
    all_effects

/-- The `ENABLE_SD` block of `ScanCurrentDirectory` for one search path: the entries of
the directory, and one level of sub-directory contents as `name/entry`. -/
def scanSD (d : FontDir) (all_effects : List Effect) : List Effect :=
  if d.found then
    d.listing.foldl
      (fun all iter =>
        if iter.isdir then
          iter.entries.foldl (fun all i2 => ScanAll d.dir (iter.name ++ ['/'] ++ i2) all) all
        else ScanAll d.dir iter.name all)
      all_effects
  else all_effects

/-- `Effect::ScanCurrentDirectory` as far as the descriptors are concerned: `reset()` of
every effect, then the scan of every search path of `current_directory`.  The two
Booleans stand for `ENABLE_SERIALFLASH` and `ENABLE_SD`; the messages and the final
missing-files report (`missingFiles`) only produce output. -/
def ScanCurrentDirectory (serialflash sd : Bool) (flash : List (List Char))
    (current_directory : List FontDir) (all_effects : List Effect) : List Effect :=
  current_directory.foldl
    (fun all d =>
      let all1 := if serialflash then scanSerialFlash d.dir flash all else all
      if sd then scanSD d all1 else all1)
    (all_effects.map reset)

end Effect

/-- `F` treats the list of all effects as a fixed sequence of `ScanAll` calls, each
descriptor seeing the same calls. -/
def Effect.IsScanCalls (F : List Effect → List Effect) : Prop :=
  ∃ calls : List (List Char × List Char),
    ∀ all : List Effect, F all = all.map (fun e => Effect.scanAllSeq e calls)

/-! ## The sequencer of `transitions/concat.h`

`TrConcat<A, INTERMEDIATE, B...>` holds a first stage `a_` of class `A`, the colour source
`intermediate_`, and the remainder `b_` of class `TrConcat<B...>`; `TrConcat<A>` is `A`
itself.  The stage classes are template parameters, so they are taken as records of the
member functions the sequencer calls; `done()` and `getColor` are taken to be read-only.
-/

/-- What `TrConcat` uses of a transition class (`A`, or the remainder `TrConcat<B...>`):
default construction, `begin()`, `done()`, `run(blade)` and `getColor(a, b, led)`. -/
structure Transition (σ Blade Color : Type) where
  init : σ
  begin : σ → σ
  done : σ → Bool
  run : σ → Blade → σ
  getColor : σ → Color → Color → Int → Color

/-- What `TrConcat` uses of the `INTERMEDIATE` colour class: default construction,
`run(blade)` and `getColor(led)`. -/
structure ColorSource (ι Blade Color : Type) where
  init : ι
  run : ι → Blade → ι
  getColor : ι → Int → Color

/-- The data members of `TrConcat<A, INTERMEDIATE, B...>` in the default build. -/
structure TrConcat (α ι β : Type) where
  run_a_ : Bool
  a_ : α
  b_ : β
  intermediate_ : ι
  deriving DecidableEq

namespace TrConcat

variable {α ι β Blade Color : Type}

/-- The implicit default constructor: `run_a_ = false` and default-constructed members. -/
def init (A : Transition α Blade Color) (I : ColorSource ι Blade Color)
    (B : Transition β Blade Color) : TrConcat α ι β :=
  { run_a_ := false, a_ := A.init, b_ := B.init, intermediate_ := I.init }

/-- `TrConcat::begin()`. -/
def begin (A : Transition α Blade Color) (s : TrConcat α ι β) : TrConcat α ι β :=
  { s with a_ := A.begin s.a_, run_a_ := true }

/-- `TrConcat::done()`. -/
def done (B : Transition β Blade Color) (s : TrConcat α ι β) : Bool :=
  !s.run_a_ && B.done s.b_

/-- `TrConcat::run(blade)`. -/
def run (A : Transition α Blade Color) (I : ColorSource ι Blade Color)
    (B : Transition β Blade Color) (s : TrConcat α ι β) (blade : Blade) : TrConcat α ι β :=
  let s1 := { s with intermediate_ := I.run s.intermediate_ blade }
  if s1.run_a_ then
    let s2 := { s1 with a_ := A.run s1.a_ blade }
    if !A.done s2.a_ then s2
    else
      let s3 := { s2 with run_a_ := false }
      let s4 := { s3 with b_ := B.begin s3.b_ }
      { s4 with b_ := B.run s4.b_ blade }
  else { s1 with b_ := B.run s1.b_ blade }

/-- `TrConcat::getColor(a, b, led)`. -/
def getColor (A : Transition α Blade Color) (I : ColorSource ι Blade Color)
    (B : Transition β Blade Color) (s : TrConcat α ι β) (a b : Color) (led : Int) : Color :=
  if done B s then b
  else
    let intermediate := I.getColor s.intermediate_ led
    if s.run_a_ then A.getColor s.a_ a intermediate led
    else B.getColor s.b_ intermediate b led

/-- The sequencer as a transition class, as it appears as the remainder of a longer
`TrConcat`. -/
def transition (A : Transition α Blade Color) (I : ColorSource ι Blade Color)
    (B : Transition β Blade Color) : Transition (TrConcat α ι β) Blade Color :=
  { init := init A I B, begin := begin A, done := done B, run := run A I B,
    getColor := getColor A I B }

end TrConcat

/-- The data members of `TrConcat<A, INTERMEDIATE, B...>` under `OPTIMIZE_TRCONCAT`: the
`union { A a_; TrConcat<B...> b_; }` is the tagged value `u` holding the member that is
alive. -/
structure TrConcatOpt (α ι β : Type) where
  run_a_ : Bool
  u : α ⊕ β
  intermediate_ : ι
  deriving DecidableEq

namespace TrConcatOpt

variable {α ι β Blade Color : Type}

/-- The flag `run_a_` names the member of the union that is alive. -/
def WellTagged (s : TrConcatOpt α ι β) : Prop := s.run_a_ = s.u.isLeft

/-- The constructor `TrConcat()`: `run_a_ = false` and `new (&b_) TrConcat<B...>`. -/
def init (I : ColorSource ι Blade Color) (B : Transition β Blade Color) : TrConcatOpt α ι β :=
  { run_a_ := false, u := .inr B.init, intermediate_ := I.init }

/-- `TrConcat::begin()` under `OPTIMIZE_TRCONCAT`; `none` when a member that is not alive
is used. -/
def begin (A : Transition α Blade Color) (s : TrConcatOpt α ι β) :
    Option (TrConcatOpt α ι β) :=
  if !s.run_a_ then
    match s.u with
    | .inr _ => some { s with u := .inl (A.begin A.init), run_a_ := true }
    | .inl _ => none
  else
    match s.u with
    | .inl a => some { s with u := .inl (A.begin a) }
    | .inr _ => none

/-- `TrConcat::done()` under `OPTIMIZE_TRCONCAT`: `!run_a_ && b_.done()`. -/
def done (B : Transition β Blade Color) (s : TrConcatOpt α ι β) : Option Bool :=
  if !s.run_a_ then
    match s.u with
    | .inr b => some (B.done b)
    | .inl _ => none
  else some false

/-- `TrConcat::run(blade)` under `OPTIMIZE_TRCONCAT`. -/
def run (A : Transition α Blade Color) (I : ColorSource ι Blade Color)
    (B : Transition β Blade Color) (s : TrConcatOpt α ι β) (blade : Blade) :
    Option (TrConcatOpt α ι β) :=
  let i := I.run s.intermediate_ blade
  if s.run_a_ then
    match s.u with
    | .inl a =>
      let a1 := A.run a blade
      if !A.done a1 then some { run_a_ := true, u := .inl a1, intermediate_ := i }
      else some { run_a_ := false, u := .inr (B.run (B.begin B.init) blade), intermediate_ := i }
    | .inr _ => none
  else
    match s.u with
    | .inr b => some { run_a_ := false, u := .inr (B.run b blade), intermediate_ := i }
    | .inl _ => none

/-- `TrConcat::getColor(a, b, led)` under `OPTIMIZE_TRCONCAT`. -/
def getColor (A : Transition α Blade Color) (I : ColorSource ι Blade Color)
    (B : Transition β Blade Color) (s : TrConcatOpt α ι β) (a b : Color) (led : Int) :
    Option Color :=
  match done B s with
  | none => none
  | some true => some b
  | some false =>
    let intermediate := I.getColor s.intermediate_ led
    if s.run_a_ then
      match s.u with
      | .inl x => some (A.getColor x a intermediate led)
      | .inr _ => none
    else
      match s.u with
      | .inr y => some (B.getColor y intermediate b led)
      | .inl _ => none

end TrConcatOpt

/-! ## Observations on a scan -/

namespace Effect

/-- Whether the call `ScanAll(dir, filename)` makes this descriptor count the file: the
extension is allow-listed, the descriptor is not bound to another directory, and
`e->Scan(filename)` returns `true`. -/
def ScanAll1Accepts (dir filename : List Char) (e : Effect) : Bool :=
  if IdentifyExtension filename = .UNKNOWN then false
  else if e.directory_ ≠ none ∧ e.directory_ ≠ some dir then false
  else (Scan e filename).1

/-- The calls of a `ScanAll` sequence whose file the descriptor counted, in order. -/
def scanAllAccepted : Effect → List (List Char × List Char) → List (List Char × List Char)
  | _, [] => []
  | e, c :: cs =>
    (if ScanAll1Accepts c.1 c.2 e then [c] else []) ++ scanAllAccepted (ScanAll1 c.1 c.2 e) cs

/-- The numbers `ns` leave no gap: every number between two of them is one of them. -/
def Contiguous (ns : List Int) : Prop :=
  ∀ a ∈ ns, ∀ b ∈ ns, ∀ k : Int, a ≤ k → k ≤ b → k ∈ ns

end Effect

/-- The names of the descriptors that `sound/effect.h` declares with `EFFECT` and `EFFECT2`
(lines 507-585), in the order of declaration; all of them are of kind `SOUND`, and `spin`
is declared under `ENABLE_SPINS`. -/
def builtinEffectNames : List (List Char) :=
  ["preon", "pstoff", "boot", "bladein", "bladeout", "hum", "humm", "swing", "poweron",
   "poweroff", "pwroff", "clash", "force", "stab", "spin", "blaster", "lockup", "poweronf",
   "font", "bgnlock", "endlock", "blst", "clsh", "in", "out", "lock", "swng", "slsh",
   "swingl", "swingh", "lswing", "hswing", "bgndrag", "drag", "enddrag", "bgnmelt", "melt",
   "endmelt", "bgnlb", "lb", "endlb", "bgnarm", "armhum", "endarm", "boom", "color",
   "ccbegin", "ccend", "ccchange", "bgnauto", "auto", "endauto", "blast", "lowbatt"].map
    String.toList

/-! ## Calls from outside and chains of any length -/

/-- A call of a member function of a transition class from outside. -/
inductive TransitionCall (Blade Color : Type) where
  | begin : TransitionCall Blade Color
  | run (blade : Blade) : TransitionCall Blade Color
  | done : TransitionCall Blade Color
  | getColor (a b : Color) (led : Int) : TransitionCall Blade Color

namespace Transition

variable {σ Blade Color : Type}

/-- The state after one call from outside; `done()` and `getColor` are read-only. -/
def call (T : Transition σ Blade Color) (s : σ) : TransitionCall Blade Color → σ
  | .begin => T.begin s
  | .run blade => T.run s blade
  | .done => s
  | .getColor _ _ _ => s

/-- The state after a sequence of calls from outside. -/
def calls (T : Transition σ Blade Color) (s : σ) (cs : List (TransitionCall Blade Color)) : σ :=
  cs.foldl T.call s

end Transition

namespace TrConcatOpt

variable {α ι β Blade Color : Type}

/-- The destructor `~TrConcat()`: the member whose destructor it runs, `a_` when `run_a_`
is set and `b_` otherwise; `none` when that member is not alive. -/
def destroy (s : TrConcatOpt α ι β) : Option (α ⊕ β) :=
  if s.run_a_ then
    match s.u with
    | .inl a => some (.inl a)
    | .inr _ => none
  else
    match s.u with
    | .inr b => some (.inr b)
    | .inl _ => none

/-- The state after one call from outside under `OPTIMIZE_TRCONCAT`; `none` when the call
uses a member that is not alive. -/
def call (A : Transition α Blade Color) (I : ColorSource ι Blade Color)
    (B : Transition β Blade Color) (s : TrConcatOpt α ι β) :
    TransitionCall Blade Color → Option (TrConcatOpt α ι β)
  | .begin => begin A s
  | .run blade => run A I B s blade
  | .done => (done B s).map fun _ => s
  | .getColor a b led => (getColor A I B s a b led).map fun _ => s

/-- The state after a sequence of calls from outside under `OPTIMIZE_TRCONCAT`; `none` as
soon as one of them uses a member that is not alive. -/
def calls (A : Transition α Blade Color) (I : ColorSource ι Blade Color)
    (B : Transition β Blade Color) :
    TrConcatOpt α ι β → List (TransitionCall Blade Color) → Option (TrConcatOpt α ι β)
  | s, [] => some s
  | s, c :: cs => (call A I B s c).bind fun t => calls A I B t cs

/-- The sequencer under `OPTIMIZE_TRCONCAT` as a transition class, as it appears as the
remainder `TrConcat<B...>` of a longer chain.  Where a member function uses a member that
is not alive the C++ behaviour is undefined; the record then leaves the state as it is and
answers `false`, or the end colour.  In the states that the constructor, `begin()` and
`run()` produce this case does not arise. -/
def transition (A : Transition α Blade Color) (I : ColorSource ι Blade Color)
    (B : Transition β Blade Color) : Transition (TrConcatOpt α ι β) Blade Color :=
  { init := init I B
    begin := fun s => (begin A s).getD s
    done := fun s => (done B s).getD false
    run := fun s blade => (run A I B s blade).getD s
    getColor := fun s a b led => (getColor A I B s a b led).getD b }

end TrConcatOpt

/-- The template arguments of a sequencer: `single A` is `TrConcat<A>`, which is `A`
itself, and `cons A I rest` is `TrConcat<A, I, rest...>`. -/
inductive Chain (Blade Color : Type) : Type 1 where
  | single {σ : Type} (A : Transition σ Blade Color) : Chain Blade Color
  | cons {σ ι : Type} (A : Transition σ Blade Color) (I : ColorSource ι Blade Color)
      (rest : Chain Blade Color) : Chain Blade Color

namespace Chain

variable {Blade Color : Type}

/-- The object of class `TrConcat<...>` in the default build. -/
def State : Chain Blade Color → Type
  | @single _ _ σ _ => σ
  | @cons _ _ σ ι _ _ rest => TrConcat σ ι (State rest)

/-- The object of class `TrConcat<...>` under `OPTIMIZE_TRCONCAT`. -/
def StateOpt : Chain Blade Color → Type
  | @single _ _ σ _ => σ
  | @cons _ _ σ ι _ _ rest => TrConcatOpt σ ι (StateOpt rest)

/-- The class `TrConcat<...>` of the default build. -/
def sequencer : (c : Chain Blade Color) → Transition (State c) Blade Color
  | single A => A
  | cons A I rest => TrConcat.transition A I (sequencer rest)

/-- The class `TrConcat<...>` under `OPTIMIZE_TRCONCAT`. -/
def sequencerOpt : (c : Chain Blade Color) → Transition (StateOpt c) Blade Color
  | single A => A
  | cons A I rest => TrConcatOpt.transition A I (sequencerOpt rest)

/-- In the object and in every remainder nested in it, the flag `run_a_` names the member
of the union that is alive. -/
def Alive : (c : Chain Blade Color) → StateOpt c → Prop
  | single _, _ => True
  | cons _ _ rest, s =>
    TrConcatOpt.WellTagged s ∧ ∀ b, TrConcatOpt.u s = .inr b → Alive rest b

/-- The destructor of the object under `OPTIMIZE_TRCONCAT`, which runs the destructors of
the nested remainders: whether every member it destroys is alive. -/
def destroyOpt : (c : Chain Blade Color) → StateOpt c → Bool
  | single _, _ => true
  | cons _ _ rest, s =>
    match TrConcatOpt.destroy s with
    | none => false
    | some (.inl _) => true
    | some (.inr b) => destroyOpt rest b

/-- Every stage is set up anew by `begin()`, whatever its state was, and the colour of
every intermediate source after `run()` does not depend on its state before. -/
def Reinit : Chain Blade Color → Prop
  | single A => ∀ x, A.begin x = A.begin A.init
  | cons A I rest =>
    (∀ x, A.begin x = A.begin A.init)
      ∧ (∀ x y blade led, I.getColor (I.run x blade) led = I.getColor (I.run y blade) led)
      ∧ Reinit rest

end Chain

/-- What a sequencer needs of its remainder in the two builds, the states being compared
by `R`: related states stay related under `run()` and `begin()`, they answer `done()` and
`getColor` alike, the default-constructed remainders are related, and the remainder of the
default build after `begin()` and `run()` is related to a remainder constructed anew, begun
and run. -/
structure Simulation {βd βo Blade Color : Type} (Bd : Transition βd Blade Color)
    (Bo : Transition βo Blade Color) (R : βd → βo → Prop) : Prop where
  init : R Bd.init Bo.init
  run : ∀ x y blade, R x y → R (Bd.run x blade) (Bo.run y blade)
  begin : ∀ x y, R x y → R (Bd.begin x) (Bo.begin y)
  fresh : ∀ x blade, R (Bd.run (Bd.begin x) blade) (Bo.run (Bo.begin Bo.init) blade)
  done : ∀ x y, R x y → Bd.done x = Bo.done y
  getColor : ∀ x y, R x y → ∀ a b led, Bd.getColor x a b led = Bo.getColor y a b led

/-- The objects of the two builds show the same: the flags agree, the intermediate
sources give the same colours, and the member that is alive under `OPTIMIZE_TRCONCAT`
corresponds to the same member of the default build. -/
def TrConcat.Rel {α ι βd βo Blade Color : Type} (I : ColorSource ι Blade Color)
    (R : βd → βo → Prop) (s : TrConcat α ι βd) (t : TrConcatOpt α ι βo) : Prop :=
  s.run_a_ = t.run_a_
    ∧ (∀ led, I.getColor s.intermediate_ led = I.getColor t.intermediate_ led)
    ∧ (match t.u with
       | .inl a => s.run_a_ = true ∧ s.a_ = a
       | .inr b => s.run_a_ = false ∧ R s.b_ b)

/-- The objects of the two builds of a chain show the same. -/
def Chain.Rel {Blade Color : Type} : (c : Chain Blade Color) → c.State → c.StateOpt → Prop
  | .single _, x, y => x = y
  | .cons _ I rest, s, t => TrConcat.Rel I (Chain.Rel rest) s t

/-! ## Scenario data -/

/-- The sound descriptor `name` after `reset()` and the scan of `name1.wav` … `name4.wav`,
bound to the font directory `font`. -/
def fourFiles (name : List Char) (following : Option EffectPtr) : Effect :=
  Effect.scanAllSeq (Effect.mk0 name following .SOUND)
    [("font".toList, name ++ "1.wav".toList), ("font".toList, name ++ "2.wav".toList),
     ("font".toList, name ++ "3.wav".toList), ("font".toList, name ++ "4.wav".toList)]

/-- The sound descriptor `swng` after `reset()` and the scan of `swng01.wav` …
`swng10.wav`, bound to the font directory `font`. -/
def tenFiles : Effect :=
  Effect.scanAllSeq (Effect.mk0 "swng".toList none .SOUND)
    [("font".toList, "swng01.wav".toList), ("font".toList, "swng02.wav".toList),
     ("font".toList, "swng03.wav".toList), ("font".toList, "swng04.wav".toList),
     ("font".toList, "swng05.wav".toList), ("font".toList, "swng06.wav".toList),
     ("font".toList, "swng07.wav".toList), ("font".toList, "swng08.wav".toList),
     ("font".toList, "swng09.wav".toList), ("font".toList, "swng10.wav".toList)]

/-- A memory with the paired descriptor `in` (following `pstoff`) at address `1` and the
descriptor `pstoff` at every other address, four files each. -/
def pairHeap : EffectPtr → Effect :=
  fun p => if p = 1 then (fourFiles "in".toList (some 2)).SetPaired true
           else fourFiles "pstoff".toList none

/-- The sound descriptor `hum` after `reset()` and the `ScanAll` calls for `hum01.wav`,
`hum02.wav` and the unnumbered `hum.wav` of the font directory `font`. -/
def humScanned : Effect :=
  Effect.scanAllSeq (Effect.reset (Effect.mk0 "hum".toList (some 3) .SOUND))
    [("font".toList, "hum01.wav".toList), ("font".toList, "hum02.wav".toList),
     ("font".toList, "hum.wav".toList)]

/-- The sound descriptor `hum` as constructed (`EFFECT2(hum, hum)`, at address `3`). -/
def humEffect : Effect := Effect.mk0 "hum".toList (some 3) .SOUND

/-- The files of the gap scenario. -/
def humGapFiles : List (List Char) :=
  ["hum1.wav".toList, "hum2.wav".toList, "hum10.wav".toList]

/-- A file of the descriptor `hum` whose number is written with 129 digits: `hum`, 128
zeros, `1.wav`. -/
def humLongNumber : List Char :=
  "hum".toList ++ (List.replicate 128 '0' ++ "1.wav".toList)

/-- A font search path `font` on the SD card with the file `hum01.wav`, the unnumbered
`hum.wav` and the sub-directory `clash` holding `clash1.wav` and `clash2.wav`. -/
def fontDirs : List FontDir :=
  [{ dir := "font".toList, found := true,
     listing :=
      [{ name := "hum01.wav".toList, isdir := false, entries := [] },
       { name := "clash".toList, isdir := true,
         entries := ["clash1.wav".toList, "clash2.wav".toList] },
       { name := "hum.wav".toList, isdir := false, entries := [] }] }]

/-- A sample stage that lasts `n` ticks and counts its calls: the state is the number of
ticks left, of `begin()` calls and of `run()` calls; it is done when no tick is left, and
shows the start colour while it lasts. -/
def countingStage (n : Nat) : Transition (Nat × Nat × Nat) Unit Int :=
  { init := (0, 0, 0)
    begin := fun t => (n, t.2.1 + 1, t.2.2)
    done := fun t => t.1 == 0
    run := fun t _ => (t.1 - 1, t.2.1, t.2.2 + 1)
    getColor := fun t a b _ => if t.1 = 0 then b else a }

/-- A sample intermediate colour source: a fixed colour, the state counting the `run()`
calls. -/
def countingColor (c : Int) : ColorSource Nat Unit Int :=
  { init := 0, run := fun k _ => k + 1, getColor := fun _ _ => c }

/-- The descriptor `hum` with the files `hum1.wav`, `hum32767.wav` and the unnumbered
`hum.wav`, and the last index selected by `Select(32767)`. -/
def humWide : Effect :=
  (Effect.scanSeq (Effect.reset humEffect)
    ["hum1.wav".toList, "hum32767.wav".toList, "hum.wav".toList]).Select 32767

/-- A font kept in serial flash under the search path `font`: the files `hum01.wav` and
`hum.wav`, as `SerialFlashChip::readdir` names them. -/
def flashFont : List (List Char) := ["font/hum01.wav".toList, "font/hum.wav".toList]

/-- The same font listed from the SD card. -/
def sdFont : List FontDir :=
  [{ dir := "font".toList, found := true,
     listing :=
      [{ name := "hum01.wav".toList, isdir := false, entries := [] },
       { name := "hum.wav".toList, isdir := false, entries := [] }] }]

/-- The search path `font` when the SD card does not hold it. -/
def noSdFont : List FontDir := [{ dir := "font".toList, found := false, listing := [] }]

/-- A sample stage of `n` ticks that `begin()` sets up anew: the state is the number of
ticks left, and the colour moves from the start colour to the end colour. -/
def timerStage (n : Nat) : Transition Nat Unit Int :=
  { init := 0
    begin := fun _ => n
    done := fun t => t == 0
    run := fun t _ => t - 1
    getColor := fun t a b _ => (t : Int) * a + ((n : Int) - (t : Int)) * b }

/-- The chain `TrConcat<timerStage 2, colour 5, timerStage 1, colour 7, timerStage 1>`
behind its first stage and first intermediate colour. -/
def sampleRest : Chain Unit Int :=
  .cons (timerStage 1) (countingColor 7) (.single (timerStage 1))

/-- Calls from outside: some before the first `begin()`, a run through all three stages,
and a restart. -/
def sampleCalls : List (TransitionCall Unit Int) :=
  [.run (), .getColor 1 2 0, .begin, .run (), .done, .run (), .run (), .run (), .begin, .run ()]

/-! ## Machine arithmetic -/

theorem wrap16_eq_self {x : Int} (h1 : -32768 ≤ x) (h2 : x ≤ 32767) : wrap16 x = x := by
  unfold wrap16
  omega

theorem wrap16_range (x : Int) : -32768 ≤ wrap16 x ∧ wrap16 x ≤ 32767 := by
  unfold wrap16
  omega

theorem clamp_range {x a b : Int} (h : a ≤ b) : a ≤ clamp x a b ∧ clamp x a b ≤ b := by
  unfold clamp
  split_ifs <;> omega

/-! ## Single-precision rounding -/

theorem roundHalfEven_cases (y : ℚ) : roundHalfEven y = ⌊y⌋ ∨ roundHalfEven y = ⌊y⌋ + 1 := by
  unfold roundHalfEven
  split_ifs <;> simp

theorem roundHalfEven_intCast (n : Int) : roundHalfEven (n : ℚ) = n := by
  unfold roundHalfEven
  rw [Int.floor_intCast, sub_self, if_pos (by norm_num)]

theorem le_roundHalfEven (m : Int) (y : ℚ) (h : (m : ℚ) ≤ y) : m ≤ roundHalfEven y := by
  have := Int.le_floor.mpr h
  rcases roundHalfEven_cases y with e | e <;> omega

theorem roundHalfEven_le (m : Int) (y : ℚ) (h : y ≤ (m : ℚ)) : roundHalfEven y ≤ m := by
  rcases eq_or_lt_of_le h with e | e
  · rw [e, roundHalfEven_intCast]
  · have := Int.floor_lt.mpr e
    rcases roundHalfEven_cases y with e | e <;> omega

theorem log2Aux_spec : ∀ (fuel n : Nat), n ≤ fuel → 1 ≤ n →
    2 ^ log2Aux fuel n ≤ n ∧ n < 2 ^ (log2Aux fuel n + 1)
  | 0, n, h, h1 => by omega
  | fuel + 1, n, h, h1 => by
    unfold log2Aux
    split_ifs with h2
    · constructor <;> simp <;> omega
    · have := log2Aux_spec fuel (n / 2) (by omega) (by omega)
      rw [pow_succ, pow_succ]
      rw [pow_succ] at this
      constructor <;> omega

theorem zpow_ilog2_le (x : ℚ) (hx : 0 < x) : (2 : ℚ) ^ ilog2 x ≤ x := by
  have hnum : 0 < x.num := Rat.num_pos.mpr hx
  have hden : 0 < x.den := x.den_pos
  have ha := log2Aux_spec x.num.natAbs x.num.natAbs (le_refl _) (by omega)
  have hb := log2Aux_spec x.den x.den (le_refl _) hden
  unfold ilog2
  split_ifs with h
  · exact h
  · have hx' : x = (x.num.natAbs : ℚ) / (x.den : ℚ) := by
      conv_lhs => rw [← Rat.num_div_den x]
      congr 1
      rw [← Int.cast_natCast, Int.natCast_natAbs, abs_of_pos hnum]
    rw [show ((log2Aux x.num.natAbs x.num.natAbs : Int) - (log2Aux x.den x.den : Int) - 1)
        = ((log2Aux x.num.natAbs x.num.natAbs : Nat) : Int)
            - ((log2Aux x.den x.den + 1 : Nat) : Int) by push_cast; ring,
      zpow_sub₀ (by norm_num), zpow_natCast, zpow_natCast]
    conv_rhs => rw [hx']
    apply div_le_div₀
    · positivity
    · exact_mod_cast ha.1
    · exact_mod_cast hden
    · exact_mod_cast hb.2.le

theorem lt_zpow_ilog2 (x : ℚ) (hx : 0 < x) : x < (2 : ℚ) ^ (ilog2 x + 1) := by
  have hnum : 0 < x.num := Rat.num_pos.mpr hx
  have hden : 0 < x.den := x.den_pos
  have ha := log2Aux_spec x.num.natAbs x.num.natAbs (le_refl _) (by omega)
  have hb := log2Aux_spec x.den x.den (le_refl _) hden
  unfold ilog2
  split_ifs with h
  · have hx' : x = (x.num.natAbs : ℚ) / (x.den : ℚ) := by
      conv_lhs => rw [← Rat.num_div_den x]
      congr 1
      rw [← Int.cast_natCast, Int.natCast_natAbs, abs_of_pos hnum]
    rw [show ((log2Aux x.num.natAbs x.num.natAbs : Int) - (log2Aux x.den x.den : Int) + 1)
        = ((log2Aux x.num.natAbs x.num.natAbs + 1 : Nat) : Int)
            - ((log2Aux x.den x.den : Nat) : Int) by push_cast; ring,
      zpow_sub₀ (by norm_num), zpow_natCast, zpow_natCast]
    conv_lhs => rw [hx']
    apply div_lt_div₀
    · exact_mod_cast ha.2
    · exact_mod_cast hb.1
    · positivity
    · positivity
  · rw [sub_add_cancel]
    exact not_le.mp h

/-- The exponent found is the integer logarithm to base 2. -/
theorem ilog2_eq_log (x : ℚ) (hx : 0 < x) : ilog2 x = Int.log 2 x := by
  apply le_antisymm
  · exact (Int.zpow_le_iff_le_log (by norm_num) hx).mp (by exact_mod_cast zpow_ilog2_le x hx)
  · have := lt_zpow_ilog2 x hx
    have h2 := (Int.lt_zpow_iff_log_lt (b := 2) (by norm_num) hx).mp (by exact_mod_cast this)
    omega

theorem float32Ulp_pos (x : ℚ) : 0 < float32Ulp x := by
  unfold float32Ulp
  positivity

theorem roundFloat32_zero : roundFloat32 0 = 0 := by
  unfold roundFloat32
  rw [if_pos rfl]

/-- An integer is a multiple of every spacing that is at most `1`. -/
theorem int_div_ulp (n : Int) (E : Int) (hE : E ≤ 23) :
    (n : ℚ) / 2 ^ (E - 23) = ((n * 2 ^ (23 - E).toNat : Int) : ℚ) := by
  have h1 : (2 : ℚ) ^ (E - 23) = ((2 : ℚ) ^ (23 - E).toNat)⁻¹ := by
    rw [← zpow_natCast, Int.toNat_of_nonneg (by omega), ← zpow_neg]
    congr 1
    ring
  rw [h1, div_inv_eq_mul]
  push_cast
  ring

theorem roundFloat32_nonpos (x : ℚ) (hx : x ≤ 0) : roundFloat32 x ≤ 0 := by
  unfold roundFloat32
  have hq := float32Ulp_pos x
  have hr : roundHalfEven (x / float32Ulp x) ≤ 0 :=
    roundHalfEven_le 0 _ (by rw [Int.cast_zero]; exact div_nonpos_of_nonpos_of_nonneg hx hq.le)
  have hy : (roundHalfEven (x / float32Ulp x) : ℚ) * float32Ulp x ≤ 0 :=
    mul_nonpos_of_nonpos_of_nonneg (by exact_mod_cast hr) hq.le
  split_ifs with h1 h2 h3
  · exact le_refl _
  · exfalso
    have : (0 : ℚ) < 2 ^ 128 := by positivity
    linarith
  · have : (0 : ℚ) < 2 ^ 128 := by positivity
    linarith
  · exact hy

theorem roundFloat32_nonneg (x : ℚ) (hx : 0 ≤ x) : 0 ≤ roundFloat32 x := by
  unfold roundFloat32
  have hq := float32Ulp_pos x
  have hr : 0 ≤ roundHalfEven (x / float32Ulp x) :=
    le_roundHalfEven 0 _ (by rw [Int.cast_zero]; exact div_nonneg hx hq.le)
  have hy : 0 ≤ (roundHalfEven (x / float32Ulp x) : ℚ) * float32Ulp x :=
    mul_nonneg (by exact_mod_cast hr) hq.le
  split_ifs with h1 h2 h3
  · exact le_refl _
  · positivity
  · exfalso
    have : (0 : ℚ) < 2 ^ 128 := by positivity
    linarith
  · exact hy

/-- Rounding does not pass below an integer of at most 24 bits. -/
theorem le_roundFloat32 (n : Int) (x : ℚ) (h0 : 0 ≤ n) (hn : n ≤ 2 ^ 24) (h : (n : ℚ) ≤ x) :
    (n : ℚ) ≤ roundFloat32 x := by
  rcases eq_or_lt_of_le h0 with e | hpos
  · rw [← e, Int.cast_zero]
    exact roundFloat32_nonneg x (by rw [← e, Int.cast_zero] at h; exact h)
  have hx : 0 < x := lt_of_lt_of_le (by exact_mod_cast hpos) h
  have hq := float32Ulp_pos x
  have hn' : (n : ℚ) ≤ 2 ^ 24 := by exact_mod_cast hn
  have hy : (n : ℚ) ≤ (roundHalfEven (x / float32Ulp x) : ℚ) * float32Ulp x := by
    by_cases hE : max (ilog2 |x|) (-126) ≤ 23
    · have hdiv : (n : ℚ) / float32Ulp x
          = ((n * 2 ^ (23 - max (ilog2 |x|) (-126)).toNat : Int) : ℚ) := int_div_ulp n _ hE
      have hle : ((n * 2 ^ (23 - max (ilog2 |x|) (-126)).toNat : Int) : ℚ) ≤ x / float32Ulp x := by
        rw [← hdiv]
        exact div_le_div_of_nonneg_right h hq.le
      have hr := le_roundHalfEven _ _ hle
      have hr' : (n : ℚ) / float32Ulp x ≤ (roundHalfEven (x / float32Ulp x) : ℚ) := by
        rw [hdiv]
        exact_mod_cast hr
      exact (div_le_iff₀ hq).mp hr'
    · have hE' : 24 ≤ ilog2 |x| := by
        rcases le_max_iff.mp (le_of_lt (not_le.mp hE)) with h1 | h1 <;> omega
      have hmax : max (ilog2 |x|) (-126) = ilog2 |x| := max_eq_left (by omega)
      have hlog := zpow_ilog2_le |x| (abs_pos.mpr hx.ne')
      rw [abs_of_pos hx] at hlog hmax hE'
      have hu : float32Ulp x = 2 ^ (ilog2 x - 23) := by
        unfold float32Ulp
        rw [abs_of_pos hx, hmax]
      have hpow : ((2 ^ 23 : Int) : ℚ) * 2 ^ (ilog2 x - 23) = 2 ^ ilog2 x := by
        rw [zpow_sub₀ (by norm_num), show (2 : ℚ) ^ (23 : ℤ) = 8388608 by norm_num]
        push_cast
        ring
      have h23 : ((2 ^ 23 : Int) : ℚ) ≤ x / float32Ulp x := by
        rw [le_div_iff₀ hq, hu, hpow]
        exact hlog
      have hr := le_roundHalfEven _ _ h23
      have hr' : ((2 ^ 23 : Int) : ℚ) ≤ (roundHalfEven (x / float32Ulp x) : ℚ) := by
        exact_mod_cast hr
      have h24 : (2 : ℚ) ^ 24 ≤ (2 : ℚ) ^ ilog2 x := by
        rw [← zpow_natCast]
        exact zpow_le_zpow_right₀ (by norm_num) (by simpa using hE')
      calc (n : ℚ) ≤ 2 ^ 24 := hn'
        _ ≤ (2 : ℚ) ^ ilog2 x := h24
        _ = ((2 ^ 23 : Int) : ℚ) * float32Ulp x := by rw [hu, hpow]
        _ ≤ (roundHalfEven (x / float32Ulp x) : ℚ) * float32Ulp x :=
            mul_le_mul_of_nonneg_right hr' hq.le
  unfold roundFloat32
  split_ifs with h1 h2 h3
  · exact absurd h1 hx.ne'
  · calc (n : ℚ) ≤ 2 ^ 24 := hn'
      _ ≤ 2 ^ 128 := by norm_num
  · exfalso
    have : (0 : ℚ) < 2 ^ 128 := by positivity
    have : (0 : ℚ) < n := by exact_mod_cast hpos
    linarith
  · exact hy

/-- Rounding does not pass above an integer of fewer than 25 bits. -/
theorem roundFloat32_le (m : Int) (x : ℚ) (hx : 0 ≤ x) (hm : m < 2 ^ 24) (h : x ≤ (m : ℚ)) :
    roundFloat32 x ≤ (m : ℚ) := by
  rcases eq_or_lt_of_le hx with e | hpos
  · rw [← e, roundFloat32_zero]
    rw [← e] at h
    exact h
  have hq := float32Ulp_pos x
  have hm' : (m : ℚ) < 2 ^ 24 := by exact_mod_cast hm
  have hlog := zpow_ilog2_le |x| (abs_pos.mpr hpos.ne')
  rw [abs_of_pos hpos] at hlog
  have hE : max (ilog2 |x|) (-126) ≤ 23 := by
    rw [abs_of_pos hpos]
    apply max_le _ (by norm_num)
    by_contra hc
    have h24 : (2 : ℚ) ^ 24 ≤ (2 : ℚ) ^ ilog2 x := by
      rw [← zpow_natCast]
      exact zpow_le_zpow_right₀ (by norm_num) (by push_cast; omega)
    linarith
  have hdiv : (m : ℚ) / float32Ulp x
      = ((m * 2 ^ (23 - max (ilog2 |x|) (-126)).toNat : Int) : ℚ) := int_div_ulp m _ hE
  have hle : x / float32Ulp x ≤ ((m * 2 ^ (23 - max (ilog2 |x|) (-126)).toNat : Int) : ℚ) := by
    rw [← hdiv]
    exact div_le_div_of_nonneg_right h hq.le
  have hr := roundHalfEven_le _ _ hle
  have hr' : (roundHalfEven (x / float32Ulp x) : ℚ) ≤ (m : ℚ) / float32Ulp x := by
    rw [hdiv]
    exact_mod_cast hr
  have hy : (roundHalfEven (x / float32Ulp x) : ℚ) * float32Ulp x ≤ (m : ℚ) :=
    (le_div_iff₀ hq).mp hr'
  unfold roundFloat32
  split_ifs with h1 h2 h3
  · exact absurd h1 hpos.ne'
  · exfalso
    have : (2 : ℚ) ^ 24 ≤ 2 ^ 128 := by norm_num
    linarith
  · have : (0 : ℚ) < 2 ^ 128 := by positivity
    have : (0 : ℚ) ≤ m := le_trans hx h
    linarith
  · exact hy

/-- The integers of at most 24 bits are binary32 numbers: the conversion of such an `int`
to `float` is exact. -/
theorem roundFloat32_intCast (n : Int) (h0 : 0 ≤ n) (hn : n < 2 ^ 24) :
    roundFloat32 (n : ℚ) = n :=
  le_antisymm (roundFloat32_le n _ (by exact_mod_cast h0) hn (le_refl _))
    (le_roundFloat32 n _ h0 hn.le (le_refl _))

/-- Rounding a product below `2 ^ 24 - 1` moves its floor up by at most one. -/
theorem floor_roundFloat32 (x : ℚ) (hx : 0 ≤ x) (hlt : ⌊x⌋ + 1 < 2 ^ 24) :
    ⌊roundFloat32 x⌋ = ⌊x⌋ ∨ ⌊roundFloat32 x⌋ = ⌊x⌋ + 1 := by
  have h0 : 0 ≤ ⌊x⌋ := Int.floor_nonneg.mpr hx
  have h1 := le_roundFloat32 ⌊x⌋ x h0 (by omega) (Int.floor_le x)
  have h2 := roundFloat32_le (⌊x⌋ + 1) x hx hlt (by push_cast; exact (Int.lt_floor_add_one x).le)
  have h3 : ⌊x⌋ ≤ ⌊roundFloat32 x⌋ := Int.le_floor.mpr h1
  have h4 : ⌊roundFloat32 x⌋ ≤ ⌊x⌋ + 1 := by
    have := Int.floor_le (roundFloat32 x)
    have h5 : ((⌊roundFloat32 x⌋ : Int) : ℚ) ≤ ((⌊x⌋ + 1 : Int) : ℚ) := le_trans this h2
    exact_mod_cast h5
  omega

/-! ## Strings and decimal numbers -/

theorem startswith_append (p r : List Char) : startswith p (p ++ r) = some r := by
  induction p with
  | nil => cases r <;> rfl
  | cons a p ih => simp [startswith, ih]

theorem startswith_head_ne (a : Char) (p : List Char) (c : Char) (cs : List Char) (h : c ≠ a) :
    startswith (a :: p) (c :: cs) = none := by
  simp [startswith, h]

theorem endswith_append (post s t : List Char) (h : t.length = post.length) :
    endswith post (s ++ t) = (startswith post t).isSome := by
  unfold endswith
  have h1 : post.length ≤ (s ++ t).length := by simp [h]
  have h2 : (s ++ t).length - post.length = s.length := by simp [h]
  rw [h2, List.drop_left, decide_eq_true h1, Bool.true_and]

/-! ### Decimal digits -/

theorem toDigitsCore_eq (fuel : Nat) :
    ∀ (n : Nat) (acc : List Char), n < fuel →
      Nat.toDigitsCore 10 fuel n acc = Nat.toDigits 10 n ++ acc := by
  induction fuel using Nat.strong_induction_on with
  | _ fuel ih =>
    intro n acc hn
    cases fuel with
    | zero => omega
    | succ fuel =>
      unfold Nat.toDigits
      simp only [Nat.toDigitsCore]
      by_cases h0 : n / 10 = 0
      · simp [h0]
      · have hlt : n / 10 < n := by omega
        simp only [h0, if_false]
        rw [ih fuel (by omega) (n / 10) _ (by omega), ih n (by omega) (n / 10) _ hlt]
        simp

theorem toDigits_step (n : Nat) (h : n / 10 ≠ 0) :
    Nat.toDigits 10 n = Nat.toDigits 10 (n / 10) ++ [Nat.digitChar (n % 10)] := by
  have hlt : n / 10 < n := by omega
  conv_lhs => unfold Nat.toDigits
  simp only [Nat.toDigitsCore, h, if_false]
  rw [toDigitsCore_eq n (n / 10) _ hlt]

theorem toDigits_small (n : Nat) (h : n / 10 = 0) :
    Nat.toDigits 10 n = [Nat.digitChar (n % 10)] := by
  unfold Nat.toDigits
  simp [Nat.toDigitsCore, h]

theorem digitChar_spec (k : Nat) (h : k < 10) :
    isdigit (Nat.digitChar k) = true ∧ (Nat.digitChar k).toNat - 48 = k := by
  interval_cases k <;> exact ⟨by decide, by decide⟩

theorem digitsValue_append (l : List Char) (c : Char) :
    digitsValue (l ++ [c]) = 10 * digitsValue l + (c.toNat - 48) := by
  simp [digitsValue, List.foldl_append]

theorem toDigits_spec (n : Nat) :
    (∀ c ∈ Nat.toDigits 10 n, isdigit c = true) ∧ digitsValue (Nat.toDigits 10 n) = n
      ∧ Nat.toDigits 10 n ≠ [] := by
  induction n using Nat.strong_induction_on with
  | _ n ih =>
    have hk := digitChar_spec (n % 10) (Nat.mod_lt _ (by decide))
    by_cases h : n / 10 = 0
    · rw [toDigits_small n h]
      refine ⟨?_, ?_, by simp⟩
      · intro c hc
        simp only [List.mem_singleton] at hc
        rw [hc]; exact hk.1
      · simp only [digitsValue, List.foldl]
        omega
    · obtain ⟨i1, i2, -⟩ := ih (n / 10) (by omega)
      rw [toDigits_step n h]
      refine ⟨?_, ?_, by simp⟩
      · intro c hc
        rcases List.mem_append.mp hc with hc | hc
        · exact i1 c hc
        · simp only [List.mem_singleton] at hc
          rw [hc]; exact hk.1
      · rw [digitsValue_append, i2]
        omega

theorem digitsValue_zeros (k : Nat) (ds : List Char) :
    digitsValue (List.replicate k '0' ++ ds) = digitsValue ds := by
  induction k with
  | zero => rfl
  | succ k ih =>
    have : digitsValue ('0' :: (List.replicate k '0' ++ ds))
        = digitsValue (List.replicate k '0' ++ ds) := by
      simp [digitsValue]
    rw [List.replicate_succ, List.cons_append, this, ih]

theorem isdigit_not_space (c : Char) (h : isdigit c = true) :
    isspace c = false ∧ c ≠ '-' ∧ c ≠ '+' ∧ c ≠ '.' ∧ c ≠ '/' := by
  refine ⟨?_, ?_, ?_, ?_, ?_⟩
  · simp only [isdigit, Bool.and_eq_true, decide_eq_true_eq] at h
    simp only [isspace, Bool.or_eq_false_iff, decide_eq_false_iff_not, Bool.and_eq_false_iff]
    omega
  all_goals
    rintro rfl
    exact absurd h (by decide)

theorem strtol_digits (ds t : List Char) (hne : ds ≠ []) (hd : ∀ c ∈ ds, isdigit c = true)
    (ht : ∀ c, t.head? = some c → isdigit c = false) :
    strtol (ds ++ t) = (max LONG_MIN (min LONG_MAX (digitsValue ds : Int)), t) := by
  obtain ⟨d, ds', rfl⟩ := List.exists_cons_of_ne_nil hne
  obtain ⟨h1, h2, h3, -, -⟩ := isdigit_not_space d (hd d (List.mem_cons_self _ _))
  have htw : List.takeWhile isdigit t = [] := by
    cases t with
    | nil => rfl
    | cons c cs =>
      have := ht c rfl
      simp [List.takeWhile, this]
  have hdw : List.dropWhile isdigit t = t := by
    cases t with
    | nil => rfl
    | cons c cs =>
      have := ht c rfl
      simp [List.dropWhile, this]
  have hs1 : List.dropWhile isspace (d :: ds' ++ t) = d :: ds' ++ t := by
    simp [List.dropWhile, h1]
  have htake : List.takeWhile isdigit (d :: ds' ++ t) = d :: ds' := by
    rw [List.takeWhile_append_of_pos hd, htw, List.append_nil]
  have hdrop : List.dropWhile isdigit (d :: ds' ++ t) = t := by
    rw [List.dropWhile_append_of_pos hd, hdw]
  unfold strtol
  simp only [hs1]
  have hh : (d :: ds' ++ t).head? = some d := rfl
  simp only [hh, Option.some.injEq, h2, h3, or_self, if_false, htake, hdrop]
  simp

namespace Effect

/-! ## The file count -/

theorem files_found_cast (e : Effect) :
    (e.files_found : Int)
      = (if e.min_file_ ≤ e.max_file_ then e.max_file_ - e.min_file_ + 1 else 0)
        + (if e.unnumbered_file_found_ = true then 1 else 0) := by
  unfold files_found
  by_cases h : e.min_file_ ≤ e.max_file_ <;> by_cases u : e.unnumbered_file_found_ = true
    <;> simp [h, u] <;> omega

theorem files_found_reset (e : Effect) : (reset e).files_found = 0 := by
  simp [files_found, reset]

/-- Claim C2.  In every state reached from `reset()` by a sequence of `Scan` calls,
`files_found()` is `max - min + 1` when `min ≤ max` (and `0` otherwise) plus `1` when the
unnumbered flag is set; right after `reset()` it is `0`. -/
theorem files_found_formula (e0 : Effect) (fs : List (List Char)) :
    ((scanSeq (reset e0) fs).files_found : Int)
        = (if (scanSeq (reset e0) fs).min_file_ ≤ (scanSeq (reset e0) fs).max_file_
            then (scanSeq (reset e0) fs).max_file_ - (scanSeq (reset e0) fs).min_file_ + 1
            else 0)
          + (if (scanSeq (reset e0) fs).unnumbered_file_found_ = true then 1 else 0)
      ∧ (scanSeq (reset e0) []).files_found = 0 :=
  ⟨files_found_cast _, files_found_reset e0⟩

/-! ## `RandomFile` -/

/-- Claim C3.  With `files_found() == 0`, `RandomFile()` returns the null handle, which
equals `FileID()` and converts to `false`; it draws no random number and leaves the
descriptor as it was, whatever the forced selection and the anti-repeat memory. -/
theorem RandomFile_no_files (noRepeat : Bool) (fuel : Nat) (this : EffectPtr) (e : Effect)
    (rnd : Nat → Nat) (pos : Nat) (h : e.files_found = 0) :
    RandomFile noRepeat fuel this e rnd pos = some (FileID.null, e, pos)
      ∧ FileID.null = (⟨none, 0⟩ : FileID) ∧ FileID.null.toBool = false := by
  refine ⟨?_, rfl, rfl⟩
  simp [RandomFile, h]

theorem RandomFile_no_files_witness :
    (((mk0 "clash".toList none .SOUND).Select 2).files_found = 0)
      ∧ (RandomFile true 0 7 ((mk0 "clash".toList none .SOUND).Select 2) (fun _ => 5) 3
            = some (FileID.null, (mk0 "clash".toList none .SOUND).Select 2, 3)
          ∧ FileID.null = (⟨none, 0⟩ : FileID) ∧ FileID.null.toBool = false) :=
  ⟨by decide, RandomFile_no_files true 0 7 _ (fun _ => 5) 3 (by decide)⟩

theorem RandomFile_selected (noRepeat : Bool) (fuel : Nat) (this : EffectPtr) (e : Effect)
    (rnd : Nat → Nat) (pos : Nat) (hf : 1 ≤ e.files_found) (hs : e.selected_ ≠ -1) :
    RandomFile noRepeat fuel this e rnd pos = some (⟨some this, e.selected_⟩, e, pos) := by
  have : ¬ ((e.files_found : Int) < 1) := by omega
  simp [RandomFile, this, hs]

theorem RandomFileRepeat_selected (noRepeat : Bool) (fuel : Nat) (this : EffectPtr)
    (e : Effect) (rnd : Nat → Nat) (pos : Nat) (hf : 1 ≤ e.files_found)
    (hs : e.selected_ ≠ -1) (k : Nat) :
    RandomFileRepeat noRepeat fuel this rnd k e pos = some (⟨some this, e.selected_⟩, e, pos) := by
  induction k with
  | zero => exact RandomFile_selected noRepeat fuel this e rnd pos hf hs
  | succ k ih =>
    simp only [RandomFileRepeat, RandomFile_selected noRepeat fuel this e rnd pos hf hs,
      Option.some_bind]
    exact ih

theorem files_found_Select (e : Effect) (n : Int) : (e.Select n).files_found = e.files_found :=
  rfl

/-- Claim C5.  On a descriptor with at least one file where `Select(s)` has stored the
forced selection `s ≠ -1` (the member `selected_` now holds `s`), `RandomFile()` returns
the handle `(this, s)`, draws no random number and leaves the whole descriptor, anti-repeat
memory included, as it was; hence the last of any number of consecutive `RandomFile()`
calls returns that same handle from that same state. -/
theorem RandomFile_forced (noRepeat : Bool) (fuel : Nat) (this : EffectPtr) (e : Effect)
    (s : Int) (rnd : Nat → Nat) (pos k : Nat) (hf : 1 ≤ e.files_found)
    (hsel : (e.Select s).selected_ = s) (hs : s ≠ -1) :
    RandomFile noRepeat fuel this (e.Select s) rnd pos
        = some (⟨some this, s⟩, e.Select s, pos)
      ∧ RandomFileRepeat noRepeat fuel this rnd k (e.Select s) pos
        = some (⟨some this, s⟩, e.Select s, pos) := by
  have h1 : (e.Select s).selected_ ≠ -1 := by rw [hsel]; exact hs
  have h2 : 1 ≤ (e.Select s).files_found := hf
  constructor
  · have := RandomFile_selected noRepeat fuel this (e.Select s) rnd pos h2 h1
    rwa [hsel] at this
  · have := RandomFileRepeat_selected noRepeat fuel this (e.Select s) rnd pos h2 h1 k
    rwa [hsel] at this

theorem RandomFile_forced_witness :
    1 ≤ (fourFiles "clash".toList none).files_found
      ∧ ((fourFiles "clash".toList none).Select 3).selected_ = 3
      ∧ (RandomFile true 0 5 ((fourFiles "clash".toList none).Select 3) (fun _ => 0) 0
            = some (⟨some 5, 3⟩, (fourFiles "clash".toList none).Select 3, 0)
          ∧ RandomFileRepeat true 0 5 (fun _ => 0) 2 ((fourFiles "clash".toList none).Select 3) 0
            = some (⟨some 5, 3⟩, (fourFiles "clash".toList none).Select 3, 0)) :=
  ⟨by decide, by decide,
    RandomFile_forced true 0 5 (fourFiles "clash".toList none) 3 (fun _ => 0) 0 2
      (by decide) (by decide) (by decide)⟩

/-! ### The re-roll loop -/

theorem rerollLoop_spec (f last : Int) (rnd : Nat → Nat) :
    ∀ (fuel : Nat) (n : Int) (pos : Nat) (r : Int × Nat),
      rerollLoop f last rnd fuel n pos = some r →
        r.1 ≠ last ∧ (0 < f → 0 ≤ n → n < f → 0 ≤ r.1 ∧ r.1 < f) := by
  intro fuel
  induction fuel with
  | zero => intro n pos r h; simp [rerollLoop] at h
  | succ k ih =>
    intro n pos r h
    unfold rerollLoop at h
    split_ifs at h with hn
    · obtain ⟨h1, h2⟩ := ih _ _ _ h
      refine ⟨h1, fun hf _ _ => h2 hf ?_ ?_⟩
      · exact Int.tmod_nonneg _ (Int.ofNat_nonneg _)
      · exact Int.tmod_lt_of_pos _ hf
    · simp only [Option.some.injEq] at h
      subst h
      exact ⟨hn, fun _ h0 h1 => ⟨h0, h1⟩⟩

theorem rerollLoop_returns (f last : Int) (rnd : Nat → Nat) :
    ∀ (k : Nat) (n : Int) (pos : Nat),
      (n ≠ last ∨ (rnd (pos + k) : Int).tmod f ≠ last) →
        ∃ fuel, (rerollLoop f last rnd fuel n pos).isSome = true := by
  intro k
  induction k with
  | zero =>
    intro n pos h
    refine ⟨2, ?_⟩
    by_cases hn : n = last
    · have h2 : (rnd pos : Int).tmod f ≠ last := by
        rcases h with h | h
        · exact absurd hn h
        · simpa using h
      simp [rerollLoop, hn, h2]
    · simp [rerollLoop, hn]
  | succ k ih =>
    intro n pos h
    by_cases hn : n = last
    · have h2 : (rnd (pos + 1 + k) : Int).tmod f ≠ last := by
        rcases h with h | h
        · exact absurd hn h
        · have e : pos + 1 + k = pos + (k + 1) := by omega
          rw [e]; exact h
      obtain ⟨fuel, hfuel⟩ := ih ((rnd pos : Int).tmod f) (pos + 1) (Or.inr h2)
      exact ⟨fuel + 1, by simp [rerollLoop, hn, hfuel]⟩
    · exact ⟨1, by simp [rerollLoop, hn]⟩

theorem rerollLoop_never (f last : Int) (rnd : Nat → Nat)
    (hall : ∀ j, (rnd j : Int).tmod f = last) :
    ∀ (fuel : Nat) (pos : Nat), rerollLoop f last rnd fuel last pos = none := by
  intro fuel
  induction fuel with
  | zero => intro pos; rfl
  | succ k ih =>
    intro pos
    unfold rerollLoop
    rw [if_pos rfl, hall pos]
    exact ih (pos + 1)

theorem RandomFile_noRepeat_many (fuel : Nat) (this : EffectPtr) (e : Effect)
    (rnd : Nat → Nat) (pos : Nat) (hf : 3 ≤ e.files_found) (hs : e.selected_ = -1) :
    RandomFile true fuel this e rnd pos
      = (rerollLoop (e.files_found : Int) e.last_ rnd fuel
            ((rnd pos : Int).tmod (e.files_found : Int)) (pos + 1)).map
          fun r => (⟨some this, r.1⟩, { e with last_ := r.1 }, r.2) := by
  have h1 : ¬ ((e.files_found : Int) < 1) := by omega
  have h2 : ¬ ((e.files_found : Int) = 2) := by omega
  have h3 : ¬ ((e.files_found : Int) = 1) := by omega
  simp only [RandomFile, h1, h2, h3, hs, if_false, if_true, ne_eq, not_true_eq_false]

/-- Claim C4, as amended.  With at least one file and no forced selection, for every
stream of non-negative `rand()` values: whenever `RandomFile()` returns, the handle is on
this descriptor, its index lies in `[0, files_found())`, and it is non-null and different
from `FileID()`; the call returns in the default build always, and under
`NO_REPEAT_RANDOM` when there are at most two files or some draw from the current position
on differs from `last_` modulo the file count; with three or more files and every draw
equal to `last_` modulo the file count the re-roll loop never ends. -/
theorem RandomFile_in_range (noRepeat : Bool) (this : EffectPtr) (e : Effect)
    (rnd : Nat → Nat) (pos : Nat) (hf : 1 ≤ e.files_found) (hs : e.selected_ = -1) :
    (∀ fuel r, RandomFile noRepeat fuel this e rnd pos = some r →
        r.1.effect_ = some this ∧ 0 ≤ r.1.file_ ∧ r.1.file_ < (e.files_found : Int)
          ∧ r.1 ≠ FileID.null ∧ r.1.toBool = true)
      ∧ ((noRepeat = false ∨ e.files_found ≤ 2
            ∨ ∃ k, (rnd (pos + k) : Int).tmod (e.files_found : Int) ≠ e.last_) →
          ∃ fuel, (RandomFile noRepeat fuel this e rnd pos).isSome = true)
      ∧ (noRepeat = true → 3 ≤ e.files_found →
          (∀ j, (rnd j : Int).tmod (e.files_found : Int) = e.last_) →
          ∀ fuel, RandomFile noRepeat fuel this e rnd pos = none) := by
  have h1 : ¬ ((e.files_found : Int) < 1) := by omega
  have hpos : (0 : Int) < (e.files_found : Int) := by omega
  have hn0 : 0 ≤ (rnd pos : Int).tmod (e.files_found : Int) :=
    Int.tmod_nonneg _ (Int.ofNat_nonneg _)
  have hn1 : (rnd pos : Int).tmod (e.files_found : Int) < (e.files_found : Int) :=
    Int.tmod_lt_of_pos _ hpos
  have hn0' : 0 ≤ (rnd (pos + 1) : Int).tmod (e.files_found : Int) :=
    Int.tmod_nonneg _ (Int.ofNat_nonneg _)
  have hn1' : (rnd (pos + 1) : Int).tmod (e.files_found : Int) < (e.files_found : Int) :=
    Int.tmod_lt_of_pos _ hpos
  refine ⟨?_, ?_, ?_⟩
  · intro fuel r hr
    have key : r.1.effect_ = some this ∧ 0 ≤ r.1.file_ ∧ r.1.file_ < (e.files_found : Int) := by
      cases noRepeat with
      | false =>
        simp only [RandomFile, h1, hs, if_false, ne_eq, not_true_eq_false, Bool.false_eq_true,
          Option.some.injEq] at hr
        subst hr
        exact ⟨rfl, hn0, hn1⟩
      | true =>
        by_cases h3 : 3 ≤ e.files_found
        · rw [RandomFile_noRepeat_many fuel this e rnd pos h3 hs] at hr
          simp only [Option.map_eq_some'] at hr
          obtain ⟨q, hq, rfl⟩ := hr
          obtain ⟨-, hq2⟩ := rerollLoop_spec _ _ _ _ _ _ _ hq
          exact ⟨rfl, hq2 hpos hn0 hn1⟩
        · simp only [RandomFile, h1, hs, if_false, ne_eq, not_true_eq_false, if_true] at hr
          split_ifs at hr with ha hb hc
          · simp only [Option.some.injEq] at hr; subst hr; exact ⟨rfl, hn0', hn1'⟩
          · simp only [Option.some.injEq] at hr; subst hr; exact ⟨rfl, hn0, hn1⟩
          · simp only [Option.some.injEq] at hr; subst hr; exact ⟨rfl, hn0, hn1⟩
          · omega
    refine ⟨key.1, key.2.1, key.2.2, ?_, ?_⟩
    · intro hnull
      have := key.1
      rw [hnull] at this
      simp [FileID.null] at this
    · simp [FileID.toBool, key.1]
  · intro h
    cases noRepeat with
    | false => exact ⟨0, by simp [RandomFile, h1, hs]⟩
    | true =>
      by_cases h3 : 3 ≤ e.files_found
      · have hk : ∃ k, (rnd (pos + k) : Int).tmod (e.files_found : Int) ≠ e.last_ := by
          rcases h with h | h | h
          · simp at h
          · omega
          · exact h
        obtain ⟨k, hk⟩ := hk
        have : ∃ fuel, (rerollLoop (e.files_found : Int) e.last_ rnd fuel
            ((rnd pos : Int).tmod (e.files_found : Int)) (pos + 1)).isSome = true := by
          cases k with
          | zero => exact rerollLoop_returns _ _ _ 0 _ _ (Or.inl (by simpa using hk))
          | succ k =>
            refine rerollLoop_returns _ _ _ k _ _ (Or.inr ?_)
            have e' : pos + 1 + k = pos + (k + 1) := by omega
            rw [e']; exact hk
        obtain ⟨fuel, hfuel⟩ := this
        refine ⟨fuel, ?_⟩
        rw [RandomFile_noRepeat_many fuel this e rnd pos h3 hs]
        simpa using hfuel
      · refine ⟨0, ?_⟩
        simp only [RandomFile, h1, hs, if_false, ne_eq, not_true_eq_false, if_true]
        split_ifs with ha hb hc
        · rfl
        · rfl
        · rfl
        · omega
  · intro hnr h3 hall fuel
    subst hnr
    rw [RandomFile_noRepeat_many fuel this e rnd pos h3 hs, hall pos,
      rerollLoop_never _ _ rnd hall fuel (pos + 1)]
    rfl

theorem RandomFile_in_range_witness :
    1 ≤ (fourFiles "clash".toList none).files_found
      ∧ (fourFiles "clash".toList none).selected_ = -1
      ∧ RandomFile true 2 5 (fourFiles "clash".toList none) (fun j => j) 0
          = some (⟨some 5, 1⟩, { fourFiles "clash".toList none with last_ := 1 }, 2)
      ∧ ((⟨some 5, 1⟩ : FileID).effect_ = some 5 ∧ (0 : Int) ≤ (⟨some 5, 1⟩ : FileID).file_
          ∧ (⟨some 5, 1⟩ : FileID).file_ < ((fourFiles "clash".toList none).files_found : Int)
          ∧ (⟨some 5, 1⟩ : FileID) ≠ FileID.null ∧ (⟨some 5, 1⟩ : FileID).toBool = true) :=
  ⟨by decide, by decide, by decide,
    (RandomFile_in_range true 5 (fourFiles "clash".toList none) (fun j => j) 0
      (by decide) (by decide)).1 2
      (⟨some 5, 1⟩, { fourFiles "clash".toList none with last_ := 1 }, 2) (by decide)⟩

/-- Claim C4 fails as stated: under `NO_REPEAT_RANDOM`, the descriptor `clash` with four
files, no forced selection and `last_ == 0` never returns from `RandomFile()` when every
`rand()` value is `0`, so no handle is produced for that stream of non-negative values. -/
theorem RandomFile_noRepeat_never_returns :
    (fourFiles "clash".toList none).files_found = 4
      ∧ (fourFiles "clash".toList none).selected_ = -1
      ∧ ¬ ∃ fuel, (RandomFile true fuel 5 (fourFiles "clash".toList none) (fun _ => 0) 0).isSome
            = true := by
  refine ⟨by decide, by decide, ?_⟩
  rintro ⟨fuel, h⟩
  have hl : (fourFiles "clash".toList none).last_ = 0 := by decide
  have hall : ∀ j : Nat, (((fun _ => 0) j : Nat) : Int).tmod
      (((fourFiles "clash".toList none).files_found : Nat) : Int)
        = (fourFiles "clash".toList none).last_ := by
    intro j
    rw [hl]
    simp
  rw [RandomFile_noRepeat_many fuel 5 _ _ 0 (by decide) (by decide), hall 0,
    rerollLoop_never _ _ _ hall fuel 1] at h
  simp at h

/-- Claim C10.  Under `NO_REPEAT_RANDOM`, on a descriptor with at least three files and no
forced selection, two consecutive `RandomFile()` calls that both return yield different
indices, for every stream of `rand()` values. -/
theorem RandomFile_consecutive_differ (fuel1 fuel2 : Nat) (this : EffectPtr) (e : Effect)
    (rnd : Nat → Nat) (pos : Nat) (r1 r2 : FileID × Effect × Nat)
    (hf : 3 ≤ e.files_found) (hs : e.selected_ = -1)
    (h1 : RandomFile true fuel1 this e rnd pos = some r1)
    (h2 : RandomFile true fuel2 this r1.2.1 rnd r1.2.2 = some r2) :
    r2.1.file_ ≠ r1.1.file_ := by
  rw [RandomFile_noRepeat_many fuel1 this e rnd pos hf hs] at h1
  simp only [Option.map_eq_some'] at h1
  obtain ⟨q1, -, rfl⟩ := h1
  have hf' : 3 ≤ ({ e with last_ := q1.1 } : Effect).files_found := hf
  have hs' : ({ e with last_ := q1.1 } : Effect).selected_ = -1 := hs
  rw [RandomFile_noRepeat_many fuel2 this _ rnd _ hf' hs'] at h2
  simp only [Option.map_eq_some'] at h2
  obtain ⟨q2, hq2, rfl⟩ := h2
  exact (rerollLoop_spec _ _ _ _ _ _ _ hq2).1

theorem RandomFile_consecutive_differ_witness :
    3 ≤ (fourFiles "clash".toList none).files_found
      ∧ (fourFiles "clash".toList none).selected_ = -1
      ∧ RandomFile true 2 5 (fourFiles "clash".toList none) (fun j => j) 0
          = some (⟨some 5, 1⟩, { fourFiles "clash".toList none with last_ := 1 }, 2)
      ∧ RandomFile true 2 5 { fourFiles "clash".toList none with last_ := 1 } (fun j => j) 2
          = some (⟨some 5, 2⟩, { fourFiles "clash".toList none with last_ := 2 }, 3)
      ∧ (2 : Int) ≠ 1 :=
  ⟨by decide, by decide, by decide, by decide,
    RandomFile_consecutive_differ 2 2 5 (fourFiles "clash".toList none) (fun j => j) 0
      (⟨some 5, 1⟩, { fourFiles "clash".toList none with last_ := 1 }, 2)
      (⟨some 5, 2⟩, { fourFiles "clash".toList none with last_ := 2 }, 3)
      (by decide) (by decide) (by decide) (by decide)⟩

/-! ### The value ranges of the file numbers -/

theorem Valid_reset (e : Effect) : Valid (reset e) := by
  simp [Valid, reset]

theorem ScanNumber_unnumbered (e : Effect) (t : FilePattern) (rest : List Char)
    (h : rest.head? = some '.' ∧ rest.length = 4) :
    ScanNumber e t rest
      = (true, { e with
          unnumbered_file_found_ := true
          file_pattern_ := t
          num_files_ := wrap16 (e.num_files_ + 1) }) := by
  unfold ScanNumber
  rw [if_pos h]

theorem ScanNumber_rejected (e : Effect) (t : FilePattern) (rest : List Char)
    (h : ¬ (rest.head? = some '.' ∧ rest.length = 4)) (hn : (strtol rest).1 ≤ 0) :
    ScanNumber e t rest = (false, e) := by
  unfold ScanNumber
  rw [if_neg h]
  simp only
  rw [if_pos hn]

theorem ScanNumber_numbered (e : Effect) (t : FilePattern) (rest : List Char)
    (h : ¬ (rest.head? = some '.' ∧ rest.length = 4)) (hn : 0 < (strtol rest).1) :
    ScanNumber e t rest
      = (true, { e with
          max_file_ := wrap16 (max e.max_file_ (strtol rest).1)
          min_file_ := wrap16 (min e.min_file_ (strtol rest).1)
          digits_ := if rest.head? = some '0'
                     then wrap8 ((rest.length : Int) - (strtol rest).2.length)
                     else e.digits_
          file_pattern_ := t
          num_files_ := wrap16 (e.num_files_ + 1) }) := by
  unfold ScanNumber
  rw [if_neg h]
  simp only
  rw [if_neg (not_le.mpr hn)]

theorem Valid_ScanNumber (e : Effect) (t : FilePattern) (rest : List Char) (h : Valid e) :
    Valid (ScanNumber e t rest).2 := by
  obtain ⟨h1, h2, h3, h4⟩ := h
  by_cases ha : rest.head? = some '.' ∧ rest.length = 4
  · rw [ScanNumber_unnumbered e t rest ha]
    exact ⟨h1, h2, h3, h4⟩
  · by_cases hn : (strtol rest).1 ≤ 0
    · rw [ScanNumber_rejected e t rest ha hn]
      exact ⟨h1, h2, h3, h4⟩
    · have hn : 0 < (strtol rest).1 := not_le.mp hn
      rw [ScanNumber_numbered e t rest ha hn]
      have hmin : wrap16 (min e.min_file_ (strtol rest).1) = min e.min_file_ (strtol rest).1 :=
        wrap16_eq_self (by omega) (by omega)
      refine ⟨?_, ?_, (wrap16_range _).1, (wrap16_range _).2⟩
      · show 1 ≤ wrap16 (min e.min_file_ (strtol rest).1)
        rw [hmin]; omega
      · show wrap16 (min e.min_file_ (strtol rest).1) ≤ 20000
        rw [hmin]; omega

theorem Valid_ScanExt (e : Effect) (filename : List Char) (t : FilePattern) (rest : List Char)
    (h : Valid e) : Valid (ScanExt e filename t rest).2 := by
  unfold ScanExt
  simp only
  split_ifs
  · exact h
  · exact Valid_ScanNumber _ t rest h
  · exact h
  · exact Valid_ScanNumber _ t rest h

theorem Valid_Scan (e : Effect) (filename : List Char) (h : Valid e) :
    Valid (Scan e filename).2 := by
  unfold Scan
  split
  · exact h
  · split_ifs
    · split
      · exact Valid_ScanExt _ _ _ _ h
      · exact Valid_ScanExt _ _ _ _ h
    · exact Valid_ScanExt _ _ _ _ h

theorem Valid_ScanAll1 (dir filename : List Char) (e : Effect) (h : Valid e) :
    Valid (ScanAll1 dir filename e) := by
  unfold ScanAll1 ScanAllStep
  simp only
  split_ifs
  · exact h
  · exact h
  · exact Valid_Scan e filename h
  · exact Valid_Scan e filename h

theorem Valid_scanSeq (fs : List (List Char)) : ∀ e : Effect, Valid e → Valid (scanSeq e fs) := by
  induction fs with
  | nil => intro e h; exact h
  | cons f fs ih => intro e h; exact ih _ (Valid_Scan e f h)

theorem Valid_scanAllSeq (calls : List (List Char × List Char)) :
    ∀ e : Effect, Valid e → Valid (scanAllSeq e calls) := by
  induction calls with
  | nil => intro e h; exact h
  | cons c cs ih => intro e h; exact ih _ (Valid_ScanAll1 c.1 c.2 e h)

theorem Valid_Select (e : Effect) (n : Int) (h : Valid e) : Valid (e.Select n) := h

theorem Valid_SelectNext (e : Effect) (h : Valid e) : Valid e.SelectNext := h

theorem Valid_SetPaired (e : Effect) (b : Bool) (h : Valid e) : Valid (e.SetPaired b) := h

theorem Valid_SelectFloat (noRepeat : Bool) (e : Effect) (r : ℚ) (rnd : Nat → Nat) (pos : Nat)
    (h : Valid e) : Valid (SelectFloat noRepeat e r rnd pos).1 := by
  unfold SelectFloat
  cases noRepeat <;> exact h

theorem Valid_RandomFile (noRepeat : Bool) (fuel : Nat) (this : EffectPtr) (e : Effect)
    (rnd : Nat → Nat) (pos : Nat) (r : FileID × Effect × Nat) (h : Valid e)
    (hr : RandomFile noRepeat fuel this e rnd pos = some r) : Valid r.2.1 := by
  unfold RandomFile at hr
  simp only at hr
  split_ifs at hr
  all_goals first
    | (simp only [Option.some.injEq] at hr; subst hr; exact h)
    | (simp only [Option.map_eq_some'] at hr; obtain ⟨q, -, rfl⟩ := hr; exact h)

theorem files_found_le_of_Valid (e : Effect) (h : Valid e) : (e.files_found : Int) ≤ 32768 := by
  obtain ⟨h1, h2, h3, h4⟩ := h
  rw [files_found_cast]
  split_ifs <;> omega

/-! ### `SelectFloat` -/

theorem selectFloatLoop_range (e : Effect) (f : Int) (rnd : Nat → Nat) (hf : 0 ≤ f - 1) :
    ∀ (k : Nat) (sel : Int) (pos : Nat), 0 ≤ sel → sel ≤ f - 1 →
      0 ≤ (selectFloatLoop e f rnd k sel pos).1 ∧ (selectFloatLoop e f rnd k sel pos).1 ≤ f - 1 := by
  intro k
  induction k with
  | zero => intro sel pos h0 h1; exact ⟨h0, h1⟩
  | succ k ih =>
    intro sel pos h0 h1
    unfold selectFloatLoop
    split_ifs
    · exact ih _ _ (clamp_range hf).1 (clamp_range hf).2
    · exact ih _ _ (clamp_range hf).1 (clamp_range hf).2
    · exact ⟨h0, h1⟩
    · exact ⟨h0, h1⟩

theorem files_found_SelectFloat (noRepeat : Bool) (e : Effect) (r : ℚ) (rnd : Nat → Nat)
    (pos : Nat) : (SelectFloat noRepeat e r rnd pos).1.files_found = e.files_found := by
  unfold SelectFloat
  cases noRepeat <;> rfl

theorem SelectFloat_plain_eq (e : Effect) (r : ℚ) (rnd : Nat → Nat) (pos : Nat)
    (hf : 1 ≤ e.files_found) (hv : Valid e) :
    SelectFloat false e r rnd pos
      = ({ e with
            selected_ :=
              clamp ⌊roundFloat32 (((e.files_found : Int) : ℚ) * r)⌋ 0
                ((e.files_found : Int) - 1) },
          pos) := by
  have hle := files_found_le_of_Valid e hv
  have hc := @clamp_range ⌊roundFloat32 (((e.files_found : Int) : ℚ) * r)⌋ 0
    ((e.files_found : Int) - 1) (by omega)
  have hw := wrap16_eq_self (x := clamp ⌊roundFloat32 (((e.files_found : Int) : ℚ) * r)⌋ 0
    ((e.files_found : Int) - 1)) (by omega) (by omega)
  simp only [SelectFloat, Bool.false_eq_true, if_false]
  rw [roundFloat32_intCast _ (by omega) (by omega),
    show Rat.floor (roundFloat32 (((e.files_found : Int) : ℚ) * r))
      = ⌊roundFloat32 (((e.files_found : Int) : ℚ) * r)⌋ from rfl, hw]

/-- After the rounding of the product the index is the one of the exact product or the
index after it. -/
theorem clamp_floor_roundFloat32 (f : Int) (x : ℚ) (hf : 1 ≤ f) (hle : f ≤ 32768) :
    clamp ⌊roundFloat32 x⌋ 0 (f - 1) = clamp ⌊x⌋ 0 (f - 1)
      ∨ clamp ⌊roundFloat32 x⌋ 0 (f - 1) = clamp (⌊x⌋ + 1) 0 (f - 1) := by
  by_cases hx : x < 0
  · have h1 : ⌊roundFloat32 x⌋ ≤ 0 := Int.floor_nonpos (roundFloat32_nonpos x hx.le)
    have h2 : ⌊x⌋ < 0 := Int.floor_lt.mpr (by rw [Int.cast_zero]; exact hx)
    left
    unfold clamp
    split_ifs <;> omega
  · have hx0 : 0 ≤ x := not_lt.mp hx
    have h0 : 0 ≤ ⌊x⌋ := Int.floor_nonneg.mpr hx0
    by_cases hk : ⌊x⌋ < f - 1
    · rcases floor_roundFloat32 x hx0 (by omega) with h | h
      · left
        rw [h]
      · right
        rw [h]
    · have h1 : ((f - 1 : Int) : ℚ) ≤ x := Int.le_floor.mp (by omega)
      have h2 := le_roundFloat32 (f - 1) x (by omega) (by omega) h1
      have h3 : f - 1 ≤ ⌊roundFloat32 x⌋ := Int.le_floor.mpr h2
      left
      unfold clamp
      split_ifs <;> omega

/-- Claim C8, as amended.  In the default build, for a descriptor with
`f = files_found() ≥ 1` (the file numbers within the ranges `Scan` maintains), any prior
selection and any ratio `r`, `SelectFloat(r)` stores `clamp(floor(fl(f*r)), 0, f-1)` as
the forced selection, `fl` rounding the product to single precision, and draws no random
number; the stored index is `clamp(floor(f*r), 0, f-1)` whenever the product `f*r` is a
single-precision number, and in every case that index or the index after it;
`SelectFloat(0)` selects `0`, `SelectFloat(1)` selects `f-1`, and the next `RandomFile()`
returns the stored index. -/
theorem SelectFloat_default_selection (e : Effect) (r : ℚ) (rnd : Nat → Nat) (pos : Nat)
    (noRepeat : Bool) (fuel : Nat) (this : EffectPtr)
    (hf : 1 ≤ e.files_found) (hv : Valid e) :
    (SelectFloat false e r rnd pos).1.selected_
        = clamp ⌊roundFloat32 (((e.files_found : Int) : ℚ) * r)⌋ 0 ((e.files_found : Int) - 1)
      ∧ (roundFloat32 (((e.files_found : Int) : ℚ) * r) = ((e.files_found : Int) : ℚ) * r →
          (SelectFloat false e r rnd pos).1.selected_
            = clamp ⌊((e.files_found : Int) : ℚ) * r⌋ 0 ((e.files_found : Int) - 1))
      ∧ ((SelectFloat false e r rnd pos).1.selected_
            = clamp ⌊((e.files_found : Int) : ℚ) * r⌋ 0 ((e.files_found : Int) - 1)
          ∨ (SelectFloat false e r rnd pos).1.selected_
            = clamp (⌊((e.files_found : Int) : ℚ) * r⌋ + 1) 0 ((e.files_found : Int) - 1))
      ∧ (SelectFloat false e r rnd pos).2 = pos
      ∧ (SelectFloat false e 0 rnd pos).1.selected_ = 0
      ∧ (SelectFloat false e 1 rnd pos).1.selected_ = (e.files_found : Int) - 1
      ∧ RandomFile noRepeat fuel this (SelectFloat false e r rnd pos).1 rnd pos
          = some (⟨some this, (SelectFloat false e r rnd pos).1.selected_⟩,
              (SelectFloat false e r rnd pos).1, pos) := by
  have hle := files_found_le_of_Valid e hv
  have hc := @clamp_range ⌊roundFloat32 (((e.files_found : Int) : ℚ) * r)⌋ 0
    ((e.files_found : Int) - 1) (by omega)
  have hsel : (SelectFloat false e r rnd pos).1.selected_
      = clamp ⌊roundFloat32 (((e.files_found : Int) : ℚ) * r)⌋ 0 ((e.files_found : Int) - 1) := by
    rw [SelectFloat_plain_eq e r rnd pos hf hv]
  refine ⟨hsel, fun hfl => ?_, ?_, ?_, ?_, ?_, ?_⟩
  · rw [hsel, hfl]
  · rw [hsel]
    exact clamp_floor_roundFloat32 _ _ (by omega) hle
  · rw [SelectFloat_plain_eq e r rnd pos hf hv]
  · rw [SelectFloat_plain_eq e 0 rnd pos hf hv]
    simp only [mul_zero, roundFloat32_zero, Int.floor_zero, clamp]
    split_ifs <;> omega
  · rw [SelectFloat_plain_eq e 1 rnd pos hf hv]
    simp only [mul_one]
    rw [roundFloat32_intCast _ (by omega) (by omega)]
    simp only [Int.floor_intCast, clamp]
    split_ifs <;> omega
  · have hne : (SelectFloat false e r rnd pos).1.selected_ ≠ -1 := by
      rw [hsel]
      omega
    have hff : 1 ≤ (SelectFloat false e r rnd pos).1.files_found := by
      rw [files_found_SelectFloat]; exact hf
    rw [RandomFile_selected noRepeat fuel this _ rnd pos hff hne]

theorem SelectFloat_default_selection_witness :
    1 ≤ (fourFiles "swng".toList none).files_found ∧ Valid (fourFiles "swng".toList none)
      ∧ (SelectFloat false (fourFiles "swng".toList none) (5 / 8) (fun _ => 0) 0).1.selected_
          = clamp ⌊((((fourFiles "swng".toList none).files_found : Nat) : Int) : ℚ) * (5 / 8)⌋ 0
              ((((fourFiles "swng".toList none).files_found : Nat) : Int) - 1)
      ∧ (SelectFloat false (fourFiles "swng".toList none) (5 / 8) (fun _ => 0) 0).2 = 0
      ∧ (SelectFloat false (fourFiles "swng".toList none) 0 (fun _ => 0) 0).1.selected_ = 0
      ∧ (SelectFloat false (fourFiles "swng".toList none) 1 (fun _ => 0) 0).1.selected_
          = (((fourFiles "swng".toList none).files_found : Nat) : Int) - 1
      ∧ RandomFile false 0 9
            (SelectFloat false (fourFiles "swng".toList none) (5 / 8) (fun _ => 0) 0).1
            (fun _ => 0) 0
          = some (⟨some 9,
                (SelectFloat false (fourFiles "swng".toList none) (5 / 8) (fun _ => 0) 0).1.selected_⟩,
              (SelectFloat false (fourFiles "swng".toList none) (5 / 8) (fun _ => 0) 0).1, 0) :=
  ⟨by decide, by decide,
    (SelectFloat_default_selection (fourFiles "swng".toList none) (5 / 8) (fun _ => 0) 0 false 0 9
      (by decide) (by decide)).2.1 (by decide!),
    (SelectFloat_default_selection (fourFiles "swng".toList none) (5 / 8) (fun _ => 0) 0 false 0 9
      (by decide) (by decide)).2.2.2.1,
    (SelectFloat_default_selection (fourFiles "swng".toList none) (5 / 8) (fun _ => 0) 0 false 0 9
      (by decide) (by decide)).2.2.2.2.1,
    (SelectFloat_default_selection (fourFiles "swng".toList none) (5 / 8) (fun _ => 0) 0 false 0 9
      (by decide) (by decide)).2.2.2.2.2.1,
    (SelectFloat_default_selection (fourFiles "swng".toList none) (5 / 8) (fun _ => 0) 0 false 0 9
      (by decide) (by decide)).2.2.2.2.2.2⟩

/-- Claim C8 fails as stated: with ten files and the ratio `0.7f`, the single-precision
number `11744051 / 2^24`, the product `10 * 0.7f` is rounded to `7.0`, so `SelectFloat`
stores index `7` and the next `RandomFile()` returns it, while `floor(f*r)` over the exact
rationals is `6`. -/
theorem SelectFloat_rounds_product_up :
    tenFiles.files_found = 10
      ∧ roundFloat32 (11744051 / 16777216) = 11744051 / 16777216
      ∧ roundFloat32 (((tenFiles.files_found : Int) : ℚ) * (11744051 / 16777216)) = 7
      ∧ (SelectFloat false tenFiles (11744051 / 16777216) (fun _ => 0) 0).1.selected_ = 7
      ∧ clamp ⌊((tenFiles.files_found : Int) : ℚ) * (11744051 / 16777216)⌋ 0
          ((tenFiles.files_found : Int) - 1) = 6
      ∧ (RandomFile false 0 9
            (SelectFloat false tenFiles (11744051 / 16777216) (fun _ => 0) 0).1
            (fun _ => 0) 0).map (fun x => x.1)
          = some ⟨some 9, 7⟩ := by
  decide!

/-- Claim C9.  For a descriptor with `f = files_found() ≥ 1` (the file numbers within the
ranges `Scan` maintains), every rational ratio, every prior selection and anti-repeat
state and every stream of `rand()` values, the index stored by `SelectFloat` lies in
`[0, f-1]`, in the default build and under `NO_REPEAT_RANDOM`; the file count itself is
not changed by the call. -/
theorem SelectFloat_in_range (noRepeat : Bool) (e : Effect) (r : ℚ) (rnd : Nat → Nat)
    (pos : Nat) (hf : 1 ≤ e.files_found) (hv : Valid e) :
    0 ≤ (SelectFloat noRepeat e r rnd pos).1.selected_
      ∧ (SelectFloat noRepeat e r rnd pos).1.selected_ ≤ (e.files_found : Int) - 1
      ∧ (SelectFloat noRepeat e r rnd pos).1.files_found = e.files_found := by
  have hle := files_found_le_of_Valid e hv
  have h0 : (0 : Int) ≤ (e.files_found : Int) - 1 := by omega
  refine ⟨?_, ?_, files_found_SelectFloat noRepeat e r rnd pos⟩
  all_goals
    cases noRepeat with
    | false =>
      have hc := @clamp_range ⌊roundFloat32 (((e.files_found : Int) : ℚ) * r)⌋ 0
        ((e.files_found : Int) - 1) h0
      rw [SelectFloat_plain_eq e r rnd pos hf hv]
      first | exact hc.1 | exact hc.2
    | true =>
      have hc := @clamp_range
        (Rat.floor (roundFloat32 (roundFloat32 ((e.files_found : Int) : ℚ) * r))) 0
        ((e.files_found : Int) - 1) h0
      have hl := selectFloatLoop_range e (e.files_found : Int) rnd h0 3 _ pos hc.1 hc.2
      have hw := wrap16_eq_self (x := (selectFloatLoop e (e.files_found : Int) rnd 3
        (clamp (Rat.floor (roundFloat32 (roundFloat32 ((e.files_found : Int) : ℚ) * r))) 0
          ((e.files_found : Int) - 1)) pos).1)
        (by omega) (by omega)
      simp only [SelectFloat, if_true]
      rw [hw]
      first | exact hl.1 | exact hl.2

theorem SelectFloat_in_range_witness :
    1 ≤ (fourFiles "swng".toList none).files_found ∧ Valid (fourFiles "swng".toList none)
      ∧ (0 ≤ (SelectFloat true (fourFiles "swng".toList none) (7 / 8) (fun j => j + 1) 0).1.selected_
        ∧ (SelectFloat true (fourFiles "swng".toList none) (7 / 8) (fun j => j + 1) 0).1.selected_
            ≤ (((fourFiles "swng".toList none).files_found : Nat) : Int) - 1
        ∧ (SelectFloat true (fourFiles "swng".toList none) (7 / 8) (fun j => j + 1) 0).1.files_found
            = (fourFiles "swng".toList none).files_found) :=
  ⟨by decide, by decide,
    SelectFloat_in_range true (fourFiles "swng".toList none) (7 / 8) (fun j => j + 1) 0
      (by decide) (by decide)⟩

end Effect

/-! ## `FileID::GetFollowing` -/

/-- Claim C6.  Synchronized case of `GetFollowing`: for a non-null handle `(A, i)` whose
descriptor `A` is paired, and a descriptor `B` with the same file count and no forced
selection, `GetFollowing(B)` returns `(B, i)`, draws no random number and changes no
descriptor. -/
theorem GetFollowing_synchronized (noRepeat : Bool) (fuel : Nat) (heap : EffectPtr → Effect)
    (a : EffectPtr) (i : Int) (b : EffectPtr) (rnd : Nat → Nat) (pos : Nat)
    (hp : (heap a).paired_ = true)
    (hf : (heap b).files_found = (heap a).files_found)
    (hs : (heap b).selected_ = -1) :
    FileID.GetFollowing noRepeat fuel heap ⟨some a, i⟩ b rnd pos
      = some (⟨some b, i⟩, heap, pos) := by
  simp [FileID.GetFollowing, hp, hf, hs]

theorem GetFollowing_synchronized_witness :
    (pairHeap 1).paired_ = true
      ∧ (pairHeap 2).files_found = 4 ∧ (pairHeap 1).files_found = 4
      ∧ (pairHeap 2).selected_ = -1
      ∧ FileID.GetFollowing false 0 pairHeap ⟨some 1, 2⟩ 2 (fun _ => 0) 0
          = some (⟨some 2, 2⟩, pairHeap, 0) :=
  ⟨by decide, by decide, by decide, by decide,
    GetFollowing_synchronized false 0 pairHeap 1 2 2 (fun _ => 0) 0
      (by decide) (by decide) (by decide)⟩

/-- Claim C7.  Fallback case of `GetFollowing`: when the handle is null, or its descriptor
is not paired, or the two file counts differ, or `B` has a forced selection, the call is
`B.RandomFile()` (same handle, same effect on `B`, same draws); in particular, with a
forced selection on `B` and at least one file, the result is `(B, selected_)` whatever the
handle, and nothing changes. -/
theorem GetFollowing_fallback (noRepeat : Bool) (fuel : Nat) (heap : EffectPtr → Effect)
    (fid : FileID) (b : EffectPtr) (rnd : Nat → Nat) (pos : Nat)
    (h : fid.effect_ = none
      ∨ (∃ a, fid.effect_ = some a
          ∧ ((heap a).paired_ = false ∨ (heap a).files_found ≠ (heap b).files_found))
      ∨ (heap b).selected_ ≠ -1) :
    FileID.GetFollowing noRepeat fuel heap fid b rnd pos
        = (Effect.RandomFile noRepeat fuel b (heap b) rnd pos).map
            (fun r => (r.1, Function.update heap b r.2.1, r.2.2))
      ∧ ((heap b).selected_ ≠ -1 → 1 ≤ (heap b).files_found →
          FileID.GetFollowing noRepeat fuel heap fid b rnd pos
            = some (⟨some b, (heap b).selected_⟩, heap, pos)) := by
  have key : FileID.GetFollowing noRepeat fuel heap fid b rnd pos
        = (Effect.RandomFile noRepeat fuel b (heap b) rnd pos).map
            (fun r => (r.1, Function.update heap b r.2.1, r.2.2)) := by
    unfold FileID.GetFollowing
    rcases h with h | ⟨a, ha, h⟩ | h
    · simp [h]
    · rcases h with h | h <;> simp [ha, h]
    · cases hfe : fid.effect_ <;> simp [h]
  refine ⟨key, fun hs hf => ?_⟩
  rw [key, Effect.RandomFile_selected noRepeat fuel b (heap b) rnd pos hf hs]
  simp

theorem GetFollowing_fallback_witness :
    (Function.update pairHeap 2 ((pairHeap 2).Select 1) 2).selected_ ≠ -1
      ∧ 1 ≤ (Function.update pairHeap 2 ((pairHeap 2).Select 1) 2).files_found
      ∧ FileID.GetFollowing true 0 (Function.update pairHeap 2 ((pairHeap 2).Select 1))
            ⟨some 1, 3⟩ 2 (fun _ => 0) 0
          = some (⟨some 2, (Function.update pairHeap 2 ((pairHeap 2).Select 1) 2).selected_⟩,
              Function.update pairHeap 2 ((pairHeap 2).Select 1), 0) :=
  ⟨by decide, by decide,
    (GetFollowing_fallback true 0 (Function.update pairHeap 2 ((pairHeap 2).Select 1))
      ⟨some 1, 3⟩ 2 (fun _ => 0) 0 (Or.inr (Or.inr (by decide)))).2 (by decide) (by decide)⟩

/-! ## Scanning and naming -/

namespace Effect

theorem extString_spec (x : Extension) (h : x ≠ .UNKNOWN) :
    (extString x).length = 4 ∧ (extString x).head? = some '.'
      ∧ ∃ cs, extString x = '.' :: cs := by
  cases x
  case UNKNOWN => exact absurd rfl h
  all_goals exact ⟨by decide, by decide, _, rfl⟩

theorem endswith_extString (s : List Char) (a b : Extension) (ha : a ≠ .UNKNOWN)
    (hb : b ≠ .UNKNOWN) : endswith (extString a) (s ++ extString b) = decide (a = b) := by
  rw [endswith_append _ _ _
    (by rw [(extString_spec a ha).1, (extString_spec b hb).1])]
  cases a <;> cases b <;> first | exact absurd rfl ha | exact absurd rfl hb | decide

theorem IdentifyExtension_append (s : List Char) (x : Extension) (h : x ≠ .UNKNOWN) :
    IdentifyExtension (s ++ extString x) = x := by
  have h1 : endswith ".wav".toList (s ++ extString x) = decide (Extension.WAV = x) :=
    endswith_extString s .WAV x (by decide) h
  have h2 : endswith ".raw".toList (s ++ extString x) = decide (Extension.RAW = x) :=
    endswith_extString s .RAW x (by decide) h
  have h3 : endswith ".usl".toList (s ++ extString x) = decide (Extension.USL = x) :=
    endswith_extString s .USL x (by decide) h
  have h4 : endswith ".bmp".toList (s ++ extString x) = decide (Extension.BMP = x) :=
    endswith_extString s .BMP x (by decide) h
  have h5 : endswith ".pbm".toList (s ++ extString x) = decide (Extension.PBM = x) :=
    endswith_extString s .PBM x (by decide) h
  have h6 : endswith ".bin".toList (s ++ extString x) = decide (Extension.Binary = x) :=
    endswith_extString s .Binary x (by decide) h
  unfold IdentifyExtension
  rw [h1, h2, h3, h4, h5, h6]
  cases x <;> first | exact absurd rfl h | rfl

/-! ### What one `Scan` call does to the descriptor -/

theorem ScanNumber_result (e : Effect) (t : FilePattern) (rest : List Char) :
    ((ScanNumber e t rest).1 = false → (ScanNumber e t rest).2 = e)
      ∧ ((ScanNumber e t rest).1 = true → (ScanNumber e t rest).2.file_pattern_ = t)
      ∧ (ScanNumber e t rest).2.ext_ = e.ext_
      ∧ (ScanNumber e t rest).2.name_ = e.name_
      ∧ (ScanNumber e t rest).2.file_type_ = e.file_type_
      ∧ (ScanNumber e t rest).2.directory_ = e.directory_ := by
  by_cases ha : rest.head? = some '.' ∧ rest.length = 4
  · rw [ScanNumber_unnumbered e t rest ha]
    simp
  · by_cases hn : (strtol rest).1 ≤ 0
    · rw [ScanNumber_rejected e t rest ha hn]
      simp
    · rw [ScanNumber_numbered e t rest ha (not_le.mp hn)]
      simp

theorem ScanExt_result (e : Effect) (filename : List Char) (t : FilePattern)
    (rest : List Char) :
    ((ScanExt e filename t rest).1 = false →
        (ScanExt e filename t rest).2 = e
          ∨ (e.ext_ = .UNKNOWN
              ∧ (ScanExt e filename t rest).2 = { e with ext_ := IdentifyExtension filename }))
      ∧ ((ScanExt e filename t rest).1 = true →
          (ScanExt e filename t rest).2.file_pattern_ = t
            ∧ (ScanExt e filename t rest).2.ext_ = IdentifyExtension filename
            ∧ GetFileType (IdentifyExtension filename) = e.file_type_)
      ∧ (ScanExt e filename t rest).2.name_ = e.name_
      ∧ (ScanExt e filename t rest).2.file_type_ = e.file_type_
      ∧ (ScanExt e filename t rest).2.directory_ = e.directory_ := by
  unfold ScanExt
  simp only
  by_cases h1 : GetFileType (IdentifyExtension filename) ≠ e.file_type_
  · rw [if_pos h1]
    simp
  · rw [if_neg h1]
    have h1' : GetFileType (IdentifyExtension filename) = e.file_type_ := not_not.mp h1
    by_cases h2 : e.ext_ = .UNKNOWN
    · rw [if_pos h2]
      obtain ⟨r1, r2, r3, r4, r5, r6⟩ :=
        ScanNumber_result { e with ext_ := IdentifyExtension filename } t rest
      refine ⟨fun hf => Or.inr ⟨h2, r1 hf⟩, fun ht => ⟨r2 ht, r3, h1'⟩, r4, r5, r6⟩
    · rw [if_neg h2]
      by_cases h3 : e.ext_ ≠ IdentifyExtension filename
      · rw [if_pos h3]
        simp
      · rw [if_neg h3]
        obtain ⟨r1, r2, r3, r4, r5, r6⟩ := ScanNumber_result e t rest
        refine ⟨fun hf => Or.inl (r1 hf), fun ht => ⟨r2 ht, ?_, h1'⟩, r4, r5, r6⟩
        rw [r3]
        exact not_not.mp h3

theorem Scan_result (e : Effect) (filename : List Char) :
    ((Scan e filename).1 = false →
        (Scan e filename).2 = e
          ∨ (e.ext_ = .UNKNOWN
              ∧ (Scan e filename).2 = { e with ext_ := IdentifyExtension filename }))
      ∧ ((Scan e filename).1 = true →
          (Scan e filename).2.file_pattern_ ≠ .UNKNOWN
            ∧ ((Scan e filename).2.file_pattern_ = .NONREDUNDANT_SUBDIRS → e.name_ ≠ [])
            ∧ (Scan e filename).2.ext_ = IdentifyExtension filename
            ∧ GetFileType (IdentifyExtension filename) = e.file_type_)
      ∧ (Scan e filename).2.name_ = e.name_
      ∧ (Scan e filename).2.file_type_ = e.file_type_
      ∧ (Scan e filename).2.directory_ = e.directory_ := by
  unfold Scan
  cases hsw : startswith e.name_ filename with
  | none => simp
  | some rest =>
    simp only
    by_cases hh : rest.head? = some '/'
    · rw [if_pos hh]
      cases hsw2 : startswith e.name_ rest.tail with
      | some tmp =>
        simp only
        obtain ⟨r1, r2, r3, r4, r5⟩ := ScanExt_result e filename .SUBDIRS tmp
        refine ⟨r1, fun ht => ?_, r3, r4, r5⟩
        obtain ⟨q1, q2, q3⟩ := r2 ht
        rw [q1]
        exact ⟨by decide, fun h => absurd h (by decide), q2, q3⟩
      | none =>
        simp only
        obtain ⟨r1, r2, r3, r4, r5⟩ := ScanExt_result e filename .NONREDUNDANT_SUBDIRS rest.tail
        refine ⟨r1, fun ht => ?_, r3, r4, r5⟩
        obtain ⟨q1, q2, q3⟩ := r2 ht
        rw [q1]
        refine ⟨by decide, fun _ hnil => ?_, q2, q3⟩
        rw [hnil] at hsw2
        simp [startswith] at hsw2
    · rw [if_neg hh]
      obtain ⟨r1, r2, r3, r4, r5⟩ := ScanExt_result e filename .FLAT rest
      refine ⟨r1, fun ht => ?_, r3, r4, r5⟩
      obtain ⟨q1, q2, q3⟩ := r2 ht
      rw [q1]
      exact ⟨by decide, fun h => absurd h (by decide), q2, q3⟩

/-! ### The invariant of scanned descriptors -/

theorem ScanAllInv_reset (e : Effect) : ScanAllInv (reset e) := by
  refine ⟨Valid_reset e, ?_⟩
  simp [reset]

theorem ScanAllInv_ScanAll1 (dir filename : List Char) (e : Effect) (h : ScanAllInv e) :
    ScanAllInv (ScanAll1 dir filename e) := by
  unfold ScanAll1
  by_cases hx : IdentifyExtension filename = .UNKNOWN
  · rw [if_pos hx]; exact h
  · rw [if_neg hx]
    unfold ScanAllStep
    by_cases hd : e.directory_ ≠ none ∧ e.directory_ ≠ some dir
    · rw [if_pos hd]; exact h
    · rw [if_neg hd]
      simp only
      obtain ⟨r1, r2, r3, r4, r5⟩ := Scan_result e filename
      have hv := Valid_Scan e filename h.1
      cases hb : (Scan e filename).1 with
      | true =>
        simp only [if_true]
        obtain ⟨q1, q2, q3, q4⟩ := r2 hb
        refine ⟨hv, fun _ => ⟨?_, ?_, by simp, q1, ?_⟩⟩
        · show (Scan e filename).2.ext_ ≠ .UNKNOWN
          rw [q3]; exact hx
        · show GetFileType (Scan e filename).2.ext_ = (Scan e filename).2.file_type_
          rw [q3, r4]; exact q4
        · intro hp
          show (Scan e filename).2.name_ ≠ []
          rw [r3]; exact q2 hp
      | false =>
        simp only [Bool.false_eq_true, if_false]
        rcases r1 hb with heq | ⟨hu, heq⟩
        · rw [heq]; exact h
        · refine ⟨hv, fun hp => ?_⟩
          rw [heq] at hp
          exact absurd hu (h.2 hp).1

theorem ScanAll1_name_type (dir filename : List Char) (e : Effect) :
    (ScanAll1 dir filename e).name_ = e.name_
      ∧ (ScanAll1 dir filename e).file_type_ = e.file_type_ := by
  unfold ScanAll1 ScanAllStep
  obtain ⟨-, -, r3, r4, -⟩ := Scan_result e filename
  simp only
  split_ifs <;> first | exact ⟨rfl, rfl⟩ | exact ⟨r3, r4⟩

theorem scanAllSeq_spec (calls : List (List Char × List Char)) :
    ∀ e : Effect, ScanAllInv e →
      ScanAllInv (scanAllSeq e calls) ∧ (scanAllSeq e calls).name_ = e.name_
        ∧ (scanAllSeq e calls).file_type_ = e.file_type_ := by
  induction calls with
  | nil => intro e h; exact ⟨h, rfl, rfl⟩
  | cons c cs ih =>
    intro e h
    obtain ⟨i1, i2, i3⟩ := ih _ (ScanAllInv_ScanAll1 c.1 c.2 e h)
    obtain ⟨n1, n2⟩ := ScanAll1_name_type c.1 c.2 e
    exact ⟨i1, i2.trans n1, i3.trans n2⟩

/-! ### From a generated name back to the file -/

theorem GetName_eq (e : Effect) (dir : List Char) (hd : e.directory_ = some dir) (i : Int) :
    GetName e i
      = some ((dir ++ if dir ≠ [] then ['/'] else [])
          ++ (e.name_ ++ patternPart e.file_pattern_ e.name_
              ++ ((if i + e.min_file_ ≤ e.max_file_
                    then numberPart e.digits_ (i + e.min_file_) else [])
                  ++ extString e.ext_))) := by
  unfold GetName
  rw [hd]
  cases hp : e.file_pattern_ <;> by_cases hn : i + e.min_file_ ≤ e.max_file_
    <;> simp [hn, patternPart, numberPart, List.append_assoc]

theorem Scan_generated (e : Effect) (p : FilePattern) (c : Char) (cs : List Char)
    (hc : c ≠ '/') (hname : ∀ a ∈ e.name_, a ≠ c) (hp : p ≠ .UNKNOWN)
    (hnr : p = .NONREDUNDANT_SUBDIRS → e.name_ ≠ []) :
    Scan e (e.name_ ++ patternPart p e.name_ ++ c :: cs)
      = ScanExt e (e.name_ ++ patternPart p e.name_ ++ c :: cs) p (c :: cs) := by
  have hsw : startswith e.name_ (e.name_ ++ patternPart p e.name_ ++ c :: cs)
      = some (patternPart p e.name_ ++ c :: cs) := by
    rw [List.append_assoc]
    exact startswith_append _ _
  unfold Scan
  rw [hsw]
  simp only
  cases p with
  | UNKNOWN => exact absurd rfl hp
  | FLAT =>
    have hh : (patternPart .FLAT e.name_ ++ c :: cs).head? ≠ some '/' := by
      simp [patternPart, hc]
    rw [if_neg hh]
    rfl
  | SUBDIRS =>
    have hh : (patternPart .SUBDIRS e.name_ ++ c :: cs).head? = some '/' := rfl
    have ht : (patternPart .SUBDIRS e.name_ ++ c :: cs).tail = e.name_ ++ c :: cs := rfl
    rw [if_pos hh, ht, startswith_append]
  | NONREDUNDANT_SUBDIRS =>
    have hh : (patternPart .NONREDUNDANT_SUBDIRS e.name_ ++ c :: cs).head? = some '/' := rfl
    have ht : (patternPart .NONREDUNDANT_SUBDIRS e.name_ ++ c :: cs).tail = c :: cs := rfl
    have hne := hnr rfl
    obtain ⟨a, as, hnm⟩ := List.exists_cons_of_ne_nil hne
    have hca : c ≠ a := fun h => hname a (by rw [hnm]; exact List.mem_cons_self _ _) h.symm
    rw [if_pos hh, ht, hnm, startswith_head_ne a as c cs hca]

theorem ScanExt_fresh (e : Effect) (filename : List Char) (t : FilePattern) (rest : List Char)
    (ht : GetFileType (IdentifyExtension filename) = e.file_type_) (hu : e.ext_ = .UNKNOWN) :
    ScanExt e filename t rest
      = ScanNumber { e with ext_ := IdentifyExtension filename } t rest := by
  unfold ScanExt
  simp only
  rw [if_neg (not_not.mpr ht), if_pos hu]

theorem isalpha_ne (a c : Char) (ha : isalpha a = true) (hc : c = '.' ∨ isdigit c = true) :
    a ≠ c := by
  rintro rfl
  rcases hc with rfl | hc
  · exact absurd ha (by decide)
  · simp only [isalpha, Bool.or_eq_true, Bool.and_eq_true, decide_eq_true_eq] at ha
    simp only [isdigit, Bool.and_eq_true, decide_eq_true_eq] at hc
    omega

/-- `Scan` of a generated name on a descriptor that has not yet locked an extension: the
name, the shape part, then `tl` (the digits, if any) and the extension text. -/
theorem Scan_generated_fresh (F : Effect) (p : FilePattern) (x : Extension) (tl : List Char)
    (hu : F.ext_ = .UNKNOWN) (hx : x ≠ .UNKNOWN) (hty : GetFileType x = F.file_type_)
    (hp : p ≠ .UNKNOWN) (hnr : p = .NONREDUNDANT_SUBDIRS → F.name_ ≠ [])
    (hname : ∀ a ∈ F.name_, isalpha a = true)
    (htl : ∀ c, (tl ++ extString x).head? = some c → c = '.' ∨ isdigit c = true) :
    Scan F (F.name_ ++ patternPart p F.name_ ++ (tl ++ extString x))
      = ScanNumber { F with ext_ := x } p (tl ++ extString x) := by
  obtain ⟨-, -, ds, hds⟩ := extString_spec x hx
  obtain ⟨c, cs, hcs⟩ : ∃ c cs, tl ++ extString x = c :: cs := by
    cases tl with
    | nil => exact ⟨'.', ds, by rw [hds]; rfl⟩
    | cons c cs => exact ⟨c, cs ++ extString x, rfl⟩
  have hc : c = '.' ∨ isdigit c = true := htl c (by rw [hcs]; rfl)
  have hslash : c ≠ '/' := by
    rcases hc with rfl | hc
    · decide
    · exact (isdigit_not_space c hc).2.2.2.2
  have hid : IdentifyExtension (F.name_ ++ patternPart p F.name_ ++ (tl ++ extString x)) = x := by
    rw [← List.append_assoc]
    exact IdentifyExtension_append _ x hx
  have hgen := Scan_generated F p c cs hslash (fun a ha => isalpha_ne a c (hname a ha) hc) hp hnr
  rw [← hcs] at hgen
  rw [hgen, ScanExt_fresh F _ p _ (by rw [hid]; exact hty) hu, hid]

theorem numberPart_spec (d n : Int) (h1 : 1 ≤ n) :
    ∃ ds : List Char, numberPart d n = ds ∧ ds ≠ [] ∧ (∀ c ∈ ds, isdigit c = true)
      ∧ digitsValue ds = n.toNat := by
  have hit : itoa n = Nat.toDigits 10 n.toNat := by
    unfold itoa
    rw [if_neg (by omega)]
  obtain ⟨t1, t2, t3⟩ := toDigits_spec n.toNat
  refine ⟨_, rfl, ?_, ?_, ?_⟩
  · unfold numberPart
    rw [hit]
    simp [t3]
  · unfold numberPart
    rw [hit]
    intro c hc
    rcases List.mem_append.mp hc with hc | hc
    · rw [List.eq_of_mem_replicate hc]
      decide
    · exact t1 c hc
  · unfold numberPart
    rw [hit, digitsValue_zeros, t2]

theorem ScanNumber_generated_number (e : Effect) (p : FilePattern) (x : Extension)
    (d n : Int) (hx : x ≠ .UNKNOWN) (h1 : 1 ≤ n) (h2 : n ≤ 32767) :
    (∀ c, (numberPart d n ++ extString x).head? = some c → c = '.' ∨ isdigit c = true)
      ∧ (ScanNumber e p (numberPart d n ++ extString x)).1 = true
      ∧ (ScanNumber e p (numberPart d n ++ extString x)).2.max_file_ = wrap16 (max e.max_file_ n)
      ∧ (ScanNumber e p (numberPart d n ++ extString x)).2.min_file_ = wrap16 (min e.min_file_ n)
      ∧ (ScanNumber e p (numberPart d n ++ extString x)).2.unnumbered_file_found_
          = e.unnumbered_file_found_
      ∧ (ScanNumber e p (numberPart d n ++ extString x)).2.file_pattern_ = p
      ∧ (ScanNumber e p (numberPart d n ++ extString x)).2.ext_ = e.ext_
      ∧ (ScanNumber e p (numberPart d n ++ extString x)).2.num_files_
          = wrap16 (e.num_files_ + 1) := by
  obtain ⟨ds, hds, hne, hdig, hval⟩ := numberPart_spec d n h1
  obtain ⟨-, hhead, -⟩ := extString_spec x hx
  obtain ⟨c, cs, rfl⟩ := List.exists_cons_of_ne_nil hne
  have hcd : isdigit c = true := hdig c (List.mem_cons_self _ _)
  have hst : strtol (numberPart d n ++ extString x) = (n, extString x) := by
    rw [hds, strtol_digits _ _ hne hdig
      (fun c' hc' => by rw [hhead] at hc'; cases hc'; decide), hval]
    have : ((n.toNat : Nat) : Int) = n := Int.toNat_of_nonneg (by omega)
    rw [this]
    simp only [LONG_MIN, LONG_MAX]
    congr 1
    omega
  have hnot : ¬ ((numberPart d n ++ extString x).head? = some '.'
      ∧ (numberPart d n ++ extString x).length = 4) := by
    rw [hds]
    rintro ⟨hh, -⟩
    simp only [List.cons_append, List.head?_cons, Option.some.injEq] at hh
    exact (isdigit_not_space c hcd).2.2.2.1 hh
  have hpos : 0 < (strtol (numberPart d n ++ extString x)).1 := by rw [hst]; omega
  refine ⟨?_, ?_⟩
  · intro c' hc'
    rw [hds] at hc'
    simp only [List.cons_append, List.head?_cons, Option.some.injEq] at hc'
    exact Or.inr (hc' ▸ hcd)
  · rw [ScanNumber_numbered e p _ hnot hpos, hst]
    exact ⟨rfl, rfl, rfl, rfl, rfl, rfl, rfl⟩

theorem ScanNumber_generated_plain (e : Effect) (p : FilePattern) (x : Extension)
    (hx : x ≠ .UNKNOWN) :
    (∀ c, (([] : List Char) ++ extString x).head? = some c → c = '.' ∨ isdigit c = true)
      ∧ ScanNumber e p ([] ++ extString x)
        = (true, { e with
            unnumbered_file_found_ := true
            file_pattern_ := p
            num_files_ := wrap16 (e.num_files_ + 1) }) := by
  obtain ⟨hlen, hhead, -⟩ := extString_spec x hx
  refine ⟨?_, ?_⟩
  · intro c hc
    rw [List.nil_append, hhead] at hc
    cases hc
    exact Or.inl rfl
  · rw [List.nil_append]
    exact ScanNumber_unnumbered e p _ ⟨hhead, hlen⟩

/-- Claim C1.  Round trip `GetName` → `Scan`: for a descriptor whose name consists of
letters, in every state reached from `reset()` by `ScanAll` calls, and for every index `i`
with `0 ≤ i < files_found()`, `GetName(i)` writes the bound directory (followed by `/`
unless it is empty) and then a name `rel` that `Scan` accepts on a freshly reset
descriptor of the same name and kind; that scan records the same naming pattern and the
same extension, counts one file, and identifies the same file: the number `min + i` when
`min + i ≤ max`, and the unnumbered slot (no number at all) otherwise. -/
theorem GetName_Scan_roundtrip (e0 fresh : Effect) (calls : List (List Char × List Char))
    (i : Int) (hname : ∀ a ∈ e0.name_, isalpha a = true)
    (hfn : fresh.name_ = e0.name_) (hft : fresh.file_type_ = e0.file_type_)
    (hi0 : 0 ≤ i) (hi : i < ((scanAllSeq (reset e0) calls).files_found : Int)) :
    ∃ dir rel,
      (scanAllSeq (reset e0) calls).directory_ = some dir
        ∧ GetName (scanAllSeq (reset e0) calls) i
            = some ((dir ++ if dir ≠ [] then ['/'] else []) ++ rel)
        ∧ (Scan (reset fresh) rel).1 = true
        ∧ (Scan (reset fresh) rel).2.file_pattern_ = (scanAllSeq (reset e0) calls).file_pattern_
        ∧ (Scan (reset fresh) rel).2.ext_ = (scanAllSeq (reset e0) calls).ext_
        ∧ (Scan (reset fresh) rel).2.num_files_ = 1
        ∧ (if (scanAllSeq (reset e0) calls).min_file_ + i ≤ (scanAllSeq (reset e0) calls).max_file_
            then (Scan (reset fresh) rel).2.max_file_ = (scanAllSeq (reset e0) calls).min_file_ + i
              ∧ (Scan (reset fresh) rel).2.unnumbered_file_found_ = false
            else (Scan (reset fresh) rel).2.unnumbered_file_found_ = true
              ∧ (Scan (reset fresh) rel).2.max_file_ = -1
              ∧ (Scan (reset fresh) rel).2.min_file_ = 20000) := by
  obtain ⟨⟨hv, hacc⟩, hnm, hty⟩ := scanAllSeq_spec calls (reset e0) (ScanAllInv_reset e0)
  generalize scanAllSeq (reset e0) calls = e at *
  have hprem : e.min_file_ ≤ e.max_file_ ∨ e.unnumbered_file_found_ = true := by
    by_contra hcon
    rw [not_or] at hcon
    rw [files_found_cast, if_neg hcon.1, if_neg hcon.2] at hi
    omega
  obtain ⟨a1, a2, a3, a4, a5⟩ := hacc hprem
  obtain ⟨dir, hdir⟩ : ∃ dir, e.directory_ = some dir := Option.ne_none_iff_exists'.mp a3
  have hFn : (reset fresh).name_ = e.name_ := hfn.trans hnm.symm
  have hFt : GetFileType e.ext_ = (reset fresh).file_type_ := a2.trans (hty.trans hft.symm)
  have hFname : ∀ a ∈ (reset fresh).name_, isalpha a = true := by
    intro a ha
    rw [hFn, hnm] at ha
    exact hname a ha
  have hFnr : e.file_pattern_ = .NONREDUNDANT_SUBDIRS → (reset fresh).name_ ≠ [] := by
    intro hp
    rw [hFn]
    exact a5 hp
  refine ⟨dir, _, hdir, GetName_eq e dir hdir i, ?_⟩
  rw [← hFn]
  obtain ⟨v1, v2, v3, v4⟩ := hv
  by_cases hn : i + e.min_file_ ≤ e.max_file_
  · have hn' : e.min_file_ + i ≤ e.max_file_ := by omega
    rw [if_pos hn, if_pos hn']
    obtain ⟨g0, g1, g2, -, g4, g5, g6, g7⟩ :=
      ScanNumber_generated_number { reset fresh with ext_ := e.ext_ } e.file_pattern_ e.ext_
        e.digits_ (i + e.min_file_) a1 (by omega) (by omega)
    rw [Scan_generated_fresh (reset fresh) e.file_pattern_ e.ext_ _ rfl a1 hFt a4 hFnr hFname g0]
    refine ⟨g1, g5, g6, g7, ?_, g4⟩
    rw [g2]
    show wrap16 (max (-1) (i + e.min_file_)) = e.min_file_ + i
    rw [max_eq_right (by omega), wrap16_eq_self (by omega) (by omega)]
    omega
  · have hn' : ¬ e.min_file_ + i ≤ e.max_file_ := by omega
    rw [if_neg hn, if_neg hn']
    obtain ⟨g0, g1⟩ :=
      ScanNumber_generated_plain { reset fresh with ext_ := e.ext_ } e.file_pattern_ e.ext_ a1
    rw [Scan_generated_fresh (reset fresh) e.file_pattern_ e.ext_ _ rfl a1 hFt a4 hFnr hFname g0,
      g1]
    exact ⟨rfl, rfl, rfl, rfl, rfl, rfl, rfl⟩

theorem GetName_Scan_roundtrip_witness :
    (∀ a ∈ (mk0 "hum".toList (some 3) .SOUND).name_, isalpha a = true)
      ∧ (0 : Int) ≤ 1 ∧ (1 : Int) < (humScanned.files_found : Int)
      ∧ GetName humScanned 1 = some "font/hum02.wav".toList
      ∧ ∃ dir rel,
          humScanned.directory_ = some dir
            ∧ GetName humScanned 1 = some ((dir ++ if dir ≠ [] then ['/'] else []) ++ rel)
            ∧ (Scan (reset (mk0 "hum".toList none .SOUND)) rel).1 = true
            ∧ (Scan (reset (mk0 "hum".toList none .SOUND)) rel).2.file_pattern_
                = humScanned.file_pattern_
            ∧ (Scan (reset (mk0 "hum".toList none .SOUND)) rel).2.ext_ = humScanned.ext_
            ∧ (Scan (reset (mk0 "hum".toList none .SOUND)) rel).2.num_files_ = 1
            ∧ (if humScanned.min_file_ + 1 ≤ humScanned.max_file_
                then (Scan (reset (mk0 "hum".toList none .SOUND)) rel).2.max_file_
                    = humScanned.min_file_ + 1
                  ∧ (Scan (reset (mk0 "hum".toList none .SOUND)) rel).2.unnumbered_file_found_
                    = false
                else (Scan (reset (mk0 "hum".toList none .SOUND)) rel).2.unnumbered_file_found_
                    = true
                  ∧ (Scan (reset (mk0 "hum".toList none .SOUND)) rel).2.max_file_ = -1
                  ∧ (Scan (reset (mk0 "hum".toList none .SOUND)) rel).2.min_file_ = 20000) :=
  ⟨by decide, by decide, by decide, by decide,
    GetName_Scan_roundtrip (mk0 "hum".toList (some 3) .SOUND) (mk0 "hum".toList none .SOUND)
      [("font".toList, "hum01.wav".toList), ("font".toList, "hum02.wav".toList),
       ("font".toList, "hum.wav".toList)] 1 (by decide) rfl rfl (by decide) (by decide)⟩

end Effect

/-! ## The number of re-rolls -/

namespace Effect

theorem rerollLoop_exact (f last : Int) (rnd : Nat → Nat) :
    ∀ (k fuel pos : Nat),
      (∀ j, j < k → (rnd (pos + j) : Int).tmod f = last) →
      (rnd (pos + k) : Int).tmod f ≠ last → k + 2 ≤ fuel →
        rerollLoop f last rnd fuel last pos = some ((rnd (pos + k) : Int).tmod f, pos + k + 1) := by
  intro k
  induction k with
  | zero =>
    intro fuel pos _ hk hfuel
    obtain ⟨fuel, rfl⟩ : ∃ m, fuel = m + 2 := ⟨fuel - 2, by omega⟩
    have hk' : (rnd pos : Int).tmod f ≠ last := by simpa using hk
    simp [rerollLoop, hk']
  | succ k ih =>
    intro fuel pos hall hk hfuel
    obtain ⟨fuel, rfl⟩ : ∃ m, fuel = m + 1 := ⟨fuel - 1, by omega⟩
    have h0 : (rnd pos : Int).tmod f = last := by simpa using hall 0 (by omega)
    have e1 : pos + 1 + k = pos + (k + 1) := by omega
    have hall' : ∀ j, j < k → (rnd (pos + 1 + j) : Int).tmod f = last := by
      intro j hj
      have e2 : pos + 1 + j = pos + (j + 1) := by omega
      rw [e2]
      exact hall (j + 1) (by omega)
    have step := ih fuel (pos + 1) hall' (by rw [e1]; exact hk) (by omega)
    unfold rerollLoop
    rw [if_pos rfl, h0, step, e1]

/-- Claim C11, as amended.  Under `NO_REPEAT_RANDOM`, with no forced selection: with one
or two files `RandomFile()` always returns, after at most two draws (one draw with one
file, at most one re-roll with two); with three or more files the re-rolls are not
bounded: when the first `k` draws all equal `last_` modulo the file count and the next one
differs, the call returns that next draw after exactly `k + 1` draws, for every `k`. -/
theorem RandomFile_rerolls (this : EffectPtr) (e : Effect) (rnd : Nat → Nat) (pos : Nat)
    (hf : 1 ≤ e.files_found) (hs : e.selected_ = -1) :
    (e.files_found ≤ 2 →
        ∀ fuel, ∃ r, RandomFile true fuel this e rnd pos = some r
          ∧ pos + 1 ≤ r.2.2 ∧ r.2.2 ≤ pos + 2 ∧ (e.files_found = 1 → r.2.2 = pos + 1))
      ∧ (3 ≤ e.files_found →
          ∀ k fuel,
            (∀ j, j < k → (rnd (pos + j) : Int).tmod (e.files_found : Int) = e.last_) →
            (rnd (pos + k) : Int).tmod (e.files_found : Int) ≠ e.last_ → k + 1 ≤ fuel →
              RandomFile true fuel this e rnd pos
                = some (⟨some this, (rnd (pos + k) : Int).tmod (e.files_found : Int)⟩,
                    { e with last_ := (rnd (pos + k) : Int).tmod (e.files_found : Int) },
                    pos + k + 1)) := by
  have h1 : ¬ ((e.files_found : Int) < 1) := by omega
  constructor
  · intro h2 fuel
    simp only [RandomFile, h1, hs, if_false, ne_eq, not_true_eq_false, if_true]
    split_ifs with ha hb hc
    · exact ⟨_, rfl, by simp, by simp, fun h => by omega⟩
    · exact ⟨_, rfl, by simp, by simp, fun _ => rfl⟩
    · exact ⟨_, rfl, by simp, by simp, fun _ => rfl⟩
    · omega
  · intro h3 k fuel hall hk hfuel
    rw [RandomFile_noRepeat_many fuel this e rnd pos h3 hs]
    cases k with
    | zero =>
      obtain ⟨fuel, rfl⟩ : ∃ m, fuel = m + 1 := ⟨fuel - 1, by omega⟩
      have hk' : (rnd pos : Int).tmod (e.files_found : Int) ≠ e.last_ := by simpa using hk
      simp [rerollLoop, hk']
    | succ k =>
      have h0 : (rnd pos : Int).tmod (e.files_found : Int) = e.last_ := by
        simpa using hall 0 (by omega)
      have e1 : pos + 1 + k = pos + (k + 1) := by omega
      have hall' : ∀ j, j < k →
          (rnd (pos + 1 + j) : Int).tmod (e.files_found : Int) = e.last_ := by
        intro j hj
        have e2 : pos + 1 + j = pos + (j + 1) := by omega
        rw [e2]
        exact hall (j + 1) (by omega)
      rw [h0, rerollLoop_exact _ _ rnd k fuel (pos + 1) hall' (by rw [e1]; exact hk) (by omega),
        e1]
      rfl

theorem RandomFile_rerolls_witness :
    1 ≤ (fourFiles "clash".toList none).files_found
      ∧ (fourFiles "clash".toList none).selected_ = -1
      ∧ 3 ≤ (fourFiles "clash".toList none).files_found
      ∧ RandomFile true 8 5 (fourFiles "clash".toList none) (fun j => if j < 7 then 0 else 2) 0
          = some (⟨some 5,
                ((((fun j => if j < 7 then 0 else 2) (0 + 7) : Nat) : Int)).tmod
                  (((fourFiles "clash".toList none).files_found : Nat) : Int)⟩,
              { fourFiles "clash".toList none with
                last_ := ((((fun j => if j < 7 then 0 else 2) (0 + 7) : Nat) : Int)).tmod
                  (((fourFiles "clash".toList none).files_found : Nat) : Int) },
              0 + 7 + 1) :=
  ⟨by decide, by decide, by decide,
    (RandomFile_rerolls 5 (fourFiles "clash".toList none) (fun j => if j < 7 then 0 else 2) 0
      (by decide) (by decide)).2 (by decide) 7 8 (by decide) (by decide) (by decide)⟩

/-- Claim C11 fails as stated: under `NO_REPEAT_RANDOM`, the descriptor `clash` with four
files and `last_ == 0` makes six draws (five re-rolls, more than three) before it returns,
when `rand()` yields `0` five times and then `1`. -/
theorem RandomFile_five_rerolls :
    (fourFiles "clash".toList none).files_found = 4
      ∧ (fourFiles "clash".toList none).selected_ = -1
      ∧ (fourFiles "clash".toList none).last_ = 0
      ∧ RandomFile true 6 5 (fourFiles "clash".toList none) (fun j => if j < 5 then 0 else 1) 0
          = some (⟨some 5, 1⟩, { fourFiles "clash".toList none with last_ := 1 }, 6)
      ∧ RandomFile true 4 5 (fourFiles "clash".toList none) (fun j => if j < 5 then 0 else 1) 0
          = none := by
  decide

end Effect

/-! ## The shape and the number of a file name -/

theorem startswith_eq_some (p x r : List Char) (h : startswith p x = some r) : x = p ++ r := by
  induction p generalizing x with
  | nil =>
    cases x <;> simp [startswith] at h <;> simp [h]
  | cons a p ih =>
    cases x with
    | nil => simp [startswith] at h
    | cons c cs =>
      simp only [startswith] at h
      split_ifs at h with hc
      rw [ih cs h, hc]
      rfl

namespace Effect

theorem Scan_eq_nameRest (e : Effect) (filename : List Char) :
    Scan e filename
      = match nameRest e.name_ filename with
        | none => (false, e)
        | some r => ScanExt e filename r.1 r.2 := by
  unfold Scan nameRest
  cases startswith e.name_ filename with
  | none => rfl
  | some rest =>
    simp only
    by_cases hh : rest.head? = some '/'
    · rw [if_pos hh, if_pos hh]
      cases startswith e.name_ rest.tail <;> rfl
    · rw [if_neg hh, if_neg hh]

theorem nameRest_suffix (name filename : List Char) (t : FilePattern) (rest : List Char)
    (h : nameRest name filename = some (t, rest)) :
    t ≠ .UNKNOWN ∧ ∃ pre, filename = pre ++ rest := by
  unfold nameRest at h
  cases hsw : startswith name filename with
  | none => rw [hsw] at h; simp at h
  | some r0 =>
    rw [hsw] at h
    simp only at h
    have h0 := startswith_eq_some _ _ _ hsw
    by_cases hh : r0.head? = some '/'
    · rw [if_pos hh] at h
      obtain ⟨cs, rfl⟩ : ∃ cs, r0 = '/' :: cs := by
        cases r0 with
        | nil => simp at hh
        | cons c cs => simp only [List.head?_cons, Option.some.injEq] at hh; exact ⟨cs, by rw [hh]⟩
      cases hsw2 : startswith name ('/' :: cs).tail with
      | none =>
        rw [hsw2] at h
        simp only [Option.some.injEq, Prod.mk.injEq] at h
        obtain ⟨rfl, rfl⟩ := h
        exact ⟨by decide, name ++ ['/'], by rw [h0]; simp⟩
      | some tmp =>
        rw [hsw2] at h
        simp only [Option.some.injEq, Prod.mk.injEq] at h
        obtain ⟨rfl, rfl⟩ := h
        have h1 := startswith_eq_some _ _ _ hsw2
        simp only [List.tail_cons] at h1
        exact ⟨by decide, name ++ '/' :: name, by rw [h0, h1]; simp⟩
    · rw [if_neg hh] at h
      simp only [Option.some.injEq, Prod.mk.injEq] at h
      obtain ⟨rfl, rfl⟩ := h
      exact ⟨by decide, name, h0⟩

/-! ### Pattern classification -/

theorem Scan_fresh_numbered (e0 : Effect) (p : FilePattern) (x : Extension) (d N : Int)
    (hname : ∀ a ∈ e0.name_, isalpha a = true) (hx : x ≠ .UNKNOWN)
    (hty : GetFileType x = e0.file_type_) (hp : p ≠ .UNKNOWN)
    (hnr : p = .NONREDUNDANT_SUBDIRS → e0.name_ ≠ []) (h1 : 1 ≤ N) (h2 : N ≤ 32767) :
    (Scan (reset e0) (e0.name_ ++ patternPart p e0.name_ ++ (numberPart d N ++ extString x))).1
        = true
      ∧ (Scan (reset e0)
          (e0.name_ ++ patternPart p e0.name_ ++ (numberPart d N ++ extString x))).2.file_pattern_
        = p
      ∧ (Scan (reset e0)
          (e0.name_ ++ patternPart p e0.name_ ++ (numberPart d N ++ extString x))).2.max_file_
        = N
      ∧ (Scan (reset e0)
          (e0.name_ ++ patternPart p e0.name_ ++ (numberPart d N ++ extString x))).2.min_file_
        = min 20000 N
      ∧ (Scan (reset e0)
          (e0.name_ ++ patternPart p e0.name_ ++ (numberPart d N ++ extString x))).2.ext_
        = x := by
  obtain ⟨g0, g1, g2, g3, -, g5, g6, -⟩ :=
    ScanNumber_generated_number { reset e0 with ext_ := x } p x d N hx h1 h2
  have hS := Scan_generated_fresh (reset e0) p x (numberPart d N) rfl hx hty hp hnr hname g0
  have hS' : Scan (reset e0) (e0.name_ ++ patternPart p e0.name_ ++ (numberPart d N ++ extString x))
      = ScanNumber { reset e0 with ext_ := x } p (numberPart d N ++ extString x) := hS
  rw [hS']
  refine ⟨g1, g5, ?_, ?_, g6⟩
  · rw [g2]
    show wrap16 (max (-1) N) = N
    rw [max_eq_right (by omega), wrap16_eq_self (by omega) (by omega)]
  · rw [g3]
    show wrap16 (min 20000 N) = min 20000 N
    exact wrap16_eq_self (by omega) (by omega)

theorem ScanNumber_generated_large (e : Effect) (p : FilePattern) (x : Extension)
    (d n : Int) (hx : x ≠ .UNKNOWN) (h1 : 1 ≤ n) :
    (∀ c, (numberPart d n ++ extString x).head? = some c → c = '.' ∨ isdigit c = true)
      ∧ (ScanNumber e p (numberPart d n ++ extString x)).1 = true
      ∧ (ScanNumber e p (numberPart d n ++ extString x)).2.max_file_
          = wrap16 (max e.max_file_ (min LONG_MAX n))
      ∧ (ScanNumber e p (numberPart d n ++ extString x)).2.min_file_
          = wrap16 (min e.min_file_ (min LONG_MAX n))
      ∧ (ScanNumber e p (numberPart d n ++ extString x)).2.file_pattern_ = p
      ∧ (ScanNumber e p (numberPart d n ++ extString x)).2.ext_ = e.ext_ := by
  obtain ⟨ds, hds, hne, hdig, hval⟩ := numberPart_spec d n h1
  obtain ⟨-, hhead, -⟩ := extString_spec x hx
  obtain ⟨c, cs, rfl⟩ := List.exists_cons_of_ne_nil hne
  have hcd : isdigit c = true := hdig c (List.mem_cons_self _ _)
  have hst : strtol (numberPart d n ++ extString x) = (min LONG_MAX n, extString x) := by
    rw [hds, strtol_digits _ _ hne hdig
      (fun c' hc' => by rw [hhead] at hc'; cases hc'; decide), hval]
    have : ((n.toNat : Nat) : Int) = n := Int.toNat_of_nonneg (by omega)
    rw [this]
    simp only [LONG_MIN, LONG_MAX]
    congr 1
    omega
  have hnot : ¬ ((numberPart d n ++ extString x).head? = some '.'
      ∧ (numberPart d n ++ extString x).length = 4) := by
    rw [hds]
    rintro ⟨hh, -⟩
    simp only [List.cons_append, List.head?_cons, Option.some.injEq] at hh
    exact (isdigit_not_space c hcd).2.2.2.1 hh
  have hpos : 0 < (strtol (numberPart d n ++ extString x)).1 := by
    rw [hst]
    simp only [LONG_MAX]
    omega
  refine ⟨?_, ?_⟩
  · intro c' hc'
    rw [hds] at hc'
    simp only [List.cons_append, List.head?_cons, Option.some.injEq] at hc'
    exact Or.inr (hc' ▸ hcd)
  · rw [ScanNumber_numbered e p _ hnot hpos, hst]
    exact ⟨rfl, rfl, rfl, rfl, rfl⟩

/-- A numbered file of any size on a freshly reset descriptor: accepted with the pattern
of its shape; the smallest number stays at the `20000` of `reset()` unless the number is
smaller, and the largest number is the number as an `int16_t`. -/
theorem Scan_fresh_numbered_large (e0 : Effect) (p : FilePattern) (x : Extension) (d N : Int)
    (hname : ∀ a ∈ e0.name_, isalpha a = true) (hx : x ≠ .UNKNOWN)
    (hty : GetFileType x = e0.file_type_) (hp : p ≠ .UNKNOWN)
    (hnr : p = .NONREDUNDANT_SUBDIRS → e0.name_ ≠ []) (h1 : 1 ≤ N) :
    (Scan (reset e0) (e0.name_ ++ patternPart p e0.name_ ++ (numberPart d N ++ extString x))).1
        = true
      ∧ (Scan (reset e0)
          (e0.name_ ++ patternPart p e0.name_ ++ (numberPart d N ++ extString x))).2.file_pattern_
        = p
      ∧ (Scan (reset e0)
          (e0.name_ ++ patternPart p e0.name_ ++ (numberPart d N ++ extString x))).2.min_file_
        = min 20000 N
      ∧ (Scan (reset e0)
          (e0.name_ ++ patternPart p e0.name_ ++ (numberPart d N ++ extString x))).2.max_file_
        = wrap16 (min LONG_MAX N)
      ∧ (N ≤ 32767 →
          (Scan (reset e0)
            (e0.name_ ++ patternPart p e0.name_ ++ (numberPart d N ++ extString x))).2.max_file_
          = N) := by
  obtain ⟨g0, g1, g2, g3, g5, -⟩ :=
    ScanNumber_generated_large { reset e0 with ext_ := x } p x d N hx h1
  have hS := Scan_generated_fresh (reset e0) p x (numberPart d N) rfl hx hty hp hnr hname g0
  have hS' : Scan (reset e0) (e0.name_ ++ patternPart p e0.name_ ++ (numberPart d N ++ extString x))
      = ScanNumber { reset e0 with ext_ := x } p (numberPart d N ++ extString x) := hS
  rw [hS']
  have hmax : (ScanNumber { reset e0 with ext_ := x } p (numberPart d N ++ extString x)).2.max_file_
      = wrap16 (min LONG_MAX N) := by
    rw [g2]
    show wrap16 (max (-1) (min LONG_MAX N)) = wrap16 (min LONG_MAX N)
    rw [max_eq_right (by simp only [LONG_MAX]; omega)]
  refine ⟨g1, g5, ?_, hmax, fun h2 => ?_⟩
  · rw [g3]
    show wrap16 (min 20000 (min LONG_MAX N)) = min 20000 N
    simp only [LONG_MAX]
    rw [wrap16_eq_self (by omega) (by omega)]
    omega
  · rw [hmax]
    simp only [LONG_MAX]
    rw [min_eq_right (by omega), wrap16_eq_self (by omega) (by omega)]

/-- Claim C12, as amended.  For a descriptor name made of letters, every number `N ≥ 1`
written in decimal (with or without leading zeros: `d` is the width) and an allow-listed
extension of the descriptor's kind, `Scan` on a freshly reset descriptor accepts
`NAME<N>.ext` with pattern `FLAT` and `NAME/NAME<N>.ext` with pattern `SUBDIRS`, and, when
the name is not empty, `NAME/<N>.ext` with pattern `NONREDUNDANT_SUBDIRS`.  In each case
it records `min = N` for `N ≤ 20000` and leaves `min` at the `20000` of `reset()` for a
larger number, and it records `max = N` for `N ≤ 32767`; in general `max` is the number,
limited to `LONG_MAX` by `strtol`, as an `int16_t`. -/
theorem Scan_pattern_classification (e0 : Effect) (x : Extension) (d N : Int)
    (hname : ∀ a ∈ e0.name_, isalpha a = true) (hx : x ≠ .UNKNOWN)
    (hty : GetFileType x = e0.file_type_) (h1 : 1 ≤ N) :
    ((Scan (reset e0) (e0.name_ ++ (numberPart d N ++ extString x))).1 = true
        ∧ (Scan (reset e0) (e0.name_ ++ (numberPart d N ++ extString x))).2.file_pattern_
          = .FLAT
        ∧ (N ≤ 20000 →
          (Scan (reset e0) (e0.name_ ++ (numberPart d N ++ extString x))).2.min_file_ = N)
        ∧ (20000 ≤ N →
          (Scan (reset e0) (e0.name_ ++ (numberPart d N ++ extString x))).2.min_file_
            = 20000)
        ∧ (N ≤ 32767 →
          (Scan (reset e0) (e0.name_ ++ (numberPart d N ++ extString x))).2.max_file_ = N)
        ∧ (Scan (reset e0) (e0.name_ ++ (numberPart d N ++ extString x))).2.max_file_
          = wrap16 (min LONG_MAX N))
      ∧ ((Scan (reset e0) (e0.name_ ++ '/' :: e0.name_ ++ (numberPart d N ++ extString x))).1 = true
        ∧ (Scan (reset e0) (e0.name_ ++ '/' :: e0.name_ ++ (numberPart d N ++ extString x))).2.file_pattern_
          = .SUBDIRS
        ∧ (N ≤ 20000 →
          (Scan (reset e0) (e0.name_ ++ '/' :: e0.name_ ++ (numberPart d N ++ extString x))).2.min_file_ = N)
        ∧ (20000 ≤ N →
          (Scan (reset e0) (e0.name_ ++ '/' :: e0.name_ ++ (numberPart d N ++ extString x))).2.min_file_
            = 20000)
        ∧ (N ≤ 32767 →
          (Scan (reset e0) (e0.name_ ++ '/' :: e0.name_ ++ (numberPart d N ++ extString x))).2.max_file_ = N)
        ∧ (Scan (reset e0) (e0.name_ ++ '/' :: e0.name_ ++ (numberPart d N ++ extString x))).2.max_file_
          = wrap16 (min LONG_MAX N))
      ∧ (e0.name_ ≠ [] →
        (Scan (reset e0) (e0.name_ ++ '/' :: (numberPart d N ++ extString x))).1 = true
        ∧ (Scan (reset e0) (e0.name_ ++ '/' :: (numberPart d N ++ extString x))).2.file_pattern_
          = .NONREDUNDANT_SUBDIRS
        ∧ (N ≤ 20000 →
          (Scan (reset e0) (e0.name_ ++ '/' :: (numberPart d N ++ extString x))).2.min_file_ = N)
        ∧ (20000 ≤ N →
          (Scan (reset e0) (e0.name_ ++ '/' :: (numberPart d N ++ extString x))).2.min_file_
            = 20000)
        ∧ (N ≤ 32767 →
          (Scan (reset e0) (e0.name_ ++ '/' :: (numberPart d N ++ extString x))).2.max_file_ = N)
        ∧ (Scan (reset e0) (e0.name_ ++ '/' :: (numberPart d N ++ extString x))).2.max_file_
          = wrap16 (min LONG_MAX N)) := by
  have hlo : N ≤ 20000 → min 20000 N = N := fun h => min_eq_right h
  have hhi : 20000 ≤ N → min 20000 N = 20000 := fun h => min_eq_left h
  refine ⟨?_, ?_, fun hne => ?_⟩
  · obtain ⟨a, b, c, dd, ee⟩ := Scan_fresh_numbered_large e0 .FLAT x d N hname hx hty (by decide)
      (fun h => absurd h (by decide)) h1
    simp only [patternPart, List.append_nil] at a b c dd ee
    exact ⟨a, b, fun h => by rw [c, hlo h], fun h => by rw [c, hhi h], ee, dd⟩
  · obtain ⟨a, b, c, dd, ee⟩ := Scan_fresh_numbered_large e0 .SUBDIRS x d N hname hx hty
      (by decide) (fun h => absurd h (by decide)) h1
    simp only [patternPart] at a b c dd ee
    exact ⟨a, b, fun h => by rw [c, hlo h], fun h => by rw [c, hhi h], ee, dd⟩
  · obtain ⟨a, b, c, dd, ee⟩ := Scan_fresh_numbered_large e0 .NONREDUNDANT_SUBDIRS x d N hname
      hx hty (by decide) (fun _ => hne) h1
    simp only [patternPart, List.append_assoc, List.cons_append, List.nil_append] at a b c dd ee
    exact ⟨a, b, fun h => by rw [c, hlo h], fun h => by rw [c, hhi h], ee, dd⟩

theorem Scan_pattern_classification_witness :
    (∀ a ∈ (mk0 "lock".toList (some 4) .SOUND).name_, isalpha a = true)
      ∧ (∀ a ∈ humEffect.name_, isalpha a = true)
      ∧ "lock".toList ++ '/' :: "lock".toList ++ (numberPart 0 1 ++ extString .WAV)
          = "lock/lock1.wav".toList
      ∧ "lock".toList ++ '/' :: (numberPart 0 1 ++ extString .WAV) = "lock/1.wav".toList
      ∧ "hum".toList ++ '/' :: (numberPart 0 40000 ++ extString .WAV) = "hum/40000.wav".toList
      ∧ (Scan (reset (mk0 "lock".toList (some 4) .SOUND)) "lock/lock1.wav".toList).2.file_pattern_
          = .SUBDIRS
      ∧ (Scan (reset (mk0 "lock".toList (some 4) .SOUND)) "lock/1.wav".toList).2.file_pattern_
          = .NONREDUNDANT_SUBDIRS
      ∧ ((Scan (reset (mk0 "lock".toList (some 4) .SOUND))
            ((mk0 "lock".toList (some 4) .SOUND).name_
              ++ '/' :: (mk0 "lock".toList (some 4) .SOUND).name_
              ++ (numberPart 0 1 ++ extString .WAV))).1 = true
        ∧ (Scan (reset (mk0 "lock".toList (some 4) .SOUND))
            ((mk0 "lock".toList (some 4) .SOUND).name_
              ++ '/' :: (mk0 "lock".toList (some 4) .SOUND).name_
              ++ (numberPart 0 1 ++ extString .WAV))).2.file_pattern_ = .SUBDIRS
        ∧ (Scan (reset (mk0 "lock".toList (some 4) .SOUND))
            ((mk0 "lock".toList (some 4) .SOUND).name_
              ++ '/' :: (mk0 "lock".toList (some 4) .SOUND).name_
              ++ (numberPart 0 1 ++ extString .WAV))).2.min_file_ = 1
        ∧ (Scan (reset (mk0 "lock".toList (some 4) .SOUND))
            ((mk0 "lock".toList (some 4) .SOUND).name_
              ++ '/' :: (mk0 "lock".toList (some 4) .SOUND).name_
              ++ (numberPart 0 1 ++ extString .WAV))).2.max_file_ = 1)
      ∧ ((Scan (reset humEffect)
            (humEffect.name_ ++ '/' :: (numberPart 0 40000 ++ extString .WAV))).1 = true
        ∧ (Scan (reset humEffect)
            (humEffect.name_ ++ '/' :: (numberPart 0 40000 ++ extString .WAV))).2.file_pattern_
          = .NONREDUNDANT_SUBDIRS
        ∧ (Scan (reset humEffect)
            (humEffect.name_ ++ '/' :: (numberPart 0 40000 ++ extString .WAV))).2.min_file_
          = 20000) :=
  ⟨by decide, by decide, by decide, by decide, by decide, by decide, by decide,
    ⟨(Scan_pattern_classification (mk0 "lock".toList (some 4) .SOUND) .WAV 0 1
        (by decide) (by decide) (by decide) (by decide)).2.1.1,
      (Scan_pattern_classification (mk0 "lock".toList (some 4) .SOUND) .WAV 0 1
        (by decide) (by decide) (by decide) (by decide)).2.1.2.1,
      (Scan_pattern_classification (mk0 "lock".toList (some 4) .SOUND) .WAV 0 1
        (by decide) (by decide) (by decide) (by decide)).2.1.2.2.1 (by decide),
      (Scan_pattern_classification (mk0 "lock".toList (some 4) .SOUND) .WAV 0 1
        (by decide) (by decide) (by decide) (by decide)).2.1.2.2.2.2.1 (by decide)⟩,
    ⟨((Scan_pattern_classification humEffect .WAV 0 40000
        (by decide) (by decide) (by decide) (by decide)).2.2 (by decide)).1,
      ((Scan_pattern_classification humEffect .WAV 0 40000
        (by decide) (by decide) (by decide) (by decide)).2.2 (by decide)).2.1,
      ((Scan_pattern_classification humEffect .WAV 0 40000
        (by decide) (by decide) (by decide) (by decide)).2.2 (by decide)).2.2.2.1 (by decide)⟩⟩

/-- Claim C12 fails as stated: `hum20001.wav` is accepted by the freshly reset descriptor
`hum` with pattern `FLAT` and `max = 20001`, but `min` stays at the `20000` of `reset()`;
`hum40000.wav` is accepted as well, and `max` holds `40000` as an `int16_t`, `-25536`;
and for the empty name the file `/1.wav` of the third shape is classified `SUBDIRS`. -/
theorem Scan_number_above_reset_min :
    (Scan (reset humEffect) "hum20001.wav".toList).1 = true
      ∧ (Scan (reset humEffect) "hum20001.wav".toList).2.file_pattern_ = .FLAT
      ∧ (Scan (reset humEffect) "hum20001.wav".toList).2.max_file_ = 20001
      ∧ (Scan (reset humEffect) "hum20001.wav".toList).2.min_file_ = 20000
      ∧ (Scan (reset humEffect) "hum40000.wav".toList).1 = true
      ∧ (Scan (reset humEffect) "hum40000.wav".toList).2.max_file_ = -25536
      ∧ (Scan (reset humEffect) "hum40000.wav".toList).2.min_file_ = 20000
      ∧ (Scan (reset (mk0 [] none .SOUND)) ([] ++ '/' :: "1.wav".toList)).1 = true
      ∧ (Scan (reset (mk0 [] none .SOUND)) ([] ++ '/' :: "1.wav".toList)).2.file_pattern_
          = .SUBDIRS := by
  decide

/-! ### The gap scenario -/

theorem perm_three {α : Type} (a b c : α) (fs : List α) (h : fs.Perm [a, b, c]) :
    fs = [a, b, c] ∨ fs = [b, a, c] ∨ fs = [c, b, a] ∨ fs = [b, c, a] ∨ fs = [c, a, b]
      ∨ fs = [a, c, b] := by
  have hm := List.mem_permutations.mpr h
  simpa [List.permutations, List.permutationsAux_cons, List.permutationsAux2] using hm

/-- Claim C13.  Gap scenario: `hum1.wav`, `hum2.wav` and `hum10.wav`, offered in any order
to the freshly reset sound descriptor `hum`, are all three accepted and give `min = 1`,
`max = 10`, pattern `FLAT`, extension `WAV`, `files_found() = 10` and a hit count of `3`;
the two counts differ, so the missing-files test of `ScanCurrentDirectory` fires. -/
theorem gap_scenario (fs : List (List Char)) (h : fs.Perm humGapFiles) :
    acceptedCount (reset humEffect) fs = 3
      ∧ (scanSeq (reset humEffect) fs).min_file_ = 1
      ∧ (scanSeq (reset humEffect) fs).max_file_ = 10
      ∧ (scanSeq (reset humEffect) fs).file_pattern_ = .FLAT
      ∧ (scanSeq (reset humEffect) fs).ext_ = .WAV
      ∧ (scanSeq (reset humEffect) fs).files_found = 10
      ∧ (scanSeq (reset humEffect) fs).num_files_ = 3
      ∧ (scanSeq (reset humEffect) fs).missingFiles = true := by
  rcases perm_three _ _ _ fs h with rfl | rfl | rfl | rfl | rfl | rfl <;> decide

theorem gap_scenario_witness :
    List.Perm ["hum10.wav".toList, "hum1.wav".toList, "hum2.wav".toList] humGapFiles
      ∧ acceptedCount (reset humEffect)
          ["hum10.wav".toList, "hum1.wav".toList, "hum2.wav".toList] = 3
      ∧ (scanSeq (reset humEffect)
          ["hum10.wav".toList, "hum1.wav".toList, "hum2.wav".toList]).min_file_ = 1
      ∧ (scanSeq (reset humEffect)
          ["hum10.wav".toList, "hum1.wav".toList, "hum2.wav".toList]).max_file_ = 10
      ∧ (scanSeq (reset humEffect)
          ["hum10.wav".toList, "hum1.wav".toList, "hum2.wav".toList]).file_pattern_ = .FLAT
      ∧ (scanSeq (reset humEffect)
          ["hum10.wav".toList, "hum1.wav".toList, "hum2.wav".toList]).ext_ = .WAV
      ∧ (scanSeq (reset humEffect)
          ["hum10.wav".toList, "hum1.wav".toList, "hum2.wav".toList]).files_found = 10
      ∧ (scanSeq (reset humEffect)
          ["hum10.wav".toList, "hum1.wav".toList, "hum2.wav".toList]).num_files_ = 3
      ∧ (scanSeq (reset humEffect)
          ["hum10.wav".toList, "hum1.wav".toList, "hum2.wav".toList]).missingFiles = true :=
  ⟨by decide,
    gap_scenario ["hum10.wav".toList, "hum1.wav".toList, "hum2.wav".toList] (by decide)⟩

/-- Claim C14, as amended.  After scanning `hum1.wav`, `hum2.wav` and `hum10.wav`, in any
order, into the freshly reset descriptor `hum`, the recorded digit width is `0`, the value
set by `reset()`: a width is only recorded for a number that starts with `0`, so neither
the first hit nor `hum10` sets it. -/
theorem gap_scenario_digits (fs : List (List Char)) (h : fs.Perm humGapFiles) :
    (scanSeq (reset humEffect) fs).digits_ = 0 ∧ (reset humEffect).digits_ = 0 := by
  rcases perm_three _ _ _ fs h with rfl | rfl | rfl | rfl | rfl | rfl <;> decide

theorem gap_scenario_digits_witness :
    List.Perm ["hum2.wav".toList, "hum10.wav".toList, "hum1.wav".toList] humGapFiles
      ∧ (scanSeq (reset humEffect)
          ["hum2.wav".toList, "hum10.wav".toList, "hum1.wav".toList]).digits_ = 0
      ∧ (reset humEffect).digits_ = 0 :=
  ⟨by decide,
    gap_scenario_digits ["hum2.wav".toList, "hum10.wav".toList, "hum1.wav".toList] (by decide)⟩

/-- Claim C14 fails as stated: after `hum1.wav`, `hum2.wav`, `hum10.wav` the recorded
digit width is `0`, not `1`; it is `0` after the first hit already. -/
theorem gap_scenario_digits_not_one :
    (scanSeq (reset humEffect) humGapFiles).digits_ = 0
      ∧ (scanSeq (reset humEffect) humGapFiles).digits_ ≠ 1
      ∧ (Scan (reset humEffect) "hum1.wav".toList).1 = true
      ∧ (Scan (reset humEffect) "hum1.wav".toList).2.digits_ = 0 := by
  decide

/-! ### Naming shapes and extensions over several calls -/

theorem ScanNumber_fst (e : Effect) (t : FilePattern) (rest : List Char) :
    (ScanNumber e t rest).1
      = decide ((rest.head? = some '.' ∧ rest.length = 4) ∨ 0 < (strtol rest).1) := by
  by_cases ha : rest.head? = some '.' ∧ rest.length = 4
  · rw [ScanNumber_unnumbered e t rest ha]
    simp [ha]
  · by_cases hn : (strtol rest).1 ≤ 0
    · rw [ScanNumber_rejected e t rest ha hn]
      simp [ha, hn]
    · rw [ScanNumber_numbered e t rest ha (not_le.mp hn)]
      simp [not_le.mp hn]

theorem ScanExt_fst_pattern (e : Effect) (p : FilePattern) (filename : List Char)
    (t : FilePattern) (rest : List Char) :
    (ScanExt { e with file_pattern_ := p } filename t rest).1 = (ScanExt e filename t rest).1 := by
  unfold ScanExt
  simp only
  split_ifs <;> first | rfl | (rw [ScanNumber_fst, ScanNumber_fst])

theorem ScanExt_reject_type (e : Effect) (filename : List Char) (t : FilePattern)
    (rest : List Char) (h : GetFileType (IdentifyExtension filename) ≠ e.file_type_) :
    ScanExt e filename t rest = (false, e) := by
  unfold ScanExt
  simp only
  rw [if_pos h]

theorem ScanExt_reject_ext (e : Effect) (filename : List Char) (t : FilePattern)
    (rest : List Char) (hu : e.ext_ ≠ .UNKNOWN) (h : IdentifyExtension filename ≠ e.ext_) :
    ScanExt e filename t rest = (false, e) := by
  unfold ScanExt
  simp only
  by_cases h1 : GetFileType (IdentifyExtension filename) ≠ e.file_type_
  · rw [if_pos h1]
  · rw [if_neg h1, if_neg hu, if_pos (Ne.symm h)]

/-- Claim C15, as amended.  The recorded pattern is the shape of the most recently
accepted file: the pattern recorded before plays no part in whether `Scan` accepts a
candidate; an accepted candidate sets the pattern to its own shape (`FLAT`, `SUBDIRS` or
`NONREDUNDANT_SUBDIRS`), whatever the pattern was; a rejected candidate leaves pattern,
`min`, `max`, unnumbered flag and hit count unchanged; after `reset()` the pattern is
`UNKNOWN`. -/
theorem Scan_pattern_of_last_accepted (e : Effect) (filename : List Char) :
    (∀ p, (Scan { e with file_pattern_ := p } filename).1 = (Scan e filename).1)
      ∧ ((Scan e filename).1 = true →
          ∃ t rest, nameRest e.name_ filename = some (t, rest) ∧ t ≠ .UNKNOWN
            ∧ (Scan e filename).2.file_pattern_ = t)
      ∧ ((Scan e filename).1 = false →
          (Scan e filename).2.file_pattern_ = e.file_pattern_
            ∧ (Scan e filename).2.min_file_ = e.min_file_
            ∧ (Scan e filename).2.max_file_ = e.max_file_
            ∧ (Scan e filename).2.unnumbered_file_found_ = e.unnumbered_file_found_
            ∧ (Scan e filename).2.num_files_ = e.num_files_)
      ∧ (reset e).file_pattern_ = .UNKNOWN := by
  refine ⟨fun p => ?_, fun ht => ?_, fun hf => ?_, rfl⟩
  · rw [Scan_eq_nameRest, Scan_eq_nameRest]
    show (match nameRest e.name_ filename with
        | none => (false, { e with file_pattern_ := p })
        | some r => ScanExt { e with file_pattern_ := p } filename r.1 r.2).1 = _
    cases nameRest e.name_ filename with
    | none => rfl
    | some r => exact ScanExt_fst_pattern e p filename r.1 r.2
  · rw [Scan_eq_nameRest] at ht ⊢
    cases hnr : nameRest e.name_ filename with
    | none => rw [hnr] at ht; simp at ht
    | some r =>
      rw [hnr] at ht
      simp only at ht ⊢
      obtain ⟨t, rest⟩ := r
      exact ⟨t, rest, rfl, (nameRest_suffix _ _ _ _ hnr).1,
        ((ScanExt_result e filename t rest).2.1 ht).1⟩
  · rcases (Scan_result e filename).1 hf with h | ⟨-, h⟩ <;> rw [h] <;> exact ⟨rfl, rfl, rfl, rfl, rfl⟩

theorem Scan_pattern_of_last_accepted_witness :
    (Scan (Scan (reset (mk0 "lock".toList (some 4) .SOUND)) "lock1.wav".toList).2
        "lock/2.wav".toList).1 = true
      ∧ ∃ t rest,
          nameRest (Scan (reset (mk0 "lock".toList (some 4) .SOUND)) "lock1.wav".toList).2.name_
              "lock/2.wav".toList = some (t, rest)
            ∧ t ≠ .UNKNOWN
            ∧ (Scan (Scan (reset (mk0 "lock".toList (some 4) .SOUND)) "lock1.wav".toList).2
                "lock/2.wav".toList).2.file_pattern_ = t :=
  ⟨by decide,
    (Scan_pattern_of_last_accepted
      (Scan (reset (mk0 "lock".toList (some 4) .SOUND)) "lock1.wav".toList).2
      "lock/2.wav".toList).2.1 (by decide)⟩

/-- Claim C15 fails as stated: on a freshly reset descriptor `lock`, `lock1.wav` is
accepted with pattern `FLAT`, and `lock/lock2.wav` is then accepted as well: the pattern
changes to `SUBDIRS`, `max` becomes `2` and the hit count `2`. -/
theorem Scan_mixes_shapes :
    (Scan (reset (mk0 "lock".toList (some 4) .SOUND)) "lock1.wav".toList).1 = true
      ∧ (Scan (reset (mk0 "lock".toList (some 4) .SOUND)) "lock1.wav".toList).2.file_pattern_
          = .FLAT
      ∧ (Scan (Scan (reset (mk0 "lock".toList (some 4) .SOUND)) "lock1.wav".toList).2
          "lock/lock2.wav".toList).1 = true
      ∧ (Scan (Scan (reset (mk0 "lock".toList (some 4) .SOUND)) "lock1.wav".toList).2
          "lock/lock2.wav".toList).2.file_pattern_ = .SUBDIRS
      ∧ (Scan (Scan (reset (mk0 "lock".toList (some 4) .SOUND)) "lock1.wav".toList).2
          "lock/lock2.wav".toList).2.max_file_ = 2
      ∧ (Scan (Scan (reset (mk0 "lock".toList (some 4) .SOUND)) "lock1.wav".toList).2
          "lock/lock2.wav".toList).2.num_files_ = 2 := by
  decide

/-- Claim C16, evaluated at the failing input: on the freshly reset sound descriptor
`hum`, `Scan("humm1.wav")` returns `false` (after the name, `m1.wav` is no number) but
leaves the extension locked to `WAV`; nothing else is changed and no file has been
accepted, yet `hum1.raw`, which the fresh descriptor accepts, is now rejected. -/
theorem Scan_rejected_locks_extension :
    (Scan (reset humEffect) "humm1.wav".toList).1 = false
      ∧ (Scan (reset humEffect) "humm1.wav".toList).2.ext_ = .WAV
      ∧ (Scan (reset humEffect) "humm1.wav".toList).2 = { reset humEffect with ext_ := .WAV }
      ∧ (Scan (reset humEffect) "humm1.wav".toList).2.num_files_ = 0
      ∧ (Scan (reset humEffect) "hum1.raw".toList).1 = true
      ∧ (Scan (Scan (reset humEffect) "humm1.wav".toList).2 "hum1.raw".toList).1 = false := by
  decide

/-- Claim C17.  Extension conflicts are ignored without any change: when the extension is
locked and the candidate's extension is a different one (allow-listed or not), `Scan`
returns `false` and the descriptor is exactly as before; the same holds when the
candidate's kind differs from the descriptor's kind, and, for a sound or image descriptor,
when the candidate's extension is not on the allow-list. -/
theorem Scan_extension_conflict (e : Effect) (filename : List Char) :
    (e.ext_ ≠ .UNKNOWN → IdentifyExtension filename ≠ e.ext_ → Scan e filename = (false, e))
      ∧ (GetFileType (IdentifyExtension filename) ≠ e.file_type_ →
          Scan e filename = (false, e))
      ∧ (e.file_type_ ≠ .UNKNOWN → IdentifyExtension filename = .UNKNOWN →
          Scan e filename = (false, e)) := by
  have key : GetFileType (IdentifyExtension filename) ≠ e.file_type_ →
      Scan e filename = (false, e) := by
    intro h
    rw [Scan_eq_nameRest]
    cases nameRest e.name_ filename with
    | none => rfl
    | some r => exact ScanExt_reject_type e filename r.1 r.2 h
  refine ⟨fun hu h => ?_, key, fun hk hx => key ?_⟩
  · rw [Scan_eq_nameRest]
    cases nameRest e.name_ filename with
    | none => rfl
    | some r => exact ScanExt_reject_ext e filename r.1 r.2 hu h
  · rw [hx]
    exact fun h => hk h.symm

theorem Scan_extension_conflict_witness :
    humScanned.ext_ ≠ .UNKNOWN
      ∧ IdentifyExtension "hum3.raw".toList ≠ humScanned.ext_
      ∧ Scan humScanned "hum3.raw".toList = (false, humScanned)
      ∧ GetFileType (IdentifyExtension "hum3.bmp".toList) ≠ humScanned.file_type_
      ∧ Scan humScanned "hum3.bmp".toList = (false, humScanned)
      ∧ humScanned.file_type_ ≠ .UNKNOWN
      ∧ IdentifyExtension "hum3.txt".toList = .UNKNOWN
      ∧ Scan humScanned "hum3.txt".toList = (false, humScanned) :=
  ⟨by decide, by decide,
    (Scan_extension_conflict humScanned "hum3.raw".toList).1 (by decide) (by decide),
    by decide,
    (Scan_extension_conflict humScanned "hum3.bmp".toList).2.1 (by decide),
    by decide, by decide,
    (Scan_extension_conflict humScanned "hum3.txt".toList).2.2 (by decide) (by decide)⟩

/-! ### Hit count, smallest and largest number -/

theorem ScanExt_cases (e : Effect) (filename : List Char) (t : FilePattern) (rest : List Char) :
    ScanExt e filename t rest = (false, e)
      ∨ ∃ e', (e' = e ∨ e' = { e with ext_ := IdentifyExtension filename })
          ∧ ScanExt e filename t rest = ScanNumber e' t rest := by
  unfold ScanExt
  simp only
  split_ifs
  · exact Or.inl rfl
  · exact Or.inr ⟨_, Or.inr rfl, rfl⟩
  · exact Or.inl rfl
  · exact Or.inr ⟨_, Or.inl rfl, rfl⟩

theorem ScanNumber_stats (e : Effect) (t : FilePattern) (rest : List Char) :
    (ScanNumber e t rest).2.num_files_
        = (if (ScanNumber e t rest).1 = true then wrap16 (e.num_files_ + 1) else e.num_files_)
      ∧ (ScanNumber e t rest).2.max_file_
        = (if (ScanNumber e t rest).1 = true ∧ 0 < scannedNumber rest
            then wrap16 (max e.max_file_ (scannedNumber rest)) else e.max_file_)
      ∧ (ScanNumber e t rest).2.min_file_
        = (if (ScanNumber e t rest).1 = true ∧ 0 < scannedNumber rest
            then wrap16 (min e.min_file_ (scannedNumber rest)) else e.min_file_) := by
  by_cases ha : rest.head? = some '.' ∧ rest.length = 4
  · have hs : scannedNumber rest = -1 := by unfold scannedNumber; rw [if_pos ha]
    rw [ScanNumber_unnumbered e t rest ha, hs]
    simp
  · have hs : scannedNumber rest = (strtol rest).1 := by unfold scannedNumber; rw [if_neg ha]
    by_cases hn : (strtol rest).1 ≤ 0
    · rw [ScanNumber_rejected e t rest ha hn]
      simp
    · rw [ScanNumber_numbered e t rest ha (not_le.mp hn), hs]
      simp [not_le.mp hn]

theorem ScanExt_stats (e : Effect) (filename : List Char) (t : FilePattern) (rest : List Char) :
    (ScanExt e filename t rest).2.num_files_
        = (if (ScanExt e filename t rest).1 = true then wrap16 (e.num_files_ + 1)
            else e.num_files_)
      ∧ (ScanExt e filename t rest).2.max_file_
        = (if (ScanExt e filename t rest).1 = true ∧ 0 < scannedNumber rest
            then wrap16 (max e.max_file_ (scannedNumber rest)) else e.max_file_)
      ∧ (ScanExt e filename t rest).2.min_file_
        = (if (ScanExt e filename t rest).1 = true ∧ 0 < scannedNumber rest
            then wrap16 (min e.min_file_ (scannedNumber rest)) else e.min_file_) := by
  rcases ScanExt_cases e filename t rest with h | ⟨e', he', h⟩
  · rw [h]
    simp
  · rw [h]
    have hs := ScanNumber_stats e' t rest
    rcases he' with rfl | rfl <;> exact hs

theorem Scan_stats (e : Effect) (filename : List Char) :
    (Scan e filename).2.num_files_
        = (if (Scan e filename).1 = true then wrap16 (e.num_files_ + 1) else e.num_files_)
      ∧ (Scan e filename).2.max_file_
        = (acceptedNumber e filename).elim e.max_file_ (fun n => wrap16 (max e.max_file_ n))
      ∧ (Scan e filename).2.min_file_
        = (acceptedNumber e filename).elim e.min_file_ (fun n => wrap16 (min e.min_file_ n))
      ∧ (∀ n, acceptedNumber e filename = some n → 1 ≤ n) := by
  have hS := Scan_eq_nameRest e filename
  unfold acceptedNumber
  cases hnr : nameRest e.name_ filename with
  | none =>
    rw [hnr] at hS
    rw [hS]
    simp
  | some r =>
    rw [hnr] at hS
    simp only at hS ⊢
    obtain ⟨s1, s2, s3⟩ := ScanExt_stats e filename r.1 r.2
    rw [← hS] at s1 s2 s3
    refine ⟨s1, ?_, ?_, ?_⟩
    · rw [s2]
      split_ifs <;> rfl
    · rw [s3]
      split_ifs <;> rfl
    · intro n hn
      split_ifs at hn with hc
      simp only [Option.some.injEq] at hn
      omega

theorem wrap16_succ_add (a : Int) (c : Nat) :
    wrap16 (wrap16 (a + 1) + (c : Int)) = wrap16 (a + ((1 + c : Nat) : Int)) := by
  unfold wrap16
  push_cast
  omega

theorem scanSeq_stats (fs : List (List Char)) :
    ∀ e : Effect, Valid e → -32768 ≤ e.num_files_ → e.num_files_ ≤ 32767 →
      (scanSeq e fs).num_files_ = wrap16 (e.num_files_ + (acceptedCount e fs : Int))
        ∧ (∀ n ∈ acceptedNumbers e fs, 1 ≤ n)
        ∧ (scanSeq e fs).min_file_ = (acceptedNumbers e fs).foldl min e.min_file_
        ∧ ((∀ n ∈ acceptedNumbers e fs, n ≤ 32767) →
            (scanSeq e fs).max_file_ = (acceptedNumbers e fs).foldl max e.max_file_) := by
  induction fs with
  | nil =>
    intro e _ h1 h2
    refine ⟨?_, ?_, rfl, fun _ => rfl⟩
    · show e.num_files_ = wrap16 (e.num_files_ + ((0 : Nat) : Int))
      rw [Nat.cast_zero, add_zero, wrap16_eq_self h1 h2]
    · intro n hn
      simp [acceptedNumbers] at hn
  | cons f fs ih =>
    intro e hv h1 h2
    obtain ⟨s1, s2, s3, s4⟩ := Scan_stats e f
    have hv' := Valid_Scan e f hv
    have hnum : -32768 ≤ (Scan e f).2.num_files_ ∧ (Scan e f).2.num_files_ ≤ 32767 := by
      rw [s1]
      split_ifs
      · exact wrap16_range _
      · exact ⟨h1, h2⟩
    obtain ⟨i1, i2, i3, i4⟩ := ih (Scan e f).2 hv' hnum.1 hnum.2
    have hseq : scanSeq e (f :: fs) = scanSeq (Scan e f).2 fs := rfl
    have hcnt : acceptedCount e (f :: fs)
        = (if (Scan e f).1 = true then 1 else 0) + acceptedCount (Scan e f).2 fs := rfl
    have hnums : acceptedNumbers e (f :: fs)
        = (acceptedNumber e f).toList ++ acceptedNumbers (Scan e f).2 fs := rfl
    rw [hseq, hcnt, hnums]
    obtain ⟨v1, v2, v3, v4⟩ := hv
    refine ⟨?_, ?_, ?_, ?_⟩
    · rw [i1, s1]
      split_ifs
      · exact wrap16_succ_add _ _
      · simp
    · intro n hn
      rcases List.mem_append.mp hn with hn | hn
      · exact s4 n (by simpa using hn)
      · exact i2 n hn
    · rw [i3, s3]
      cases hacc : acceptedNumber e f with
      | none => rfl
      | some n =>
        have hn1 := s4 n hacc
        simp only [Option.elim, Option.toList, List.singleton_append, List.foldl_cons]
        rw [wrap16_eq_self (by omega) (by omega)]
    · intro hall
      have hall' : ∀ n ∈ acceptedNumbers (Scan e f).2 fs, n ≤ 32767 :=
        fun n hn => hall n (List.mem_append.mpr (Or.inr hn))
      rw [i4 hall', s2]
      cases hacc : acceptedNumber e f with
      | none => rfl
      | some n =>
        have hn1 := s4 n hacc
        have hn2 : n ≤ 32767 := hall n (List.mem_append.mpr (Or.inl (by simp [hacc])))
        simp only [Option.elim, Option.toList, List.singleton_append, List.foldl_cons]
        rw [wrap16_eq_self (by omega) (by omega)]

theorem foldl_max_spec (ns : List Int) :
    ∀ a : Int, a ≤ ns.foldl max a ∧ (∀ n ∈ ns, n ≤ ns.foldl max a)
      ∧ (ns.foldl max a = a ∨ ns.foldl max a ∈ ns) := by
  induction ns with
  | nil => intro a; simp
  | cons m ns ih =>
    intro a
    obtain ⟨h1, h2, h3⟩ := ih (max a m)
    simp only [List.foldl_cons, List.mem_cons]
    refine ⟨le_trans (le_max_left a m) h1, ?_, ?_⟩
    · rintro n (rfl | hn)
      · exact le_trans (le_max_right a n) h1
      · exact h2 n hn
    · rcases h3 with h3 | h3
      · rcases max_choice a m with hc | hc
        · left; rw [h3, hc]
        · right; left; rw [h3, hc]
      · right; right; exact h3

theorem foldl_min_spec (ns : List Int) :
    ∀ a : Int, ns.foldl min a ≤ a ∧ (∀ n ∈ ns, ns.foldl min a ≤ n)
      ∧ (ns.foldl min a = a ∨ ns.foldl min a ∈ ns) := by
  induction ns with
  | nil => intro a; simp
  | cons m ns ih =>
    intro a
    obtain ⟨h1, h2, h3⟩ := ih (min a m)
    simp only [List.foldl_cons, List.mem_cons]
    refine ⟨le_trans h1 (min_le_left a m), ?_, ?_⟩
    · rintro n (rfl | hn)
      · exact le_trans h1 (min_le_right a n)
      · exact h2 n hn
    · rcases h3 with h3 | h3
      · rcases min_choice a m with hc | hc
        · left; rw [h3, hc]
        · right; left; rw [h3, hc]
      · right; right; exact h3

/-- Claim C18, as amended.  For every sequence of `Scan` calls on a freshly reset
descriptor: the hit count is the number of calls that returned `true`, reduced to an
`int16_t` (so equal to it up to `32767`); every accepted number is at least `1`; if a
numbered file was accepted and all accepted numbers are at most `32767`, `max` is the
largest accepted number; if some accepted number is at most `20000`, `min` is the
smallest accepted number, and otherwise `min` stays at the `20000` of `reset()`. -/
theorem scan_sequence_statistics (e0 : Effect) (fs : List (List Char)) :
    (scanSeq (reset e0) fs).num_files_ = wrap16 (acceptedCount (reset e0) fs : Int)
      ∧ (acceptedCount (reset e0) fs ≤ 32767 →
          (scanSeq (reset e0) fs).num_files_ = (acceptedCount (reset e0) fs : Int))
      ∧ (∀ n ∈ acceptedNumbers (reset e0) fs, 1 ≤ n)
      ∧ (acceptedNumbers (reset e0) fs ≠ [] →
          (∀ n ∈ acceptedNumbers (reset e0) fs, n ≤ 32767) →
            (scanSeq (reset e0) fs).max_file_ ∈ acceptedNumbers (reset e0) fs
              ∧ ∀ n ∈ acceptedNumbers (reset e0) fs, n ≤ (scanSeq (reset e0) fs).max_file_)
      ∧ ((∃ n ∈ acceptedNumbers (reset e0) fs, n ≤ 20000) →
          (scanSeq (reset e0) fs).min_file_ ∈ acceptedNumbers (reset e0) fs
            ∧ ∀ n ∈ acceptedNumbers (reset e0) fs, (scanSeq (reset e0) fs).min_file_ ≤ n)
      ∧ ((∀ n ∈ acceptedNumbers (reset e0) fs, 20000 < n) →
          (scanSeq (reset e0) fs).min_file_ = 20000) := by
  obtain ⟨i1, i2, i3, i4⟩ :=
    scanSeq_stats fs (reset e0) (Valid_reset e0) (by simp [reset]) (by simp [reset])
  have i1' : (scanSeq (reset e0) fs).num_files_ = wrap16 (acceptedCount (reset e0) fs : Int) := by
    rw [i1]
    show wrap16 (0 + _) = _
    rw [zero_add]
  have i3' : (scanSeq (reset e0) fs).min_file_
      = (acceptedNumbers (reset e0) fs).foldl min 20000 := i3
  refine ⟨i1', fun hc => ?_, i2, fun hne hall => ?_, fun hex => ?_, fun hall => ?_⟩
  · rw [i1']
    exact wrap16_eq_self (by omega) (by omega)
  · have i4' : (scanSeq (reset e0) fs).max_file_
        = (acceptedNumbers (reset e0) fs).foldl max (-1) := i4 hall
    obtain ⟨m1, m2, m3⟩ := foldl_max_spec (acceptedNumbers (reset e0) fs) (-1)
    rw [i4']
    refine ⟨?_, m2⟩
    rcases m3 with m3 | m3
    · obtain ⟨n, ns, hns⟩ := List.exists_cons_of_ne_nil hne
      have hn : n ∈ acceptedNumbers (reset e0) fs := by rw [hns]; exact List.mem_cons_self _ _
      have := m2 n hn
      have := i2 n hn
      omega
    · exact m3
  · obtain ⟨m1, m2, m3⟩ := foldl_min_spec (acceptedNumbers (reset e0) fs) 20000
    rw [i3']
    refine ⟨?_, m2⟩
    rcases m3 with m3 | m3
    · obtain ⟨n, hn, hle⟩ := hex
      have h5 := m2 n hn
      have : n = (acceptedNumbers (reset e0) fs).foldl min 20000 := by omega
      rw [← this]
      exact hn
    · exact m3
  · obtain ⟨m1, m2, m3⟩ := foldl_min_spec (acceptedNumbers (reset e0) fs) 20000
    rw [i3']
    rcases m3 with m3 | m3
    · exact m3
    · have := hall _ m3
      omega

theorem scan_sequence_statistics_witness :
    acceptedCount (reset humEffect) humGapFiles ≤ 32767
      ∧ acceptedNumbers (reset humEffect) humGapFiles = [1, 2, 10]
      ∧ (scanSeq (reset humEffect) humGapFiles).num_files_
          = (acceptedCount (reset humEffect) humGapFiles : Int)
      ∧ ((scanSeq (reset humEffect) humGapFiles).max_file_
            ∈ acceptedNumbers (reset humEffect) humGapFiles
          ∧ ∀ n ∈ acceptedNumbers (reset humEffect) humGapFiles,
              n ≤ (scanSeq (reset humEffect) humGapFiles).max_file_)
      ∧ ((scanSeq (reset humEffect) humGapFiles).min_file_
            ∈ acceptedNumbers (reset humEffect) humGapFiles
          ∧ ∀ n ∈ acceptedNumbers (reset humEffect) humGapFiles,
              (scanSeq (reset humEffect) humGapFiles).min_file_ ≤ n) :=
  ⟨by decide, by decide,
    (scan_sequence_statistics humEffect humGapFiles).2.1 (by decide),
    (scan_sequence_statistics humEffect humGapFiles).2.2.2.1 (by decide) (by decide),
    (scan_sequence_statistics humEffect humGapFiles).2.2.2.2.1 ⟨1, by decide, by decide⟩⟩

theorem Scan_hum1_locked (e : Effect) (hn : e.name_ = "hum".toList)
    (ht : e.file_type_ = .SOUND) (hx : e.ext_ = .WAV) :
    (Scan e "hum1.wav".toList).1 = true
      ∧ (Scan e "hum1.wav".toList).2.name_ = "hum".toList
      ∧ (Scan e "hum1.wav".toList).2.file_type_ = .SOUND
      ∧ (Scan e "hum1.wav".toList).2.ext_ = .WAV := by
  have hid : IdentifyExtension "hum1.wav".toList = .WAV := by decide
  have hnr : nameRest "hum".toList "hum1.wav".toList = some (.FLAT, "1.wav".toList) := by decide
  have hacc : (Scan e "hum1.wav".toList).1 = true := by
    rw [Scan_eq_nameRest, hn, hnr]
    simp only
    unfold ScanExt
    simp only
    rw [hid, ht, hx, if_neg (by decide), if_neg (by decide), if_neg (by decide), ScanNumber_fst]
    decide
  obtain ⟨-, r2, r3, r4, -⟩ := Scan_result e "hum1.wav".toList
  obtain ⟨-, -, q3, -⟩ := r2 hacc
  exact ⟨hacc, r3.trans hn, r4.trans ht, q3.trans hid⟩

theorem acceptedCount_hum1 (k : Nat) :
    ∀ e : Effect, e.name_ = "hum".toList → e.file_type_ = .SOUND → e.ext_ = .WAV →
      acceptedCount e (List.replicate k "hum1.wav".toList) = k := by
  induction k with
  | zero => intro e _ _ _; rfl
  | succ k ih =>
    intro e hn ht hx
    obtain ⟨a1, a2, a3, a4⟩ := Scan_hum1_locked e hn ht hx
    show (if (Scan e "hum1.wav".toList).1 = true then 1 else 0)
        + acceptedCount (Scan e "hum1.wav".toList).2 (List.replicate k "hum1.wav".toList) = k + 1
    rw [if_pos a1, ih _ a2 a3 a4]
    omega

theorem hum1_many (k : Nat) :
    acceptedCount (reset humEffect) (List.replicate (k + 1) "hum1.wav".toList) = k + 1
      ∧ (scanSeq (reset humEffect) (List.replicate (k + 1) "hum1.wav".toList)).num_files_
          = wrap16 ((k : Int) + 1) := by
  have hc : acceptedCount (reset humEffect) (List.replicate (k + 1) "hum1.wav".toList)
      = k + 1 := by
    show (if (Scan (reset humEffect) "hum1.wav".toList).1 = true then 1 else 0)
        + acceptedCount (Scan (reset humEffect) "hum1.wav".toList).2
            (List.replicate k "hum1.wav".toList) = k + 1
    rw [if_pos (by decide),
      acceptedCount_hum1 k _ (by decide) (by decide) (by decide)]
    omega
  refine ⟨hc, ?_⟩
  obtain ⟨i1, -⟩ := scanSeq_stats (List.replicate (k + 1) "hum1.wav".toList) (reset humEffect)
    (Valid_reset humEffect) (by decide) (by decide)
  rw [i1, hc]
  show wrap16 (0 + ((k + 1 : Nat) : Int)) = _
  rw [zero_add]
  push_cast
  rfl

/-- Claim C18 fails as stated: on the freshly reset descriptor `hum`, the single accepted
file `hum20001.wav` leaves `min = 20000`, which is not the smallest accepted number; the
single accepted file `hum40000.wav` leaves `max = -25536`; and after `32768` accepted
calls the hit count is `-32768`. -/
theorem scan_statistics_out_of_range :
    (acceptedNumbers (reset humEffect) ["hum20001.wav".toList] = [20001]
        ∧ (scanSeq (reset humEffect) ["hum20001.wav".toList]).min_file_ = 20000)
      ∧ (acceptedNumbers (reset humEffect) ["hum40000.wav".toList] = [40000]
        ∧ (scanSeq (reset humEffect) ["hum40000.wav".toList]).max_file_ = -25536)
      ∧ (acceptedCount (reset humEffect) (List.replicate (32767 + 1) "hum1.wav".toList)
          = 32767 + 1
        ∧ (scanSeq (reset humEffect) (List.replicate (32767 + 1) "hum1.wav".toList)).num_files_
          = -32768) := by
  refine ⟨by decide, by decide, (hum1_many 32767).1, ?_⟩
  rw [(hum1_many 32767).2]
  decide

/-! ### Digit width -/

theorem strtol_digit_head (c : Char) (cs : List Char) (hc : isdigit c = true) :
    (strtol (c :: cs)).2 = (c :: cs).dropWhile isdigit := by
  obtain ⟨h1, h2, h3, -, -⟩ := isdigit_not_space c hc
  have hs1 : List.dropWhile isspace (c :: cs) = c :: cs := by
    simp [List.dropWhile, h1]
  have htake : List.takeWhile isdigit (c :: cs) ≠ [] := by
    simp [List.takeWhile, hc]
  unfold strtol
  simp only [hs1]
  have hh : (c :: cs).head? = some c := rfl
  simp only [hh, Option.some.injEq, h2, h3, or_self, if_false]
  rw [if_neg htake]

theorem length_sub_dropWhile (p : Char → Bool) (l : List Char) :
    (l.length : Int) - (l.dropWhile p).length = (l.takeWhile p).length := by
  have h := congrArg List.length (List.takeWhile_append_dropWhile p l)
  rw [List.length_append] at h
  omega

theorem ScanNumber_digits (e : Effect) (t : FilePattern) (rest : List Char)
    (hacc : (ScanNumber e t rest).1 = true) :
    (rest.head? = some '0' →
        (ScanNumber e t rest).2.digits_ = wrap8 ((rest.takeWhile isdigit).length : Int))
      ∧ (rest.head? ≠ some '0' → (ScanNumber e t rest).2.digits_ = e.digits_) := by
  by_cases ha : rest.head? = some '.' ∧ rest.length = 4
  · rw [ScanNumber_unnumbered e t rest ha]
    refine ⟨fun h0 => ?_, fun _ => rfl⟩
    rw [ha.1] at h0
    exact absurd h0 (by decide)
  · by_cases hn : (strtol rest).1 ≤ 0
    · rw [ScanNumber_rejected e t rest ha hn] at hacc
      simp at hacc
    · rw [ScanNumber_numbered e t rest ha (not_le.mp hn)]
      refine ⟨fun h0 => ?_, fun h0 => ?_⟩
      · show (if rest.head? = some '0'
            then wrap8 ((rest.length : Int) - (strtol rest).2.length) else e.digits_) = _
        rw [if_pos h0]
        obtain ⟨cs, rfl⟩ : ∃ cs, rest = '0' :: cs := by
          cases rest with
          | nil => simp at h0
          | cons c cs =>
            simp only [List.head?_cons, Option.some.injEq] at h0
            exact ⟨cs, by rw [h0]⟩
        rw [strtol_digit_head '0' cs (by decide), length_sub_dropWhile]
      · show (if rest.head? = some '0'
            then wrap8 ((rest.length : Int) - (strtol rest).2.length) else e.digits_) = _
        rw [if_neg h0]

theorem wrap8_eq_self {x : Int} (h1 : -128 ≤ x) (h2 : x ≤ 127) : wrap8 x = x := by
  unfold wrap8
  omega

/-- Claim C19, as amended.  When `Scan` accepts a file whose text behind the name part
begins with `0`, the digit width becomes the length of that text's run of digits, reduced
to an `int8_t` (so equal to the length up to `127`); when the accepted text does not begin
with `0`, which includes the unnumbered file, the digit width is left unchanged. -/
theorem Scan_digit_width (e : Effect) (filename : List Char) (t : FilePattern)
    (rest : List Char) (hnr : nameRest e.name_ filename = some (t, rest))
    (hacc : (Scan e filename).1 = true) :
    (rest.head? = some '0' →
        (Scan e filename).2.digits_ = wrap8 ((rest.takeWhile isdigit).length : Int)
          ∧ ((rest.takeWhile isdigit).length ≤ 127 →
              (Scan e filename).2.digits_ = ((rest.takeWhile isdigit).length : Int)))
      ∧ (rest.head? ≠ some '0' → (Scan e filename).2.digits_ = e.digits_) := by
  have hS := Scan_eq_nameRest e filename
  rw [hnr] at hS
  simp only at hS
  rw [hS] at hacc ⊢
  rcases ScanExt_cases e filename t rest with h | ⟨e', he', h⟩
  · rw [h] at hacc
    simp at hacc
  · rw [h] at hacc ⊢
    obtain ⟨d1, d2⟩ := ScanNumber_digits e' t rest hacc
    have hd : e'.digits_ = e.digits_ := by rcases he' with rfl | rfl <;> rfl
    refine ⟨fun h0 => ⟨d1 h0, fun hle => ?_⟩, fun h0 => (d2 h0).trans hd⟩
    rw [d1 h0]
    exact wrap8_eq_self (by omega) (by omega)

theorem Scan_digit_width_witness :
    nameRest (reset humEffect).name_ "hum007.wav".toList = some (.FLAT, "007.wav".toList)
      ∧ (Scan (reset humEffect) "hum007.wav".toList).1 = true
      ∧ "007.wav".toList.head? = some '0'
      ∧ ("007.wav".toList.takeWhile isdigit).length = 3
      ∧ (Scan (reset humEffect) "hum007.wav".toList).2.digits_
          = wrap8 (("007.wav".toList.takeWhile isdigit).length : Int)
      ∧ ((("007.wav".toList.takeWhile isdigit).length ≤ 127 →
          (Scan (reset humEffect) "hum007.wav".toList).2.digits_
            = (("007.wav".toList.takeWhile isdigit).length : Int))) :=
  ⟨by decide, by decide, by decide, by decide,
    ((Scan_digit_width (reset humEffect) "hum007.wav".toList .FLAT "007.wav".toList
      (by decide) (by decide)).1 (by decide)).1,
    ((Scan_digit_width (reset humEffect) "hum007.wav".toList .FLAT "007.wav".toList
      (by decide) (by decide)).1 (by decide)).2⟩

set_option maxRecDepth 100000 in
/-- Claim C19 fails as stated: `hum`, 128 zeros and `1.wav` is accepted by the freshly
reset descriptor `hum` as file number `1`; the number begins with `0` and its run of digits
is 129 long, but the digit width recorded is `-127`. -/
theorem Scan_digit_width_overflow :
    nameRest (reset humEffect).name_ humLongNumber
        = some (.FLAT, List.replicate 128 '0' ++ "1.wav".toList)
      ∧ (Scan (reset humEffect) humLongNumber).1 = true
      ∧ (Scan (reset humEffect) humLongNumber).2.max_file_ = 1
      ∧ (List.replicate 128 '0' ++ "1.wav".toList).head? = some '0'
      ∧ ((List.replicate 128 '0' ++ "1.wav".toList).takeWhile isdigit).length = 129
      ∧ (Scan (reset humEffect) humLongNumber).2.digits_ = -127 := by
  decide

/-! ### The unnumbered file -/

theorem files_found_unnumbered (e : Effect) (h : e.unnumbered_file_found_ = true) :
    e.files_found
      = (if e.min_file_ ≤ e.max_file_ then (e.max_file_ - e.min_file_ + 1).toNat else 0) + 1 := by
  unfold files_found
  rw [if_pos h]

theorem Scan_unnumbered_eq (e : Effect) (filename : List Char) (t : FilePattern)
    (x : Extension) (hnr : nameRest e.name_ filename = some (t, extString x))
    (hx : x ≠ .UNKNOWN) (hty : GetFileType x = e.file_type_)
    (hext : e.ext_ = .UNKNOWN ∨ e.ext_ = x) :
    Scan e filename
      = (true, { e with
          ext_ := x
          unnumbered_file_found_ := true
          file_pattern_ := t
          num_files_ := wrap16 (e.num_files_ + 1) }) := by
  obtain ⟨-, pre, hpre⟩ := nameRest_suffix _ _ _ _ hnr
  have hid : IdentifyExtension filename = x := by
    rw [hpre]
    exact IdentifyExtension_append pre x hx
  obtain ⟨hlen, hhead, -⟩ := extString_spec x hx
  have hS := Scan_eq_nameRest e filename
  rw [hnr] at hS
  simp only at hS
  rw [hS]
  unfold ScanExt
  simp only
  rw [hid, if_neg (not_not.mpr hty)]
  by_cases hu : e.ext_ = .UNKNOWN
  · rw [if_pos hu, ScanNumber_unnumbered _ t _ ⟨hhead, hlen⟩]
  · have hex : e.ext_ = x := by
      rcases hext with h | h
      · exact absurd h hu
      · exact h
    rw [if_neg hu, if_neg (not_not.mpr hex), ScanNumber_unnumbered _ t _ ⟨hhead, hlen⟩]
    congr 2

/-- Claim C20, as amended.  For a candidate that starts with the name and whose text
behind the name part (behind `NAME`, `NAME/NAME` or `NAME/`) is exactly `.` and a
three-letter allow-listed extension of the descriptor's kind, and a descriptor whose
extension is not locked to a different extension: `Scan` accepts it, sets the unnumbered
flag, records the shape and the extension, adds one to the hit count (in `int16_t`
arithmetic, so exactly one below `32767`) and leaves `min`, `max` and the digit width
unchanged; `files_found()` then counts the numbered range plus one, and still does so when
the same candidate is seen again. -/
theorem Scan_unnumbered_slot (e : Effect) (filename : List Char) (t : FilePattern)
    (x : Extension) (hnr : nameRest e.name_ filename = some (t, extString x))
    (hx : x ≠ .UNKNOWN) (hty : GetFileType x = e.file_type_)
    (hext : e.ext_ = .UNKNOWN ∨ e.ext_ = x) :
    Scan e filename
        = (true, { e with
            ext_ := x
            unnumbered_file_found_ := true
            file_pattern_ := t
            num_files_ := wrap16 (e.num_files_ + 1) })
      ∧ (-32768 ≤ e.num_files_ → e.num_files_ < 32767 →
          (Scan e filename).2.num_files_ = e.num_files_ + 1)
      ∧ (Scan e filename).2.min_file_ = e.min_file_
      ∧ (Scan e filename).2.max_file_ = e.max_file_
      ∧ (Scan e filename).2.digits_ = e.digits_
      ∧ (Scan e filename).2.files_found
          = (if e.min_file_ ≤ e.max_file_ then (e.max_file_ - e.min_file_ + 1).toNat else 0) + 1
      ∧ (Scan (Scan e filename).2 filename).1 = true
      ∧ (Scan (Scan e filename).2 filename).2.files_found = (Scan e filename).2.files_found := by
  have h1 := Scan_unnumbered_eq e filename t x hnr hx hty hext
  have h2 := Scan_unnumbered_eq (Scan e filename).2 filename t x
    (by rw [h1]; exact hnr) hx (by rw [h1]; exact hty) (Or.inr (by rw [h1]))
  refine ⟨h1, fun ha hb => ?_, by rw [h1], by rw [h1], by rw [h1], ?_, by rw [h2], ?_⟩
  · rw [h1]
    exact wrap16_eq_self (by omega) (by omega)
  · rw [h1]
    exact files_found_unnumbered _ rfl
  · rw [h2, h1]
    rfl

theorem Scan_unnumbered_slot_witness :
    nameRest (fourFiles "clash".toList none).name_ "clash/clash.wav".toList
        = some (.SUBDIRS, extString .WAV)
      ∧ (fourFiles "clash".toList none).ext_ = .WAV
      ∧ (fourFiles "clash".toList none).files_found = 4
      ∧ (Scan (fourFiles "clash".toList none) "clash/clash.wav".toList).2.files_found
          = (if (fourFiles "clash".toList none).min_file_ ≤ (fourFiles "clash".toList none).max_file_
              then ((fourFiles "clash".toList none).max_file_
                - (fourFiles "clash".toList none).min_file_ + 1).toNat
              else 0) + 1
      ∧ (Scan (Scan (fourFiles "clash".toList none) "clash/clash.wav".toList).2
          "clash/clash.wav".toList).2.files_found
          = (Scan (fourFiles "clash".toList none) "clash/clash.wav".toList).2.files_found :=
  ⟨by decide, by decide, by decide,
    (Scan_unnumbered_slot (fourFiles "clash".toList none) "clash/clash.wav".toList .SUBDIRS .WAV
      (by decide) (by decide) (by decide) (Or.inr (by decide))).2.2.2.2.2.1,
    (Scan_unnumbered_slot (fourFiles "clash".toList none) "clash/clash.wav".toList .SUBDIRS .WAV
      (by decide) (by decide) (by decide) (Or.inr (by decide))).2.2.2.2.2.2.2⟩

/-- Claim C20 fails as stated: the descriptor `hum`, whose extension is locked to `WAV`,
rejects `hum.raw` (the name, then `.` and an allow-listed sound extension) and does not
change; and with a hit count of `32767` the accepted `hum.wav` leaves a hit count of
`-32768`. -/
theorem Scan_unnumbered_other_extension :
    nameRest humScanned.name_ "hum.raw".toList = some (.FLAT, extString .RAW)
      ∧ GetFileType .RAW = humScanned.file_type_
      ∧ humScanned.ext_ = .WAV
      ∧ Scan humScanned "hum.raw".toList = (false, humScanned)
      ∧ (Scan { humScanned with num_files_ := 32767 } "hum.wav".toList).1 = true
      ∧ (Scan { humScanned with num_files_ := 32767 } "hum.wav".toList).2.num_files_
          = -32768 := by
  decide

end Effect

/-! ## The format of a generated name -/

namespace Effect

/-- Claim C21.  `GetName` format: for a descriptor bound to the directory `dir`, with a
locked extension and the file numbers in the ranges `Scan` maintains, and any index
`i ≥ 0`, `GetName(i)` writes the directory followed by `/` (no `/` for the empty
directory), the name, then nothing for `FLAT`/`UNKNOWN`, `/` and the name for `SUBDIRS`,
`/` for `NONREDUNDANT_SUBDIRS`, then, if `min + i ≤ max`, the decimal digits of `min + i`
left-padded with `0` to at least `digits_` characters and otherwise no digit at all, then
`.` and the three letters of the extension.  Among the indices below `files_found()` only
the last one takes the form without digits. -/
theorem GetName_format (e : Effect) (dir : List Char) (i : Int)
    (hd : e.directory_ = some dir) (hx : e.ext_ ≠ .UNKNOWN) (hv : Valid e) (hi : 0 ≤ i) :
    ∃ letters dec : List Char,
      extString e.ext_ = '.' :: letters ∧ letters.length = 3
        ∧ dec = Nat.toDigits 10 (e.min_file_ + i).toNat
        ∧ (∀ c ∈ dec, isdigit c = true) ∧ (digitsValue dec : Int) = e.min_file_ + i
        ∧ ((List.replicate (e.digits_ - dec.length).toNat '0' ++ dec).length : Int)
            = max e.digits_ dec.length
        ∧ GetName e i
          = some (dir ++ (if dir = [] then [] else ['/']) ++ e.name_
              ++ (match e.file_pattern_ with
                  | .UNKNOWN | .FLAT => []
                  | .SUBDIRS => '/' :: e.name_
                  | .NONREDUNDANT_SUBDIRS => ['/'])
              ++ (if e.min_file_ + i ≤ e.max_file_
                  then List.replicate (e.digits_ - dec.length).toNat '0' ++ dec else [])
              ++ '.' :: letters)
        ∧ (i < (e.files_found : Int) → ¬ e.min_file_ + i ≤ e.max_file_ →
            e.unnumbered_file_found_ = true ∧ i + 1 = (e.files_found : Int)) := by
  obtain ⟨hlen, -, letters, hl⟩ := extString_spec e.ext_ hx
  obtain ⟨v1, v2, v3, v4⟩ := hv
  obtain ⟨t1, t2, -⟩ := toDigits_spec (e.min_file_ + i).toNat
  have hit : itoa (i + e.min_file_) = Nat.toDigits 10 (e.min_file_ + i).toNat := by
    unfold itoa
    rw [if_neg (by omega), add_comm]
  refine ⟨letters, _, hl, ?_, rfl, t1, ?_, ?_, ?_, ?_⟩
  · rw [hl] at hlen
    simpa using hlen
  · rw [t2]
    exact Int.toNat_of_nonneg (by omega)
  · rw [List.length_append, List.length_replicate]
    push_cast
    rcases le_total e.digits_ ((Nat.toDigits 10 (e.min_file_ + i).toNat).length : Int) with h | h
    · rw [max_eq_right h, Int.toNat_of_nonpos (by omega)]
      simp
    · rw [max_eq_left h, Int.toNat_of_nonneg (by omega)]
      omega
  · rw [GetName_eq e dir hd i, hl]
    have hc : (i + e.min_file_ ≤ e.max_file_) = (e.min_file_ + i ≤ e.max_file_) := by
      rw [add_comm]
    cases hp : e.file_pattern_ <;> by_cases hn : e.min_file_ + i ≤ e.max_file_
      <;> by_cases hdir : dir = []
      <;> simp [hc, hn, hdir, patternPart, numberPart, hit, List.append_assoc]
  · intro hlt hn
    rw [files_found_cast] at hlt ⊢
    by_cases hu : e.unnumbered_file_found_ = true
    · refine ⟨hu, ?_⟩
      rw [if_pos hu] at hlt ⊢
      split_ifs at hlt ⊢ <;> omega
    · rw [if_neg hu] at hlt
      split_ifs at hlt <;> omega

theorem GetName_format_witness :
    humScanned.directory_ = some "font".toList ∧ humScanned.ext_ ≠ .UNKNOWN ∧ Valid humScanned
      ∧ (0 : Int) ≤ 1
      ∧ GetName humScanned 1 = some "font/hum02.wav".toList
      ∧ GetName humScanned 2 = some "font/hum.wav".toList
      ∧ ∃ letters dec : List Char,
          extString humScanned.ext_ = '.' :: letters ∧ letters.length = 3
            ∧ dec = Nat.toDigits 10 (humScanned.min_file_ + 1).toNat
            ∧ (∀ c ∈ dec, isdigit c = true)
            ∧ (digitsValue dec : Int) = humScanned.min_file_ + 1
            ∧ ((List.replicate (humScanned.digits_ - dec.length).toNat '0' ++ dec).length : Int)
                = max humScanned.digits_ dec.length
            ∧ GetName humScanned 1
              = some ("font".toList ++ (if "font".toList = [] then [] else ['/'])
                  ++ humScanned.name_
                  ++ (match humScanned.file_pattern_ with
                      | .UNKNOWN | .FLAT => []
                      | .SUBDIRS => '/' :: humScanned.name_
                      | .NONREDUNDANT_SUBDIRS => ['/'])
                  ++ (if humScanned.min_file_ + 1 ≤ humScanned.max_file_
                      then List.replicate (humScanned.digits_ - dec.length).toNat '0' ++ dec
                      else [])
                  ++ '.' :: letters)
            ∧ ((1 : Int) < (humScanned.files_found : Int) →
                ¬ humScanned.min_file_ + 1 ≤ humScanned.max_file_ →
                humScanned.unnumbered_file_found_ = true
                  ∧ (1 : Int) + 1 = (humScanned.files_found : Int)) :=
  ⟨by decide, by decide, by decide, by decide, by decide, by decide,
    GetName_format humScanned "font".toList 1 (by decide) (by decide) (by decide) (by decide)⟩

/-! ## The directory lock -/

theorem ScanAll_eq_map (dir filename : List Char) (all : List Effect) :
    ScanAll dir filename all = all.map (ScanAll1 dir filename) := by
  unfold ScanAll ScanAll1
  split_ifs
  · simp
  · rfl

/-- Claim C22.  Directory lock: a descriptor bound to the directory `D` is left exactly as
it is by `ScanAll(D', filename)` for every `D'` different from `D` and every file name:
the loop body skips it, and in the list of all effects every descriptor bound to a
directory other than `D'` keeps its place and its whole state. -/
theorem ScanAll_directory_lock (D D' filename : List Char) (e : Effect)
    (hb : e.directory_ = some D) (hne : D' ≠ D) :
    ScanAllStep D' filename e = e ∧ ScanAll1 D' filename e = e
      ∧ ∀ (all : List Effect) (i : Nat), all[i]? = some e →
          (ScanAll D' filename all)[i]? = some e
            ∧ (ScanAll D' filename all).length = all.length := by
  have h1 : ScanAllStep D' filename e = e := by
    unfold ScanAllStep
    rw [if_pos]
    rw [hb]
    exact ⟨by simp, fun h => hne (Option.some.inj h).symm⟩
  have h2 : ScanAll1 D' filename e = e := by
    unfold ScanAll1
    split_ifs
    · rfl
    · exact h1
  refine ⟨h1, h2, fun all i hi => ?_⟩
  rw [ScanAll_eq_map]
  simp [hi, h2]

theorem ScanAll_directory_lock_witness :
    humScanned.directory_ = some "font".toList ∧ "other".toList ≠ "font".toList
      ∧ ScanAllStep "other".toList "hum03.wav".toList humScanned = humScanned
      ∧ ScanAll1 "other".toList "hum03.wav".toList humScanned = humScanned
      ∧ (ScanAll "other".toList "hum03.wav".toList [humEffect, humScanned])[1]? = some humScanned
      ∧ (ScanAll "other".toList "hum03.wav".toList [humEffect, humScanned]).length = 2
      ∧ (ScanAll "other".toList "hum03.wav".toList [humEffect, humScanned])[0]? ≠ some humEffect :=
  ⟨by decide, by decide,
    (ScanAll_directory_lock "font".toList "other".toList "hum03.wav".toList humScanned
      (by decide) (by decide)).1,
    (ScanAll_directory_lock "font".toList "other".toList "hum03.wav".toList humScanned
      (by decide) (by decide)).2.1,
    ((ScanAll_directory_lock "font".toList "other".toList "hum03.wav".toList humScanned
      (by decide) (by decide)).2.2 [humEffect, humScanned] 1 (by decide)).1,
    ((ScanAll_directory_lock "font".toList "other".toList "hum03.wav".toList humScanned
      (by decide) (by decide)).2.2 [humEffect, humScanned] 1 (by decide)).2,
    by decide⟩

end Effect

/-! ## `ScanCurrentDirectory` -/

namespace Effect

theorem ScanNumber_links (e : Effect) (t : FilePattern) (rest : List Char)
    (x : Option EffectPtr) (y : Int) :
    ScanNumber { e with following_ := x, last_ := y } t rest
      = ((ScanNumber e t rest).1, { (ScanNumber e t rest).2 with following_ := x, last_ := y }) := by
  by_cases ha : rest.head? = some '.' ∧ rest.length = 4
  · rw [ScanNumber_unnumbered _ t rest ha, ScanNumber_unnumbered _ t rest ha]
  · by_cases hn : (strtol rest).1 ≤ 0
    · rw [ScanNumber_rejected _ t rest ha hn, ScanNumber_rejected _ t rest ha hn]
    · rw [ScanNumber_numbered _ t rest ha (not_le.mp hn),
        ScanNumber_numbered _ t rest ha (not_le.mp hn)]

theorem ScanExt_links (e : Effect) (filename : List Char) (t : FilePattern) (rest : List Char)
    (x : Option EffectPtr) (y : Int) :
    ScanExt { e with following_ := x, last_ := y } filename t rest
      = ((ScanExt e filename t rest).1,
          { (ScanExt e filename t rest).2 with following_ := x, last_ := y }) := by
  unfold ScanExt
  simp only
  split_ifs
  · rfl
  · exact ScanNumber_links { e with ext_ := IdentifyExtension filename } t rest x y
  · rfl
  · exact ScanNumber_links e t rest x y

theorem Scan_links (e : Effect) (filename : List Char) (x : Option EffectPtr) (y : Int) :
    Scan { e with following_ := x, last_ := y } filename
      = ((Scan e filename).1, { (Scan e filename).2 with following_ := x, last_ := y }) := by
  rw [Scan_eq_nameRest, Scan_eq_nameRest]
  show (match nameRest e.name_ filename with
      | none => (false, { e with following_ := x, last_ := y })
      | some r => ScanExt { e with following_ := x, last_ := y } filename r.1 r.2) = _
  cases nameRest e.name_ filename with
  | none => rfl
  | some r => exact ScanExt_links e filename r.1 r.2 x y

theorem ScanAll1_links (dir filename : List Char) (e : Effect) (x : Option EffectPtr) (y : Int) :
    ScanAll1 dir filename { e with following_ := x, last_ := y }
      = { ScanAll1 dir filename e with following_ := x, last_ := y } := by
  unfold ScanAll1 ScanAllStep
  simp only [Scan_links]
  split_ifs <;> rfl

theorem scanAllSeq_links (calls : List (List Char × List Char)) :
    ∀ (e : Effect) (x : Option EffectPtr) (y : Int),
      scanAllSeq { e with following_ := x, last_ := y } calls
        = { scanAllSeq e calls with following_ := x, last_ := y } := by
  induction calls with
  | nil => intro e x y; rfl
  | cons c cs ih =>
    intro e x y
    show scanAllSeq (ScanAll1 c.1 c.2 { e with following_ := x, last_ := y }) cs = _
    rw [ScanAll1_links, ih]
    rfl

theorem ScanNumber_frame (e : Effect) (t : FilePattern) (rest : List Char) :
    (ScanNumber e t rest).2.selected_ = e.selected_
      ∧ (ScanNumber e t rest).2.paired_ = e.paired_
      ∧ (ScanNumber e t rest).2.volume_ = e.volume_
      ∧ (ScanNumber e t rest).2.following_ = e.following_
      ∧ (ScanNumber e t rest).2.last_ = e.last_ := by
  by_cases ha : rest.head? = some '.' ∧ rest.length = 4
  · rw [ScanNumber_unnumbered e t rest ha]
    exact ⟨rfl, rfl, rfl, rfl, rfl⟩
  · by_cases hn : (strtol rest).1 ≤ 0
    · rw [ScanNumber_rejected e t rest ha hn]
      exact ⟨rfl, rfl, rfl, rfl, rfl⟩
    · rw [ScanNumber_numbered e t rest ha (not_le.mp hn)]
      exact ⟨rfl, rfl, rfl, rfl, rfl⟩

theorem Scan_frame (e : Effect) (filename : List Char) :
    (Scan e filename).2.selected_ = e.selected_
      ∧ (Scan e filename).2.paired_ = e.paired_
      ∧ (Scan e filename).2.volume_ = e.volume_
      ∧ (Scan e filename).2.following_ = e.following_
      ∧ (Scan e filename).2.last_ = e.last_ := by
  rw [Scan_eq_nameRest]
  cases nameRest e.name_ filename with
  | none => exact ⟨rfl, rfl, rfl, rfl, rfl⟩
  | some r =>
    simp only
    rcases ScanExt_cases e filename r.1 r.2 with h | ⟨e', he', h⟩
    · rw [h]
      exact ⟨rfl, rfl, rfl, rfl, rfl⟩
    · rw [h]
      have hf := ScanNumber_frame e' r.1 r.2
      rcases he' with rfl | rfl <;> exact hf

theorem ScanAll1_frame (dir filename : List Char) (e : Effect) :
    (ScanAll1 dir filename e).selected_ = e.selected_
      ∧ (ScanAll1 dir filename e).paired_ = e.paired_
      ∧ (ScanAll1 dir filename e).volume_ = e.volume_
      ∧ (ScanAll1 dir filename e).following_ = e.following_
      ∧ (ScanAll1 dir filename e).last_ = e.last_ := by
  have hf := Scan_frame e filename
  unfold ScanAll1 ScanAllStep
  simp only
  split_ifs <;> first | exact ⟨rfl, rfl, rfl, rfl, rfl⟩ | exact hf

theorem scanAllSeq_frame (calls : List (List Char × List Char)) :
    ∀ e : Effect,
      (scanAllSeq e calls).selected_ = e.selected_
        ∧ (scanAllSeq e calls).paired_ = e.paired_
        ∧ (scanAllSeq e calls).volume_ = e.volume_
        ∧ (scanAllSeq e calls).following_ = e.following_
        ∧ (scanAllSeq e calls).last_ = e.last_
        ∧ (scanAllSeq e calls).name_ = e.name_
        ∧ (scanAllSeq e calls).file_type_ = e.file_type_ := by
  induction calls with
  | nil => intro e; exact ⟨rfl, rfl, rfl, rfl, rfl, rfl, rfl⟩
  | cons c cs ih =>
    intro e
    obtain ⟨i1, i2, i3, i4, i5, i6, i7⟩ := ih (ScanAll1 c.1 c.2 e)
    obtain ⟨f1, f2, f3, f4, f5⟩ := ScanAll1_frame c.1 c.2 e
    obtain ⟨n1, n2⟩ := ScanAll1_name_type c.1 c.2 e
    exact ⟨i1.trans f1, i2.trans f2, i3.trans f3, i4.trans f4, i5.trans f5, i6.trans n1,
      i7.trans n2⟩

theorem scanAllSeq_append (e : Effect) (c1 c2 : List (List Char × List Char)) :
    scanAllSeq e (c1 ++ c2) = scanAllSeq (scanAllSeq e c1) c2 := by
  unfold scanAllSeq
  rw [List.foldl_append]

/-! ### The whole scan as a sequence of `ScanAll` calls -/

theorem IsScanCalls_id : IsScanCalls (fun all => all) :=
  ⟨[], fun all => by simp [scanAllSeq]⟩

theorem IsScanCalls_ScanAll (dir filename : List Char) : IsScanCalls (ScanAll dir filename) :=
  ⟨[(dir, filename)], fun all => by rw [ScanAll_eq_map]; rfl⟩

theorem IsScanCalls_comp (F G : List Effect → List Effect) (hF : IsScanCalls F)
    (hG : IsScanCalls G) : IsScanCalls (fun all => G (F all)) := by
  obtain ⟨c1, h1⟩ := hF
  obtain ⟨c2, h2⟩ := hG
  refine ⟨c1 ++ c2, fun all => ?_⟩
  show G (F all) = _
  rw [h1, h2, List.map_map]
  apply List.map_congr_left
  intro e _
  simp [scanAllSeq_append]

theorem IsScanCalls_foldl {X : Type} (g : List Effect → X → List Effect)
    (hg : ∀ x, IsScanCalls (fun all => g all x)) (xs : List X) :
    IsScanCalls (fun all => xs.foldl g all) := by
  induction xs with
  | nil => exact IsScanCalls_id
  | cons x xs ih => exact IsScanCalls_comp _ _ (hg x) ih

theorem IsScanCalls_scanSerialFlash (dir : List Char) (flash : List (List Char)) :
    IsScanCalls (scanSerialFlash dir flash) := by
  unfold scanSerialFlash
  apply IsScanCalls_foldl
  intro filename
  cases startswith dir filename with
  | none => exact IsScanCalls_id
  | some f =>
    simp only
    split_ifs
    · exact IsScanCalls_id
    · exact IsScanCalls_ScanAll _ _

theorem IsScanCalls_scanSD (d : FontDir) : IsScanCalls (scanSD d) := by
  unfold scanSD
  cases d.found with
  | false => exact IsScanCalls_id
  | true =>
    simp only [if_true]
    apply IsScanCalls_foldl
    intro iter
    cases iter.isdir with
    | false => exact IsScanCalls_ScanAll _ _
    | true =>
      simp only [if_true]
      apply IsScanCalls_foldl
      intro i2
      exact IsScanCalls_ScanAll _ _

theorem ScanCurrentDirectory_eq (serialflash sd : Bool) (flash : List (List Char))
    (current_directory : List FontDir) :
    ∃ calls : List (List Char × List Char), ∀ all : List Effect,
      ScanCurrentDirectory serialflash sd flash current_directory all
        = all.map (fun e => scanAllSeq (reset e) calls) := by
  have h : IsScanCalls (fun all => current_directory.foldl
      (fun all d =>
        let all1 := if serialflash then scanSerialFlash d.dir flash all else all
        if sd then scanSD d all1 else all1) all) := by
    apply IsScanCalls_foldl
    intro d
    simp only
    apply IsScanCalls_comp (fun all => if serialflash then scanSerialFlash d.dir flash all else all)
      (fun all1 => if sd then scanSD d all1 else all1)
    · cases serialflash
      · exact IsScanCalls_id
      · exact IsScanCalls_scanSerialFlash d.dir flash
    · cases sd
      · exact IsScanCalls_id
      · exact IsScanCalls_scanSD d
  obtain ⟨calls, hc⟩ := h
  refine ⟨calls, fun all => ?_⟩
  unfold ScanCurrentDirectory
  have h2 := hc (all.map reset)
  simp only at h2
  rw [h2, List.map_map]
  rfl

theorem reset_eq_links (e1 e2 : Effect) (hn : e1.name_ = e2.name_)
    (ht : e1.file_type_ = e2.file_type_) :
    reset e2 = { reset e1 with following_ := e2.following_, last_ := e2.last_ } := by
  cases e1
  cases e2
  simp only at hn ht
  subst hn ht
  rfl

theorem scanAllSeq_reset_twice (e : Effect) (calls : List (List Char × List Char)) :
    scanAllSeq (reset (scanAllSeq (reset e) calls)) calls = scanAllSeq (reset e) calls := by
  obtain ⟨-, -, -, f4, f5, f6, f7⟩ := scanAllSeq_frame calls (reset e)
  have h := reset_eq_links e (scanAllSeq (reset e) calls) f6.symm f7.symm
  rw [h, scanAllSeq_links]

/-- Claim C23.  `ScanCurrentDirectory` first resets every descriptor: for two lists of
descriptors with the same names and kinds, whatever their states before the call, the
same search paths and listings leave in every descriptor the same `min`, `max`, digit
width, unnumbered flag, pattern, extension, hit count and bound directory, with no forced
selection, the pairing flag off and volume `100`; and running it a second time over the
same listings gives the state that one run gives. -/
theorem ScanCurrentDirectory_independent (serialflash sd : Bool) (flash : List (List Char))
    (current_directory : List FontDir) (all1 all2 : List Effect)
    (h : List.Forall₂ (fun e1 e2 => e1.name_ = e2.name_ ∧ e1.file_type_ = e2.file_type_)
      all1 all2) :
    List.Forall₂
        (fun r1 r2 =>
          r1.min_file_ = r2.min_file_ ∧ r1.max_file_ = r2.max_file_ ∧ r1.digits_ = r2.digits_
            ∧ r1.unnumbered_file_found_ = r2.unnumbered_file_found_
            ∧ r1.file_pattern_ = r2.file_pattern_ ∧ r1.ext_ = r2.ext_
            ∧ r1.num_files_ = r2.num_files_ ∧ r1.directory_ = r2.directory_
            ∧ r1.selected_ = -1 ∧ r2.selected_ = -1
            ∧ r1.paired_ = false ∧ r2.paired_ = false
            ∧ r1.volume_ = 100 ∧ r2.volume_ = 100)
        (ScanCurrentDirectory serialflash sd flash current_directory all1)
        (ScanCurrentDirectory serialflash sd flash current_directory all2)
      ∧ ScanCurrentDirectory serialflash sd flash current_directory
          (ScanCurrentDirectory serialflash sd flash current_directory all1)
        = ScanCurrentDirectory serialflash sd flash current_directory all1 := by
  obtain ⟨calls, hc⟩ := ScanCurrentDirectory_eq serialflash sd flash current_directory
  constructor
  · rw [hc all1, hc all2, List.forall₂_map_left_iff, List.forall₂_map_right_iff]
    refine List.Forall₂.imp ?_ h
    intro e1 e2 he
    obtain ⟨a1, a2, a3, -⟩ := scanAllSeq_frame calls (reset e1)
    have hseq : scanAllSeq (reset e2) calls
        = { scanAllSeq (reset e1) calls with following_ := e2.following_, last_ := e2.last_ } := by
      rw [reset_eq_links e1 e2 he.1 he.2, scanAllSeq_links]
    have s1 : (scanAllSeq (reset e1) calls).selected_ = -1 := a1
    have s2 : (scanAllSeq (reset e1) calls).paired_ = false := a2
    have s3 : (scanAllSeq (reset e1) calls).volume_ = 100 := a3
    rw [hseq]
    exact ⟨rfl, rfl, rfl, rfl, rfl, rfl, rfl, rfl, s1, s1, s2, s2, s3, s3⟩
  · rw [hc all1, hc, List.map_map]
    apply List.map_congr_left
    intro e _
    exact scanAllSeq_reset_twice e calls

theorem ScanCurrentDirectory_independent_witness :
    List.Forall₂ (fun e1 e2 => e1.name_ = e2.name_ ∧ e1.file_type_ = e2.file_type_)
        [humEffect, fourFiles "clash".toList none]
        [(humScanned.Select 2).SetPaired true, mk0 "clash".toList (some 7) .SOUND]
      ∧ ScanCurrentDirectory false true [] fontDirs [humEffect, fourFiles "clash".toList none]
          = [{ reset humEffect with
                min_file_ := 1, max_file_ := 1, digits_ := 2, unnumbered_file_found_ := true,
                file_pattern_ := .FLAT, ext_ := .WAV, num_files_ := 2,
                directory_ := some "font".toList },
             { reset (fourFiles "clash".toList none) with
                min_file_ := 1, max_file_ := 2, file_pattern_ := .SUBDIRS, ext_ := .WAV,
                num_files_ := 2, directory_ := some "font".toList }]
      ∧ (List.Forall₂
          (fun r1 r2 =>
            r1.min_file_ = r2.min_file_ ∧ r1.max_file_ = r2.max_file_ ∧ r1.digits_ = r2.digits_
              ∧ r1.unnumbered_file_found_ = r2.unnumbered_file_found_
              ∧ r1.file_pattern_ = r2.file_pattern_ ∧ r1.ext_ = r2.ext_
              ∧ r1.num_files_ = r2.num_files_ ∧ r1.directory_ = r2.directory_
              ∧ r1.selected_ = -1 ∧ r2.selected_ = -1
              ∧ r1.paired_ = false ∧ r2.paired_ = false
              ∧ r1.volume_ = 100 ∧ r2.volume_ = 100)
          (ScanCurrentDirectory false true [] fontDirs [humEffect, fourFiles "clash".toList none])
          (ScanCurrentDirectory false true [] fontDirs
            [(humScanned.Select 2).SetPaired true, mk0 "clash".toList (some 7) .SOUND])
        ∧ ScanCurrentDirectory false true [] fontDirs
            (ScanCurrentDirectory false true [] fontDirs
              [humEffect, fourFiles "clash".toList none])
          = ScanCurrentDirectory false true [] fontDirs
              [humEffect, fourFiles "clash".toList none]) :=
  ⟨List.Forall₂.cons ⟨by decide, by decide⟩
      (List.Forall₂.cons ⟨by decide, by decide⟩ List.Forall₂.nil),
    by decide,
    ScanCurrentDirectory_independent false true [] fontDirs
      [humEffect, fourFiles "clash".toList none]
      [(humScanned.Select 2).SetPaired true, mk0 "clash".toList (some 7) .SOUND]
      (List.Forall₂.cons ⟨by decide, by decide⟩
        (List.Forall₂.cons ⟨by decide, by decide⟩ List.Forall₂.nil))⟩

end Effect

/-! ## `Play` -/

namespace Effect

theorem RandomFile_handle (noRepeat : Bool) (fuel : Nat) (this : EffectPtr) (e : Effect)
    (rnd : Nat → Nat) (pos : Nat) (r : FileID × Effect × Nat) (hf : 1 ≤ e.files_found)
    (hr : RandomFile noRepeat fuel this e rnd pos = some r) :
    r.1.effect_ = some this ∧ r.2.1.directory_ = e.directory_ := by
  have h1 : ¬ ((e.files_found : Int) < 1) := by omega
  unfold RandomFile at hr
  simp only [h1, if_false] at hr
  split_ifs at hr
  all_goals first
    | (simp only [Option.some.injEq] at hr; subst hr; exact ⟨rfl, rfl⟩)
    | (simp only [Option.map_eq_some'] at hr; obtain ⟨q, -, rfl⟩ := hr; exact ⟨rfl, rfl⟩)

theorem GetName_isSome (e : Effect) (i : Int) (h : e.directory_ ≠ none) :
    ∃ name, GetName e i = some name := by
  obtain ⟨dir, hdir⟩ := Option.ne_none_iff_exists'.mp h
  exact ⟨_, GetName_eq e dir hdir i⟩

theorem RandomFile_default_returns (fuel : Nat) (this : EffectPtr) (e : Effect)
    (rnd : Nat → Nat) (pos : Nat) : ∃ r, RandomFile false fuel this e rnd pos = some r := by
  unfold RandomFile
  simp only [Bool.false_eq_true, if_false]
  split_ifs <;> exact ⟨_, rfl⟩

theorem rerollLoop_never_from (f last : Int) (rnd : Nat → Nat) :
    ∀ (fuel : Nat) (pos : Nat), (∀ k, (rnd (pos + k) : Int).tmod f = last) →
      rerollLoop f last rnd fuel last pos = none := by
  intro fuel
  induction fuel with
  | zero => intro pos _; rfl
  | succ n ih =>
    intro pos hall
    unfold rerollLoop
    rw [if_pos rfl, show (rnd pos : Int).tmod f = last from hall 0]
    refine ih (pos + 1) fun k => ?_
    have e : pos + 1 + k = pos + (k + 1) := by omega
    rw [e]
    exact hall (k + 1)

/-- Under `NO_REPEAT_RANDOM`, with three or more files, no forced selection and every draw
from the current one on equal to `last_` modulo the file count, the re-roll loop of
`RandomFile` is still running after any number of steps. -/
theorem RandomFile_noRepeat_stuck (fuel : Nat) (this : EffectPtr) (e : Effect)
    (rnd : Nat → Nat) (pos : Nat) (hf : 3 ≤ e.files_found) (hs : e.selected_ = -1)
    (hall : ∀ k, (rnd (pos + k) : Int).tmod (e.files_found : Int) = e.last_) :
    RandomFile true fuel this e rnd pos = none := by
  rw [RandomFile_noRepeat_many fuel this e rnd pos hf hs,
    show (rnd pos : Int).tmod (e.files_found : Int) = e.last_ from hall 0,
    rerollLoop_never_from _ _ rnd fuel (pos + 1) fun k => by
      have e' : pos + 1 + k = pos + (k + 1) := by omega
      rw [e']
      exact hall (k + 1)]
  rfl

/-- When the first `k` draws equal `last_` modulo the file count and the next one differs,
`RandomFile` under `NO_REPEAT_RANDOM` returns that draw, given `k + 1` steps or more. -/
theorem RandomFile_noRepeat_exact (this : EffectPtr) (e : Effect) (rnd : Nat → Nat) (pos : Nat)
    (h3 : 3 ≤ e.files_found) (hs : e.selected_ = -1) (k fuel : Nat)
    (hall : ∀ j, j < k → (rnd (pos + j) : Int).tmod (e.files_found : Int) = e.last_)
    (hk : (rnd (pos + k) : Int).tmod (e.files_found : Int) ≠ e.last_) (hfuel : k + 1 ≤ fuel) :
    RandomFile true fuel this e rnd pos
      = some (⟨some this, (rnd (pos + k) : Int).tmod (e.files_found : Int)⟩,
          { e with last_ := (rnd (pos + k) : Int).tmod (e.files_found : Int) },
          pos + k + 1) := by
  rw [RandomFile_noRepeat_many fuel this e rnd pos h3 hs]
  cases k with
  | zero =>
    obtain ⟨fuel, rfl⟩ : ∃ m, fuel = m + 1 := ⟨fuel - 1, by omega⟩
    have hk' : (rnd pos : Int).tmod (e.files_found : Int) ≠ e.last_ := by simpa using hk
    simp [rerollLoop, hk']
  | succ k =>
    have h0 : (rnd pos : Int).tmod (e.files_found : Int) = e.last_ := by
      simpa using hall 0 (by omega)
    have e1 : pos + 1 + k = pos + (k + 1) := by omega
    have hall' : ∀ j, j < k →
        (rnd (pos + 1 + j) : Int).tmod (e.files_found : Int) = e.last_ := by
      intro j hj
      have e2 : pos + 1 + j = pos + (j + 1) := by omega
      rw [e2]
      exact hall (j + 1) (by omega)
    rw [h0, rerollLoop_exact _ _ rnd k fuel (pos + 1) hall' (by rw [e1]; exact hk) (by omega),
      e1]
    rfl

/-- In the default build, with a forced selection and with fewer than three files
`RandomFile` has no loop: the number of steps allowed does not matter, and it returns. -/
theorem RandomFile_no_loop (noRepeat : Bool) (fuel : Nat) (this : EffectPtr) (e : Effect)
    (rnd : Nat → Nat) (pos : Nat)
    (h : noRepeat = false ∨ e.files_found ≤ 2 ∨ e.selected_ ≠ -1) :
    RandomFile noRepeat fuel this e rnd pos = RandomFile noRepeat 0 this e rnd pos
      ∧ (RandomFile noRepeat 0 this e rnd pos).isSome = true := by
  unfold RandomFile
  simp only
  split_ifs <;>
    first
    | exact ⟨rfl, rfl⟩
    | (exfalso; rcases h with h | h | h <;> first | omega | simp_all)

/-- `RandomFile` returns, with the same result for every larger number of steps, in the
default build, with a forced selection, with at most two files, and when some draw from
the current one on differs from `last_` modulo the file count. -/
theorem RandomFile_returns (noRepeat : Bool) (this : EffectPtr) (e : Effect) (rnd : Nat → Nat)
    (pos : Nat)
    (h : noRepeat = false ∨ e.files_found ≤ 2 ∨ e.selected_ ≠ -1
      ∨ ∃ k, (rnd (pos + k) : Int).tmod (e.files_found : Int) ≠ e.last_) :
    ∃ fuel0 r, ∀ fuel, fuel0 ≤ fuel → RandomFile noRepeat fuel this e rnd pos = some r := by
  by_cases hl : noRepeat = false ∨ e.files_found ≤ 2 ∨ e.selected_ ≠ -1
  · obtain ⟨r, hr⟩ := Option.isSome_iff_exists.mp
      (RandomFile_no_loop noRepeat 0 this e rnd pos hl).2
    exact ⟨0, r, fun fuel _ => by
      rw [(RandomFile_no_loop noRepeat fuel this e rnd pos hl).1, hr]⟩
  · simp only [not_or, not_not, Bool.not_eq_false] at hl
    obtain ⟨hnr, h3, hs⟩ := hl
    subst hnr
    have hk : ∃ k, (rnd (pos + k) : Int).tmod (e.files_found : Int) ≠ e.last_ := by
      rcases h with h | h | h | h
      · simp at h
      · omega
      · exact absurd hs h
      · exact h
    classical
    refine ⟨Nat.find hk + 1, _, fun fuel hfuel =>
      RandomFile_noRepeat_exact this e rnd pos (by omega) hs (Nat.find hk) fuel (fun j hj => ?_)
        (Nat.find_spec hk) hfuel⟩
    exact not_not.mp (Nat.find_min hk hj)

end Effect

theorem Play_of_RandomFile (noRepeat : Bool) (fuel : Nat) (heap : EffectPtr → Effect)
    (this : EffectPtr) (rnd : Nat → Nat) (pos : Nat) (filename : List Char)
    (reader : EffectFileReader) (r : FileID × Effect × Nat)
    (hb : (heap this).directory_ ≠ none) (hf : 1 ≤ (heap this).files_found)
    (hr : Effect.RandomFile noRepeat fuel this (heap this) rnd pos = some r) :
    ∃ name, r.2.1.GetName r.1.file_ = some name
      ∧ Effect.Play noRepeat fuel heap this rnd pos filename
          = some (true, name, Function.update heap this r.2.1, r.2.2)
      ∧ EffectFileReader.Play noRepeat fuel heap reader this rnd pos
          = some (true, { do_open_ := true, filename_ := name },
              Function.update heap this r.2.1, r.2.2) := by
  obtain ⟨he, hd⟩ := Effect.RandomFile_handle noRepeat fuel this (heap this) rnd pos r hf hr
  obtain ⟨name, hname⟩ := Effect.GetName_isSome r.2.1 r.1.file_ (by rw [hd]; exact hb)
  have hnull : r.1 ≠ FileID.null := by
    intro h
    rw [h] at he
    simp [FileID.null] at he
  have hbool : ¬ (r.1.toBool = false) := by simp [FileID.toBool, he]
  have hg : FileID.GetName (Function.update heap this r.2.1) r.1 = some name := by
    unfold FileID.GetName
    rw [he]
    simp only [Function.update_same]
    exact hname
  refine ⟨name, hname, ?_, ?_⟩
  · unfold Effect.Play
    rw [hr]
    simp only
    rw [if_neg hnull, hg]
  · unfold EffectFileReader.Play
    rw [hr]
    simp only
    rw [if_neg hbool, hg]

theorem Play_no_files (noRepeat : Bool) (fuel : Nat) (heap : EffectPtr → Effect)
    (this : EffectPtr) (rnd : Nat → Nat) (pos : Nat) (filename : List Char)
    (reader : EffectFileReader) (hf : (heap this).files_found = 0) :
    Effect.Play noRepeat fuel heap this rnd pos filename = some (false, filename, heap, pos)
      ∧ EffectFileReader.Play noRepeat fuel heap reader this rnd pos
          = some (false, { reader with do_open_ := false }, heap, pos) := by
  have hr : Effect.RandomFile noRepeat fuel this (heap this) rnd pos
      = some (FileID.null, heap this, pos) := by
    simp [Effect.RandomFile, hf]
  constructor
  · unfold Effect.Play
    rw [hr]
    simp
  · unfold EffectFileReader.Play
    rw [hr]
    simp [FileID.toBool, FileID.null]

theorem Play_none_of_RandomFile (noRepeat : Bool) (fuel : Nat) (heap : EffectPtr → Effect)
    (this : EffectPtr) (rnd : Nat → Nat) (pos : Nat) (filename : List Char)
    (reader : EffectFileReader)
    (hr : Effect.RandomFile noRepeat fuel this (heap this) rnd pos = none) :
    Effect.Play noRepeat fuel heap this rnd pos filename = none
      ∧ EffectFileReader.Play noRepeat fuel heap reader this rnd pos = none := by
  constructor
  · unfold Effect.Play
    rw [hr]
  · unfold EffectFileReader.Play
    rw [hr]

/-- Claim C24, as amended.  Resource not found is a skip: for a descriptor that is bound to
a directory whenever it counts a file, with `files_found() == 0` `Effect::Play(filename)`
returns `false` and leaves the buffer as it was, and `EffectFileReader::Play(effect)`
returns `false` with `do_open_` false.  With at least one file, in the default build, and
under `NO_REPEAT_RANDOM` with a forced selection, with at most two files, or when some
`rand()` value from the current draw on differs from `last_` modulo the file count, both
calls return `true` and the buffer holds `GetName` of the index that `RandomFile()` picked;
in the default build they do so without any loop.  Under `NO_REPEAT_RANDOM` with three or
more files, no forced selection and every `rand()` value equal to `last_` modulo the file
count, neither call returns.  So a call that returns, returns `false` exactly when there
is no file, and `do_open_` is false afterwards exactly then. -/
theorem Play_skips_missing_resource (noRepeat : Bool) (heap : EffectPtr → Effect)
    (this : EffectPtr) (rnd : Nat → Nat) (pos : Nat) (filename : List Char)
    (reader : EffectFileReader)
    (hb : 1 ≤ (heap this).files_found → (heap this).directory_ ≠ none) :
    ((heap this).files_found = 0 → ∀ fuel,
        Effect.Play noRepeat fuel heap this rnd pos filename = some (false, filename, heap, pos)
          ∧ EffectFileReader.Play noRepeat fuel heap reader this rnd pos
            = some (false, { reader with do_open_ := false }, heap, pos))
      ∧ (1 ≤ (heap this).files_found →
          (noRepeat = false ∨ (heap this).files_found ≤ 2 ∨ (heap this).selected_ ≠ -1
            ∨ ∃ k, (rnd (pos + k) : Int).tmod ((heap this).files_found : Int)
                ≠ (heap this).last_) →
          ∃ fuel0 r name,
            r.2.1.GetName r.1.file_ = some name
              ∧ ∀ fuel, fuel0 ≤ fuel →
                Effect.RandomFile noRepeat fuel this (heap this) rnd pos = some r
                  ∧ Effect.Play noRepeat fuel heap this rnd pos filename
                      = some (true, name, Function.update heap this r.2.1, r.2.2)
                  ∧ EffectFileReader.Play noRepeat fuel heap reader this rnd pos
                      = some (true, { do_open_ := true, filename_ := name },
                          Function.update heap this r.2.1, r.2.2))
      ∧ (1 ≤ (heap this).files_found →
          ∃ r name,
            r.2.1.GetName r.1.file_ = some name
              ∧ ∀ fuel,
                Effect.RandomFile false fuel this (heap this) rnd pos = some r
                  ∧ Effect.Play false fuel heap this rnd pos filename
                      = some (true, name, Function.update heap this r.2.1, r.2.2)
                  ∧ EffectFileReader.Play false fuel heap reader this rnd pos
                      = some (true, { do_open_ := true, filename_ := name },
                          Function.update heap this r.2.1, r.2.2))
      ∧ (noRepeat = true → 3 ≤ (heap this).files_found → (heap this).selected_ = -1 →
          (∀ k, (rnd (pos + k) : Int).tmod ((heap this).files_found : Int)
              = (heap this).last_) →
          ∀ fuel,
            Effect.Play noRepeat fuel heap this rnd pos filename = none
              ∧ EffectFileReader.Play noRepeat fuel heap reader this rnd pos = none)
      ∧ (∀ fuel out, Effect.Play noRepeat fuel heap this rnd pos filename = some out →
          (out.1 = false ↔ (heap this).files_found = 0))
      ∧ (∀ fuel out, EffectFileReader.Play noRepeat fuel heap reader this rnd pos = some out →
          (out.1 = false ↔ (heap this).files_found = 0)
            ∧ (out.2.1.do_open_ = false ↔ (heap this).files_found = 0)) := by
  have hpos : ∀ nr fuel, 1 ≤ (heap this).files_found →
      ∀ r, Effect.RandomFile nr fuel this (heap this) rnd pos = some r →
        ∃ name, r.2.1.GetName r.1.file_ = some name
          ∧ Effect.Play nr fuel heap this rnd pos filename
              = some (true, name, Function.update heap this r.2.1, r.2.2)
          ∧ EffectFileReader.Play nr fuel heap reader this rnd pos
              = some (true, { do_open_ := true, filename_ := name },
                  Function.update heap this r.2.1, r.2.2) :=
    fun nr fuel hf r hr =>
      Play_of_RandomFile nr fuel heap this rnd pos filename reader r (hb hf) hf hr
  have hzero := fun nr fuel hf => Play_no_files nr fuel heap this rnd pos filename reader hf
  have hret : ∀ nr, 1 ≤ (heap this).files_found →
      (nr = false ∨ (heap this).files_found ≤ 2 ∨ (heap this).selected_ ≠ -1
        ∨ ∃ k, (rnd (pos + k) : Int).tmod ((heap this).files_found : Int)
            ≠ (heap this).last_) →
      ∃ fuel0 r name,
        r.2.1.GetName r.1.file_ = some name
          ∧ ∀ fuel, fuel0 ≤ fuel →
            Effect.RandomFile nr fuel this (heap this) rnd pos = some r
              ∧ Effect.Play nr fuel heap this rnd pos filename
                  = some (true, name, Function.update heap this r.2.1, r.2.2)
              ∧ EffectFileReader.Play nr fuel heap reader this rnd pos
                  = some (true, { do_open_ := true, filename_ := name },
                      Function.update heap this r.2.1, r.2.2) := by
    intro nr hf hc
    obtain ⟨fuel0, r, hr⟩ := Effect.RandomFile_returns nr this (heap this) rnd pos hc
    obtain ⟨name, hname, -, -⟩ := hpos nr fuel0 hf r (hr fuel0 (le_refl _))
    refine ⟨fuel0, r, name, hname, fun fuel hfuel => ?_⟩
    obtain ⟨name2, hname2, hp, hq⟩ := hpos nr fuel hf r (hr fuel hfuel)
    rw [hname] at hname2
    cases hname2
    exact ⟨hr fuel hfuel, hp, hq⟩
  refine ⟨fun hf fuel => hzero noRepeat fuel hf, hret noRepeat, fun hf => ?_,
    fun hnr h3 hs hall fuel => ?_, ?_, ?_⟩
  · obtain ⟨fuel0, r, name, hname, hall⟩ := hret false hf (Or.inl rfl)
    refine ⟨r, name, hname, fun fuel => ?_⟩
    have hfi := (Effect.RandomFile_no_loop false fuel this (heap this) rnd pos (Or.inl rfl)).1
    have hf0 := (Effect.RandomFile_no_loop false fuel0 this (heap this) rnd pos (Or.inl rfl)).1
    have hr : Effect.RandomFile false fuel this (heap this) rnd pos = some r := by
      rw [hfi, ← hf0]
      exact (hall fuel0 (le_refl _)).1
    obtain ⟨name2, hname2, hp, hq⟩ := hpos false fuel hf r hr
    rw [hname] at hname2
    cases hname2
    exact ⟨hr, hp, hq⟩
  · subst hnr
    exact Play_none_of_RandomFile true fuel heap this rnd pos filename reader
      (Effect.RandomFile_noRepeat_stuck fuel this (heap this) rnd pos h3 hs hall)
  · intro fuel out hout
    by_cases hf : (heap this).files_found = 0
    · rw [(hzero noRepeat fuel hf).1] at hout
      cases hout
      simp [hf]
    · have hf1 : 1 ≤ (heap this).files_found := by omega
      cases hr : Effect.RandomFile noRepeat fuel this (heap this) rnd pos with
      | none => simp [Effect.Play, hr] at hout
      | some r =>
        obtain ⟨name, -, hp, -⟩ := hpos noRepeat fuel hf1 r hr
        rw [hp] at hout
        cases hout
        simp [hf]
  · intro fuel out hout
    by_cases hf : (heap this).files_found = 0
    · rw [(hzero noRepeat fuel hf).2] at hout
      cases hout
      simp [hf]
    · have hf1 : 1 ≤ (heap this).files_found := by omega
      cases hr : Effect.RandomFile noRepeat fuel this (heap this) rnd pos with
      | none => simp [EffectFileReader.Play, hr] at hout
      | some r =>
        obtain ⟨name, -, -, hp⟩ := hpos noRepeat fuel hf1 r hr
        rw [hp] at hout
        cases hout
        simp [hf]

theorem Play_skips_missing_resource_witness :
    (1 ≤ (pairHeap 2).files_found → (pairHeap 2).directory_ ≠ none)
      ∧ 1 ≤ (pairHeap 2).files_found
      ∧ (∃ k, ((((fun j => if j < 3 then 0 else 1) (0 + k) : Nat) : Int)).tmod
            (((pairHeap 2).files_found : Nat) : Int) ≠ (pairHeap 2).last_)
      ∧ Effect.RandomFile true 4 2 (pairHeap 2) (fun j => if j < 3 then 0 else 1) 0
          = some (⟨some 2, 1⟩, { pairHeap 2 with last_ := 1 }, 4)
      ∧ Effect.GetName { pairHeap 2 with last_ := 1 } 1 = some "font/pstoff2.wav".toList
      ∧ ∃ fuel0 r name,
          r.2.1.GetName r.1.file_ = some name
            ∧ ∀ fuel, fuel0 ≤ fuel →
              Effect.RandomFile true fuel 2 (pairHeap 2) (fun j => if j < 3 then 0 else 1) 0
                  = some r
                ∧ Effect.Play true fuel pairHeap 2 (fun j => if j < 3 then 0 else 1) 0
                    "old".toList
                    = some (true, name, Function.update pairHeap 2 r.2.1, r.2.2)
                ∧ EffectFileReader.Play true fuel pairHeap ⟨false, []⟩ 2
                    (fun j => if j < 3 then 0 else 1) 0
                    = some (true, { do_open_ := true, filename_ := name },
                        Function.update pairHeap 2 r.2.1, r.2.2) :=
  ⟨fun _ => by decide, by decide, ⟨3, by decide⟩, by decide, by decide,
    (Play_skips_missing_resource true pairHeap 2 (fun j => if j < 3 then 0 else 1) 0
      "old".toList ⟨false, []⟩ (fun _ => by decide)).2.1 (by decide)
      (Or.inr (Or.inr (Or.inr ⟨3, by decide⟩)))⟩

/-- Claim C24 fails as stated: under `NO_REPEAT_RANDOM`, for the descriptor `pstoff` with
four files, a bound directory, no forced selection and `last_ == 0`, neither
`Effect::Play` nor `EffectFileReader::Play` returns when every `rand()` value is `0`:
`files_found()` is not `0`, and yet no call returns `true`. -/
theorem Play_noRepeat_never_returns :
    (pairHeap 2).files_found = 4
      ∧ (pairHeap 2).directory_ = some "font".toList
      ∧ (∀ fuel, Effect.Play true fuel pairHeap 2 (fun _ => 0) 0 "old".toList = none)
      ∧ (∀ fuel, EffectFileReader.Play true fuel pairHeap ⟨false, []⟩ 2 (fun _ => 0) 0 = none) := by
  have hl : (pairHeap 2).last_ = 0 := by decide
  have hall : ∀ k : Nat, (((fun _ => 0) (0 + k) : Nat) : Int).tmod
      (((pairHeap 2).files_found : Nat) : Int) = (pairHeap 2).last_ := by
    intro k
    rw [hl]
    simp
  have hstuck := fun fuel =>
    Effect.RandomFile_noRepeat_stuck fuel 2 (pairHeap 2) (fun _ => 0) 0 (by decide) (by decide)
      hall
  exact ⟨by decide, by decide,
    fun fuel => (Play_none_of_RandomFile true fuel pairHeap 2 (fun _ => 0) 0 "old".toList
      ⟨false, []⟩ (hstuck fuel)).1,
    fun fuel => (Play_none_of_RandomFile true fuel pairHeap 2 (fun _ => 0) 0 "old".toList
      ⟨false, []⟩ (hstuck fuel)).2⟩

/-! ## The sequencer -/

section Sequencer

variable {α ι β Blade Color : Type}

theorem TrConcatOpt.begin_spec (A : Transition α Blade Color) (o : TrConcatOpt α ι β)
    (ho : o.WellTagged) :
    ∃ a0, (o.run_a_ = true → o.u = .inl a0) ∧ (o.run_a_ = false → a0 = A.init)
      ∧ TrConcatOpt.begin A o
        = some { run_a_ := true, u := .inl (A.begin a0), intermediate_ := o.intermediate_ } := by
  obtain ⟨r, u, i⟩ := o
  unfold TrConcatOpt.WellTagged at ho
  cases u with
  | inl a =>
    simp only [Sum.isLeft_inl] at ho
    subst ho
    exact ⟨a, fun _ => rfl, fun h => by simp at h, rfl⟩
  | inr b =>
    simp only [Sum.isLeft_inr] at ho
    subst ho
    exact ⟨A.init, fun h => by simp at h, fun _ => rfl, rfl⟩

/-- Claim C25.  For every sequencer with two or more stages and every state it can be in,
`done()` is `false` immediately after `begin()`, whatever the stages report: in the
default build, and under `OPTIMIZE_TRCONCAT` (where `begin()` is defined in every state
whose flag names the live member and leaves such a state). -/
theorem TrConcat_done_after_begin (A : Transition α Blade Color) (B : Transition β Blade Color)
    (s : TrConcat α ι β) (o : TrConcatOpt α ι β) (ho : o.WellTagged) :
    TrConcat.done B (TrConcat.begin A s) = false
      ∧ ∃ o1, TrConcatOpt.begin A o = some o1 ∧ o1.WellTagged
          ∧ TrConcatOpt.done B o1 = some false := by
  constructor
  · simp [TrConcat.done, TrConcat.begin]
  · obtain ⟨a0, -, -, hb⟩ := TrConcatOpt.begin_spec A o ho
    exact ⟨_, hb, rfl, rfl⟩

theorem TrConcat_done_after_begin_witness :
    (TrConcatOpt.init (countingColor 5) (countingStage 1) :
        TrConcatOpt (Nat × Nat × Nat) Nat (Nat × Nat × Nat)).WellTagged
      ∧ TrConcat.done (countingStage 1)
          (TrConcat.begin (countingStage 3)
            (TrConcat.init (countingStage 3) (countingColor 5) (countingStage 1))) = false
      ∧ ∃ o1, TrConcatOpt.begin (countingStage 3)
            (TrConcatOpt.init (countingColor 5) (countingStage 1)) = some o1
          ∧ o1.WellTagged ∧ TrConcatOpt.done (countingStage 1) o1 = some false :=
  ⟨rfl,
    TrConcat_done_after_begin (countingStage 3) (countingStage 1)
      (TrConcat.init (countingStage 3) (countingColor 5) (countingStage 1))
      (TrConcatOpt.init (countingColor 5) (countingStage 1)) rfl⟩

/-- Claim C28.  `getColor` case analysis, in every state and for every `start`, `end` and
`led`: the result is `end` when `done()` holds; stage 1's
`getColor(start, intermediate.getColor(led), led)` while `run_a_` is set; the remainder's
`getColor(intermediate.getColor(led), end, led)` when `run_a_` is clear and the remainder
is not done.  Under `OPTIMIZE_TRCONCAT` the same holds, on the live member, in every state
whose flag names the live member, where `getColor` is always defined. -/
theorem TrConcat_getColor_cases (A : Transition α Blade Color) (I : ColorSource ι Blade Color)
    (B : Transition β Blade Color) (s : TrConcat α ι β) (o : TrConcatOpt α ι β)
    (a b : Color) (led : Int) (ho : o.WellTagged) :
    ((TrConcat.done B s = true → TrConcat.getColor A I B s a b led = b)
        ∧ (s.run_a_ = true →
            TrConcat.getColor A I B s a b led
              = A.getColor s.a_ a (I.getColor s.intermediate_ led) led)
        ∧ (s.run_a_ = false → B.done s.b_ = false →
            TrConcat.getColor A I B s a b led
              = B.getColor s.b_ (I.getColor s.intermediate_ led) b led))
      ∧ ((∃ c, TrConcatOpt.getColor A I B o a b led = some c)
        ∧ (TrConcatOpt.done B o = some true → TrConcatOpt.getColor A I B o a b led = some b)
        ∧ (o.run_a_ = true →
            ∃ x, o.u = .inl x
              ∧ TrConcatOpt.getColor A I B o a b led
                = some (A.getColor x a (I.getColor o.intermediate_ led) led))
        ∧ (o.run_a_ = false →
            ∃ y, o.u = .inr y
              ∧ (B.done y = false →
                TrConcatOpt.getColor A I B o a b led
                  = some (B.getColor y (I.getColor o.intermediate_ led) b led)))) := by
  constructor
  · refine ⟨fun h => ?_, fun h => ?_, fun h1 h2 => ?_⟩
    · simp [TrConcat.getColor, h]
    · simp [TrConcat.getColor, TrConcat.done, h]
    · simp [TrConcat.getColor, TrConcat.done, h1, h2]
  · obtain ⟨r, u, i⟩ := o
    unfold TrConcatOpt.WellTagged at ho
    cases u with
    | inl x =>
      simp only [Sum.isLeft_inl] at ho
      subst ho
      refine ⟨⟨_, rfl⟩, fun h => ?_, fun _ => ⟨x, rfl, rfl⟩, fun h => by simp at h⟩
      simp [TrConcatOpt.done] at h
    | inr y =>
      simp only [Sum.isLeft_inr] at ho
      subst ho
      cases hd : B.done y with
      | true =>
        refine ⟨⟨b, ?_⟩, fun _ => ?_, fun h => by simp at h, fun _ => ⟨y, rfl, fun h => ?_⟩⟩
        · simp [TrConcatOpt.getColor, TrConcatOpt.done, hd]
        · simp [TrConcatOpt.getColor, TrConcatOpt.done, hd]
        · rw [hd] at h
          simp at h
      | false =>
        refine ⟨⟨B.getColor y (I.getColor i led) b led, ?_⟩, fun h => ?_, fun h => by simp at h,
          fun _ => ⟨y, rfl, fun _ => ?_⟩⟩
        · simp [TrConcatOpt.getColor, TrConcatOpt.done, hd]
        · simp [TrConcatOpt.done, hd] at h
        · simp [TrConcatOpt.getColor, TrConcatOpt.done, hd]

theorem TrConcat_getColor_cases_witness :
    (TrConcatOpt.init (countingColor 5) (countingStage 1) :
        TrConcatOpt (Nat × Nat × Nat) Nat (Nat × Nat × Nat)).WellTagged
      ∧ (TrConcat.begin (countingStage 3)
          (TrConcat.init (countingStage 3) (countingColor 5) (countingStage 1))).run_a_ = true
      ∧ TrConcat.getColor (countingStage 3) (countingColor 5) (countingStage 1)
          (TrConcat.begin (countingStage 3)
            (TrConcat.init (countingStage 3) (countingColor 5) (countingStage 1))) 10 20 0
          = (countingStage 3).getColor
              (TrConcat.begin (countingStage 3)
                (TrConcat.init (countingStage 3) (countingColor 5) (countingStage 1))).a_
              10
              ((countingColor 5).getColor
                (TrConcat.begin (countingStage 3)
                  (TrConcat.init (countingStage 3) (countingColor 5)
                    (countingStage 1))).intermediate_ 0) 0
      ∧ ∃ c, TrConcatOpt.getColor (countingStage 3) (countingColor 5) (countingStage 1)
          (TrConcatOpt.init (countingColor 5) (countingStage 1)) 10 20 0 = some c :=
  ⟨rfl, rfl,
    (TrConcat_getColor_cases (countingStage 3) (countingColor 5) (countingStage 1)
      (TrConcat.begin (countingStage 3)
        (TrConcat.init (countingStage 3) (countingColor 5) (countingStage 1)))
      (TrConcatOpt.init (countingColor 5) (countingStage 1)) 10 20 0 rfl).1.2.1 rfl,
    (TrConcat_getColor_cases (countingStage 3) (countingColor 5) (countingStage 1)
      (TrConcat.begin (countingStage 3)
        (TrConcat.init (countingStage 3) (countingColor 5) (countingStage 1)))
      (TrConcatOpt.init (countingColor 5) (countingStage 1)) 10 20 0 rfl).2.1⟩

theorem TrConcat.run_equations (A : Transition α Blade Color) (I : ColorSource ι Blade Color)
    (B : Transition β Blade Color) (s : TrConcat α ι β) (blade : Blade) :
    (s.run_a_ = true → A.done (A.run s.a_ blade) = false →
        TrConcat.run A I B s blade
          = { run_a_ := true, a_ := A.run s.a_ blade, b_ := s.b_,
              intermediate_ := I.run s.intermediate_ blade })
      ∧ (s.run_a_ = true → A.done (A.run s.a_ blade) = true →
          TrConcat.run A I B s blade
            = { run_a_ := false, a_ := A.run s.a_ blade, b_ := B.run (B.begin s.b_) blade,
                intermediate_ := I.run s.intermediate_ blade })
      ∧ (s.run_a_ = false →
          TrConcat.run A I B s blade
            = { run_a_ := false, a_ := s.a_, b_ := B.run s.b_ blade,
                intermediate_ := I.run s.intermediate_ blade }) := by
  obtain ⟨r, a, b, i⟩ := s
  refine ⟨fun h1 h2 => ?_, fun h1 h2 => ?_, fun h1 => ?_⟩
  · simp only at h1 h2
    subst h1
    simp [TrConcat.run, h2]
  · simp only at h1 h2
    subst h1
    simp [TrConcat.run, h2]
  · simp only at h1
    subst h1
    simp [TrConcat.run]

theorem TrConcatOpt.run_live_member (A : Transition α Blade Color) (I : ColorSource ι Blade Color)
    (B : Transition β Blade Color) (o : TrConcatOpt α ι β) (blade : Blade)
    (ho : o.WellTagged) :
    (∀ x, o.u = .inl x → A.done (A.run x blade) = false →
        TrConcatOpt.run A I B o blade
          = some { run_a_ := true, u := .inl (A.run x blade),
                   intermediate_ := I.run o.intermediate_ blade })
      ∧ (∀ x, o.u = .inl x → A.done (A.run x blade) = true →
          TrConcatOpt.run A I B o blade
            = some { run_a_ := false, u := .inr (B.run (B.begin B.init) blade),
                     intermediate_ := I.run o.intermediate_ blade })
      ∧ (∀ y, o.u = .inr y →
          TrConcatOpt.run A I B o blade
            = some { run_a_ := false, u := .inr (B.run y blade),
                     intermediate_ := I.run o.intermediate_ blade }) := by
  obtain ⟨r, u, i⟩ := o
  unfold TrConcatOpt.WellTagged at ho
  cases u with
  | inl x =>
    simp only [Sum.isLeft_inl] at ho
    subst ho
    refine ⟨fun x' hx hd => ?_, fun x' hx hd => ?_, fun y hy => by simp at hy⟩
    · simp only [Sum.inl.injEq] at hx
      subst hx
      simp [TrConcatOpt.run, hd]
    · simp only [Sum.inl.injEq] at hx
      subst hx
      simp [TrConcatOpt.run, hd]
  | inr y =>
    simp only [Sum.isLeft_inr] at ho
    subst ho
    refine ⟨fun x hx => by simp at hx, fun x hx => by simp at hx, fun y' hy => ?_⟩
    simp only [Sum.inr.injEq] at hy
    subst hy
    simp [TrConcatOpt.run]

/-- Claim C29.  Stage hand-off in `run()`: every call runs the intermediate source once;
with `run_a_` set it runs stage 1 and, if stage 1 is then not done, changes nothing else;
if stage 1 is then done it clears `run_a_`, begins the remainder once and runs it once in
the same call; with `run_a_` clear it only runs the remainder, so stage 1 is neither run
nor begun and `run_a_` stays clear.  Hence, when every stage is done after `begin()` and
one `run()`, the sequencer is done after `begin()` and one `run()`.  Under
`OPTIMIZE_TRCONCAT` the same holds on the live member, the remainder being constructed
anew at the hand-off. -/
theorem TrConcat_run_handoff (A : Transition α Blade Color) (I : ColorSource ι Blade Color)
    (B : Transition β Blade Color) (s : TrConcat α ι β) (o : TrConcatOpt α ι β)
    (blade : Blade) (ho : o.WellTagged) :
    ((TrConcat.run A I B s blade).intermediate_ = I.run s.intermediate_ blade
        ∧ (s.run_a_ = true → A.done (A.run s.a_ blade) = false →
            TrConcat.run A I B s blade
              = { run_a_ := true, a_ := A.run s.a_ blade, b_ := s.b_,
                  intermediate_ := I.run s.intermediate_ blade })
        ∧ (s.run_a_ = true → A.done (A.run s.a_ blade) = true →
            TrConcat.run A I B s blade
              = { run_a_ := false, a_ := A.run s.a_ blade, b_ := B.run (B.begin s.b_) blade,
                  intermediate_ := I.run s.intermediate_ blade })
        ∧ (s.run_a_ = false →
            TrConcat.run A I B s blade
              = { run_a_ := false, a_ := s.a_, b_ := B.run s.b_ blade,
                  intermediate_ := I.run s.intermediate_ blade })
        ∧ ((∀ x, A.done (A.run (A.begin x) blade) = true) →
            (∀ y, B.done (B.run (B.begin y) blade) = true) →
            TrConcat.done B (TrConcat.run A I B (TrConcat.begin A s) blade) = true))
      ∧ ((∃ o1, TrConcatOpt.run A I B o blade = some o1 ∧ o1.WellTagged
            ∧ o1.intermediate_ = I.run o.intermediate_ blade)
        ∧ (∀ x, o.u = .inl x → A.done (A.run x blade) = false →
            TrConcatOpt.run A I B o blade
              = some { run_a_ := true, u := .inl (A.run x blade),
                       intermediate_ := I.run o.intermediate_ blade })
        ∧ (∀ x, o.u = .inl x → A.done (A.run x blade) = true →
            TrConcatOpt.run A I B o blade
              = some { run_a_ := false, u := .inr (B.run (B.begin B.init) blade),
                       intermediate_ := I.run o.intermediate_ blade })
        ∧ (∀ y, o.u = .inr y →
            TrConcatOpt.run A I B o blade
              = some { run_a_ := false, u := .inr (B.run y blade),
                       intermediate_ := I.run o.intermediate_ blade })
        ∧ ((∀ x, A.done (A.run (A.begin x) blade) = true) →
            (∀ y, B.done (B.run (B.begin y) blade) = true) →
            ∃ o1 o2, TrConcatOpt.begin A o = some o1 ∧ TrConcatOpt.run A I B o1 blade = some o2
              ∧ TrConcatOpt.done B o2 = some true)) := by
  obtain ⟨d1, d2, d3⟩ := TrConcat.run_equations A I B s blade
  obtain ⟨p1, p2, p3⟩ := TrConcatOpt.run_live_member A I B o blade ho
  refine ⟨⟨?_, d1, d2, d3, fun hA hB => ?_⟩, ⟨?_, p1, p2, p3, fun hA hB => ?_⟩⟩
  · cases hr : s.run_a_ with
    | false => rw [d3 hr]
    | true =>
      cases hd : A.done (A.run s.a_ blade) with
      | false => rw [d1 hr hd]
      | true => rw [d2 hr hd]
  · obtain ⟨-, e2, -⟩ := TrConcat.run_equations A I B (TrConcat.begin A s) blade
    rw [e2 rfl (hA s.a_)]
    simp [TrConcat.done, TrConcat.begin, hB]
  · cases hu : o.u with
    | inl x =>
      cases hd : A.done (A.run x blade) with
      | false => exact ⟨_, p1 x hu hd, rfl, rfl⟩
      | true => exact ⟨_, p2 x hu hd, rfl, rfl⟩
    | inr y => exact ⟨_, p3 y hu, rfl, rfl⟩
  · obtain ⟨a0, -, -, hb⟩ := TrConcatOpt.begin_spec A o ho
    obtain ⟨-, q2, -⟩ := TrConcatOpt.run_live_member A I B
      { run_a_ := true, u := .inl (A.begin a0), intermediate_ := o.intermediate_ } blade rfl
    refine ⟨_, _, hb, q2 _ rfl (hA a0), ?_⟩
    simp [TrConcatOpt.done, hB]

theorem TrConcat_run_handoff_witness :
    (TrConcatOpt.init (countingColor 5) (countingStage 1) :
        TrConcatOpt (Nat × Nat × Nat) Nat (Nat × Nat × Nat)).WellTagged
      ∧ (TrConcat.begin (countingStage 1)
          (TrConcat.init (countingStage 1) (countingColor 5) (countingStage 1))).run_a_ = true
      ∧ (countingStage 1).done ((countingStage 1).run
          (TrConcat.begin (countingStage 1)
            (TrConcat.init (countingStage 1) (countingColor 5) (countingStage 1))).a_ ()) = true
      ∧ TrConcat.run (countingStage 1) (countingColor 5) (countingStage 1)
          (TrConcat.begin (countingStage 1)
            (TrConcat.init (countingStage 1) (countingColor 5) (countingStage 1))) ()
          = { run_a_ := false, a_ := (0, 1, 1), b_ := (0, 1, 1), intermediate_ := 1 }
      ∧ TrConcat.done (countingStage 1)
          (TrConcat.run (countingStage 1) (countingColor 5) (countingStage 1)
            (TrConcat.begin (countingStage 1)
              (TrConcat.init (countingStage 1) (countingColor 5) (countingStage 1))) ()) = true :=
  ⟨rfl, rfl, rfl,
    (TrConcat_run_handoff (countingStage 1) (countingColor 5) (countingStage 1)
      (TrConcat.begin (countingStage 1)
        (TrConcat.init (countingStage 1) (countingColor 5) (countingStage 1)))
      (TrConcatOpt.init (countingColor 5) (countingStage 1)) () rfl).1.2.2.1 rfl rfl,
    (TrConcat_run_handoff (countingStage 1) (countingColor 5) (countingStage 1)
      (TrConcat.init (countingStage 1) (countingColor 5) (countingStage 1))
      (TrConcatOpt.init (countingColor 5) (countingStage 1)) () rfl).1.2.2.2.2
      (fun _ => rfl) (fun _ => rfl)⟩

/-- Claim C30.  Retrigger: from every state `begin()` puts the sequencer in stage 1:
`run_a_` is set, stage 1 has been begun, the remainder and the intermediate source are
untouched, `done()` is `false` and `getColor` is stage 1's; when stage 1's `begin()` is
idempotent, a second `begin()` changes nothing.  Under `OPTIMIZE_TRCONCAT` the same holds
in every state whose flag names the live member, stage 1 being constructed anew when it
was not alive. -/
theorem TrConcat_begin_restarts (A : Transition α Blade Color) (I : ColorSource ι Blade Color)
    (B : Transition β Blade Color) (s : TrConcat α ι β) (o : TrConcatOpt α ι β)
    (a b : Color) (led : Int) (ho : o.WellTagged) :
    (TrConcat.begin A s
          = { run_a_ := true, a_ := A.begin s.a_, b_ := s.b_, intermediate_ := s.intermediate_ }
        ∧ TrConcat.done B (TrConcat.begin A s) = false
        ∧ TrConcat.getColor A I B (TrConcat.begin A s) a b led
            = A.getColor (A.begin s.a_) a (I.getColor s.intermediate_ led) led
        ∧ ((∀ x, A.begin (A.begin x) = A.begin x) →
            TrConcat.begin A (TrConcat.begin A s) = TrConcat.begin A s))
      ∧ ∃ a0, (o.run_a_ = true → o.u = .inl a0) ∧ (o.run_a_ = false → a0 = A.init)
          ∧ TrConcatOpt.begin A o
            = some { run_a_ := true, u := .inl (A.begin a0), intermediate_ := o.intermediate_ }
          ∧ TrConcatOpt.done B
              { run_a_ := true, u := .inl (A.begin a0), intermediate_ := o.intermediate_ }
            = some false
          ∧ TrConcatOpt.getColor A I B
              { run_a_ := true, u := .inl (A.begin a0), intermediate_ := o.intermediate_ }
              a b led
            = some (A.getColor (A.begin a0) a (I.getColor o.intermediate_ led) led)
          ∧ ((∀ x, A.begin (A.begin x) = A.begin x) →
              TrConcatOpt.begin A
                  ({ run_a_ := true, u := .inl (A.begin a0), intermediate_ := o.intermediate_ } :
                    TrConcatOpt α ι β)
                = some { run_a_ := true, u := .inl (A.begin a0),
                         intermediate_ := o.intermediate_ }) := by
  constructor
  · refine ⟨rfl, ?_, ?_, fun h => ?_⟩
    · simp [TrConcat.done, TrConcat.begin]
    · simp [TrConcat.getColor, TrConcat.done, TrConcat.begin]
    · simp [TrConcat.begin, h]
  · obtain ⟨a0, h1, h2, hb⟩ := TrConcatOpt.begin_spec A o ho
    refine ⟨a0, h1, h2, hb, rfl, rfl, fun h => ?_⟩
    simp [TrConcatOpt.begin, h]

theorem TrConcat_begin_restarts_witness :
    (TrConcatOpt.init (countingColor 5) (countingStage 1) :
        TrConcatOpt (Nat × Nat × Nat) Nat (Nat × Nat × Nat)).WellTagged
      ∧ TrConcat.begin (countingStage 3)
          (TrConcat.run (countingStage 3) (countingColor 5) (countingStage 1)
            (TrConcat.begin (countingStage 3)
              (TrConcat.init (countingStage 3) (countingColor 5) (countingStage 1))) ())
          = { run_a_ := true, a_ := (3, 2, 1), b_ := (0, 0, 0), intermediate_ := 1 }
      ∧ TrConcat.done (countingStage 1)
          (TrConcat.begin (countingStage 3)
            (TrConcat.run (countingStage 3) (countingColor 5) (countingStage 1)
              (TrConcat.begin (countingStage 3)
                (TrConcat.init (countingStage 3) (countingColor 5) (countingStage 1))) ()))
          = false :=
  ⟨rfl, by decide,
    (TrConcat_begin_restarts (countingStage 3) (countingColor 5) (countingStage 1)
      (TrConcat.run (countingStage 3) (countingColor 5) (countingStage 1)
        (TrConcat.begin (countingStage 3)
          (TrConcat.init (countingStage 3) (countingColor 5) (countingStage 1))) ())
      (TrConcatOpt.init (countingColor 5) (countingStage 1)) 10 20 0 rfl).1.2.1⟩

/-! ### Sequences of `run()` calls -/

theorem TrConcat.runs_remainder (A : Transition α Blade Color) (I : ColorSource ι Blade Color)
    (B : Transition β Blade Color) (bl : List Blade) :
    ∀ s : TrConcat α ι β, s.run_a_ = false →
      (bl.foldl (TrConcat.run A I B) s).run_a_ = false
        ∧ (bl.foldl (TrConcat.run A I B) s).a_ = s.a_
        ∧ (bl.foldl (TrConcat.run A I B) s).b_ = bl.foldl B.run s.b_ := by
  induction bl with
  | nil => intro s h; exact ⟨h, rfl, rfl⟩
  | cons x xs ih =>
    intro s h
    obtain ⟨-, -, d3⟩ := TrConcat.run_equations A I B s x
    simp only [List.foldl_cons]
    rw [d3 h]
    exact ih _ rfl

theorem TrConcat.runs_first_stage (A : Transition α Blade Color)
    (I : ColorSource ι Blade Color) (B : Transition β Blade Color) (bl : List Blade) :
    ∀ s : TrConcat α ι β, s.run_a_ = true →
      ((bl.foldl (TrConcat.run A I B) s).run_a_ = true
          ∧ (bl.foldl (TrConcat.run A I B) s).b_ = s.b_
          ∧ (bl.foldl (TrConcat.run A I B) s).a_ = bl.foldl A.run s.a_
          ∧ ∀ j, j < bl.length → A.done ((bl.take (j + 1)).foldl A.run s.a_) = false)
        ∨ ((bl.foldl (TrConcat.run A I B) s).run_a_ = false
          ∧ ∃ k, k < bl.length
              ∧ (∀ j, j < k → A.done ((bl.take (j + 1)).foldl A.run s.a_) = false)
              ∧ A.done ((bl.take (k + 1)).foldl A.run s.a_) = true
              ∧ (bl.foldl (TrConcat.run A I B) s).b_
                  = (bl.drop k).foldl B.run (B.begin s.b_)) := by
  induction bl with
  | nil =>
    intro s h
    exact Or.inl ⟨h, rfl, rfl, fun j hj => by simp at hj⟩
  | cons x xs ih =>
    intro s h
    obtain ⟨d1, d2, -⟩ := TrConcat.run_equations A I B s x
    simp only [List.foldl_cons]
    cases hd : A.done (A.run s.a_ x) with
    | false =>
      rw [d1 h hd]
      have ih1 := ih ⟨true, A.run s.a_ x, s.b_, I.run s.intermediate_ x⟩ rfl
      rcases ih1 with ⟨i1, i2, i3, i4⟩ | ⟨i1, k, hk, i2, i3, i4⟩
      · refine Or.inl ⟨i1, i2, i3, fun j hj => ?_⟩
        cases j with
        | zero => simpa using hd
        | succ j =>
          simp only [List.take_succ_cons, List.foldl_cons]
          exact i4 j (by simpa using hj)
      · refine Or.inr ⟨i1, k + 1, by simpa using hk, fun j hj => ?_, ?_, ?_⟩
        · cases j with
          | zero => simpa using hd
          | succ j =>
            simp only [List.take_succ_cons, List.foldl_cons]
            exact i2 j (by omega)
        · simp only [List.take_succ_cons, List.foldl_cons]
          exact i3
        · simp only [List.drop_succ_cons]
          exact i4
    | true =>
      rw [d2 h hd]
      obtain ⟨r1, -, r3⟩ := TrConcat.runs_remainder A I B xs
        ⟨false, A.run s.a_ x, B.run (B.begin s.b_) x, I.run s.intermediate_ x⟩ rfl
      refine Or.inr ⟨r1, 0, by simp, fun j hj => by omega, by simpa using hd, ?_⟩
      rw [r3]
      rfl

/-- Claim C26.  After `begin()` and any sequence of `run()` calls, `done()` is true only if
every stage has reported done since that `begin()`: some call `k + 1` was the first in
which stage 1, begun by that `begin()` and run in every call so far, was done; the
remainder was begun in that call and has been run in it and in every later call; and the
remainder's `done()` holds (for a remainder that is a sequencer, in the same sense).  So
`done()` is false as long as stage 1 has not been done, or while the remainder is not
done. -/
theorem TrConcat_done_only_after_stages (A : Transition α Blade Color)
    (I : ColorSource ι Blade Color) (B : Transition β Blade Color) (s : TrConcat α ι β)
    (bl : List Blade) :
    (TrConcat.done B (bl.foldl (TrConcat.run A I B) (TrConcat.begin A s)) = true →
        ∃ k, k < bl.length
          ∧ (∀ j, j < k → A.done ((bl.take (j + 1)).foldl A.run (A.begin s.a_)) = false)
          ∧ A.done ((bl.take (k + 1)).foldl A.run (A.begin s.a_)) = true
          ∧ (bl.foldl (TrConcat.run A I B) (TrConcat.begin A s)).b_
              = (bl.drop k).foldl B.run (B.begin s.b_)
          ∧ B.done ((bl.drop k).foldl B.run (B.begin s.b_)) = true)
      ∧ ((∀ j, j < bl.length → A.done ((bl.take (j + 1)).foldl A.run (A.begin s.a_)) = false) →
          TrConcat.done B (bl.foldl (TrConcat.run A I B) (TrConcat.begin A s)) = false)
      ∧ (B.done (bl.foldl (TrConcat.run A I B) (TrConcat.begin A s)).b_ = false →
          TrConcat.done B (bl.foldl (TrConcat.run A I B) (TrConcat.begin A s)) = false) := by
  have hcases := TrConcat.runs_first_stage A I B bl (TrConcat.begin A s) rfl
  have ha : (TrConcat.begin A s).a_ = A.begin s.a_ := rfl
  have hb : (TrConcat.begin A s).b_ = s.b_ := rfl
  rw [ha, hb] at hcases
  refine ⟨fun h => ?_, fun hall => ?_, fun h => ?_⟩
  · rcases hcases with ⟨i1, -⟩ | ⟨i1, k, hk, i2, i3, i4⟩
    · simp [TrConcat.done, i1] at h
    · refine ⟨k, hk, i2, i3, i4, ?_⟩
      rw [← i4]
      simpa [TrConcat.done, i1] using h
  · rcases hcases with ⟨i1, -⟩ | ⟨i1, k, hk, i2, i3, i4⟩
    · simp [TrConcat.done, i1]
    · rw [hall k hk] at i3
      simp at i3
  · simp [TrConcat.done, h]

theorem TrConcat_done_only_after_stages_witness :
    TrConcat.done (countingStage 1)
        ([(), (), ()].foldl (TrConcat.run (countingStage 2) (countingColor 5) (countingStage 1))
          (TrConcat.begin (countingStage 2)
            (TrConcat.init (countingStage 2) (countingColor 5) (countingStage 1)))) = true
      ∧ [(), (), ()].foldl (TrConcat.run (countingStage 2) (countingColor 5) (countingStage 1))
          (TrConcat.begin (countingStage 2)
            (TrConcat.init (countingStage 2) (countingColor 5) (countingStage 1)))
          = { run_a_ := false, a_ := (0, 1, 2), b_ := (0, 1, 2), intermediate_ := 3 }
      ∧ ∃ k, k < [(), (), ()].length
          ∧ (∀ j, j < k →
              (countingStage 2).done (([(), (), ()].take (j + 1)).foldl (countingStage 2).run
                ((countingStage 2).begin
                  (TrConcat.init (countingStage 2) (countingColor 5) (countingStage 1)).a_))
                = false)
          ∧ (countingStage 2).done (([(), (), ()].take (k + 1)).foldl (countingStage 2).run
              ((countingStage 2).begin
                (TrConcat.init (countingStage 2) (countingColor 5) (countingStage 1)).a_)) = true
          ∧ ([(), (), ()].foldl
                (TrConcat.run (countingStage 2) (countingColor 5) (countingStage 1))
                (TrConcat.begin (countingStage 2)
                  (TrConcat.init (countingStage 2) (countingColor 5) (countingStage 1)))).b_
              = ([(), (), ()].drop k).foldl (countingStage 1).run
                  ((countingStage 1).begin
                    (TrConcat.init (countingStage 2) (countingColor 5) (countingStage 1)).b_)
          ∧ (countingStage 1).done (([(), (), ()].drop k).foldl (countingStage 1).run
              ((countingStage 1).begin
                (TrConcat.init (countingStage 2) (countingColor 5) (countingStage 1)).b_))
              = true :=
  ⟨by decide, by decide,
    (TrConcat_done_only_after_stages (countingStage 2) (countingColor 5) (countingStage 1)
      (TrConcat.init (countingStage 2) (countingColor 5) (countingStage 1)) [(), (), ()]).1
      (by decide)⟩

/-- Claim C27.  On a freshly constructed sequencer on which `begin()` has never been
called, whose remainder reports `done()` as long as it has not been begun (after any
number of `run()` calls), `getColor(start, end, led)` returns `end` for every start colour,
end colour and element, also after any number of `run()` calls; and the sequencer itself
then reports `done()`, so the same holds for a longer chain it is the remainder of. -/
theorem TrConcat_getColor_before_begin (A : Transition α Blade Color)
    (I : ColorSource ι Blade Color) (B : Transition β Blade Color)
    (hB : ∀ bl : List Blade, B.done (bl.foldl B.run B.init) = true)
    (bl : List Blade) (a b : Color) (led : Int) :
    TrConcat.getColor A I B (bl.foldl (TrConcat.run A I B) (TrConcat.init A I B)) a b led = b
      ∧ TrConcat.done B (bl.foldl (TrConcat.run A I B) (TrConcat.init A I B)) = true
      ∧ (TrConcat.transition A I B).done
          (bl.foldl (TrConcat.transition A I B).run (TrConcat.transition A I B).init) = true := by
  obtain ⟨r1, -, r3⟩ := TrConcat.runs_remainder A I B bl (TrConcat.init A I B) rfl
  have hd : TrConcat.done B (bl.foldl (TrConcat.run A I B) (TrConcat.init A I B)) = true := by
    unfold TrConcat.done
    rw [r1, r3]
    simpa using hB bl
  refine ⟨?_, hd, hd⟩
  unfold TrConcat.getColor
  rw [if_pos hd]

theorem TrConcat_getColor_before_begin_witness :
    (∀ bl : List Unit, (countingStage 1).done
        (bl.foldl (countingStage 1).run (countingStage 1).init) = true)
      ∧ TrConcat.getColor (countingStage 3) (countingColor 5) (countingStage 1)
          ([(), ()].foldl (TrConcat.run (countingStage 3) (countingColor 5) (countingStage 1))
            (TrConcat.init (countingStage 3) (countingColor 5) (countingStage 1))) 10 20 7 = 20
      ∧ TrConcat.done (countingStage 1)
          ([(), ()].foldl (TrConcat.run (countingStage 3) (countingColor 5) (countingStage 1))
            (TrConcat.init (countingStage 3) (countingColor 5) (countingStage 1))) = true
      ∧ (TrConcat.transition (countingStage 3) (countingColor 5) (countingStage 1)).done
          ([(), ()].foldl
            (TrConcat.transition (countingStage 3) (countingColor 5) (countingStage 1)).run
            (TrConcat.transition (countingStage 3) (countingColor 5) (countingStage 1)).init)
          = true :=
  have h : ∀ bl : List Unit, (countingStage 1).done
      (bl.foldl (countingStage 1).run (countingStage 1).init) = true := by
    have key : ∀ (bl : List Unit) (t : Nat × Nat × Nat), t.1 = 0 →
        (bl.foldl (countingStage 1).run t).1 = 0 := by
      intro bl
      induction bl with
      | nil => intro t ht; exact ht
      | cons x xs ih =>
        intro t ht
        simp only [List.foldl_cons]
        apply ih
        simp [countingStage, ht]
    intro bl
    have := key bl (countingStage 1).init rfl
    simp [countingStage] at this ⊢
    exact this
  ⟨h, TrConcat_getColor_before_begin (countingStage 3) (countingColor 5) (countingStage 1)
    h [(), ()] 10 20 7⟩

end Sequencer

/-! ## `GetName` after the first accepted file -/

/-! ### Decimal numerals with leading zeros -/

theorem digitChar_of_isdigit (c : Char) (h : isdigit c = true) :
    Nat.digitChar (c.toNat - 48) = c := by
  simp only [isdigit, Bool.and_eq_true, decide_eq_true_eq] at h
  have hc : c = Char.ofNat c.toNat := (Char.ofNat_toNat c).symm
  generalize c.toNat = n at h hc
  subst hc
  obtain ⟨h1, h2⟩ := h
  interval_cases n <;> decide

theorem digitsValue_eq_zero (ds : List Char) (hd : ∀ c ∈ ds, isdigit c = true)
    (h : digitsValue ds = 0) : ds = List.replicate ds.length '0' := by
  induction ds using List.reverseRecOn with
  | nil => rfl
  | append_singleton l c ih =>
    rw [digitsValue_append] at h
    have hc := hd c (by simp)
    have hcd := digitChar_of_isdigit c hc
    have hl : digitsValue l = 0 := by omega
    have hc0 : c.toNat - 48 = 0 := by omega
    rw [hc0] at hcd
    have hc' : c = '0' := hcd.symm
    subst hc'
    rw [List.length_append, List.length_singleton, List.replicate_succ',
      ← ih (fun a ha => hd a (by simp [ha])) hl]

theorem digits_canonical (ds : List Char) (hd : ∀ c ∈ ds, isdigit c = true)
    (h : 1 ≤ digitsValue ds) :
    ds = List.replicate (ds.length - (Nat.toDigits 10 (digitsValue ds)).length) '0'
          ++ Nat.toDigits 10 (digitsValue ds)
      ∧ (Nat.toDigits 10 (digitsValue ds)).length ≤ ds.length
      ∧ (ds.head? ≠ some '0' → (Nat.toDigits 10 (digitsValue ds)).length = ds.length) := by
  induction ds using List.reverseRecOn with
  | nil => simp [digitsValue] at h
  | append_singleton l c ih =>
    have hc := hd c (by simp)
    have hcd := digitChar_of_isdigit c hc
    have hlt : c.toNat - 48 < 10 := by
      simp only [isdigit, Bool.and_eq_true, decide_eq_true_eq] at hc
      omega
    have hl : ∀ a ∈ l, isdigit a = true := fun a ha => hd a (by simp [ha])
    rw [digitsValue_append] at h ⊢
    by_cases hv : digitsValue l = 0
    · have hz := digitsValue_eq_zero l hl hv
      have hsmall : Nat.toDigits 10 (10 * digitsValue l + (c.toNat - 48)) = [c] := by
        rw [toDigits_small _ (by omega)]
        have : (10 * digitsValue l + (c.toNat - 48)) % 10 = c.toNat - 48 := by omega
        rw [this, hcd]
      rw [hsmall]
      refine ⟨?_, by simp, fun hh => ?_⟩
      · simp only [List.length_append, List.length_singleton, Nat.add_sub_cancel]
        rw [← hz]
      · cases l with
        | nil => rfl
        | cons a l =>
          exfalso
          apply hh
          rw [hz]
          rfl
    · obtain ⟨i1, i2, i3⟩ := ih hl (by omega)
      have hstep : Nat.toDigits 10 (10 * digitsValue l + (c.toNat - 48))
          = Nat.toDigits 10 (digitsValue l) ++ [c] := by
        rw [toDigits_step _ (by omega)]
        have h1 : (10 * digitsValue l + (c.toNat - 48)) / 10 = digitsValue l := by omega
        have h2 : (10 * digitsValue l + (c.toNat - 48)) % 10 = c.toNat - 48 := by omega
        rw [h1, h2, hcd]
      rw [hstep]
      refine ⟨?_, by simp; omega, fun hh => ?_⟩
      · simp only [List.length_append, List.length_singleton, Nat.add_sub_add_right]
        rw [← List.append_assoc, ← i1]
      · have hne : l ≠ [] := by
          rintro rfl
          exact hv rfl
        obtain ⟨a, l', rfl⟩ := List.exists_cons_of_ne_nil hne
        have := i3 (by simpa using hh)
        simp only [List.length_append, List.length_singleton]
        omega

namespace Effect

theorem nameRest_eq (name filename : List Char) (t : FilePattern) (rest : List Char)
    (h : nameRest name filename = some (t, rest)) :
    filename = name ++ patternPart t name ++ rest := by
  unfold nameRest at h
  cases hsw : startswith name filename with
  | none => rw [hsw] at h; simp at h
  | some r0 =>
    rw [hsw] at h
    simp only at h
    have h0 := startswith_eq_some _ _ _ hsw
    by_cases hh : r0.head? = some '/'
    · rw [if_pos hh] at h
      obtain ⟨cs, rfl⟩ : ∃ cs, r0 = '/' :: cs := by
        cases r0 with
        | nil => simp at hh
        | cons c cs => simp only [List.head?_cons, Option.some.injEq] at hh; exact ⟨cs, by rw [hh]⟩
      cases hsw2 : startswith name ('/' :: cs).tail with
      | none =>
        rw [hsw2] at h
        simp only [Option.some.injEq, Prod.mk.injEq] at h
        obtain ⟨rfl, rfl⟩ := h
        rw [h0]
        simp [patternPart]
      | some tmp =>
        rw [hsw2] at h
        simp only [Option.some.injEq, Prod.mk.injEq] at h
        obtain ⟨rfl, rfl⟩ := h
        have h1 := startswith_eq_some _ _ _ hsw2
        simp only [List.tail_cons] at h1
        rw [h0, h1]
        simp [patternPart]
    · rw [if_neg hh] at h
      simp only [Option.some.injEq, Prod.mk.injEq] at h
      obtain ⟨rfl, rfl⟩ := h
      rw [h0]
      simp [patternPart]

theorem ScanAll1_fresh_accepted (D filename : List Char) (e : Effect)
    (hd : e.directory_ = none) (hx : IdentifyExtension filename ≠ .UNKNOWN)
    (hacc : (Scan e filename).1 = true) :
    ScanAll1 D filename e = { (Scan e filename).2 with directory_ := some D } := by
  unfold ScanAll1 ScanAllStep
  rw [if_neg hx, if_neg (by rw [hd]; simp)]
  simp only
  rw [if_pos hacc]

/-- Claim C31, as amended.  `GetName` inverts the scan of a file named in the canonical
way: let the freshly reset descriptor read the file name as its name, a naming shape, and
then either an allow-listed extension of its kind alone, or such an extension behind a
decimal numeral of at most 127 digits (leading zeros allowed) with a value between `1` and
`20000`.  Then `Scan` accepts the file, and after `ScanAll` has bound the descriptor to
the directory `D`, `GetName(0)` writes `D`, a `/` unless `D` is empty, and exactly that
file name. -/
theorem GetName_inverts_canonical_scan (e0 : Effect) (D filename : List Char)
    (t : FilePattern) (ds : List Char) (x : Extension)
    (hnr : nameRest e0.name_ filename = some (t, ds ++ extString x))
    (hx : x ≠ .UNKNOWN) (hty : GetFileType x = e0.file_type_)
    (hds : ∀ c ∈ ds, isdigit c = true)
    (hnum : ds = [] ∨ (1 ≤ digitsValue ds ∧ digitsValue ds ≤ 20000 ∧ ds.length ≤ 127)) :
    (Scan (reset e0) filename).1 = true
      ∧ (ScanAll1 D filename (reset e0)).directory_ = some D
      ∧ GetName (ScanAll1 D filename (reset e0)) 0
          = some ((D ++ if D ≠ [] then ['/'] else []) ++ filename) := by
  have hnr' : nameRest (reset e0).name_ filename = some (t, ds ++ extString x) := hnr
  obtain ⟨-, pre, hpre⟩ := nameRest_suffix _ _ _ _ hnr
  have hfile := nameRest_eq _ _ _ _ hnr
  have hid : IdentifyExtension filename = x := by
    rw [hpre, ← List.append_assoc]
    exact IdentifyExtension_append _ x hx
  obtain ⟨hlen, hhead, -⟩ := extString_spec x hx
  rcases hnum with rfl | ⟨hv1, hv2, hl⟩
  · -- the unnumbered file
    have hS := Scan_unnumbered_eq (reset e0) filename t x hnr' hx hty (Or.inl rfl)
    have hacc : (Scan (reset e0) filename).1 = true := by rw [hS]
    have hall := ScanAll1_fresh_accepted D filename (reset e0) rfl (by rw [hid]; exact hx) hacc
    refine ⟨hacc, by rw [hall], ?_⟩
    rw [hall, GetName_eq _ D rfl, hS]
    show some ((D ++ if D ≠ [] then ['/'] else [])
        ++ (e0.name_ ++ patternPart t e0.name_
          ++ ((if (0 : Int) + 20000 ≤ -1 then numberPart 0 (0 + 20000) else [])
            ++ extString x))) = _
    rw [if_neg (show ¬ ((0 : Int) + 20000 ≤ -1) by decide), hfile]
  · -- a numbered file
    have hne : ds ≠ [] := by
      rintro rfl
      simp [digitsValue] at hv1
    obtain ⟨d, ds', hdd⟩ := List.exists_cons_of_ne_nil hne
    have hdig : isdigit d = true := hds d (by rw [hdd]; exact List.mem_cons_self _ _)
    have hst : strtol (ds ++ extString x) = ((digitsValue ds : Int), extString x) := by
      rw [strtol_digits ds _ hne hds (fun c' hc' => by rw [hhead] at hc'; cases hc'; decide)]
      simp only [LONG_MIN, LONG_MAX]
      congr 1
      omega
    have hnot : ¬ ((ds ++ extString x).head? = some '.' ∧ (ds ++ extString x).length = 4) := by
      rw [hdd]
      rintro ⟨hh, -⟩
      simp only [List.cons_append, List.head?_cons, Option.some.injEq] at hh
      exact (isdigit_not_space d hdig).2.2.2.1 hh
    have hpos : 0 < (strtol (ds ++ extString x)).1 := by rw [hst]; omega
    have hS : Scan (reset e0) filename
        = ScanNumber { reset e0 with ext_ := x } t (ds ++ extString x) := by
      rw [Scan_eq_nameRest, hnr']
      simp only
      rw [ScanExt_fresh (reset e0) filename t _ (by rw [hid]; exact hty) rfl, hid]
    rw [ScanNumber_numbered _ t _ hnot hpos, hst] at hS
    have hacc : (Scan (reset e0) filename).1 = true := by rw [hS]
    have hall := ScanAll1_fresh_accepted D filename (reset e0) rfl (by rw [hid]; exact hx) hacc
    refine ⟨hacc, by rw [hall], ?_⟩
    obtain ⟨k1, k2, k3⟩ := digits_canonical ds hds hv1
    have hmax : wrap16 (max (-1) (digitsValue ds : Int)) = (digitsValue ds : Int) := by
      rw [max_eq_right (by omega), wrap16_eq_self (by omega) (by omega)]
    have hmin : wrap16 (min 20000 (digitsValue ds : Int)) = (digitsValue ds : Int) := by
      rw [min_eq_right (by omega), wrap16_eq_self (by omega) (by omega)]
    have hit : itoa (digitsValue ds : Int) = Nat.toDigits 10 (digitsValue ds) := by
      unfold itoa
      rw [if_neg (by omega), Int.toNat_natCast]
    rw [hall, GetName_eq _ D rfl, hS]
    show some ((D ++ if D ≠ [] then ['/'] else [])
        ++ (e0.name_ ++ patternPart t e0.name_
          ++ ((if (0 : Int) + wrap16 (min 20000 (digitsValue ds : Int))
                  ≤ wrap16 (max (-1) (digitsValue ds : Int))
                then numberPart
                  (if (ds ++ extString x).head? = some '0'
                    then wrap8 (((ds ++ extString x).length : Int) - (extString x).length)
                    else 0)
                  (0 + wrap16 (min 20000 (digitsValue ds : Int)))
                else [])
            ++ extString x))) = _
    rw [hmax, hmin, zero_add, if_pos (le_refl _)]
    have hnp : numberPart
        (if (ds ++ extString x).head? = some '0'
          then wrap8 (((ds ++ extString x).length : Int) - (extString x).length) else 0)
        (digitsValue ds : Int) = ds := by
      unfold numberPart
      rw [hit]
      by_cases h0 : (ds ++ extString x).head? = some '0'
      · rw [if_pos h0]
        have hw : wrap8 (((ds ++ extString x).length : Int) - (extString x).length)
            = (ds.length : Int) := by
          rw [List.length_append]
          push_cast
          rw [add_sub_cancel_right]
          exact wrap8_eq_self (by omega) (by omega)
        rw [hw]
        have : ((ds.length : Int) - ((Nat.toDigits 10 (digitsValue ds)).length : Int)).toNat
            = ds.length - (Nat.toDigits 10 (digitsValue ds)).length := by omega
        rw [this]
        exact k1.symm
      · rw [if_neg h0]
        have h0' : ds.head? ≠ some '0' := by
          rw [hdd] at h0 ⊢
          simpa using h0
        have hk := k3 h0'
        have : ((0 : Int) - ((Nat.toDigits 10 (digitsValue ds)).length : Int)).toNat = 0 := by
          omega
        rw [this]
        rw [hk, Nat.sub_self] at k1
        simpa using k1.symm
    rw [hnp, hfile]

theorem GetName_inverts_canonical_scan_witness :
    nameRest humEffect.name_ "hum007.wav".toList = some (.FLAT, "007".toList ++ extString .WAV)
      ∧ digitsValue "007".toList = 7
      ∧ (Scan (reset humEffect) "hum007.wav".toList).1 = true
      ∧ (ScanAll1 "font".toList "hum007.wav".toList (reset humEffect)).directory_
          = some "font".toList
      ∧ GetName (ScanAll1 "font".toList "hum007.wav".toList (reset humEffect)) 0
          = some (("font".toList ++ if "font".toList ≠ [] then ['/'] else [])
              ++ "hum007.wav".toList)
      ∧ GetName (ScanAll1 "font".toList "hum007.wav".toList (reset humEffect)) 0
          = some "font/hum007.wav".toList :=
  ⟨by decide, by decide,
    (GetName_inverts_canonical_scan humEffect "font".toList "hum007.wav".toList .FLAT
      "007".toList .WAV (by decide) (by decide) (by decide) (by decide)
      (Or.inr ⟨by decide, by decide, by decide⟩)).1,
    (GetName_inverts_canonical_scan humEffect "font".toList "hum007.wav".toList .FLAT
      "007".toList .WAV (by decide) (by decide) (by decide) (by decide)
      (Or.inr ⟨by decide, by decide, by decide⟩)).2.1,
    (GetName_inverts_canonical_scan humEffect "font".toList "hum007.wav".toList .FLAT
      "007".toList .WAV (by decide) (by decide) (by decide) (by decide)
      (Or.inr ⟨by decide, by decide, by decide⟩)).2.2,
    by decide⟩

/-- Claim C31 fails as stated: the freshly reset descriptor `hum` accepts `hum5x.wav`,
`hum+5.wav` and `hum20001.wav`; bound to the directory `font`, `GetName(0)` then writes
`font/hum5.wav`, `font/hum5.wav` and `font/hum20000.wav`, none of which is the accepted
file name. -/
theorem GetName_not_inverse_of_Scan :
    ((Scan (reset humEffect) "hum5x.wav".toList).1 = true
        ∧ GetName (ScanAll1 "font".toList "hum5x.wav".toList (reset humEffect)) 0
            = some "font/hum5.wav".toList)
      ∧ ((Scan (reset humEffect) "hum+5.wav".toList).1 = true
        ∧ GetName (ScanAll1 "font".toList "hum+5.wav".toList (reset humEffect)) 0
            = some "font/hum5.wav".toList)
      ∧ ((Scan (reset humEffect) "hum20001.wav".toList).1 = true
        ∧ GetName (ScanAll1 "font".toList "hum20001.wav".toList (reset humEffect)) 0
            = some "font/hum20000.wav".toList) := by
  decide

end Effect

namespace Effect

/-! ### `SelectFloat` under `NO_REPEAT_RANDOM` -/

theorem land_two (n : Nat) : ((n &&& 2 : Nat) : Int) = 0 ∨ ((n &&& 2 : Nat) : Int) = 2 := by
  have h := Nat.and_two_pow n 1
  simp only [pow_one] at h
  rw [h]
  cases n.testBit 1 <;> simp

theorem selectFloatLoop_stop (e : Effect) (f : Int) (rnd : Nat → Nat) (k : Nat) (sel : Int)
    (pos : Nat) (h1 : sel ≠ e.selected_) (h2 : sel ≠ e.last_) :
    selectFloatLoop e f rnd k sel pos = (sel, pos) := by
  cases k with
  | zero => rfl
  | succ k =>
    unfold selectFloatLoop
    rw [if_neg h1, if_neg h2]

theorem clamp_step (sel f b : Int) (hb : b = 0 ∨ b = 2) (h0 : 0 ≤ sel) (h1 : sel ≤ f - 1) :
    0 ≤ clamp (sel + 1 - b) 0 (f - 1) ∧ clamp (sel + 1 - b) 0 (f - 1) ≤ f - 1
      ∧ sel - 1 ≤ clamp (sel + 1 - b) 0 (f - 1) ∧ clamp (sel + 1 - b) 0 (f - 1) ≤ sel + 1 := by
  unfold clamp
  rcases hb with hb | hb <;> split_ifs <;> omega

theorem selectFloatLoop_one (e : Effect) (f : Int) (rnd : Nat → Nat) (sel : Int) (pos : Nat)
    (h0 : 0 ≤ sel) (h1 : sel ≤ f - 1) :
    0 ≤ (selectFloatLoop e f rnd 1 sel pos).1 ∧ (selectFloatLoop e f rnd 1 sel pos).1 ≤ f - 1
      ∧ sel - 1 ≤ (selectFloatLoop e f rnd 1 sel pos).1
      ∧ (selectFloatLoop e f rnd 1 sel pos).1 ≤ sel + 1
      ∧ ((selectFloatLoop e f rnd 1 sel pos).1 ≠ sel → sel = e.selected_ ∨ sel = e.last_) := by
  have c1 := clamp_step sel f _ (land_two (rnd pos)) h0 h1
  have c2 := clamp_step sel f _ (land_two (rnd (pos + 1))) h0 h1
  simp only [selectFloatLoop]
  split_ifs with a b c
  · exact ⟨c1.1, c1.2.1, c1.2.2.1, c1.2.2.2, fun _ => Or.inl a⟩
  · exact ⟨c2.1, c2.2.1, c2.2.2.1, c2.2.2.2, fun _ => Or.inr b⟩
  · exact ⟨h0, h1, by omega, by omega, fun h => absurd rfl h⟩
  · exact ⟨h0, h1, by omega, by omega, fun h => absurd rfl h⟩

theorem selectFloatLoop_two (e : Effect) (f : Int) (rnd : Nat → Nat) (sel : Int) (pos : Nat)
    (h0 : 0 ≤ sel) (h1 : sel ≤ f - 1) :
    0 ≤ (selectFloatLoop e f rnd 2 sel pos).1 ∧ (selectFloatLoop e f rnd 2 sel pos).1 ≤ f - 1
      ∧ sel - 2 ≤ (selectFloatLoop e f rnd 2 sel pos).1
      ∧ (selectFloatLoop e f rnd 2 sel pos).1 ≤ sel + 2
      ∧ ((selectFloatLoop e f rnd 2 sel pos).1 ≠ sel → sel = e.selected_ ∨ sel = e.last_)
      ∧ ((selectFloatLoop e f rnd 2 sel pos).1 = sel + 2 →
          sel + 1 = e.selected_ ∨ sel + 1 = e.last_)
      ∧ ((selectFloatLoop e f rnd 2 sel pos).1 = sel - 2 →
          sel - 1 = e.selected_ ∨ sel - 1 = e.last_) := by
  have c1 := clamp_step sel f _ (land_two (rnd pos)) h0 h1
  have c2 := clamp_step sel f _ (land_two (rnd (pos + 1))) h0 h1
  have l1 := selectFloatLoop_one e f rnd _ (pos + 1) c1.1 c1.2.1
  have l2 := selectFloatLoop_one e f rnd _ (pos + 2) c2.1 c2.2.1
  rw [show (2 : Nat) = 1 + 1 from rfl, selectFloatLoop]
  split_ifs with a b c
  · refine ⟨l1.1, l1.2.1, by omega, by omega, fun _ => Or.inl a, fun h => ?_, fun h => ?_⟩
    · have := l1.2.2.2.2 (by omega)
      omega
    · have := l1.2.2.2.2 (by omega)
      omega
  · refine ⟨l2.1, l2.2.1, by omega, by omega, fun _ => Or.inr b, fun h => ?_, fun h => ?_⟩
    · have := l2.2.2.2.2 (by omega)
      omega
    · have := l2.2.2.2.2 (by omega)
      omega
  · exact ⟨h0, h1, by omega, by omega, fun h => absurd rfl h, fun h => by omega,
      fun h => by omega⟩
  · exact ⟨h0, h1, by omega, by omega, fun h => absurd rfl h, fun h => by omega,
      fun h => by omega⟩

theorem selectFloatLoop_three (e : Effect) (f : Int) (rnd : Nat → Nat) (sel : Int) (pos : Nat)
    (h0 : 0 ≤ sel) (h1 : sel ≤ f - 1) :
    0 ≤ (selectFloatLoop e f rnd 3 sel pos).1 ∧ (selectFloatLoop e f rnd 3 sel pos).1 ≤ f - 1
      ∧ sel - 2 ≤ (selectFloatLoop e f rnd 3 sel pos).1
      ∧ (selectFloatLoop e f rnd 3 sel pos).1 ≤ sel + 2 := by
  have c1 := clamp_step sel f _ (land_two (rnd pos)) h0 h1
  have c2 := clamp_step sel f _ (land_two (rnd (pos + 1))) h0 h1
  have l1 := selectFloatLoop_two e f rnd _ (pos + 1) c1.1 c1.2.1
  have l2 := selectFloatLoop_two e f rnd _ (pos + 2) c2.1 c2.2.1
  rw [show (3 : Nat) = 2 + 1 from rfl, selectFloatLoop]
  split_ifs with a b c
  · refine ⟨l1.1, l1.2.1, ?_, ?_⟩
    · by_contra hc
      have := l1.2.2.2.2.1 (by omega)
      have := l1.2.2.2.2.2.2 (by omega)
      omega
    · by_contra hc
      have := l1.2.2.2.2.1 (by omega)
      have := l1.2.2.2.2.2.1 (by omega)
      omega
  · refine ⟨l2.1, l2.2.1, ?_, ?_⟩
    · by_contra hc
      have := l2.2.2.2.2.1 (by omega)
      have := l2.2.2.2.2.2.2 (by omega)
      omega
    · by_contra hc
      have := l2.2.2.2.2.1 (by omega)
      have := l2.2.2.2.2.2.1 (by omega)
      omega
  · exact ⟨h0, h1, by omega, by omega⟩
  · exact ⟨h0, h1, by omega, by omega⟩

theorem SelectFloat_noRepeat_eq (e : Effect) (r : ℚ) (rnd : Nat → Nat) (pos : Nat)
    (hf : 1 ≤ e.files_found) (hv : Valid e) :
    SelectFloat true e r rnd pos
      = ({ e with
            last_ := e.selected_
            selected_ := (selectFloatLoop e (e.files_found : Int) rnd 3
              (clamp ⌊roundFloat32 (((e.files_found : Int) : ℚ) * r)⌋ 0
                ((e.files_found : Int) - 1)) pos).1 },
          (selectFloatLoop e (e.files_found : Int) rnd 3
              (clamp ⌊roundFloat32 (((e.files_found : Int) : ℚ) * r)⌋ 0
                ((e.files_found : Int) - 1)) pos).2) := by
  have hle := files_found_le_of_Valid e hv
  have h0 : (0 : Int) ≤ (e.files_found : Int) - 1 := by omega
  have hc := @clamp_range ⌊roundFloat32 (((e.files_found : Int) : ℚ) * r)⌋ 0
    ((e.files_found : Int) - 1) h0
  have hl := selectFloatLoop_range e (e.files_found : Int) rnd h0 3 _ pos hc.1 hc.2
  have hw := wrap16_eq_self (x := (selectFloatLoop e (e.files_found : Int) rnd 3
    (clamp ⌊roundFloat32 (((e.files_found : Int) : ℚ) * r)⌋ 0 ((e.files_found : Int) - 1)) pos).1)
    (by omega) (by omega)
  simp only [SelectFloat, if_true]
  rw [roundFloat32_intCast _ (by omega) (by omega),
    show Rat.floor (roundFloat32 (((e.files_found : Int) : ℚ) * r))
      = ⌊roundFloat32 (((e.files_found : Int) : ℚ) * r)⌋ from rfl, hw]

theorem clamp_floor_zero (f : Int) (hf : 1 ≤ f) :
    clamp ⌊roundFloat32 (((f : Int) : ℚ) * 0)⌋ 0 (f - 1) = 0 := by
  simp only [mul_zero, roundFloat32_zero, Int.floor_zero, clamp]
  split_ifs <;> omega

theorem clamp_floor_one (f : Int) (hf : 1 ≤ f) (hle : f ≤ 32768) :
    clamp ⌊roundFloat32 (((f : Int) : ℚ) * 1)⌋ 0 (f - 1) = f - 1 := by
  rw [mul_one, roundFloat32_intCast _ (by omega) (by omega)]
  simp only [Int.floor_intCast, clamp]
  split_ifs <;> omega

/-- Claim C32, as amended.  With `NO_REPEAT_RANDOM`, for a descriptor with
`f = files_found() ≥ 1` (the file numbers within the ranges `Scan` maintains) and every
stream of `rand()` values: `SelectFloat(0.0)` selects index `0`, drawing no random number,
when neither the prior selection nor `last_` is `0`, and `SelectFloat(1.0)` selects index
`f-1` when neither of them is `f-1`; in every case the prior selection is moved to
`last_`, the index selected by `SelectFloat(0.0)` lies in `[0, min(2, f-1)]` and the one
selected by `SelectFloat(1.0)` in `[max(0, f-3), f-1]`; and when the prior selection is `0`,
`f ≥ 2`, `last_` is not `1` and the first `rand()` value has bit 1 clear,
`SelectFloat(0.0)` selects index `1`. -/
theorem SelectFloat_noRepeat_endpoints (e : Effect) (rnd : Nat → Nat) (pos : Nat)
    (hf : 1 ≤ e.files_found) (hv : Valid e) :
    (e.selected_ ≠ 0 → e.last_ ≠ 0 →
        SelectFloat true e 0 rnd pos = ({ e with last_ := e.selected_, selected_ := 0 }, pos))
      ∧ (e.selected_ ≠ (e.files_found : Int) - 1 → e.last_ ≠ (e.files_found : Int) - 1 →
          SelectFloat true e 1 rnd pos
            = ({ e with last_ := e.selected_, selected_ := (e.files_found : Int) - 1 }, pos))
      ∧ (SelectFloat true e 0 rnd pos).1.last_ = e.selected_
      ∧ (SelectFloat true e 1 rnd pos).1.last_ = e.selected_
      ∧ (0 ≤ (SelectFloat true e 0 rnd pos).1.selected_
          ∧ (SelectFloat true e 0 rnd pos).1.selected_ ≤ 2
          ∧ (SelectFloat true e 0 rnd pos).1.selected_ ≤ (e.files_found : Int) - 1)
      ∧ (0 ≤ (SelectFloat true e 1 rnd pos).1.selected_
          ∧ (e.files_found : Int) - 3 ≤ (SelectFloat true e 1 rnd pos).1.selected_
          ∧ (SelectFloat true e 1 rnd pos).1.selected_ ≤ (e.files_found : Int) - 1)
      ∧ (e.selected_ = 0 → 2 ≤ e.files_found → e.last_ ≠ 1 → rnd pos &&& 2 = 0 →
          (SelectFloat true e 0 rnd pos).1.selected_ = 1) := by
  have hf' : (1 : Int) ≤ (e.files_found : Int) := by omega
  have e0 := SelectFloat_noRepeat_eq e 0 rnd pos hf hv
  have e1 := SelectFloat_noRepeat_eq e 1 rnd pos hf hv
  rw [clamp_floor_zero _ hf'] at e0
  rw [clamp_floor_one _ hf' (files_found_le_of_Valid e hv)] at e1
  have t0 := selectFloatLoop_three e (e.files_found : Int) rnd 0 pos (le_refl 0) (by omega)
  have t1 := selectFloatLoop_three e (e.files_found : Int) rnd ((e.files_found : Int) - 1) pos
    (by omega) (le_refl _)
  refine ⟨fun a b => ?_, fun a b => ?_, by rw [e0], by rw [e1], ?_, ?_, fun a hf2 b hr => ?_⟩
  · rw [e0, selectFloatLoop_stop e _ rnd 3 0 pos (Ne.symm a) (Ne.symm b)]
  · rw [e1, selectFloatLoop_stop e _ rnd 3 _ pos (Ne.symm a) (Ne.symm b)]
  · rw [e0]
    show 0 ≤ (selectFloatLoop e (e.files_found : Int) rnd 3 0 pos).1
      ∧ (selectFloatLoop e (e.files_found : Int) rnd 3 0 pos).1 ≤ 2
      ∧ (selectFloatLoop e (e.files_found : Int) rnd 3 0 pos).1 ≤ (e.files_found : Int) - 1
    exact ⟨t0.1, by have := t0.2.2.2; omega, t0.2.1⟩
  · rw [e1]
    show 0 ≤ (selectFloatLoop e (e.files_found : Int) rnd 3 ((e.files_found : Int) - 1) pos).1
      ∧ (e.files_found : Int) - 3
          ≤ (selectFloatLoop e (e.files_found : Int) rnd 3 ((e.files_found : Int) - 1) pos).1
      ∧ (selectFloatLoop e (e.files_found : Int) rnd 3 ((e.files_found : Int) - 1) pos).1
          ≤ (e.files_found : Int) - 1
    exact ⟨t1.1, by have := t1.2.2.1; omega, t1.2.1⟩
  · rw [e0]
    show (selectFloatLoop e (e.files_found : Int) rnd 3 0 pos).1 = 1
    have hcl : clamp (0 + 1 - ((rnd pos &&& 2 : Nat) : Int)) 0 ((e.files_found : Int) - 1) = 1 := by
      rw [hr]
      unfold clamp
      split_ifs <;> omega
    rw [show (3 : Nat) = 2 + 1 from rfl, selectFloatLoop, if_pos a.symm, hcl,
      selectFloatLoop_stop e _ rnd 2 1 (pos + 1) (by omega) (Ne.symm b)]

theorem SelectFloat_noRepeat_endpoints_witness :
    1 ≤ (fourFiles "swng".toList none).files_found ∧ Valid (fourFiles "swng".toList none)
      ∧ (fourFiles "swng".toList none).selected_ = -1
      ∧ (fourFiles "swng".toList none).last_ = 0
      ∧ (SelectFloat true (fourFiles "swng".toList none) 1 (fun _ => 3) 0).1.selected_ = 3
      ∧ (SelectFloat true (fourFiles "swng".toList none) 1 (fun _ => 3) 0).2 = 0
      ∧ (SelectFloat true (fourFiles "swng".toList none) 0 (fun _ => 3) 0).1.selected_ ≤ 2 :=
  ⟨by decide, by decide, by decide, by decide,
    by rw [(SelectFloat_noRepeat_endpoints (fourFiles "swng".toList none) (fun _ => 3) 0
      (by decide) (by decide)).2.1 (by decide) (by decide)]; decide,
    by rw [(SelectFloat_noRepeat_endpoints (fourFiles "swng".toList none) (fun _ => 3) 0
      (by decide) (by decide)).2.1 (by decide) (by decide)],
    (SelectFloat_noRepeat_endpoints (fourFiles "swng".toList none) (fun _ => 3) 0
      (by decide) (by decide)).2.2.2.2.1.2.1⟩

/-- Claim C32 fails as stated: with `NO_REPEAT_RANDOM`, on a descriptor with four files,
`SelectFloat(0.0)` after `Select(0)` stores index `1` when `rand()` returns `0`, and
`SelectFloat(1.0)` after `Select(3)` stores index `2` when `rand()` returns `2`: the loop
moves away from the index selected before. -/
theorem SelectFloat_noRepeat_moves_off_endpoint :
    ((fourFiles "swng".toList none).Select 0).files_found = 4
      ∧ (SelectFloat true ((fourFiles "swng".toList none).Select 0) 0 (fun _ => 0) 0).1.selected_
          = 1
      ∧ (SelectFloat true ((fourFiles "swng".toList none).Select 3) 1 (fun _ => 2) 0).1.selected_
          = 2 := by
  have h0 := SelectFloat_noRepeat_eq ((fourFiles "swng".toList none).Select 0) 0 (fun _ => 0) 0
    (by decide) (by decide)
  have h1 := SelectFloat_noRepeat_eq ((fourFiles "swng".toList none).Select 3) 1 (fun _ => 2) 0
    (by decide) (by decide)
  rw [clamp_floor_zero _ (by decide)] at h0
  rw [clamp_floor_one _ (by decide) (by decide)] at h1
  refine ⟨by decide, ?_, ?_⟩
  · rw [h0]
    decide
  · rw [h1]
    decide

end Effect

namespace Effect

/-! ## Gaps in the numbering -/

theorem nodup_range_count (ns : List Int) (a b : Int) (hnd : ns.Nodup)
    (hin : ∀ n ∈ ns, a ≤ n ∧ n ≤ b) (hab : a ≤ b) :
    (ns.length : Int) ≤ b - a + 1
      ∧ ((ns.length : Int) = b - a + 1 ↔ ∀ k : Int, a ≤ k → k ≤ b → k ∈ ns) := by
  have hsub : ns.toFinset ⊆ Finset.Icc a b := by
    intro n hn
    rw [List.mem_toFinset] at hn
    exact Finset.mem_Icc.mpr (hin n hn)
  have hcard : ns.toFinset.card = ns.length := List.toFinset_card_of_nodup hnd
  have hicc : (Finset.Icc a b).card = (b + 1 - a).toNat := Int.card_Icc a b
  have hle := Finset.card_le_card hsub
  rw [hcard, hicc] at hle
  refine ⟨by omega, ⟨fun heq k h1 h2 => ?_, fun hall => ?_⟩⟩
  · have hfe : ns.toFinset = Finset.Icc a b :=
      Finset.eq_of_subset_of_card_le hsub (by rw [hcard, hicc]; omega)
    have hk : k ∈ Finset.Icc a b := Finset.mem_Icc.mpr ⟨h1, h2⟩
    rw [← hfe, List.mem_toFinset] at hk
    exact hk
  · have hsup : Finset.Icc a b ⊆ ns.toFinset := by
      intro k hk
      rw [Finset.mem_Icc] at hk
      rw [List.mem_toFinset]
      exact hall k hk.1 hk.2
    have hge := Finset.card_le_card hsup
    rw [hcard, hicc] at hge
    omega

theorem acceptedNumber_cases (e : Effect) (f : List Char) :
    (∀ n, acceptedNumber e f = some n →
        (Scan e f).1 = true
          ∧ (Scan e f).2.unnumbered_file_found_ = e.unnumbered_file_found_)
      ∧ (acceptedNumber e f = none → (Scan e f).1 = true →
          (Scan e f).2.unnumbered_file_found_ = true)
      ∧ ((Scan e f).1 = false →
          (Scan e f).2.unnumbered_file_found_ = e.unnumbered_file_found_) := by
  have hS := Scan_eq_nameRest e f
  unfold acceptedNumber
  cases hnr : nameRest e.name_ f with
  | none =>
    rw [hnr] at hS
    rw [hS]
    simp
  | some r =>
    rw [hnr] at hS
    simp only at hS ⊢
    rw [hS]
    rcases ScanExt_cases e f r.1 r.2 with h | ⟨e', he', h⟩
    · rw [h]
      simp
    · rw [h]
      have hu : e'.unnumbered_file_found_ = e.unnumbered_file_found_ := by
        rcases he' with rfl | rfl <;> rfl
      by_cases ha : r.2.head? = some '.' ∧ r.2.length = 4
      · have hs : scannedNumber r.2 = -1 := by unfold scannedNumber; rw [if_pos ha]
        rw [ScanNumber_unnumbered e' r.1 r.2 ha, hs]
        simp
      · have hs : scannedNumber r.2 = (strtol r.2).1 := by unfold scannedNumber; rw [if_neg ha]
        by_cases hn : (strtol r.2).1 ≤ 0
        · rw [ScanNumber_rejected e' r.1 r.2 ha hn]
          simp [hu]
        · rw [ScanNumber_numbered e' r.1 r.2 ha (not_le.mp hn), hs]
          simp [not_le.mp hn, hu]

theorem scanSeq_unnumbered (fs : List (List Char)) :
    ∀ e : Effect,
      (acceptedNumbers e fs).length ≤ acceptedCount e fs
        ∧ ((scanSeq e fs).unnumbered_file_found_ = true
            ↔ e.unnumbered_file_found_ = true
              ∨ (acceptedNumbers e fs).length < acceptedCount e fs) := by
  induction fs with
  | nil =>
    intro e
    simp [acceptedNumbers, acceptedCount, scanSeq]
  | cons f fs ih =>
    intro e
    obtain ⟨i1, i2⟩ := ih (Scan e f).2
    obtain ⟨c1, c2, c3⟩ := acceptedNumber_cases e f
    have hseq : scanSeq e (f :: fs) = scanSeq (Scan e f).2 fs := rfl
    have hcnt : acceptedCount e (f :: fs)
        = (if (Scan e f).1 = true then 1 else 0) + acceptedCount (Scan e f).2 fs := rfl
    have hnums : acceptedNumbers e (f :: fs)
        = (acceptedNumber e f).toList ++ acceptedNumbers (Scan e f).2 fs := rfl
    rw [hseq, hcnt, hnums, i2, List.length_append]
    cases hacc : acceptedNumber e f with
    | some n =>
      obtain ⟨a1, a2⟩ := c1 n hacc
      rw [if_pos a1, a2]
      simp only [Option.toList, List.length_singleton]
      constructor
      · omega
      · constructor <;> rintro (h | h) <;> first | exact Or.inl h | (right; omega)
    | none =>
      simp only [Option.toList, List.length_nil, zero_add]
      cases hb : (Scan e f).1 with
      | true =>
        rw [c2 hacc hb]
        simp only [if_true, true_or, true_iff]
        exact ⟨by omega, Or.inr (by omega)⟩
      | false =>
        rw [c3 hb]
        simp only [Bool.false_eq_true, if_false, zero_add]
        exact ⟨i1, trivial⟩

/-- Claim C33.  The incomplete-font check detects gaps: let a freshly reset descriptor
be offered any sequence of file names, such that the numbers of the accepted numbered files
are pairwise distinct and at most `20000` (they are at least `1`), and at most one accepted
file is unnumbered.  Then the hit count is the number of accepted files, `files_found()`
is never smaller than it, the two are equal exactly when the accepted numbers leave no
gap, and the missing-files test of `ScanCurrentDirectory` fires exactly when there is a
gap; with a gap `files_found()` is strictly greater than the hit count. -/
theorem missingFiles_detects_gaps (e0 : Effect) (fs : List (List Char))
    (hnd : (acceptedNumbers (reset e0) fs).Nodup)
    (hle : ∀ n ∈ acceptedNumbers (reset e0) fs, n ≤ 20000)
    (hun : acceptedCount (reset e0) fs ≤ (acceptedNumbers (reset e0) fs).length + 1) :
    (scanSeq (reset e0) fs).num_files_ = (acceptedCount (reset e0) fs : Int)
      ∧ (scanSeq (reset e0) fs).num_files_ ≤ ((scanSeq (reset e0) fs).files_found : Int)
      ∧ (((scanSeq (reset e0) fs).files_found : Int) = (scanSeq (reset e0) fs).num_files_
          ↔ Contiguous (acceptedNumbers (reset e0) fs))
      ∧ (missingFiles (scanSeq (reset e0) fs) = true
          ↔ ¬ Contiguous (acceptedNumbers (reset e0) fs))
      ∧ (¬ Contiguous (acceptedNumbers (reset e0) fs) →
          (scanSeq (reset e0) fs).num_files_ < ((scanSeq (reset e0) fs).files_found : Int)) := by
  obtain ⟨i1, i2, i3, i4⟩ :=
    scanSeq_stats fs (reset e0) (Valid_reset e0) (by simp [reset]) (by simp [reset])
  obtain ⟨u1, u2⟩ := scanSeq_unnumbered fs (reset e0)
  have hall : ∀ n ∈ acceptedNumbers (reset e0) fs, n ≤ 32767 := fun n hn => by
    have := hle n hn
    omega
  have i4' : (scanSeq (reset e0) fs).max_file_
      = (acceptedNumbers (reset e0) fs).foldl max (-1) := i4 hall
  have i3' : (scanSeq (reset e0) fs).min_file_
      = (acceptedNumbers (reset e0) fs).foldl min 20000 := i3
  have u2' : (scanSeq (reset e0) fs).unnumbered_file_found_ = true
      ↔ (acceptedNumbers (reset e0) fs).length < acceptedCount (reset e0) fs := by
    rw [u2]
    simp [reset]
  obtain ⟨x1, x2, x3⟩ := foldl_max_spec (acceptedNumbers (reset e0) fs) (-1)
  obtain ⟨m1, m2, m3⟩ := foldl_min_spec (acceptedNumbers (reset e0) fs) 20000
  rw [← i4'] at x1 x2 x3
  rw [← i3'] at m1 m2 m3
  generalize hN : acceptedNumbers (reset e0) fs = N at *
  generalize hC : acceptedCount (reset e0) fs = C at *
  generalize hE : scanSeq (reset e0) fs = e at *
  -- the length of `N` is at most `20000`
  have hlen : (N.length : Int) ≤ 20000 := by
    have := (nodup_range_count N 1 20000 hnd (fun n hn => ⟨i2 n hn, hle n hn⟩) (by decide)).1
    omega
  have hnum : e.num_files_ = (C : Int) := by
    rw [i1]
    show wrap16 (0 + (C : Int)) = _
    rw [zero_add]
    exact wrap16_eq_self (by omega) (by omega)
  have hmiss : missingFiles e = true ↔ (e.files_found : Int) ≠ e.num_files_ := by
    unfold missingFiles
    rw [decide_eq_true_eq, hnum]
    have : (C : Int) % 4294967296 = C := by omega
    rw [this]
  -- the two counts, by cases on whether a numbered file was accepted
  have key : e.num_files_ ≤ (e.files_found : Int)
      ∧ ((e.files_found : Int) = e.num_files_ ↔ Contiguous N) := by
    rw [hnum, files_found_cast]
    by_cases hne : N = []
    · subst hne
      have hmin : e.min_file_ = 20000 := by
        rcases m3 with h | h
        · exact h
        · simp at h
      have hmax : e.max_file_ = -1 := by
        rcases x3 with h | h
        · exact h
        · simp at h
      have hcont : Contiguous [] := fun a ha => by simp at ha
      simp only [List.length_nil, Nat.lt_iff_add_one_le, zero_add] at u2' hun u1
      rw [hmin, hmax, if_neg (by decide)]
      by_cases hu : e.unnumbered_file_found_ = true
      · rw [if_pos hu]
        have := u2'.mp hu
        exact ⟨by omega, ⟨fun _ => hcont, fun _ => by omega⟩⟩
      · rw [if_neg hu]
        have : ¬ (1 ≤ C) := fun h => hu (u2'.mpr h)
        exact ⟨by omega, ⟨fun _ => hcont, fun _ => by omega⟩⟩
    · obtain ⟨n0, N', hN'⟩ := List.exists_cons_of_ne_nil hne
      have hn0 : n0 ∈ N := by rw [hN']; exact List.mem_cons_self _ _
      have hmaxmem : e.max_file_ ∈ N := by
        rcases x3 with h | h
        · have := x2 n0 hn0
          have := i2 n0 hn0
          omega
        · exact h
      have hminmem : e.min_file_ ∈ N := by
        rcases m3 with h | h
        · have := m2 n0 hn0
          have := hle n0 hn0
          have : n0 = e.min_file_ := by omega
          rw [← this]
          exact hn0
        · exact h
      have hmm : e.min_file_ ≤ e.max_file_ := m2 _ hmaxmem
      obtain ⟨r1, r2⟩ := nodup_range_count N e.min_file_ e.max_file_ hnd
        (fun n hn => ⟨m2 n hn, x2 n hn⟩) hmm
      have hcont : Contiguous N ↔ ∀ k : Int, e.min_file_ ≤ k → k ≤ e.max_file_ → k ∈ N := by
        constructor
        · intro hc k h1 h2
          exact hc _ hminmem _ hmaxmem k h1 h2
        · intro hc a ha b hb k h1 h2
          exact hc k (le_trans (m2 a ha) h1) (le_trans h2 (x2 b hb))
      rw [if_pos hmm, hcont, ← r2]
      by_cases hu : e.unnumbered_file_found_ = true
      · rw [if_pos hu]
        have := u2'.mp hu
        exact ⟨by omega, by constructor <;> intro _ <;> omega⟩
      · rw [if_neg hu]
        have : ¬ (N.length < C) := fun h => hu (u2'.mpr h)
        exact ⟨by omega, by constructor <;> intro _ <;> omega⟩
  refine ⟨hnum, key.1, key.2, ?_, fun hgap => ?_⟩
  · rw [hmiss, Ne, key.2]
  · have h1 := key.1
    have h2 : (e.files_found : Int) ≠ e.num_files_ := fun h => hgap (key.2.mp h)
    omega

theorem missingFiles_detects_gaps_witness :
    acceptedNumbers (reset humEffect) humGapFiles = [1, 2, 10]
      ∧ acceptedCount (reset humEffect) humGapFiles = 3
      ∧ ¬ Contiguous (acceptedNumbers (reset humEffect) humGapFiles)
      ∧ (scanSeq (reset humEffect) humGapFiles).num_files_
          < ((scanSeq (reset humEffect) humGapFiles).files_found : Int)
      ∧ missingFiles (scanSeq (reset humEffect) humGapFiles) = true
      ∧ Contiguous (acceptedNumbers (reset humEffect)
          ["hum2.wav".toList, "hum.wav".toList, "hum1.wav".toList, "hum3.wav".toList])
      ∧ ((scanSeq (reset humEffect)
            ["hum2.wav".toList, "hum.wav".toList, "hum1.wav".toList, "hum3.wav".toList]).files_found
          : Int)
          = (scanSeq (reset humEffect)
            ["hum2.wav".toList, "hum.wav".toList, "hum1.wav".toList, "hum3.wav".toList]).num_files_ :=
  have hgap : ¬ Contiguous (acceptedNumbers (reset humEffect) humGapFiles) := by
    intro h
    have hk := h 1 (by decide) 10 (by decide) 5 (by decide) (by decide)
    exact absurd hk (by decide)
  have hfull : Contiguous (acceptedNumbers (reset humEffect)
      ["hum2.wav".toList, "hum.wav".toList, "hum1.wav".toList, "hum3.wav".toList]) := by
    have hN : acceptedNumbers (reset humEffect)
        ["hum2.wav".toList, "hum.wav".toList, "hum1.wav".toList, "hum3.wav".toList]
        = [2, 1, 3] := by decide
    rw [hN]
    intro a ha b hb k h1 h2
    simp only [List.mem_cons, List.mem_singleton, List.not_mem_nil, or_false] at ha hb ⊢
    omega
  ⟨by decide, by decide, hgap,
    (missingFiles_detects_gaps humEffect humGapFiles (by decide) (by decide)
      (by decide)).2.2.2.2 hgap,
    (missingFiles_detects_gaps humEffect humGapFiles (by decide) (by decide)
      (by decide)).2.2.2.1.mpr hgap,
    hfull,
    (missingFiles_detects_gaps humEffect
      ["hum2.wav".toList, "hum.wav".toList, "hum1.wav".toList, "hum3.wav".toList]
      (by decide) (by decide) (by decide)).2.2.1.mpr hfull⟩

end Effect

namespace Effect

/-! ## The serial-flash scan -/

theorem scanSerialFlash_unknown_dir (dir : List Char) (flash : List (List Char))
    (h : IdentifyExtension dir = .UNKNOWN) :
    ∀ all : List Effect, scanSerialFlash dir flash all = all := by
  unfold scanSerialFlash
  induction flash with
  | nil => intro all; rfl
  | cons f fs ih =>
    intro all
    rw [List.foldl_cons]
    split
    · exact ih all
    · split_ifs
      · exact ih all
      · unfold ScanAll
        rw [if_pos h]
        exact ih all

/-- Claim C34, evaluated at the failing input: with `ENABLE_SERIALFLASH` only, the search
path `font` and the serial-flash entries `font/hum01.wav` and `font/hum.wav`,
`ScanCurrentDirectory` leaves the descriptor `hum` as `reset()` made it: no file, no
directory.  The block calls `ScanAll(f + 1, dir)`, that is `ScanAll(dir = "hum01.wav",
filename = "font")`, and `ScanAll` returns at once because `font` has no allow-listed
extension.  The same two files listed from the SD card give two files bound to `font`, and
so do the calls `ScanAll("font", "hum01.wav")`, `ScanAll("font", "hum.wav")` that the
claim describes. -/
theorem ScanCurrentDirectory_serialflash_arguments :
    ScanCurrentDirectory true false flashFont noSdFont [humEffect] = [reset humEffect]
      ∧ (ScanCurrentDirectory true false flashFont noSdFont [humEffect]).map files_found = [0]
      ∧ (ScanCurrentDirectory false true [] sdFont [humEffect]).map files_found = [2]
      ∧ (ScanCurrentDirectory false true [] sdFont [humEffect]).map directory_
          = [some "font".toList]
      ∧ ScanCurrentDirectory false true [] sdFont [humEffect]
          = ScanAll "font".toList "hum.wav".toList
              (ScanAll "font".toList "hum01.wav".toList [reset humEffect])
      ∧ startswith "font".toList "font/hum01.wav".toList = some "/hum01.wav".toList
      ∧ ScanAll "hum01.wav".toList "font".toList [reset humEffect] = [reset humEffect] := by
  decide

end Effect

namespace Effect

/-! ## The bound directory -/

theorem ScanAll1_accepted (dir filename : List Char) (e : Effect)
    (h : ScanAll1Accepts dir filename e = true) :
    ScanAll1 dir filename e = { (Scan e filename).2 with directory_ := some dir }
      ∧ (Scan e filename).1 = true
      ∧ (e.directory_ = none ∨ e.directory_ = some dir) := by
  unfold ScanAll1Accepts at h
  split_ifs at h with h1 h2
  unfold ScanAll1 ScanAllStep
  rw [if_neg h1, if_neg h2]
  simp only
  rw [if_pos h]
  refine ⟨rfl, h, ?_⟩
  by_contra hc
  rw [not_or] at hc
  exact h2 hc

theorem ScanAll1_not_accepted (dir filename : List Char) (e : Effect)
    (h : ScanAll1Accepts dir filename e = false) :
    (ScanAll1 dir filename e).num_files_ = e.num_files_
      ∧ (ScanAll1 dir filename e).directory_ = e.directory_ := by
  unfold ScanAll1Accepts at h
  unfold ScanAll1 ScanAllStep
  split_ifs at h with h1 h2
  · rw [if_pos h1]
    exact ⟨rfl, rfl⟩
  · rw [if_neg h1, if_pos h2]
    exact ⟨rfl, rfl⟩
  · rw [if_neg h1, if_neg h2]
    simp only
    rw [h]
    simp only [Bool.false_eq_true, if_false]
    obtain ⟨s1, -⟩ := Scan_stats e filename
    rw [h] at s1
    exact ⟨by simpa using s1, (Scan_result e filename).2.2.2.2⟩

theorem scanAllSeq_bound (calls : List (List Char × List Char)) :
    ∀ e : Effect, 0 ≤ e.num_files_ → (0 < e.num_files_ ↔ e.directory_ ≠ none) →
      e.num_files_ + ((scanAllAccepted e calls).length : Int) < 32768 →
      (scanAllSeq e calls).num_files_ = e.num_files_ + ((scanAllAccepted e calls).length : Int)
        ∧ (scanAllSeq e calls).directory_
            = (match e.directory_ with
              | some d => some d
              | none => ((scanAllAccepted e calls).head?).map Prod.fst) := by
  induction calls with
  | nil =>
    intro e _ _ _
    refine ⟨by simp [scanAllSeq, scanAllAccepted], ?_⟩
    show e.directory_ = _
    cases e.directory_ <;> rfl
  | cons c cs ih =>
    intro e h0 hiff hlt
    have hseq : scanAllSeq e (c :: cs) = scanAllSeq (ScanAll1 c.1 c.2 e) cs := rfl
    have hacc : scanAllAccepted e (c :: cs)
        = (if ScanAll1Accepts c.1 c.2 e then [c] else [])
            ++ scanAllAccepted (ScanAll1 c.1 c.2 e) cs := rfl
    rw [hseq, hacc]
    rw [hacc] at hlt
    cases ha : ScanAll1Accepts c.1 c.2 e with
    | true =>
      rw [ha] at hlt
      simp only [if_true, List.singleton_append, List.length_cons, Nat.cast_add,
        Nat.cast_one] at hlt ⊢
      obtain ⟨a1, a2, a3⟩ := ScanAll1_accepted c.1 c.2 e ha
      obtain ⟨s1, -⟩ := Scan_stats e c.2
      rw [if_pos a2, wrap16_eq_self (by omega) (by omega)] at s1
      have hn : (ScanAll1 c.1 c.2 e).num_files_ = e.num_files_ + 1 := by rw [a1]; exact s1
      have hd : (ScanAll1 c.1 c.2 e).directory_ = some c.1 := by rw [a1]
      obtain ⟨i1, i2⟩ := ih (ScanAll1 c.1 c.2 e) (by omega)
        (by rw [hn, hd]; constructor <;> intro _ <;> first | simp | omega) (by omega)
      refine ⟨by rw [i1, hn]; ring, ?_⟩
      rw [i2, hd]
      rcases a3 with a3 | a3 <;> rw [a3]
      rfl
    | false =>
      rw [ha] at hlt
      simp only [Bool.false_eq_true, if_false, List.nil_append] at hlt ⊢
      obtain ⟨n1, n2⟩ := ScanAll1_not_accepted c.1 c.2 e ha
      obtain ⟨i1, i2⟩ := ih (ScanAll1 c.1 c.2 e) (by omega) (by rw [n1, n2]; exact hiff)
        (by omega)
      exact ⟨by rw [i1, n1], by rw [i2, n2]⟩

/-- Claim C35.  Bound-directory invariant: after `reset()` and any sequence of `ScanAll`
calls of which the descriptor counted fewer than `32768` files, the hit count is the
number of counted files; it is positive exactly when a directory is bound;
`files_found() > 0` implies that a directory is bound, so that `GetName` is defined for
every index; and the bound directory is the directory argument of the first call whose file
the descriptor counted. -/
theorem ScanAll_bound_directory (e0 : Effect) (calls : List (List Char × List Char))
    (hlt : (scanAllAccepted (reset e0) calls).length < 32768) :
    (scanAllSeq (reset e0) calls).num_files_ = ((scanAllAccepted (reset e0) calls).length : Int)
      ∧ (0 < (scanAllSeq (reset e0) calls).num_files_
          ↔ (scanAllSeq (reset e0) calls).directory_ ≠ none)
      ∧ (0 < (scanAllSeq (reset e0) calls).files_found →
          (scanAllSeq (reset e0) calls).directory_ ≠ none
            ∧ ∀ i : Int, (GetName (scanAllSeq (reset e0) calls) i).isSome = true)
      ∧ (scanAllSeq (reset e0) calls).directory_
          = ((scanAllAccepted (reset e0) calls).head?).map Prod.fst := by
  obtain ⟨b1, b2⟩ := scanAllSeq_bound calls (reset e0) (le_refl _) (by simp [reset])
    (by show (0 : Int) + _ < 32768; omega)
  have b1' : (scanAllSeq (reset e0) calls).num_files_
      = ((scanAllAccepted (reset e0) calls).length : Int) := by
    rw [b1]
    show (0 : Int) + _ = _
    rw [zero_add]
  have b2' : (scanAllSeq (reset e0) calls).directory_
      = ((scanAllAccepted (reset e0) calls).head?).map Prod.fst := b2
  obtain ⟨⟨-, hacc⟩, -, -⟩ := scanAllSeq_spec calls (reset e0) (ScanAllInv_reset e0)
  refine ⟨b1', ?_, fun hff => ?_, b2'⟩
  · rw [b1', b2']
    cases scanAllAccepted (reset e0) calls with
    | nil => simp
    | cons c cs => simp
  · have hprem : (scanAllSeq (reset e0) calls).min_file_ ≤ (scanAllSeq (reset e0) calls).max_file_
        ∨ (scanAllSeq (reset e0) calls).unnumbered_file_found_ = true := by
      by_contra hcon
      rw [not_or] at hcon
      unfold files_found at hff
      rw [if_neg hcon.1, if_neg hcon.2] at hff
      omega
    obtain ⟨-, -, a3, -, -⟩ := hacc hprem
    refine ⟨a3, fun i => ?_⟩
    obtain ⟨dir, hdir⟩ := Option.ne_none_iff_exists'.mp a3
    rw [GetName_eq _ dir hdir]
    rfl

theorem ScanAll_bound_directory_witness :
    scanAllAccepted (reset humEffect)
        [("a".toList, "clash1.wav".toList), ("b".toList, "hum1.wav".toList),
         ("c".toList, "hum2.wav".toList), ("b".toList, "hum3.wav".toList)]
        = [("b".toList, "hum1.wav".toList), ("b".toList, "hum3.wav".toList)]
      ∧ (scanAllSeq (reset humEffect)
          [("a".toList, "clash1.wav".toList), ("b".toList, "hum1.wav".toList),
           ("c".toList, "hum2.wav".toList), ("b".toList, "hum3.wav".toList)]).directory_
          = some "b".toList
      ∧ (scanAllSeq (reset humEffect)
          [("a".toList, "clash1.wav".toList), ("b".toList, "hum1.wav".toList),
           ("c".toList, "hum2.wav".toList), ("b".toList, "hum3.wav".toList)]).directory_
          = ((scanAllAccepted (reset humEffect)
              [("a".toList, "clash1.wav".toList), ("b".toList, "hum1.wav".toList),
               ("c".toList, "hum2.wav".toList), ("b".toList, "hum3.wav".toList)]).head?).map
              Prod.fst
      ∧ (scanAllSeq (reset humEffect)
          [("a".toList, "clash1.wav".toList), ("b".toList, "hum1.wav".toList),
           ("c".toList, "hum2.wav".toList), ("b".toList, "hum3.wav".toList)]).num_files_
          = ((scanAllAccepted (reset humEffect)
              [("a".toList, "clash1.wav".toList), ("b".toList, "hum1.wav".toList),
               ("c".toList, "hum2.wav".toList), ("b".toList, "hum3.wav".toList)]).length : Int) :=
  ⟨by decide, by decide,
    (ScanAll_bound_directory humEffect
      [("a".toList, "clash1.wav".toList), ("b".toList, "hum1.wav".toList),
       ("c".toList, "hum2.wav".toList), ("b".toList, "hum3.wav".toList)] (by decide)).2.2.2,
    (ScanAll_bound_directory humEffect
      [("a".toList, "clash1.wav".toList), ("b".toList, "hum1.wav".toList),
       ("c".toList, "hum2.wav".toList), ("b".toList, "hum3.wav".toList)] (by decide)).1⟩

end Effect

namespace Effect

/-! ## A rejected candidate -/

/-- Claim C36.  A rejected candidate does not disturb the statistics: whenever `Scan`
returns `false`, `min`, `max`, the digit width, the unnumbered flag, the naming pattern,
the hit count, the forced selection and the bound directory are what they were, and so is
`files_found()`; the descriptor differs from the one before the call in `ext_` at most. -/
theorem Scan_rejected_frame (e : Effect) (filename : List Char)
    (h : (Scan e filename).1 = false) :
    (Scan e filename).2.min_file_ = e.min_file_
      ∧ (Scan e filename).2.max_file_ = e.max_file_
      ∧ (Scan e filename).2.digits_ = e.digits_
      ∧ (Scan e filename).2.unnumbered_file_found_ = e.unnumbered_file_found_
      ∧ (Scan e filename).2.file_pattern_ = e.file_pattern_
      ∧ (Scan e filename).2.num_files_ = e.num_files_
      ∧ (Scan e filename).2.selected_ = e.selected_
      ∧ (Scan e filename).2.directory_ = e.directory_
      ∧ (Scan e filename).2.files_found = e.files_found
      ∧ (Scan e filename).2 = { e with ext_ := (Scan e filename).2.ext_ } := by
  rcases (Scan_result e filename).1 h with heq | ⟨-, heq⟩
  · rw [heq]
    exact ⟨rfl, rfl, rfl, rfl, rfl, rfl, rfl, rfl, rfl, rfl⟩
  · rw [heq]
    exact ⟨rfl, rfl, rfl, rfl, rfl, rfl, rfl, rfl, rfl, rfl⟩

theorem Scan_rejected_frame_witness :
    (Scan humScanned "humm1.wav".toList).1 = false
      ∧ (Scan (reset humEffect) "humm1.wav".toList).1 = false
      ∧ (Scan (reset humEffect) "humm1.wav".toList).2.ext_ ≠ (reset humEffect).ext_
      ∧ ((Scan (reset humEffect) "humm1.wav".toList).2.min_file_ = (reset humEffect).min_file_
        ∧ (Scan (reset humEffect) "humm1.wav".toList).2.max_file_ = (reset humEffect).max_file_
        ∧ (Scan (reset humEffect) "humm1.wav".toList).2.digits_ = (reset humEffect).digits_
        ∧ (Scan (reset humEffect) "humm1.wav".toList).2.unnumbered_file_found_
            = (reset humEffect).unnumbered_file_found_
        ∧ (Scan (reset humEffect) "humm1.wav".toList).2.file_pattern_
            = (reset humEffect).file_pattern_
        ∧ (Scan (reset humEffect) "humm1.wav".toList).2.num_files_ = (reset humEffect).num_files_
        ∧ (Scan (reset humEffect) "humm1.wav".toList).2.selected_ = (reset humEffect).selected_
        ∧ (Scan (reset humEffect) "humm1.wav".toList).2.directory_ = (reset humEffect).directory_
        ∧ (Scan (reset humEffect) "humm1.wav".toList).2.files_found = (reset humEffect).files_found
        ∧ (Scan (reset humEffect) "humm1.wav".toList).2
            = { reset humEffect with ext_ := (Scan (reset humEffect) "humm1.wav".toList).2.ext_ }) :=
  ⟨by decide, by decide, by decide,
    Scan_rejected_frame (reset humEffect) "humm1.wav".toList (by decide)⟩

end Effect

namespace Effect

/-! ## Files of other descriptors -/

theorem startswith_letters (Y : List Char) :
    ∀ (X t rest : List Char), (∀ c ∈ Y, isalpha c = true) → X ≠ Y →
      (∀ c, t.head? = some c → isalpha c = false) →
      startswith Y (X ++ t) = some rest → ∃ c r, X = Y ++ c :: r ∧ rest = c :: r ++ t := by
  induction Y with
  | nil =>
    intro X t rest _ hne _ h
    have hr : rest = X ++ t := by
      have := startswith_eq_some _ _ _ h
      simpa using this.symm
    obtain ⟨c, r, rfl⟩ := List.exists_cons_of_ne_nil hne
    exact ⟨c, r, rfl, hr⟩
  | cons a Y ih =>
    intro X t rest hY hne ht h
    cases X with
    | nil =>
      cases t with
      | nil => simp [startswith] at h
      | cons c cs =>
        have hc := ht c rfl
        have ha := hY a (List.mem_cons_self _ _)
        have hca : c ≠ a := by
          rintro rfl
          rw [ha] at hc
          exact absurd hc (by decide)
        rw [List.nil_append, startswith_head_ne a Y c cs hca] at h
        exact absurd h (by simp)
    | cons b X =>
      rw [List.cons_append] at h
      simp only [startswith] at h
      split_ifs at h with hb
      subst hb
      have hne' : X ≠ Y := fun hh => hne (by rw [hh])
      obtain ⟨c, r, hX, hrest⟩ :=
        ih X t rest (fun c hc => hY c (List.mem_cons_of_mem _ hc)) hne' ht h
      exact ⟨c, r, by rw [hX]; rfl, hrest⟩

theorem strtol_letter (c : Char) (cs : List Char) (hc : isalpha c = true) :
    (strtol (c :: cs)).1 = 0 := by
  have hsp : isspace c = false := by
    simp only [isalpha, Bool.or_eq_true, Bool.and_eq_true, decide_eq_true_eq] at hc
    simp only [isspace, Bool.or_eq_false_iff, decide_eq_false_iff_not, Bool.and_eq_false_iff]
    omega
  have hdg : isdigit c = false := by
    simp only [isalpha, Bool.or_eq_true, Bool.and_eq_true, decide_eq_true_eq] at hc
    simp only [isdigit, Bool.and_eq_false_iff, decide_eq_false_iff_not]
    omega
  have hm : c ≠ '-' := by rintro rfl; exact absurd hc (by decide)
  have hp : c ≠ '+' := by rintro rfl; exact absurd hc (by decide)
  have hs1 : List.dropWhile isspace (c :: cs) = c :: cs := by
    simp [List.dropWhile, hsp]
  have htake : List.takeWhile isdigit (c :: cs) = [] := by
    simp [List.takeWhile, hdg]
  unfold strtol
  simp only [hs1]
  have hh : (c :: cs).head? = some c := rfl
  simp only [hh, Option.some.injEq, hm, hp, or_self, if_false, htake, if_true]

theorem Scan_other_name (e : Effect) (X t : List Char)
    (hY : ∀ c ∈ e.name_, isalpha c = true) (hXa : ∀ c ∈ X, isalpha c = true)
    (hne : X ≠ e.name_) (ht : ∀ c, t.head? = some c → isalpha c = false) :
    (Scan e (X ++ t)).1 = false := by
  rw [Scan_eq_nameRest]
  unfold nameRest
  cases hsw : startswith e.name_ (X ++ t) with
  | none => rfl
  | some rest =>
    obtain ⟨c, r, hX, hrest⟩ := startswith_letters e.name_ X t rest hY hne ht hsw
    have hc : isalpha c = true := hXa c (by rw [hX]; simp)
    have hslash : c ≠ '/' := by rintro rfl; exact absurd hc (by decide)
    have hdot : c ≠ '.' := by rintro rfl; exact absurd hc (by decide)
    have hh : rest.head? ≠ some '/' := by
      rw [hrest]
      simpa using hslash
    simp only
    rw [if_neg hh]
    simp only
    rcases ScanExt_cases e (X ++ t) .FLAT rest with h | ⟨e', -, h⟩
    · rw [h]
    · rw [h, ScanNumber_fst, hrest, List.cons_append, strtol_letter c _ hc]
      simp [hdot]

/-- Claim C37.  No cross-talk between the built-in effects: for two different names `X`
and `Y` of the built-in effect list and a descriptor named `Y` in any state, `Scan`
rejects every file name made of `X`, the text of one of the naming shapes (nothing, `/X`
or `/`), any run of digits (also none) and any extension text of `GetName` (also none):
`X<digits>.ext`, `X.ext`, `X/X<digits>.ext`, `X/X.ext`, `X/<digits>.ext`, `X/.ext`. -/
theorem Scan_no_cross_talk (X Y : List Char) (hX : X ∈ builtinEffectNames)
    (hY : Y ∈ builtinEffectNames) (hne : X ≠ Y) (e : Effect) (he : e.name_ = Y)
    (p : FilePattern) (ds : List Char) (hds : ∀ c ∈ ds, isdigit c = true) (x : Extension) :
    (Scan e (X ++ patternPart p X ++ (ds ++ extString x))).1 = false := by
  have hall : ∀ Z ∈ builtinEffectNames, ∀ c ∈ Z, isalpha c = true := by decide
  have hXa := hall X hX
  have hYa := hall Y hY
  -- the text behind `X` does not begin with a letter, unless it begins with `X` itself
  cases p with
  | SUBDIRS =>
    have ht : ∀ c, (patternPart .SUBDIRS X ++ (ds ++ extString x)).head? = some c →
        isalpha c = false := by
      intro c hc
      simp only [patternPart, List.cons_append, List.head?_cons, Option.some.injEq] at hc
      rw [← hc]
      decide
    rw [List.append_assoc]
    exact Scan_other_name e X _ (by rw [he]; exact hYa) hXa (by rw [he]; exact hne) ht
  | NONREDUNDANT_SUBDIRS =>
    have ht : ∀ c, (patternPart .NONREDUNDANT_SUBDIRS X ++ (ds ++ extString x)).head? = some c →
        isalpha c = false := by
      intro c hc
      simp only [patternPart, List.cons_append, List.head?_cons, Option.some.injEq] at hc
      rw [← hc]
      decide
    rw [List.append_assoc]
    exact Scan_other_name e X _ (by rw [he]; exact hYa) hXa (by rw [he]; exact hne) ht
  | UNKNOWN | FLAT =>
    have ht : ∀ c, (ds ++ extString x).head? = some c → isalpha c = false := by
      intro c hc
      cases ds with
      | nil =>
        rw [List.nil_append] at hc
        cases x <;> simp [extString] at hc <;> (rw [← hc]; decide)
      | cons d ds =>
        simp only [List.cons_append, List.head?_cons, Option.some.injEq] at hc
        have hd := hds d (List.mem_cons_self _ _)
        rw [← hc]
        simp only [isdigit, Bool.and_eq_true, decide_eq_true_eq] at hd
        simp only [isalpha, Bool.or_eq_false_iff, Bool.and_eq_false_iff, decide_eq_false_iff_not]
        omega
    simp only [patternPart, List.append_nil]
    exact Scan_other_name e X _ (by rw [he]; exact hYa) hXa (by rw [he]; exact hne) ht

theorem Scan_no_cross_talk_witness :
    "humm".toList ∈ builtinEffectNames ∧ "hum".toList ∈ builtinEffectNames
      ∧ "humm".toList ++ patternPart .SUBDIRS "humm".toList ++ ("01".toList ++ extString .WAV)
          = "humm/humm01.wav".toList
      ∧ (Scan humScanned "humm/humm01.wav".toList).1 = false
      ∧ (Scan humScanned
          ("humm".toList ++ patternPart .SUBDIRS "humm".toList
            ++ ("01".toList ++ extString .WAV))).1 = false :=
  ⟨by decide, by decide, by decide, by decide,
    Scan_no_cross_talk "humm".toList "hum".toList (by decide) (by decide) (by decide)
      humScanned (by decide) .SUBDIRS "01".toList (by decide) .WAV⟩

end Effect

namespace Effect

/-! ## `SelectNext` -/

theorem files_found_SelectNext (e : Effect) : (SelectNext e).files_found = e.files_found := rfl

theorem SelectNext_selected (e : Effect) (h1 : -1 ≤ e.selected_)
    (h2 : e.selected_ < (e.files_found : Int)) (h3 : e.selected_ < 32767) :
    (SelectNext e).selected_ = (e.selected_ + 1) % (e.files_found : Int) := by
  have hw : wrap16 (e.selected_ + 1) = e.selected_ + 1 := wrap16_eq_self (by omega) (by omega)
  show (if wrap16 (e.selected_ + 1) = (e.files_found : Int) then 0 else wrap16 (e.selected_ + 1))
    = _
  rw [hw]
  split_ifs with hc
  · rw [hc, Int.emod_self]
  · rw [Int.emod_eq_of_lt (by omega) (by omega)]

theorem SelectNext_iterate (e : Effect) (hf : (e.files_found : Int) ≤ 32767)
    (h1 : 0 ≤ e.selected_) (h2 : e.selected_ < (e.files_found : Int)) :
    ∀ k : Nat, SelectNext^[k] e
      = { e with selected_ := (e.selected_ + (k : Int)) % (e.files_found : Int) } := by
  intro k
  induction k with
  | zero =>
    show e = { e with selected_ := (e.selected_ + ((0 : Nat) : Int)) % (e.files_found : Int) }
    rw [Nat.cast_zero, add_zero, Int.emod_eq_of_lt h1 h2]
  | succ k ih =>
    rw [Function.iterate_succ_apply', ih]
    have hpos : (0 : Int) < (e.files_found : Int) := by omega
    have hm0 := Int.emod_nonneg (e.selected_ + (k : Int)) (ne_of_gt hpos)
    have hm1 := Int.emod_lt_of_pos (e.selected_ + (k : Int)) hpos
    have hs := SelectNext_selected
      { e with selected_ := (e.selected_ + (k : Int)) % (e.files_found : Int) }
      (by show -1 ≤ (e.selected_ + (k : Int)) % (e.files_found : Int); omega)
      (by show (e.selected_ + (k : Int)) % (e.files_found : Int) < (e.files_found : Int); omega)
      (by show (e.selected_ + (k : Int)) % (e.files_found : Int) < 32767; omega)
    have hs' : (SelectNext
        { e with selected_ := (e.selected_ + (k : Int)) % (e.files_found : Int) }).selected_
        = ((e.selected_ + (k : Int)) % (e.files_found : Int) + 1) % (e.files_found : Int) := hs
    have hmod : ((e.selected_ + (k : Int)) % (e.files_found : Int) + 1) % (e.files_found : Int)
        = (e.selected_ + ((k + 1 : Nat) : Int)) % (e.files_found : Int) := by
      push_cast
      rw [← add_assoc, Int.emod_add_cancel_right, Int.emod_emod_of_dvd _ (dvd_refl _)]
    have hstruct : SelectNext
        { e with selected_ := (e.selected_ + (k : Int)) % (e.files_found : Int) }
        = { e with selected_ := (SelectNext
            { e with selected_ := (e.selected_ + (k : Int)) % (e.files_found : Int) }).selected_ } :=
      rfl
    rw [hstruct, hs', hmod]

/-- Claim C38, as amended.  For a descriptor with `f = files_found() ≥ 1` and a forced
selection `s` with `-1 ≤ s < f` and `s < 32767` (so that `s + 1` is an `int16_t`),
`SelectNext()` sets the selection to `(s + 1) mod f` and changes nothing else: from "no
selection" it selects index `0`, and the selection then lies in `[0, f-1]`; and with
`f ≤ 32767`, `f` successive calls starting from a selection in `[0, f-1]` give back the
descriptor they started from. -/
theorem SelectNext_cycles (e : Effect) (hf : 1 ≤ e.files_found) (h1 : -1 ≤ e.selected_)
    (h2 : e.selected_ < (e.files_found : Int)) (h3 : e.selected_ < 32767) :
    (SelectNext e).selected_ = (e.selected_ + 1) % (e.files_found : Int)
      ∧ SelectNext e = { e with selected_ := (e.selected_ + 1) % (e.files_found : Int) }
      ∧ (SelectNext e).files_found = e.files_found
      ∧ (e.selected_ = -1 → (SelectNext e).selected_ = 0)
      ∧ 0 ≤ (SelectNext e).selected_
      ∧ (SelectNext e).selected_ < (e.files_found : Int)
      ∧ ((e.files_found : Int) ≤ 32767 → 0 ≤ e.selected_ → SelectNext^[e.files_found] e = e) := by
  have hs := SelectNext_selected e h1 h2 h3
  have hpos : (0 : Int) < (e.files_found : Int) := by omega
  refine ⟨hs, ?_, rfl, fun hm => ?_, ?_, ?_, fun hle h0 => ?_⟩
  · have hstruct : SelectNext e = { e with selected_ := (SelectNext e).selected_ } := rfl
    rw [hstruct, hs]
  · rw [hs, hm]
    simp
  · rw [hs]
    exact Int.emod_nonneg _ (ne_of_gt hpos)
  · rw [hs]
    exact Int.emod_lt_of_pos _ hpos
  · rw [SelectNext_iterate e hle h0 h2, Int.add_emod_self, Int.emod_eq_of_lt h0 h2]

theorem SelectNext_cycles_witness :
    1 ≤ (fourFiles "swng".toList none).files_found
      ∧ (SelectNext ((fourFiles "swng".toList none).Select 3)).selected_ = 0
      ∧ (SelectNext (fourFiles "swng".toList none)).selected_ = 0
      ∧ (SelectNext ((fourFiles "swng".toList none).Select 3)).selected_
          = (((fourFiles "swng".toList none).Select 3).selected_ + 1)
              % ((((fourFiles "swng".toList none).Select 3).files_found : Nat) : Int)
      ∧ SelectNext^[((fourFiles "swng".toList none).Select 3).files_found]
            ((fourFiles "swng".toList none).Select 3)
          = (fourFiles "swng".toList none).Select 3 :=
  ⟨by decide, by decide, by decide,
    (SelectNext_cycles ((fourFiles "swng".toList none).Select 3) (by decide) (by decide)
      (by decide) (by decide)).1,
    (SelectNext_cycles ((fourFiles "swng".toList none).Select 3) (by decide) (by decide)
      (by decide) (by decide)).2.2.2.2.2.2 (by decide) (by decide)⟩

/-- Claim C38 fails as stated: the descriptor `hum` with the files `hum1.wav`,
`hum32767.wav` and `hum.wav` has `files_found() = 32768`; from the selection `32767`, the
last index, `SelectNext()` stores `-32768` (the `int16_t` increment wraps and is then not
equal to `files_found()`), not `(32767 + 1) mod 32768 = 0`. -/
theorem SelectNext_wraps_int16 :
    humWide.files_found = 32768
      ∧ humWide.selected_ = 32767
      ∧ -1 ≤ humWide.selected_ ∧ humWide.selected_ < (humWide.files_found : Int)
      ∧ (SelectNext humWide).selected_ = -32768
      ∧ (humWide.selected_ + 1) % (humWide.files_found : Int) = 0 := by
  decide

end Effect

section SequencerVariants

variable {α ι β βd βo Blade Color : Type}

/-! ## The live member under `OPTIMIZE_TRCONCAT` -/

theorem TrConcatOpt.transition_defined (A : Transition α Blade Color)
    (I : ColorSource ι Blade Color) (B : Transition β Blade Color) (s : TrConcatOpt α ι β)
    (h : s.WellTagged) :
    TrConcatOpt.begin A s = some ((TrConcatOpt.transition A I B).begin s)
      ∧ (∀ blade, TrConcatOpt.run A I B s blade
          = some ((TrConcatOpt.transition A I B).run s blade))
      ∧ TrConcatOpt.done B s = some ((TrConcatOpt.transition A I B).done s)
      ∧ (∀ a b led, TrConcatOpt.getColor A I B s a b led
          = some ((TrConcatOpt.transition A I B).getColor s a b led))
      ∧ (TrConcatOpt.destroy s).isSome = true := by
  obtain ⟨r, u, i⟩ := s
  unfold TrConcatOpt.WellTagged at h
  cases u with
  | inl x =>
    simp only [Sum.isLeft_inl] at h
    subst h
    refine ⟨rfl, fun blade => ?_, rfl, fun a b led => rfl, rfl⟩
    simp only [TrConcatOpt.transition, TrConcatOpt.run]
    cases A.done (A.run x blade) <;> rfl
  | inr y =>
    simp only [Sum.isLeft_inr] at h
    subst h
    refine ⟨rfl, fun blade => rfl, rfl, fun a b led => ?_, rfl⟩
    simp only [TrConcatOpt.transition, TrConcatOpt.getColor, TrConcatOpt.done]
    cases B.done y <;> rfl

theorem TrConcatOpt.transition_cases (A : Transition α Blade Color)
    (I : ColorSource ι Blade Color) (B : Transition β Blade Color) (s : TrConcatOpt α ι β)
    (h : s.WellTagged) :
    ((TrConcatOpt.transition A I B).begin s).run_a_ = true
      ∧ (∃ a0, ((TrConcatOpt.transition A I B).begin s).u = .inl (A.begin a0)
          ∧ (s.run_a_ = false → a0 = A.init))
      ∧ ((TrConcatOpt.transition A I B).begin s).intermediate_ = s.intermediate_
      ∧ ∀ blade,
          ((TrConcatOpt.transition A I B).run s blade).intermediate_
              = I.run s.intermediate_ blade
            ∧ ((∃ x, s.u = .inl x ∧ s.run_a_ = true ∧ A.done (A.run x blade) = false
                  ∧ ((TrConcatOpt.transition A I B).run s blade).run_a_ = true
                  ∧ ((TrConcatOpt.transition A I B).run s blade).u = .inl (A.run x blade))
              ∨ (∃ x, s.u = .inl x ∧ s.run_a_ = true ∧ A.done (A.run x blade) = true
                  ∧ ((TrConcatOpt.transition A I B).run s blade).run_a_ = false
                  ∧ ((TrConcatOpt.transition A I B).run s blade).u
                      = .inr (B.run (B.begin B.init) blade))
              ∨ (∃ y, s.u = .inr y ∧ s.run_a_ = false
                  ∧ ((TrConcatOpt.transition A I B).run s blade).run_a_ = false
                  ∧ ((TrConcatOpt.transition A I B).run s blade).u = .inr (B.run y blade))) := by
  obtain ⟨r, u, i⟩ := s
  unfold TrConcatOpt.WellTagged at h
  cases u with
  | inl x =>
    simp only [Sum.isLeft_inl] at h
    subst h
    refine ⟨rfl, ⟨x, rfl, fun hh => by simp at hh⟩, rfl, fun blade => ?_⟩
    cases hd : A.done (A.run x blade)
    · have hr : (TrConcatOpt.transition A I B).run ⟨true, .inl x, i⟩ blade
          = ⟨true, .inl (A.run x blade), I.run i blade⟩ := by
        simp [TrConcatOpt.transition, TrConcatOpt.run, hd]
      rw [hr]
      exact ⟨rfl, Or.inl ⟨x, rfl, rfl, hd, rfl, rfl⟩⟩
    · have hr : (TrConcatOpt.transition A I B).run ⟨true, .inl x, i⟩ blade
          = ⟨false, .inr (B.run (B.begin B.init) blade), I.run i blade⟩ := by
        simp [TrConcatOpt.transition, TrConcatOpt.run, hd]
      rw [hr]
      exact ⟨rfl, Or.inr (Or.inl ⟨x, rfl, rfl, hd, rfl, rfl⟩)⟩
  | inr y =>
    simp only [Sum.isLeft_inr] at h
    subst h
    exact ⟨rfl, ⟨A.init, rfl, fun _ => rfl⟩, rfl, fun blade =>
      ⟨rfl, Or.inr (Or.inr ⟨y, rfl, rfl, rfl, rfl⟩)⟩⟩


theorem TrConcatOpt.calls_defined (A : Transition α Blade Color)
    (I : ColorSource ι Blade Color) (B : Transition β Blade Color) (P : β → Prop)
    (hinit : P B.init) (hbegin : ∀ b, P b → P (B.begin b))
    (hrun : ∀ b blade, P b → P (B.run b blade)) (cs : List (TransitionCall Blade Color)) :
    ∀ s : TrConcatOpt α ι β, s.WellTagged → (∀ b, s.u = .inr b → P b) →
      TrConcatOpt.calls A I B s cs = some ((TrConcatOpt.transition A I B).calls s cs)
        ∧ ((TrConcatOpt.transition A I B).calls s cs).WellTagged
        ∧ ∀ b, ((TrConcatOpt.transition A I B).calls s cs).u = .inr b → P b := by
  induction cs with
  | nil => intro s hw hp; exact ⟨rfl, hw, hp⟩
  | cons c cs ih =>
    intro s hw hp
    obtain ⟨d1, d2, d3, d4, -⟩ := TrConcatOpt.transition_defined A I B s hw
    obtain ⟨c1, ⟨a0, c2, -⟩, -, c4⟩ := TrConcatOpt.transition_cases A I B s hw
    have hstep : TrConcatOpt.call A I B s c = some ((TrConcatOpt.transition A I B).call s c)
        ∧ ((TrConcatOpt.transition A I B).call s c).WellTagged
        ∧ ∀ b, ((TrConcatOpt.transition A I B).call s c).u = .inr b → P b := by
      cases c with
      | begin =>
        refine ⟨d1, ?_, fun b hb => ?_⟩
        · show ((TrConcatOpt.transition A I B).begin s).run_a_
            = ((TrConcatOpt.transition A I B).begin s).u.isLeft
          rw [c1, c2]
          rfl
        · have hb' : ((TrConcatOpt.transition A I B).begin s).u = .inr b := hb
          rw [c2] at hb'
          exact absurd hb' (by simp)
      | run blade =>
        refine ⟨d2 blade, ?_, fun b hb => ?_⟩
        · show ((TrConcatOpt.transition A I B).run s blade).run_a_
            = ((TrConcatOpt.transition A I B).run s blade).u.isLeft
          rcases (c4 blade).2 with ⟨x, -, -, -, e1, e2⟩ | ⟨x, -, -, -, e1, e2⟩ | ⟨y, -, -, e1, e2⟩
            <;> rw [e1, e2] <;> rfl
        · have hb' : ((TrConcatOpt.transition A I B).run s blade).u = .inr b := hb
          rcases (c4 blade).2 with ⟨x, -, -, -, e1, e2⟩ | ⟨x, -, -, -, e1, e2⟩ | ⟨y, hy, -, e1, e2⟩
          · rw [e2] at hb'
            exact absurd hb' (by simp)
          · rw [e2] at hb'
            simp only [Sum.inr.injEq] at hb'
            rw [← hb']
            exact hrun _ _ (hbegin _ hinit)
          · rw [e2] at hb'
            simp only [Sum.inr.injEq] at hb'
            rw [← hb']
            exact hrun _ _ (hp y hy)
      | done =>
        refine ⟨?_, hw, hp⟩
        show (TrConcatOpt.done B s).map (fun _ => s) = some s
        rw [d3]
        rfl
      | getColor a b led =>
        refine ⟨?_, hw, hp⟩
        show (TrConcatOpt.getColor A I B s a b led).map (fun _ => s) = some s
        rw [d4]
        rfl
    obtain ⟨s1, s2, s3⟩ := hstep
    obtain ⟨i1, i2, i3⟩ := ih _ s2 s3
    refine ⟨?_, i2, i3⟩
    show (TrConcatOpt.call A I B s c).bind (fun t => TrConcatOpt.calls A I B t cs) = _
    rw [s1]
    exact i1

theorem Chain.alive_ops (c : Chain Blade Color) :
    c.Alive c.sequencerOpt.init
      ∧ (∀ s, c.Alive s → c.Alive (c.sequencerOpt.begin s))
      ∧ (∀ s blade, c.Alive s → c.Alive (c.sequencerOpt.run s blade))
      ∧ (∀ s, c.Alive s → c.destroyOpt s = true) := by
  induction c with
  | single A => exact ⟨trivial, fun _ _ => trivial, fun _ _ _ => trivial, fun _ _ => rfl⟩
  | cons A I rest ih =>
    obtain ⟨i1, i2, i3, i4⟩ := ih
    have hcalls := fun (cs : List (TransitionCall Blade Color)) =>
      TrConcatOpt.calls_defined A I rest.sequencerOpt rest.Alive i1 i2 i3 cs
    refine ⟨?_, ?_, ?_, ?_⟩
    · refine ⟨rfl, fun b hb => ?_⟩
      have hb' : (Sum.inr rest.sequencerOpt.init : _ ⊕ rest.StateOpt) = Sum.inr b := hb
      simp only [Sum.inr.injEq] at hb'
      rw [← hb']
      exact i1
    · rintro s ⟨hw, hp⟩
      obtain ⟨-, h2, h3⟩ := hcalls [.begin] s hw hp
      exact ⟨h2, h3⟩
    · rintro s blade ⟨hw, hp⟩
      obtain ⟨-, h2, h3⟩ := hcalls [.run blade] s hw hp
      exact ⟨h2, h3⟩
    · rintro ⟨r, u, i⟩ ⟨hw, hp⟩
      unfold TrConcatOpt.WellTagged at hw
      cases u with
      | inl x =>
        simp only [Sum.isLeft_inl] at hw
        subst hw
        rfl
      | inr y =>
        simp only [Sum.isLeft_inr] at hw
        subst hw
        exact i4 y (hp y rfl)

theorem Chain.alive_defined {σ ι : Type} (A : Transition σ Blade Color)
    (I : ColorSource ι Blade Color) (rest : Chain Blade Color)
    (s : TrConcatOpt σ ι rest.StateOpt) (h : (Chain.cons A I rest).Alive s) :
    TrConcatOpt.begin A s = some ((Chain.cons A I rest).sequencerOpt.begin s)
      ∧ (∀ blade, TrConcatOpt.run A I rest.sequencerOpt s blade
          = some ((Chain.cons A I rest).sequencerOpt.run s blade))
      ∧ TrConcatOpt.done rest.sequencerOpt s = some ((Chain.cons A I rest).sequencerOpt.done s)
      ∧ (∀ a b led, TrConcatOpt.getColor A I rest.sequencerOpt s a b led
          = some ((Chain.cons A I rest).sequencerOpt.getColor s a b led))
      ∧ (Chain.cons A I rest).Alive ((Chain.cons A I rest).sequencerOpt.begin s)
      ∧ ∀ blade, (Chain.cons A I rest).Alive ((Chain.cons A I rest).sequencerOpt.run s blade) := by
  obtain ⟨d1, d2, d3, d4, -⟩ := TrConcatOpt.transition_defined A I rest.sequencerOpt s h.1
  obtain ⟨-, j2, j3, -⟩ := Chain.alive_ops (Chain.cons A I rest)
  exact ⟨d1, d2, d3, d4, j2 s h, fun blade => j3 s blade h⟩

/-- Claim C39.  Active-member discipline under `OPTIMIZE_TRCONCAT`, the union being a
tagged value: for the sequencer `TrConcat<A, I, rest...>` over any chain `rest`, every
sequence of calls of `begin()`, `run()`, `done()` and `getColor` after the constructor is
defined, which means that no call uses a member that is not alive; in the state reached
the flag `run_a_` names the live member, in the sequencer and in every remainder nested
in it, and the destructor destroys live members only; every further call is defined as
well, and if it changes `run_a_` then either it is `begin()`, which sets the flag and
leaves a newly constructed and begun stage 1 in place of the remainder, or it is `run()`,
which clears the flag and leaves a newly constructed, begun and run remainder in place of
stage 1.  In a nested remainder, too, every member function only uses the live member: in
every state in which the flags name the live members, `begin()`, `run()`, `done()` and
`getColor` are defined, they are what the remainder does as a transition class, and
`begin()` and `run()` lead to such a state again. -/
theorem TrConcatOpt_active_member (A : Transition α Blade Color)
    (I : ColorSource ι Blade Color) (rest : Chain Blade Color)
    (cs : List (TransitionCall Blade Color)) :
    (∃ t : TrConcatOpt α ι rest.StateOpt,
      TrConcatOpt.calls A I rest.sequencerOpt (TrConcatOpt.init I rest.sequencerOpt) cs = some t
        ∧ t.WellTagged
        ∧ (∀ b, t.u = .inr b → rest.Alive b)
        ∧ (TrConcatOpt.destroy t).isSome = true
        ∧ (Chain.cons A I rest).destroyOpt t = true
        ∧ ∀ c : TransitionCall Blade Color,
            ∃ t1, TrConcatOpt.call A I rest.sequencerOpt t c = some t1
              ∧ t1.WellTagged
              ∧ (t.run_a_ = false → t1.run_a_ = true →
                  c = .begin ∧ t1.u = .inl (A.begin A.init))
              ∧ (t.run_a_ = true → t1.run_a_ = false →
                  ∃ blade, c = .run blade
                    ∧ t1.u = .inr (rest.sequencerOpt.run
                        (rest.sequencerOpt.begin rest.sequencerOpt.init) blade)))
      ∧ ∀ (σ2 ι2 : Type) (A2 : Transition σ2 Blade Color) (I2 : ColorSource ι2 Blade Color)
          (r2 : Chain Blade Color) (s : TrConcatOpt σ2 ι2 r2.StateOpt),
          (Chain.cons A2 I2 r2).Alive s →
            TrConcatOpt.begin A2 s = some ((Chain.cons A2 I2 r2).sequencerOpt.begin s)
              ∧ (∀ blade, TrConcatOpt.run A2 I2 r2.sequencerOpt s blade
                  = some ((Chain.cons A2 I2 r2).sequencerOpt.run s blade))
              ∧ TrConcatOpt.done r2.sequencerOpt s
                  = some ((Chain.cons A2 I2 r2).sequencerOpt.done s)
              ∧ (∀ a b led, TrConcatOpt.getColor A2 I2 r2.sequencerOpt s a b led
                  = some ((Chain.cons A2 I2 r2).sequencerOpt.getColor s a b led))
              ∧ (Chain.cons A2 I2 r2).Alive ((Chain.cons A2 I2 r2).sequencerOpt.begin s)
              ∧ ∀ blade,
                  (Chain.cons A2 I2 r2).Alive ((Chain.cons A2 I2 r2).sequencerOpt.run s blade) := by
  refine ⟨?_, fun σ2 ι2 A2 I2 r2 s h => Chain.alive_defined A2 I2 r2 s h⟩
  obtain ⟨i1, i2, i3, i4⟩ := Chain.alive_ops rest
  obtain ⟨j1, -, -, j4⟩ := Chain.alive_ops (Chain.cons A I rest)
  obtain ⟨h1, h2, h3⟩ := TrConcatOpt.calls_defined A I rest.sequencerOpt rest.Alive i1 i2 i3 cs
    (TrConcatOpt.init I rest.sequencerOpt) j1.1 j1.2
  refine ⟨_, h1, h2, h3, (TrConcatOpt.transition_defined A I rest.sequencerOpt _ h2).2.2.2.2,
    j4 _ ⟨h2, h3⟩, fun c => ?_⟩
  generalize (TrConcatOpt.transition A I rest.sequencerOpt).calls
    (TrConcatOpt.init I rest.sequencerOpt) cs = t at h2 h3
  obtain ⟨k1, k2, -⟩ := TrConcatOpt.calls_defined A I rest.sequencerOpt rest.Alive i1 i2 i3 [c]
    t h2 h3
  obtain ⟨c1, ⟨a0, c2, c3⟩, -, c4⟩ := TrConcatOpt.transition_cases A I rest.sequencerOpt t h2
  have k1' : TrConcatOpt.call A I rest.sequencerOpt t c
      = some ((TrConcatOpt.transition A I rest.sequencerOpt).call t c) := by
    have : TrConcatOpt.calls A I rest.sequencerOpt t [c]
        = (TrConcatOpt.call A I rest.sequencerOpt t c).bind some := rfl
    rw [this] at k1
    simpa using k1
  refine ⟨_, k1', k2, fun hf ht => ?_, fun ht hf => ?_⟩
  · cases c with
    | begin =>
      refine ⟨rfl, ?_⟩
      show ((TrConcatOpt.transition A I rest.sequencerOpt).begin t).u = _
      rw [c2, c3 hf]
    | run blade =>
      exfalso
      have ht' : ((TrConcatOpt.transition A I rest.sequencerOpt).run t blade).run_a_ = true := ht
      rcases (c4 blade).2 with ⟨x, -, e0, -, -, -⟩ | ⟨x, -, e0, -, -, -⟩ | ⟨y, -, -, e1, -⟩
      · rw [hf] at e0; exact absurd e0 (by decide)
      · rw [hf] at e0; exact absurd e0 (by decide)
      · rw [e1] at ht'; exact absurd ht' (by decide)
    | done =>
      exfalso
      have ht' : t.run_a_ = true := ht
      rw [hf] at ht'
      exact absurd ht' (by decide)
    | getColor a b led =>
      exfalso
      have ht' : t.run_a_ = true := ht
      rw [hf] at ht'
      exact absurd ht' (by decide)
  · cases c with
    | begin =>
      exfalso
      have hf' : ((TrConcatOpt.transition A I rest.sequencerOpt).begin t).run_a_ = false := hf
      rw [c1] at hf'
      exact absurd hf' (by decide)
    | run blade =>
      refine ⟨blade, rfl, ?_⟩
      have hf' : ((TrConcatOpt.transition A I rest.sequencerOpt).run t blade).run_a_ = false := hf
      show ((TrConcatOpt.transition A I rest.sequencerOpt).run t blade).u = _
      rcases (c4 blade).2 with ⟨x, -, -, -, e1, -⟩ | ⟨x, -, -, -, -, e2⟩ | ⟨y, -, e0, -, -⟩
      · rw [e1] at hf'; exact absurd hf' (by decide)
      · exact e2
      · rw [ht] at e0; exact absurd e0 (by decide)
    | done =>
      exfalso
      have hf' : t.run_a_ = false := hf
      rw [ht] at hf'
      exact absurd hf' (by decide)
    | getColor a b led =>
      exfalso
      have hf' : t.run_a_ = false := hf
      rw [ht] at hf'
      exact absurd hf' (by decide)

theorem TrConcatOpt_active_member_witness :
    TrConcatOpt.calls (timerStage 2) (countingColor 5) sampleRest.sequencerOpt
          (TrConcatOpt.init (countingColor 5) sampleRest.sequencerOpt)
          [.begin, .run (), .run (), .done]
        = some ({ run_a_ := false,
                  u := .inr { run_a_ := false, u := .inr 0, intermediate_ := 1 },
                  intermediate_ := 2 } : TrConcatOpt Nat Nat (TrConcatOpt Nat Nat Nat))
      ∧ (sampleRest.Alive
          ({ run_a_ := false, u := .inr 0, intermediate_ := 1 } : TrConcatOpt Nat Nat Nat)
        ∧ TrConcatOpt.run (timerStage 1) (countingColor 7) (timerStage 1)
            { run_a_ := false, u := .inr 0, intermediate_ := 1 } ()
          = some { run_a_ := false, u := .inr 0, intermediate_ := 2 })
      ∧ ∃ t : TrConcatOpt Nat Nat sampleRest.StateOpt,
          TrConcatOpt.calls (timerStage 2) (countingColor 5) sampleRest.sequencerOpt
              (TrConcatOpt.init (countingColor 5) sampleRest.sequencerOpt)
              [.begin, .run (), .run (), .done] = some t
            ∧ t.WellTagged
            ∧ (∀ b, t.u = .inr b → sampleRest.Alive b)
            ∧ (TrConcatOpt.destroy t).isSome = true
            ∧ (Chain.cons (timerStage 2) (countingColor 5) sampleRest).destroyOpt t = true
            ∧ ∀ c : TransitionCall Unit Int,
                ∃ t1, TrConcatOpt.call (timerStage 2) (countingColor 5) sampleRest.sequencerOpt
                      t c = some t1
                  ∧ t1.WellTagged
                  ∧ (t.run_a_ = false → t1.run_a_ = true →
                      c = .begin ∧ t1.u = .inl ((timerStage 2).begin (timerStage 2).init))
                  ∧ (t.run_a_ = true → t1.run_a_ = false →
                      ∃ blade, c = .run blade
                        ∧ t1.u = .inr (sampleRest.sequencerOpt.run
                            (sampleRest.sequencerOpt.begin sampleRest.sequencerOpt.init) blade)) :=
  ⟨rfl, ⟨⟨rfl, fun _ _ => trivial⟩, rfl⟩,
    (TrConcatOpt_active_member (timerStage 2) (countingColor 5) sampleRest
      [.begin, .run (), .run (), .done]).1⟩

/-! ## The two builds side by side -/

theorem TrConcat.simulation_step (A : Transition α Blade Color) (I : ColorSource ι Blade Color)
    (Bd : Transition βd Blade Color) (Bo : Transition βo Blade Color) (R : βd → βo → Prop)
    (sim : Simulation Bd Bo R) (hA : ∀ x, A.begin x = A.begin A.init)
    (hI : ∀ x y blade led, I.getColor (I.run x blade) led = I.getColor (I.run y blade) led) :
    Simulation (TrConcat.transition A I Bd) (TrConcatOpt.transition A I Bo)
      (TrConcat.Rel I R) := by
  refine ⟨?_, ?_, ?_, ?_, ?_, ?_⟩
  · exact ⟨rfl, fun _ => rfl, rfl, sim.init⟩
  · rintro ⟨r', a, b, i'⟩ ⟨r, u, i⟩ blade ⟨h1, h2, h3⟩
    simp only at h1 h2 h3
    subst h1
    cases u with
    | inl x =>
      simp only at h3
      obtain ⟨rfl, rfl⟩ := h3
      cases hd : A.done (A.run a blade)
      · have e1 : (TrConcat.transition A I Bd).run ⟨true, a, b, i'⟩ blade
            = ⟨true, A.run a blade, b, I.run i' blade⟩ := by
          simp [TrConcat.transition, TrConcat.run, hd]
        have e2 : (TrConcatOpt.transition A I Bo).run ⟨true, .inl a, i⟩ blade
            = ⟨true, .inl (A.run a blade), I.run i blade⟩ := by
          simp [TrConcatOpt.transition, TrConcatOpt.run, hd]
        rw [e1, e2]
        exact ⟨rfl, fun led => hI _ _ _ _, rfl, rfl⟩
      · have e1 : (TrConcat.transition A I Bd).run ⟨true, a, b, i'⟩ blade
            = ⟨false, A.run a blade, Bd.run (Bd.begin b) blade, I.run i' blade⟩ := by
          simp [TrConcat.transition, TrConcat.run, hd]
        have e2 : (TrConcatOpt.transition A I Bo).run ⟨true, .inl a, i⟩ blade
            = ⟨false, .inr (Bo.run (Bo.begin Bo.init) blade), I.run i blade⟩ := by
          simp [TrConcatOpt.transition, TrConcatOpt.run, hd]
        rw [e1, e2]
        exact ⟨rfl, fun led => hI _ _ _ _, rfl, sim.fresh b blade⟩
    | inr y =>
      simp only at h3
      obtain ⟨rfl, hR⟩ := h3
      have e1 : (TrConcat.transition A I Bd).run ⟨false, a, b, i'⟩ blade
          = ⟨false, a, Bd.run b blade, I.run i' blade⟩ := by
        simp [TrConcat.transition, TrConcat.run]
      have e2 : (TrConcatOpt.transition A I Bo).run ⟨false, .inr y, i⟩ blade
          = ⟨false, .inr (Bo.run y blade), I.run i blade⟩ := by
        simp [TrConcatOpt.transition, TrConcatOpt.run]
      rw [e1, e2]
      exact ⟨rfl, fun led => hI _ _ _ _, rfl, sim.run _ _ _ hR⟩
  · rintro ⟨r', a, b, i'⟩ ⟨r, u, i⟩ ⟨h1, h2, h3⟩
    simp only at h1 h2 h3
    subst h1
    cases u with
    | inl x =>
      simp only at h3
      obtain ⟨rfl, rfl⟩ := h3
      exact ⟨rfl, h2, rfl, rfl⟩
    | inr y =>
      simp only at h3
      obtain ⟨rfl, -⟩ := h3
      exact ⟨rfl, h2, rfl, hA a⟩
  · rintro ⟨r', a, b, i'⟩ blade
    have hb : (TrConcat.transition A I Bd).begin ⟨r', a, b, i'⟩ = ⟨true, A.begin A.init, b, i'⟩ := by
      show (⟨true, A.begin a, b, i'⟩ : TrConcat α ι βd) = _
      rw [hA a]
    have hbo : (TrConcatOpt.transition A I Bo).begin (TrConcatOpt.transition A I Bo).init
        = ⟨true, .inl (A.begin A.init), I.init⟩ := rfl
    rw [hb, hbo]
    cases hd : A.done (A.run (A.begin A.init) blade)
    · have e1 : (TrConcat.transition A I Bd).run ⟨true, A.begin A.init, b, i'⟩ blade
          = ⟨true, A.run (A.begin A.init) blade, b, I.run i' blade⟩ := by
        simp [TrConcat.transition, TrConcat.run, hd]
      have e2 : (TrConcatOpt.transition A I Bo).run ⟨true, .inl (A.begin A.init), I.init⟩ blade
          = ⟨true, .inl (A.run (A.begin A.init) blade), I.run I.init blade⟩ := by
        simp [TrConcatOpt.transition, TrConcatOpt.run, hd]
      rw [e1, e2]
      exact ⟨rfl, fun led => hI _ _ _ _, rfl, rfl⟩
    · have e1 : (TrConcat.transition A I Bd).run ⟨true, A.begin A.init, b, i'⟩ blade
          = ⟨false, A.run (A.begin A.init) blade, Bd.run (Bd.begin b) blade,
              I.run i' blade⟩ := by
        simp [TrConcat.transition, TrConcat.run, hd]
      have e2 : (TrConcatOpt.transition A I Bo).run ⟨true, .inl (A.begin A.init), I.init⟩ blade
          = ⟨false, .inr (Bo.run (Bo.begin Bo.init) blade), I.run I.init blade⟩ := by
        simp [TrConcatOpt.transition, TrConcatOpt.run, hd]
      rw [e1, e2]
      exact ⟨rfl, fun led => hI _ _ _ _, rfl, sim.fresh b blade⟩
  · rintro ⟨r', a, b, i'⟩ ⟨r, u, i⟩ ⟨h1, h2, h3⟩
    simp only at h1 h2 h3
    subst h1
    cases u with
    | inl x =>
      simp only at h3
      obtain ⟨rfl, rfl⟩ := h3
      rfl
    | inr y =>
      simp only at h3
      obtain ⟨rfl, hR⟩ := h3
      show (!false && Bd.done b) = (some (Bo.done y)).getD false
      rw [sim.done b y hR]
      rfl
  · rintro ⟨r', a, b, i'⟩ ⟨r, u, i⟩ ⟨h1, h2, h3⟩ c1 c2 led
    simp only at h1 h2 h3
    subst h1
    cases u with
    | inl x =>
      simp only at h3
      obtain ⟨rfl, rfl⟩ := h3
      show A.getColor a c1 (I.getColor i' led) led = A.getColor a c1 (I.getColor i led) led
      rw [h2 led]
    | inr y =>
      simp only at h3
      obtain ⟨rfl, hR⟩ := h3
      have hdone := sim.done b y hR
      have hcol := sim.getColor b y hR (I.getColor i led) c2 led
      simp only [TrConcat.transition, TrConcatOpt.transition, TrConcat.getColor,
        TrConcatOpt.getColor, TrConcat.done, TrConcatOpt.done, hdone, h2 led]
      cases Bo.done y
      · simp [hcol]
      · simp

theorem Chain.simulation (c : Chain Blade Color) (h : c.Reinit) :
    Simulation c.sequencer c.sequencerOpt c.Rel := by
  induction c with
  | single A =>
    refine ⟨rfl, ?_, ?_, ?_, ?_, ?_⟩
    · rintro x y blade rfl; rfl
    · rintro x y rfl; rfl
    · intro x blade
      show A.run (A.begin x) blade = A.run (A.begin A.init) blade
      rw [h x]
    · rintro x y rfl; rfl
    · rintro x y rfl a b led; rfl
  | cons A I rest ih =>
    obtain ⟨hA, hI, hrest⟩ := h
    exact TrConcat.simulation_step A I rest.sequencer rest.sequencerOpt rest.Rel (ih hrest) hA hI

theorem Simulation.calls_related {σd σo : Type} (Td : Transition σd Blade Color)
    (To : Transition σo Blade Color) (R : σd → σo → Prop) (sim : Simulation Td To R)
    (cs : List (TransitionCall Blade Color)) :
    ∀ s t, R s t → R (Td.calls s cs) (To.calls t cs) := by
  induction cs with
  | nil => intro s t h; exact h
  | cons c cs ih =>
    intro s t h
    show R (Td.calls (Td.call s c) cs) (To.calls (To.call t c) cs)
    apply ih
    cases c with
    | begin => exact sim.begin s t h
    | run blade => exact sim.run s t blade h
    | done => exact h
    | getColor a b led => exact h

/-- Claim C40.  The two builds of the sequencer `TrConcat<A, I, rest...>`, over any chain
`rest`, answer alike: let `begin()` of every stage set the stage up anew (the state after
it is that of `begin()` on a newly constructed stage), and let the colour of every
intermediate source after `run()` not depend on its state before.  Then after every
sequence of calls from outside, starting from construction, the calls under
`OPTIMIZE_TRCONCAT` are all defined, and `done()` and `getColor(start, end, led)` give
the results of the default build, for every start colour, end colour and element. -/
theorem TrConcat_variants_equivalent (A : Transition α Blade Color)
    (I : ColorSource ι Blade Color) (rest : Chain Blade Color)
    (hA : ∀ x, A.begin x = A.begin A.init)
    (hI : ∀ x y blade led, I.getColor (I.run x blade) led = I.getColor (I.run y blade) led)
    (hrest : rest.Reinit) (cs : List (TransitionCall Blade Color)) :
    ∃ t : TrConcatOpt α ι rest.StateOpt,
      TrConcatOpt.calls A I rest.sequencerOpt (TrConcatOpt.init I rest.sequencerOpt) cs = some t
        ∧ TrConcatOpt.done rest.sequencerOpt t
            = some (TrConcat.done rest.sequencer
                ((TrConcat.transition A I rest.sequencer).calls
                  (TrConcat.init A I rest.sequencer) cs))
        ∧ ∀ a b led,
            TrConcatOpt.getColor A I rest.sequencerOpt t a b led
              = some (TrConcat.getColor A I rest.sequencer
                  ((TrConcat.transition A I rest.sequencer).calls
                    (TrConcat.init A I rest.sequencer) cs) a b led) := by
  obtain ⟨i1, i2, i3, -⟩ := Chain.alive_ops rest
  obtain ⟨h1, h2, -⟩ := TrConcatOpt.calls_defined A I rest.sequencerOpt rest.Alive i1 i2 i3 cs
    (TrConcatOpt.init I rest.sequencerOpt) rfl (fun b hb => by
      have hb' : (Sum.inr rest.sequencerOpt.init : α ⊕ rest.StateOpt) = Sum.inr b := hb
      simp only [Sum.inr.injEq] at hb'
      rw [← hb']
      exact i1)
  have sim := TrConcat.simulation_step A I rest.sequencer rest.sequencerOpt rest.Rel
    (Chain.simulation rest hrest) hA hI
  have hrel := Simulation.calls_related _ _ _ sim cs _ _ sim.init
  obtain ⟨-, -, d3, d4, -⟩ := TrConcatOpt.transition_defined A I rest.sequencerOpt _ h2
  refine ⟨_, h1, ?_, fun a b led => ?_⟩
  · rw [d3]
    exact congrArg some (sim.done _ _ hrel).symm
  · rw [d4]
    exact congrArg some (sim.getColor _ _ hrel a b led).symm

theorem TrConcat_variants_equivalent_witness :
    sampleRest.Reinit
      ∧ (TrConcat.transition (timerStage 2) (countingColor 5) sampleRest.sequencer).calls
            (TrConcat.init (timerStage 2) (countingColor 5) sampleRest.sequencer) sampleCalls
          = ({ run_a_ := true, a_ := 1,
               b_ := { run_a_ := false, a_ := 0, b_ := 0, intermediate_ := 4 },
               intermediate_ := 6 } : TrConcat Nat Nat (TrConcat Nat Nat Nat))
      ∧ TrConcatOpt.calls (timerStage 2) (countingColor 5) sampleRest.sequencerOpt
            (TrConcatOpt.init (countingColor 5) sampleRest.sequencerOpt) sampleCalls
          = some ({ run_a_ := true, u := .inl 1, intermediate_ := 6 } :
              TrConcatOpt Nat Nat (TrConcatOpt Nat Nat Nat))
      ∧ ∃ t : TrConcatOpt Nat Nat sampleRest.StateOpt,
          TrConcatOpt.calls (timerStage 2) (countingColor 5) sampleRest.sequencerOpt
              (TrConcatOpt.init (countingColor 5) sampleRest.sequencerOpt) sampleCalls = some t
            ∧ TrConcatOpt.done sampleRest.sequencerOpt t
                = some (TrConcat.done sampleRest.sequencer
                    ((TrConcat.transition (timerStage 2) (countingColor 5)
                        sampleRest.sequencer).calls
                      (TrConcat.init (timerStage 2) (countingColor 5) sampleRest.sequencer)
                      sampleCalls))
            ∧ ∀ a b led,
                TrConcatOpt.getColor (timerStage 2) (countingColor 5) sampleRest.sequencerOpt
                    t a b led
                  = some (TrConcat.getColor (timerStage 2) (countingColor 5)
                      sampleRest.sequencer
                      ((TrConcat.transition (timerStage 2) (countingColor 5)
                          sampleRest.sequencer).calls
                        (TrConcat.init (timerStage 2) (countingColor 5) sampleRest.sequencer)
                        sampleCalls) a b led) :=
  ⟨⟨fun _ => rfl, fun _ _ _ _ => rfl, fun _ => rfl⟩, rfl, rfl,
    TrConcat_variants_equivalent (timerStage 2) (countingColor 5) sampleRest (fun _ => rfl)
      (fun _ _ _ _ => rfl) ⟨fun _ => rfl, fun _ _ _ _ => rfl, fun _ => rfl⟩ sampleCalls⟩

end SequencerVariants
